import Mathlib

/-! Embedded MQTT broker: wire helpers, message queue, topic matcher, sessions,
subscriptions, the packet reader and the CONNECT, PUBLISH, PUBREL and SUBSCRIBE
handlers; and the XTEA block cipher.

A shallow embedding of `mqtt_broker/mqtt_br_queue.c`, `mqtt_br_session.c`,
`mqtt_br_subscription.c`, `mqtt_br_helpers.c`, of the packet reader and the
CONNECT, PUBLISH, PUBREL and SUBSCRIBE handlers of `mqtt_br_handler.c`, and of
`xtea/xtea.c`, followed by theorems about them.

Conventions of the embedding.

* A C string (`char *`) is the list of its bytes before the terminating NUL
  (`CStr`); reading the terminator is reaching the end of the list.
* The intrusive linked lists of `list.c` are Lean lists in head-to-tail order
  (`List_add` appends, `List_getFirst` is the head).
* `send` and `close` are recorded in a trace (`Broker.wire`); whether a `send`
  transmits the whole buffer is decided by a network oracle (`Net`).
* `CONFIG_MQTT_BROKER_*` come from the board configuration and are parameters
  (`Config`).
* Bytes are natural numbers below 256. The bit-fields of `MQTT_Header_t` lie as on
  the wire: `retain` in bit 0, `qos` in bits 2-1, `dup` in bit 3, `type` in bits 7-4.
* `malloc` and `calloc` succeed.
* A handler that reads outside the packet buffer it was given yields `none`.
* A session is addressed by its position in the current list where it is removed
  from that list or may change its place (`MQTT_session_drop`, `MQTT_session_activate`,
  `connect_h`), and passed by value where the list keeps its shape (`publish_h`,
  `subscribe_h`).
* What a socket delivers to `recv` is a list of bytes; a `recv` fails when the bytes
  it asks for are not there.
* A `uint32_t` is a natural number below `2 ^ 32`, and every operation on it is
  followed by `% 2 ^ 32`.
* A loop whose number of rounds is not fixed by its input runs on fuel; where a
  theorem speaks of its result, the fuel is shown to suffice.
-/

namespace MqttBroker

/-! ## C strings -/

/-- A C string: its bytes, without the terminating NUL. -/
abbrev CStr := List Nat

/-- The bytes of an ASCII literal. -/
def cstr (s : String) : CStr := s.data.map Char.toNat

/-- The byte of the level separator, '/'. -/
abbrev chSlash : Nat := 47
/-- The byte of the single-level wildcard, '+'. -/
abbrev chPlus : Nat := 43
/-- The byte of the multi-level wildcard, '#'. -/
abbrev chHash : Nat := 35
/-- The byte of '$', which starts a system topic. -/
abbrev chDollar : Nat := 36

/-! ## Topic matcher (`mqtt_br_queue.c`, `isTopicMatched`) -/

/-- The inner loop of the '+' case: `nextpos = curn + 1; while ((nextpos < curn_end)
&& (*nextpos != '/')) nextpos = ++curn + 1;`. The argument and the result are the
name from `curn` on. -/
def skipLevel : CStr → CStr
  | c :: d :: rest => if d ≠ chSlash then skipLevel (d :: rest) else c :: d :: rest
  | l => l

/-- The value returned after the loop: `(curn == curn_end) && (*curf == 0)`. -/
def matchResult (curf curn : CStr) : Bool := curn.isEmpty && curf.isEmpty

/-- The `while (*curf && (curn < curn_end))` loop of `isTopicMatched`; the arguments
are the filter from `curf` on and the name from `curn` on. -/
def matchLoop : CStr → CStr → Bool
  | f :: fs, n :: ns =>
    if n = chSlash ∧ f ≠ chSlash then matchResult (f :: fs) (n :: ns)
    else if f ≠ chPlus ∧ f ≠ chHash ∧ f ≠ n then matchResult (f :: fs) (n :: ns)
    else if f = chPlus then matchLoop fs (skipLevel (n :: ns)).tail
    else if f = chHash then matchLoop fs []
    else matchLoop fs ns
  | curf, curn => matchResult curf curn

/-- The function `isTopicMatched(topicFilter, topicName)`. -/
def isTopicMatched (topicFilter topicName : CStr) : Bool :=
  if topicFilter.head? = some chHash ∧ topicName.head? = some chDollar then false
  else matchLoop topicFilter topicName

/-- A string without the wildcard characters '+' and '#'. -/
def WildFree (s : CStr) : Prop := chPlus ∉ s ∧ chHash ∉ s

/-- A single non-empty topic level without wildcards: a non-empty string without
'+', '#' and '/'. -/
def Level (s : CStr) : Prop := s ≠ [] ∧ WildFree s ∧ chSlash ∉ s

/-- The levels joined by '/'. -/
def joinLevels : List CStr → CStr
  | [] => []
  | [l] => l
  | l :: ls => l ++ chSlash :: joinLevels ls

instance (s : CStr) : Decidable (WildFree s) := by unfold WildFree; infer_instance

instance (s : CStr) : Decidable (Level s) := by unfold Level; infer_instance

/-! ## Wire helpers (`mqtt_br_helpers.c`) -/

/-- The do-while loop of `MQTT_br_encodeSize`: one length byte per iteration, with
bit 7 set while more follow. The first argument bounds the iterations. -/
def encodeSizeLoop : Nat → Nat → List Nat
  | 0, _ => []
  | fuel + 1, length =>
    if length / 128 > 0 then (length % 128 + 128) :: encodeSizeLoop fuel (length / 128)
    else [length % 128]

/-- The bytes `MQTT_br_encodeSize(buf, length)` writes; its return value is their
number. `length` is a non-negative `int`, below `2 ^ 31`, so the loop runs at most
five times. -/
def MQTT_br_encodeSize (length : Nat) : List Nat := encodeSizeLoop 5 length

/-- The two bytes written by `MQTT_br_writeInt`. -/
def MQTT_br_writeInt (i : Nat) : List Nat := [(i / 256) % 256, i % 256]

/-- The bytes written by `MQTT_br_writeString` for a non-NULL string. -/
def MQTT_br_writeString (string : CStr) : List Nat :=
  MQTT_br_writeInt string.length ++ string

/-- The do-while loop of `MQTT_br_decodeSize`, reading `buf` from index `p`:
`len` and `value` so far and the multiplier. `none` is a read outside the buffer. -/
def decodeSizeLoop (buf : List Nat) : Nat → Nat → Nat → Nat → Nat → Option (Nat × Nat)
  | 0, _, len, value, _ => some (len, value)
  | fuel + 1, p, len, value, multiplier =>
    if len + 1 > 4 then some (len + 1, value)
    else
      match buf.get? p with
      | none => none
      | some c =>
        let value := value + (c % 128) * multiplier
        if (c / 128) % 2 ≠ 0 then decodeSizeLoop buf fuel (p + 1) (len + 1) value (multiplier * 128)
        else some (len + 1, value)

/-- The call `MQTT_br_decodeSize(buf + p, &value)`: the returned length and the
value. The loop leaves after at most five rounds. -/
def MQTT_br_decodeSize (buf : List Nat) (p : Nat) : Option (Nat × Nat) :=
  decodeSizeLoop buf 5 p 0 0 1

/-- The call `MQTT_br_readInt(&p)` on `buf` at index `p`: the value; `p` advances
by two. `none` is a read outside the buffer. -/
def MQTT_br_readInt (buf : List Nat) (p : Nat) : Option Nat :=
  match buf.get? p, buf.get? (p + 1) with
  | some hi, some lo => some (256 * hi + lo)
  | _, _ => none

/-- The loop of `utf8_validate`, with `cnt` the continuation bytes still owed. -/
def utf8_loop : List Nat → Nat → Bool
  | [], cnt => cnt = 0
  | c :: rest, cnt =>
    if c = 0 then false
    else if cnt = 0 then
      if c / 32 = 6 then utf8_loop rest 1
      else if c / 16 = 14 then utf8_loop rest 2
      else if c / 8 = 30 then utf8_loop rest 3
      else if c / 128 ≠ 0 then false
      else utf8_loop rest 0
    else
      if c / 64 ≠ 2 then false
      else utf8_loop rest (cnt - 1)

/-- The function `utf8_validate(string, len)` on the `len` bytes of `string`. -/
def utf8_validate (string : List Nat) : Bool := utf8_loop string 0

/-- The call `MQTT_br_readString(&string, &p, end)` on `buf` (`end` is its length) at
index `p`: the string left in `*string` (`none` for NULL) and the new `p`. -/
def MQTT_br_readString (buf : List Nat) (p : Nat) : Option CStr × Nat :=
  if buf.length ≤ p + 1 then (none, p)
  else
    match MQTT_br_readInt buf p with
    | none => (none, p)
    | some len =>
      let p := p + 2
      if len = 0 then (none, p)
      else if p + len > buf.length then (none, p)
      else
        let string := (buf.drop p).take len
        if utf8_validate string then (some string, p + len) else (none, p + len)

/-- The value `MQTT_br_readString(&string, &p, end)` returns on `buf` at index `p`:
the length read, and 0 on each of its early returns. -/
def MQTT_br_readString_len (buf : List Nat) (p : Nat) : Nat :=
  if buf.length ≤ p + 1 then 0
  else
    match MQTT_br_readInt buf p with
    | none => 0
    | some len =>
      if len = 0 then 0
      else if p + 2 + len > buf.length then 0
      else if utf8_validate ((buf.drop (p + 2)).take len) then len else 0

/-! ## Data model (`mqtt_br_types.h`, `mqtt_br_queue.h`, `mqtt_br_session.h`,
`mqtt_br_subscription.h`, `mqtt_broker.h`) -/

/-- The limits `CONFIG_MQTT_BROKER_*` of the board configuration. -/
structure Config where
  MAX_SESSIONS : Nat
  MAX_STORED_SESSIONS : Nat
  MAX_SUBSCRIPTIONS : Nat
  MAX_INFLIGHT : Nat
  QUEUE_SIZE : Nat
  MAX_RETAINED : Nat
  INACTIVE_TIMEOUT : Nat
  STORE_SESSIONS : Bool
  deriving DecidableEq

/-- The flag bits of a message: `retain : 1`, `qos : 2`, `dup : 1`. -/
structure MQTT_Flags_t where
  retain : Nat
  qos : Nat
  dup : Nat
  deriving DecidableEq

/-- The struct `MQTT_Message_t` with a non-NULL topic; `payload` is the
`payload.size` bytes at `payload.data`. A zeroed struct (NULL topic) is
represented by the absence of a message. -/
structure MQTT_Message_t where
  topic : CStr
  id : Nat
  flags : MQTT_Flags_t
  payload : List Nat
  deriving DecidableEq

/-- The struct `MQTT_Queue_t`: `state.p_qos`, `state.retain` and the message. -/
structure MQTT_Queue_t where
  p_qos : Nat
  retain : Nat
  message : MQTT_Message_t
  deriving DecidableEq

/-- The struct `MQTT_Subscription_t`. -/
structure MQTT_Subscription_t where
  topic_filter : CStr
  qos : Nat
  deriving DecidableEq

/-- The struct `MQTT_Session_t`; `id` is `none` for a NULL pointer, `inbound` is the
array `in_flight.inbound`, `lwt` is `none` when `lwt.topic` is NULL. -/
structure MQTT_Session_t where
  id : Option CStr
  active : Bool
  sd : Int
  clean : Bool
  keepalive : Nat
  timer : Nat
  inbound : List Nat
  lwt : Option MQTT_Message_t
  subscriptions : List MQTT_Subscription_t
  deriving DecidableEq

/-- What the broker does on its sockets: a `send` of a buffer on a descriptor, with
whether the whole buffer was transmitted, and a `close`. -/
inductive Event where
  | send (sd : Int) (buf : List Nat) (ok : Bool)
  | close (sd : Int)
  deriving DecidableEq

/-- The network: given what happened so far, whether `send(sd, buf, len, 0)` returns
`len`. -/
abbrev Net := List Event → Int → List Nat → Bool

/-- The struct `MQTT_Broker_t` (its lists), the static counter `next` of `next_id`
and the trace of socket events. -/
structure Broker where
  sessions_current : List MQTT_Session_t
  sessions_stored : List MQTT_Session_t
  queues_pending : List MQTT_Queue_t
  queues_retained : List MQTT_Queue_t
  next : Nat
  wire : List Event
  deriving DecidableEq

/-- The broker after the `List_init` calls of `broker_th`, with `next = 1`. -/
def Broker.init : Broker :=
  { sessions_current := [], sessions_stored := [], queues_pending := [],
    queues_retained := [], next := 1, wire := [] }

/-- A `send(sd, buf, len, 0)` compared with `len`. -/
def do_send (net : Net) (b : Broker) (sd : Int) (buf : List Nat) : Bool × Broker :=
  let ok := net b.wire sd buf
  (ok, { b with wire := b.wire ++ [Event.send sd buf ok] })

/-! ## Message queues (`mqtt_br_queue.c`) -/

/-- The function `next_id`: returns the counter and advances it modulo `2 ^ 16`,
stepping over 0. -/
def next_id (b : Broker) : Nat × Broker :=
  let id := b.next
  let next := (b.next + 1) % 65536
  let next := if next = 0 then (next + 1) % 65536 else next
  (id, { b with next := next })

/-- The entry `MQTT_queue_add` makes of a message: a copy of the message with
`state.p_qos` and `state.retain` taken from its flags and the dup flag cleared. -/
def queue_entry (message : MQTT_Message_t) : MQTT_Queue_t :=
  { p_qos := message.flags.qos, retain := message.flags.retain,
    message := { message with flags := { message.flags with dup := 0 } } }

/-- The function `MQTT_queue_add`; the allocation succeeds. -/
def MQTT_queue_add (cfg : Config) (b : Broker) (message : MQTT_Message_t) : Bool × Broker :=
  if b.queues_pending.length ≥ cfg.QUEUE_SIZE then (false, b)
  else (true, { b with queues_pending := b.queues_pending ++ [queue_entry message] })

/-- The header byte of a PUBLISH: type 3 in bits 7-4, `dup` 0 in bit 3, `qos` in bits
2-1, `retain` in bit 0. -/
def publish_header (flags : MQTT_Flags_t) : Nat :=
  3 * 16 + 0 * 8 + (flags.qos % 4) * 2 + flags.retain % 2

/-- The buffer `publish_message` builds for a message. -/
def publish_buffer (message : MQTT_Message_t) : List Nat :=
  let withId : Bool := message.flags.qos = 1 ∨ message.flags.qos = 2
  let remaining_length :=
    2 + message.topic.length + (if withId then 2 else 0) + message.payload.length
  [publish_header message.flags] ++ MQTT_br_encodeSize remaining_length
    ++ MQTT_br_writeString message.topic
    ++ (if withId then MQTT_br_writeInt message.id else [])
    ++ message.payload

/-- The function `publish_message` on the socket `sd` of the session; the allocation
succeeds. -/
def publish_message (net : Net) (b : Broker) (sd : Int) (message : MQTT_Message_t) :
    Bool × Broker :=
  do_send net b sd (publish_buffer message)

/-- The assignment `queue->message.flags.qos = qos` to the two-bit field. -/
def withQos (queue : MQTT_Queue_t) (qos : Nat) : MQTT_Queue_t :=
  { queue with message := { queue.message with
      flags := { queue.message.flags with qos := qos % 4 } } }

/-- The QoS `process_subscriptions` computes for a matching subscription:
`qos = queue->state.p_qos; if (qos > subscription->qos) qos = subscription->qos;`. -/
def capped_qos (p_qos g_qos : Nat) : Nat := if p_qos > g_qos then g_qos else p_qos

/-- The loop of `process_subscriptions` over the subscriptions from `subscription` on. -/
def process_subscriptions (net : Net) (sd : Int) :
    List MQTT_Subscription_t → Broker → MQTT_Queue_t → Bool × Broker × MQTT_Queue_t
  | [], b, queue => (true, b, queue)
  | subscription :: rest, b, queue =>
    if isTopicMatched subscription.topic_filter queue.message.topic then
      let queue := withQos queue (capped_qos queue.p_qos subscription.qos)
      let r := publish_message net b sd queue.message
      if r.1 then process_subscriptions net sd rest r.2 queue
      else (false, r.2, queue)
    else process_subscriptions net sd rest b queue

/-! ## Sessions (`mqtt_br_session.c`) -/

/-- The function `session_free`: the session and what it owns are released; no list
of the broker changes. -/
def session_free (b : Broker) (_session : MQTT_Session_t) : Broker := b

/-- The function `session_store`: when the stored list is full its first session
is removed and freed, then the session is added at the tail. (With a limit of 0 and
an empty list the C code would remove a NULL item; the model removes nothing.) -/
def session_store (cfg : Config) (b : Broker) (session : MQTT_Session_t) : Broker :=
  let stored :=
    if b.sessions_stored.length ≥ cfg.MAX_STORED_SESSIONS then b.sessions_stored.tail
    else b.sessions_stored
  { b with sessions_stored := stored ++ [session] }

/-- The end of `MQTT_session_close` and `MQTT_session_drop`: the session is stored
when sessions are stored, it has an id and is not clean, and freed otherwise. -/
def store_or_free (cfg : Config) (b : Broker) (session : MQTT_Session_t) : Broker :=
  if cfg.STORE_SESSIONS && session.id.isSome && !session.clean then
    session_store cfg b session
  else session_free b session

/-- The last-will part of `MQTT_session_drop`: a session with a will has it added
to the pending queue (and freed when that fails). -/
def publish_lwt (cfg : Config) (b : Broker) : Option MQTT_Message_t → Broker
  | some lwt => (MQTT_queue_add cfg b lwt).2
  | none => b

/-- The assignments of `MQTT_session_close` and `MQTT_session_drop` to the session:
`active = 0`, `keepalive = 0`, `timer = 0`, `sd = -1`, and the will zeroed. -/
def closed (session : MQTT_Session_t) : MQTT_Session_t :=
  { session with active := false, keepalive := 0, timer := 0, sd := -1, lwt := none }

/-- The function `MQTT_session_drop` on the session at position `i` of the current
list. -/
def MQTT_session_drop (cfg : Config) (b : Broker) (i : Nat) : Broker :=
  match b.sessions_current.get? i with
  | none => b
  | some session =>
    let b := { b with sessions_current := b.sessions_current.eraseIdx i }
    let b := { b with wire := b.wire ++ [Event.close session.sd] }
    let b := publish_lwt cfg b session.lwt
    store_or_free cfg b (closed session)

/-- The loop of `MQTT_sessions_reset`, for at most `fuel` rounds: while the current
list has a first session, that session is dropped. -/
def sessions_reset_loop (cfg : Config) : Nat → Broker → Broker
  | 0, b => b
  | fuel + 1, b =>
    match b.sessions_current with
    | [] => b
    | _ :: _ => sessions_reset_loop cfg fuel (MQTT_session_drop cfg b 0)

/-- The function `MQTT_sessions_reset`. A round takes one session off the current
list, so the loop ends within as many rounds as there are current sessions. -/
def MQTT_sessions_reset (cfg : Config) (b : Broker) : Broker :=
  sessions_reset_loop cfg b.sessions_current.length b

/-! ## Fan-out and the retained store (`mqtt_br_queue.c`) -/

/-- The loop of `process_sessions`. `todo` are the sessions still to visit (the one
`session` points to and those after it) and `i` is the position of the first of them
in the current list: a session that fails is dropped, which removes it from the
current list, and the loop goes on with the saved `next`. -/
def process_sessions_loop (net : Net) (cfg : Config) :
    List MQTT_Session_t → Nat → Broker → MQTT_Queue_t → Broker × MQTT_Queue_t
  | [], _, b, queue => (b, queue)
  | session :: rest, i, b, queue =>
    let r := process_subscriptions net session.sd session.subscriptions b queue
    if r.1 then process_sessions_loop net cfg rest (i + 1) r.2.1 r.2.2
    else process_sessions_loop net cfg rest i (MQTT_session_drop cfg r.2.1 i) r.2.2

/-- The function `process_sessions`. -/
def process_sessions (net : Net) (cfg : Config) (b : Broker) (queue : MQTT_Queue_t) :
    Broker × MQTT_Queue_t :=
  process_sessions_loop net cfg b.sessions_current 0 b queue

/-- The retained list after the retained-store part of the body of
`MQTT_queue_process`, for the entry `queue` already taken off the pending list: the
first entry with the same topic is removed; an entry with a payload is added at the
tail, after the first entry is removed when the limit is reached. (With a limit of 0
and an empty list the C code would remove a NULL item; the model removes nothing.) -/
def retained_update (cfg : Config) (retained : List MQTT_Queue_t) (queue : MQTT_Queue_t) :
    List MQTT_Queue_t :=
  if queue.retain ≠ 0 then
    let retained :=
      retained.eraseP (fun ret_msg => queue.message.topic = ret_msg.message.topic)
    if queue.message.payload.length > 0 then
      let retained := if retained.length ≥ cfg.MAX_RETAINED then retained.tail else retained
      retained ++ [queue]
    else retained
  else retained

/-- The retained-store part of the body of `MQTT_queue_process`. -/
def store_retained (cfg : Config) (b : Broker) (queue : MQTT_Queue_t) : Broker :=
  { b with queues_retained := retained_update cfg b.queues_retained queue }

/-- The assignments `queue->message.id = id; queue->message.flags.retain = 0;` of
`MQTT_queue_process`. -/
def asPending (queue : MQTT_Queue_t) (id : Nat) : MQTT_Queue_t :=
  { queue with message := { queue.message with
      id := id, flags := { queue.message.flags with retain := 0 } } }

/-- One round of the loop of `MQTT_queue_process`, on the head of the pending
list. -/
def process_head (net : Net) (cfg : Config) (b : Broker) : Broker :=
  match b.queues_pending with
  | [] => b
  | queue :: _ =>
    let r := next_id b
    let queue := asPending queue r.1
    let r := process_sessions net cfg r.2 queue
    let b := { r.1 with queues_pending := r.1.queues_pending.tail }
    store_retained cfg b r.2

/-- The loop of `MQTT_queue_process`, for at most `fuel` rounds. -/
def queue_process_loop (net : Net) (cfg : Config) : Nat → Broker → Broker
  | 0, b => b
  | fuel + 1, b =>
    match b.queues_pending with
    | [] => b
    | _ :: _ => queue_process_loop net cfg fuel (process_head net cfg b)

/-- The function `MQTT_queue_process`. A round takes one entry off the pending list
and adds at most one entry (a last will) for each session it drops, so the loop
ends within as many rounds as there are pending entries and current sessions. -/
def MQTT_queue_process (net : Net) (cfg : Config) (b : Broker) : Broker :=
  queue_process_loop net cfg (b.queues_pending.length + b.sessions_current.length) b

/-- The loop of `MQTT_queue_clear`, for at most `fuel` rounds: while the pending
list has a first entry, that entry is removed and freed. -/
def queue_clear_loop : Nat → Broker → Broker
  | 0, b => b
  | fuel + 1, b =>
    match b.queues_pending with
    | [] => b
    | _ :: rest => queue_clear_loop fuel { b with queues_pending := rest }

/-- The function `MQTT_queue_clear`. -/
def MQTT_queue_clear (b : Broker) : Broker := queue_clear_loop b.queues_pending.length b

/-- The assignments `retained->message.id = id; retained->message.flags.retain = 1;
retained->message.flags.qos = qos;` of `MQTT_queue_handleRetained`. -/
def asRetained (retained : MQTT_Queue_t) (id qos : Nat) : MQTT_Queue_t :=
  { retained with message := { retained.message with
      id := id, flags := { retained.message.flags with retain := 1, qos := qos % 4 } } }

/-- The loop of `MQTT_queue_handleRetained` over the retained entries from `retained`
on: the entries as the loop leaves them, and the broker. -/
def handleRetained_loop (net : Net) (sd : Int) (topic_filter : CStr) (g_qos : Nat) :
    List MQTT_Queue_t → Broker → List MQTT_Queue_t × Broker
  | [], b => ([], b)
  | retained :: rest, b =>
    if isTopicMatched topic_filter retained.message.topic then
      let r := next_id b
      let retained := asRetained retained r.1 (capped_qos retained.p_qos g_qos)
      let s := publish_message net r.2 sd retained.message
      if s.1 then
        let t := handleRetained_loop net sd topic_filter g_qos rest s.2
        (retained :: t.1, t.2)
      else (retained :: rest, s.2)
    else
      let t := handleRetained_loop net sd topic_filter g_qos rest b
      (retained :: t.1, t.2)

/-- The function `MQTT_queue_handleRetained` for the session with socket `sd`. -/
def MQTT_queue_handleRetained (net : Net) (b : Broker) (sd : Int) (topic_filter : CStr)
    (g_qos : Nat) : Broker :=
  let t := handleRetained_loop net sd topic_filter g_qos b.queues_retained b
  { t.2 with queues_retained := t.1 }

/-! ## PUBLISH handler (`mqtt_br_handler.c`) -/

/-- The function `send_puback`. -/
def send_puback (net : Net) (b : Broker) (sd : Int) (packet_id : Nat) : Bool × Broker :=
  do_send net b sd ([4 * 16, 2] ++ MQTT_br_writeInt packet_id)

/-- The function `send_pubrec`. -/
def send_pubrec (net : Net) (b : Broker) (sd : Int) (packet_id : Nat) : Bool × Broker :=
  do_send net b sd ([5 * 16, 2] ++ MQTT_br_writeInt packet_id)

/-- The validation and decoding part of `publish_h`, up to "Add message to the
queue": `none` is a read outside the packet buffer, `some none` is a `return 0` or
`goto error`, and otherwise the packet-id and the message built from the packet.
The allocation of the payload copy succeeds. -/
def publish_decode (msg : List Nat) : Option (Option (Nat × MQTT_Message_t)) :=
  if msg.length < 7 then some none
  else
    match msg.get? 0 with
    | none => none
    | some byte =>
      let type := (byte / 16) % 16
      let qos := (byte / 2) % 4
      let dup := (byte / 8) % 2
      let retain := byte % 2
      if type ≠ 3 then some none
      else if qos ≠ 0 ∧ qos ≠ 1 ∧ qos ≠ 2 then some none
      else if qos = 0 ∧ dup ≠ 0 then some none
      else
        match MQTT_br_decodeSize msg 1 with
        | none => none
        | some (n, s) =>
          if s < 5 then some none
          else
            match MQTT_br_readString msg (1 + n) with
            | (none, _) => some none
            | (some topic, p) =>
              if topic.length = 0 then some none
              else if chHash ∈ topic ∨ chPlus ∈ topic ∨ topic.head? = some chDollar then
                some none
              else if qos = 1 ∨ qos = 2 then
                match MQTT_br_readInt msg p with
                | none => none
                | some packet_id =>
                  if packet_id = 0 then some none
                  else
                    some (some (packet_id,
                      { topic := topic, id := packet_id,
                        flags := { retain := retain, qos := qos, dup := dup },
                        payload := msg.drop (p + 2) }))
              else
                some (some (0,
                  { topic := topic, id := 0,
                    flags := { retain := retain, qos := qos, dup := dup },
                    payload := msg.drop p }))

/-- The loop `while ((idx < MAX_INFLIGHT) && (inbound[idx] != v)) idx++;` from `idx`
on, for at most `fuel` rounds. -/
def inflight_scan (inbound : List Nat) (v max : Nat) : Nat → Nat → Nat
  | 0, idx => idx
  | fuel + 1, idx =>
    if idx < max ∧ inbound.getD idx 0 ≠ v then inflight_scan inbound v max fuel (idx + 1)
    else idx

/-- The slot `publish_h` settles on for a QoS-2 packet-id: the first slot that holds
the packet-id, else the first free slot, else `MAX_INFLIGHT`. -/
def inflight_slot (cfg : Config) (inbound : List Nat) (packet_id : Nat) : Nat :=
  let idx := inflight_scan inbound packet_id cfg.MAX_INFLIGHT cfg.MAX_INFLIGHT 0
  if idx ≥ cfg.MAX_INFLIGHT then inflight_scan inbound 0 cfg.MAX_INFLIGHT cfg.MAX_INFLIGHT 0
  else idx

/-- The function `publish_h` for the packet `msg` (of `len = msg.length` bytes) of
`session`: `none` is a read outside the packet buffer, otherwise the returned value,
the broker and the session. -/
def publish_h (net : Net) (cfg : Config) (b : Broker) (session : MQTT_Session_t)
    (msg : List Nat) : Option (Bool × Broker × MQTT_Session_t) :=
  match publish_decode msg with
  | none => none
  | some none => some (false, b, session)
  | some (some (packet_id, message)) =>
    if message.flags.qos = 0 then
      let r := MQTT_queue_add cfg b message
      if r.1 then some (true, r.2, session) else some (false, b, session)
    else if message.flags.qos = 1 then
      let r := MQTT_queue_add cfg b message
      if r.1 then
        let s := send_puback net r.2 session.sd packet_id
        some (s.1, s.2, session)
      else some (false, b, session)
    else
      let idx := inflight_slot cfg session.inbound packet_id
      if idx ≥ cfg.MAX_INFLIGHT then some (false, b, session)
      else if session.inbound.getD idx 0 = packet_id then
        if message.flags.dup = 0 then some (false, b, session)
        else
          let s := send_pubrec net b session.sd packet_id
          some (s.1, s.2, session)
      else
        let r := MQTT_queue_add cfg b message
        if r.1 then
          let session := { session with inbound := session.inbound.set idx packet_id }
          let s := send_pubrec net r.2 session.sd packet_id
          some (s.1, s.2, session)
        else some (false, b, session)

/-! ## PUBREL handler (`mqtt_br_handler.c`) -/

/-- The function `send_pubcomp`. -/
def send_pubcomp (net : Net) (b : Broker) (sd : Int) (packet_id : Nat) : Bool × Broker :=
  do_send net b sd ([7 * 16, 2] ++ MQTT_br_writeInt packet_id)

/-- The validation part of `pubrel_h`, up to "Find the acknowledged message": `none`
is a read outside the packet buffer, `some none` is a `return 0`, and otherwise the
packet-id. -/
def pubrel_decode (msg : List Nat) : Option (Option Nat) :=
  if msg.length ≠ 4 then some none
  else
    match msg.get? 0 with
    | none => none
    | some byte =>
      if (byte / 16) % 16 ≠ 6 then some none
      else if (byte / 8) % 2 ≠ 0 ∨ (byte / 2) % 4 ≠ 1 ∨ byte % 2 ≠ 0 then some none
      else
        match MQTT_br_decodeSize msg 1 with
        | none => none
        | some (n, s) =>
          if s ≠ 2 then some none
          else
            match MQTT_br_readInt msg (1 + n) with
            | none => none
            | some packet_id => if packet_id = 0 then some none else some (some packet_id)

/-- The loop `for (i = 0; i < MAX_INFLIGHT; i++) if (inbound[i] == packet_id)
inbound[i] = 0;` of `pubrel_h`. -/
def inflight_clear (max packet_id : Nat) (inbound : List Nat) : List Nat :=
  (List.range max).foldl
    (fun inb i => if inb.getD i 0 = packet_id then inb.set i 0 else inb) inbound

/-- The function `pubrel_h` for the packet `msg` of `session`: `none` is a read
outside the packet buffer, otherwise the returned value, the broker and the
session. -/
def pubrel_h (net : Net) (cfg : Config) (b : Broker) (session : MQTT_Session_t)
    (msg : List Nat) : Option (Bool × Broker × MQTT_Session_t) :=
  match pubrel_decode msg with
  | none => none
  | some none => some (false, b, session)
  | some (some packet_id) =>
    let session :=
      { session with inbound := inflight_clear cfg.MAX_INFLIGHT packet_id session.inbound }
    let s := send_pubcomp net b session.sd packet_id
    some (s.1, s.2, session)

/-! ## Subscriptions (`mqtt_br_subscription.c`) -/

/-- The loop of `MQTT_subscriptions_add` that looks for the filter: the list with the
QoS of the first subscription with that filter overwritten, or `none` when the loop
reaches the end of the list. -/
def subscriptions_update (topic_filter : CStr) (qos : Nat) :
    List MQTT_Subscription_t → Option (List MQTT_Subscription_t)
  | [] => none
  | it :: rest =>
    if it.topic_filter = topic_filter then some ({ it with qos := qos } :: rest)
    else (subscriptions_update topic_filter qos rest).map (fun r => it :: r)

/-- The function `MQTT_subscriptions_add`: the returned value and the session; a
NULL filter is `none`; the allocation succeeds. -/
def MQTT_subscriptions_add (cfg : Config) (session : MQTT_Session_t)
    (topic_filter : Option CStr) (qos : Int) : Nat × MQTT_Session_t :=
  match topic_filter with
  | none => (0x80, session)
  | some filter =>
    if filter.length = 0 then (0x80, session)
    else if qos ≠ 0 ∧ qos ≠ 1 ∧ qos ≠ 2 then (0x80, session)
    else
      match subscriptions_update filter qos.toNat session.subscriptions with
      | some subs => (qos.toNat, { session with subscriptions := subs })
      | none =>
        if session.subscriptions.length ≥ cfg.MAX_SUBSCRIPTIONS then (0x80, session)
        else
          (qos.toNat, { session with
            subscriptions := session.subscriptions
              ++ [{ topic_filter := filter, qos := qos.toNat }] })

/-- The function `MQTT_subscriptions_remove`: the first subscription with the filter
is removed. -/
def MQTT_subscriptions_remove (session : MQTT_Session_t) (topic_filter : Option CStr) :
    MQTT_Session_t :=
  match topic_filter with
  | none => session
  | some filter =>
    if filter.length = 0 then session
    else
      { session with
        subscriptions := session.subscriptions.eraseP (fun it => it.topic_filter = filter) }

/-- The function `MQTT_subscriptions_clear`. -/
def MQTT_subscriptions_clear (session : MQTT_Session_t) : MQTT_Session_t :=
  { session with subscriptions := [] }

/-! ## Sessions: creation, activation and close (`mqtt_br_session.c`) -/

/-- The session `MQTT_session_create` allocates: zeroed, with the socket and the
clock value. -/
def new_session (cfg : Config) (sd : Int) (now : Nat) : MQTT_Session_t :=
  { id := none, active := false, sd := sd, clean := false, keepalive := 0, timer := now,
    inbound := List.replicate cfg.MAX_INFLIGHT 0, lwt := none, subscriptions := [] }

/-- The function `MQTT_session_create` at clock value `now`: the position of the new
session in the current list (`none` for NULL) and the broker; the allocation
succeeds. -/
def MQTT_session_create (cfg : Config) (b : Broker) (sd : Int) (now : Nat) :
    Option Nat × Broker :=
  if b.sessions_current.length ≥ cfg.MAX_SESSIONS then (none, b)
  else
    (some b.sessions_current.length,
      { b with sessions_current := b.sessions_current ++ [new_session cfg sd now] })

/-- A scan of `session_retrieve` over a list of sessions: the first session with the
client-id and the list without it, or `none` when there is no such session. -/
def take_out (id : CStr) :
    List MQTT_Session_t → Option (MQTT_Session_t × List MQTT_Session_t)
  | [] => none
  | it :: rest =>
    if it.id = some id then some (it, rest)
    else (take_out id rest).map (fun r => (r.1, it :: r.2))

/-- The two `memcpy` of `session_retrieve`: the in-flight array and the subscription
list of `it` go to `session`. -/
def take_over (session it : MQTT_Session_t) : MQTT_Session_t :=
  { session with inbound := it.inbound, subscriptions := it.subscriptions }

/-- The function `session_retrieve` for the session at position `i` of the current
list: the returned value, the position of the session afterwards and the broker.
The first loop visits the current sessions before the session and then those after
it (`session != it`); the second loop visits the stored sessions. -/
def session_retrieve (b : Broker) (i : Nat) : Bool × Nat × Broker :=
  match b.sessions_current.get? i with
  | none => (false, i, b)
  | some session =>
    match session.id with
    | none => (false, i, b)
    | some id =>
      match take_out id (b.sessions_current.take i) with
      | some (it, before) =>
        (true, before.length,
          { b with
            sessions_current :=
              before ++ take_over session it :: b.sessions_current.drop (i + 1),
            wire := b.wire ++ [Event.close it.sd] })
      | none =>
        match take_out id (b.sessions_current.drop (i + 1)) with
        | some (it, after) =>
          (true, i,
            { b with
              sessions_current := b.sessions_current.take i ++ take_over session it :: after,
              wire := b.wire ++ [Event.close it.sd] })
        | none =>
          match take_out id b.sessions_stored with
          | some (it, stored) =>
            (true, i,
              { b with
                sessions_current := b.sessions_current.set i (take_over session it),
                sessions_stored := stored })
          | none => (false, i, b)

/-- The assignments of `MQTT_session_activate` before `session_retrieve`: the client-id
when it is not NULL and not empty, the clean flag, the keepalive, `active = 1`, the
timer, and the will when it has a topic. -/
def activated (session : MQTT_Session_t) (client_id : Option CStr) (keepalive : Nat)
    (clean : Bool) (lwt : Option MQTT_Message_t) (now : Nat) : MQTT_Session_t :=
  { session with
    id := (match client_id with
      | some c => if c.length ≠ 0 then some c else session.id
      | none => session.id),
    clean := clean, keepalive := keepalive, active := true, timer := now,
    lwt := (match lwt with
      | some m => some m
      | none => session.lwt) }

/-- The end of `MQTT_session_activate` for a clean session: the in-flight array is
zeroed and the subscriptions are cleared. -/
def cleaned (cfg : Config) (session : MQTT_Session_t) : MQTT_Session_t :=
  MQTT_subscriptions_clear { session with inbound := List.replicate cfg.MAX_INFLIGHT 0 }

/-- The function `MQTT_session_activate` for the session at position `i` of the
current list, at clock value `now`: the value left in `*present`, the position of the
session afterwards and the broker. -/
def MQTT_session_activate (cfg : Config) (b : Broker) (i : Nat) (client_id : Option CStr)
    (keepalive : Nat) (clean : Bool) (lwt : Option MQTT_Message_t) (now : Nat) :
    Bool × Nat × Broker :=
  match b.sessions_current.get? i with
  | none => (false, i, b)
  | some session =>
    let b := { b with sessions_current :=
      b.sessions_current.set i (activated session client_id keepalive clean lwt now) }
    let r := session_retrieve b i
    if clean then
      match r.2.2.sessions_current.get? r.2.1 with
      | none => (false, r.2.1, r.2.2)
      | some session =>
        (false, r.2.1,
          { r.2.2 with sessions_current := r.2.2.sessions_current.set r.2.1 (cleaned cfg session) })
    else r

/-- The function `MQTT_session_close` on the session at position `i` of the current
list. -/
def MQTT_session_close (cfg : Config) (b : Broker) (i : Nat) : Broker :=
  match b.sessions_current.get? i with
  | none => b
  | some session =>
    let b := { b with sessions_current := b.sessions_current.eraseIdx i }
    let b := { b with wire := b.wire ++ [Event.close session.sd] }
    store_or_free cfg b (closed session)

/-! ## SUBSCRIBE handler (`mqtt_br_handler.c`) -/

/-- The function `send_suback` for the `count` granted QoS bytes in `g_qos`; the
allocation succeeds. -/
def send_suback (net : Net) (b : Broker) (sd : Int) (packet_id : Nat) (g_qos : List Nat) :
    Bool × Broker :=
  do_send net b sd
    ([9 * 16] ++ MQTT_br_encodeSize (2 + g_qos.length) ++ MQTT_br_writeInt packet_id ++ g_qos)

/-- The wildcard checks of `subscribe_h` on a topic filter: `true` is a
`goto topic_error`. `strchr` finds the first '#' and the first '+'. -/
def filter_error (topic_filter : CStr) : Bool :=
  let m_wild := topic_filter.indexOf chHash
  if m_wild < topic_filter.length ∧ m_wild ≠ topic_filter.length - 1 then true
  else if m_wild < topic_filter.length ∧ m_wild ≠ 0
      ∧ topic_filter.getD (m_wild - 1) 0 ≠ chSlash then true
  else
    let s_wild := topic_filter.indexOf chPlus
    if s_wild < topic_filter.length ∧ s_wild ≠ 0
        ∧ topic_filter.getD (s_wild - 1) 0 ≠ chSlash then true
    else if s_wild < topic_filter.length ∧ s_wild ≠ topic_filter.length - 1
        ∧ topic_filter.getD (s_wild + 1) 0 ≠ chSlash then true
    else false

/-- The loop `while (p <= (end - 4))` of `subscribe_h` from index `p` on, with the
granted QoS bytes so far (`idx` is their number), for at most the given number of
rounds. `none` is a read outside the packet buffer; otherwise `none` in the first
component is a `return 0`, and the broker and the session are as the loop leaves
them. -/
def subscribe_loop (net : Net) (cfg : Config) (msg : List Nat) :
    Nat → Nat → List Nat → Broker → MQTT_Session_t →
      Option (Option (List Nat) × Broker × MQTT_Session_t)
  | 0, _, g_qos, b, session => some (some g_qos, b, session)
  | fuel + 1, p, g_qos, b, session =>
    if p + 4 ≤ msg.length then
      if g_qos.length ≥ cfg.MAX_SUBSCRIPTIONS then some (none, b, session)
      else
        match MQTT_br_readString msg p with
        | (none, _) => some (none, b, session)
        | (some topic_filter, p) =>
          if topic_filter.length = 0 then some (none, b, session)
          else if filter_error topic_filter then some (none, b, session)
          else
            match msg.get? p with
            | none => none
            | some qos =>
              if qos > 2 then some (none, b, session)
              else
                let r := MQTT_subscriptions_add cfg session (some topic_filter) qos
                let b :=
                  if r.1 ≠ 0x80 then
                    MQTT_queue_handleRetained net b session.sd topic_filter r.1
                  else b
                subscribe_loop net cfg msg fuel (p + 1) (g_qos ++ [r.1]) b r.2
    else some (some g_qos, b, session)

/-- The function `subscribe_h` for the packet `msg` of `session`: `none` is a read
outside the packet buffer, otherwise the returned value, the broker and the
session. Every round of the loop reads at least four bytes, so `msg.length` rounds
are enough. -/
def subscribe_h (net : Net) (cfg : Config) (b : Broker) (session : MQTT_Session_t)
    (msg : List Nat) : Option (Bool × Broker × MQTT_Session_t) :=
  if msg.length < 8 then some (false, b, session)
  else
    match msg.get? 0 with
    | none => none
    | some byte =>
      if (byte / 16) % 16 ≠ 8 then some (false, b, session)
      else if (byte / 8) % 2 ≠ 0 ∨ (byte / 2) % 4 ≠ 1 ∨ byte % 2 ≠ 0 then
        some (false, b, session)
      else
        match MQTT_br_decodeSize msg 1 with
        | none => none
        | some (n, s) =>
          if s < 6 then some (false, b, session)
          else
            match MQTT_br_readInt msg (1 + n) with
            | none => none
            | some packet_id =>
              if packet_id = 0 then some (false, b, session)
              else
                match subscribe_loop net cfg msg msg.length (1 + n + 2) [] b session with
                | none => none
                | some (none, b, session) => some (false, b, session)
                | some (some g_qos, b, session) =>
                  if g_qos.length = 0 then some (false, b, session)
                  else
                    let r := send_suback net b session.sd packet_id g_qos
                    some (r.1, r.2, session)

/-! ## CONNECT handler (`mqtt_br_handler.c`) -/

/-- The function `send_connack`. -/
def send_connack (net : Net) (b : Broker) (sd : Int) (connack : Nat) (session_present : Bool) :
    Bool × Broker :=
  do_send net b sd [2 * 16, 2, if connack = 0 ∧ session_present then 1 else 0, connack]

/-- The part of `connect_h` after the label `end`, for the session at position `i`:
the returned value, the position and the broker. A `connack` other than 0xFF is
sent; after a CONNACK with code 0 and session-present 1 the retained messages are
replayed for every subscription of the session. The `free` calls have no effect on
the model. -/
def connect_end (net : Net) (b : Broker) (i : Nat) (connack : Nat) (session_present : Bool) :
    Bool × Nat × Broker :=
  if connack ≠ 0xFF then
    match b.sessions_current.get? i with
    | none => (false, i, b)
    | some session =>
      let r := send_connack net b session.sd connack session_present
      if r.1 = false then (false, i, r.2)
      else
        let b :=
          if connack = 0 ∧ session_present then
            session.subscriptions.foldl
              (fun b sub => MQTT_queue_handleRetained net b session.sd sub.topic_filter sub.qos)
              r.2
          else r.2
        (connack = 0, i, b)
  else (false, i, b)

/-- The protocol version `connect_h` finds after the protocol name `magic` was read
and `p` stands behind it: 4 for "MQTT" with level 4, 3 for "MQIsdp" with level 3, and
0 otherwise; the level byte is read only after one of the two names. `none` is a
read outside the packet buffer. -/
def connect_version (msg : List Nat) (magic : Option CStr) (p : Nat) : Option (Nat × Nat) :=
  match magic with
  | none => some (0, p)
  | some m =>
    if m = cstr "MQTT" then
      match msg.get? p with
      | none => none
      | some v => some (if v = 4 then 4 else 0, p + 1)
    else if m = cstr "MQIsdp" then
      match msg.get? p with
      | none => none
      | some v => some (if v = 3 then 3 else 0, p + 1)
    else some (0, p)

/-- The last-will part of `connect_h` for the connect flags `flags`, from index `p`
on: `none` is a read outside the packet buffer, `Except.error` is a `goto end` with
that `connack`, and otherwise the will (`none` when the will flag is 0) and the new
`p`. The allocation of the payload succeeds. -/
def connect_will (msg : List Nat) (flags p : Nat) :
    Option (Except Nat (Option MQTT_Message_t × Nat)) :=
  let will := (flags / 4) % 2
  let willQoS := (flags / 8) % 4
  let willRetain := (flags / 32) % 2
  if will ≠ 0 then
    match MQTT_br_readString msg p with
    | (none, _) => some (Except.error 0xFF)
    | (some topic, p) =>
      if topic.length = 0 then some (Except.error 0xFF)
      else if chHash ∈ topic ∨ chPlus ∈ topic ∨ topic.head? = some chDollar then
        some (Except.error 0xFF)
      else if willQoS ≠ 0 ∧ willQoS ≠ 1 ∧ willQoS ≠ 2 then some (Except.error 0xFF)
      else
        match MQTT_br_readInt msg p with
        | none => none
        | some size =>
          let p := p + 2
          if size ≠ 0 then
            if p + size > msg.length then some (Except.error 0xFF)
            else
              some (Except.ok (some
                { topic := topic, id := 0,
                  flags := { retain := willRetain, qos := willQoS, dup := 0 },
                  payload := (msg.drop p).take size }, p + size))
          else
            some (Except.ok (some
              { topic := topic, id := 0,
                flags := { retain := willRetain, qos := willQoS, dup := 0 },
                payload := [] }, p))
  else if willQoS ≠ 0 ∨ willRetain ≠ 0 then some (Except.error 0xFF)
  else some (Except.ok (none, p))

/-- The username and password part of `connect_h`, from index `p` on: `none` is a
read outside the packet buffer, `Except.error` is a `goto end` with that `connack`,
and otherwise the new `p`. The allocation of the password succeeds. -/
def connect_credentials (msg : List Nat) (flags p : Nat) : Option (Except Nat Nat) :=
  let username := (flags / 128) % 2
  let password := (flags / 64) % 2
  let u : Except Nat Nat :=
    if username ≠ 0 then
      match MQTT_br_readString msg p with
      | (none, _) => Except.error 4
      | (some _, p) => Except.ok p
    else Except.ok p
  match u with
  | Except.error connack => some (Except.error connack)
  | Except.ok p =>
    if password ≠ 0 then
      if username = 0 then some (Except.error 0xFF)
      else
        match MQTT_br_readInt msg p with
        | none => none
        | some pass_len =>
          let p := p + 2
          if pass_len > 0 then
            if p + pass_len > msg.length then some (Except.error 0xFF)
            else some (Except.ok (p + pass_len))
          else some (Except.ok p)
    else some (Except.ok p)

/-- The function `MQTT_authenticate`: not implemented in the source, it returns 1. -/
def MQTT_authenticate : Bool := true

/-- The function `connect_h` for the packet `msg` of the session at position `i` of the
current list, at clock value `now`: `none` is a read outside the packet buffer,
otherwise the returned value, the position of the session afterwards and the
broker. -/
def connect_h (net : Net) (cfg : Config) (b : Broker) (i : Nat) (msg : List Nat) (now : Nat) :
    Option (Bool × Nat × Broker) :=
  if msg.length < 14 then some (false, i, b)
  else
    match msg.get? 0 with
    | none => none
    | some byte =>
      if (byte / 16) % 16 ≠ 1 then some (false, i, b)
      else if (byte / 8) % 2 ≠ 0 ∨ (byte / 2) % 4 ≠ 0 ∨ byte % 2 ≠ 0 then some (false, i, b)
      else
        match MQTT_br_decodeSize msg 1 with
        | none => none
        | some (n, s) =>
          if 1 + n + s ≠ msg.length then some (false, i, b)
          else
            let magic := MQTT_br_readString msg (1 + n)
            match connect_version msg magic.1 magic.2 with
            | none => none
            | some (version, p) =>
              if version = 0 then some (connect_end net b i 1 false)
              else
                match msg.get? p with
                | none => none
                | some flags =>
                  if flags % 2 ≠ 0 then some (connect_end net b i 0xFF false)
                  else
                    match MQTT_br_readInt msg (p + 1) with
                    | none => none
                    | some keepalive =>
                      let client_id := MQTT_br_readString msg (p + 3)
                      let cleanSession := (flags / 2) % 2
                      if client_id.1 = none ∧ version = 3 then
                        some (connect_end net b i 2 false)
                      else if client_id.1 = none ∧ version = 4 ∧ cleanSession = 0 then
                        some (connect_end net b i 2 false)
                      else
                        match connect_will msg flags client_id.2 with
                        | none => none
                        | some (Except.error connack) =>
                          some (connect_end net b i connack false)
                        | some (Except.ok (lwt, p)) =>
                          match connect_credentials msg flags p with
                          | none => none
                          | some (Except.error connack) =>
                            some (connect_end net b i connack false)
                          | some (Except.ok _) =>
                            if MQTT_authenticate = false then
                              some (connect_end net b i 5 false)
                            else
                              let r := MQTT_session_activate cfg b i client_id.1 keepalive
                                (cleanSession ≠ 0) lwt now
                              some (connect_end net r.2.2 r.2.1 0 r.1)

/-! ## Packet reader (`mqtt_br_handler.c`, `MQTT_br_handler`) -/

/-- How the loop that reads the remaining length in `MQTT_br_handler` ends: with
`DROP_SESSION` (`rest` are the bytes of the socket not read), or with the length
bytes read (`size`, `size_len` of them), the remaining size and the bytes not
read. -/
inductive SizeRead where
  | drop (rest : List Nat)
  | size (size : List Nat) (remainingSize : Nat) (rest : List Nat)

/-- The do-while loop of step 2 of `MQTT_br_handler`. The first argument is what the
socket still delivers: `recv` of one byte takes its head and fails when it is empty.
`size` are the length bytes read so far (`size_len` is their number). -/
def read_size : List Nat → List Nat → Nat → Nat → SizeRead
  | [], _, _, _ => SizeRead.drop []
  | c :: rest, size, remainingSize, multiplier =>
    if size.length ≥ 4 then SizeRead.drop (c :: rest)
    else
      let remainingSize := remainingSize + (c % 128) * multiplier
      let multiplier := multiplier * 128
      if (c / 128) % 2 ≠ 0 then read_size rest (size ++ [c]) remainingSize multiplier
      else SizeRead.size (size ++ [c]) remainingSize rest

/-- The function `MQTT_br_handler` for the session at position `i` of the current
list, with `input` what its socket delivers: the broker and the bytes not read.
Steps 1 to 4 read the header byte, the remaining length and the rest of the packet
(`DROP_SESSION` is `MQTT_session_drop`; the allocation succeeds; a `recv` that cannot
fill the packet fails). Step 5, the handling of the packet `msg` according to its
type, is the parameter `handle`. -/
def MQTT_br_handler (handle : Broker → Nat → List Nat → Broker) (cfg : Config) (b : Broker)
    (i : Nat) (input : List Nat) : Broker × List Nat :=
  match input with
  | [] => (MQTT_session_drop cfg b i, [])
  | header_byte :: input =>
    match read_size input [] 0 1 with
    | SizeRead.drop rest => (MQTT_session_drop cfg b i, rest)
    | SizeRead.size size remainingSize rest =>
      if remainingSize > 0 ∧ rest.length < remainingSize then (MQTT_session_drop cfg b i, [])
      else (handle b i ([header_byte] ++ size ++ rest.take remainingSize),
        rest.drop remainingSize)

/-! ## XTEA (`xtea.c`, `xtea.h`) -/

/-- The constant `XTEA_DELTA`. -/
def XTEA_DELTA : Nat := 0x9E3779B9

/-- The constant `XTEA_NUMBER_OF_ROUNDS`. -/
def XTEA_NUMBER_OF_ROUNDS : Nat := 16

/-- The struct `XTEA_t`: the words `key[0]` to `key[3]`. -/
structure XTEA_t where
  key : List Nat
  deriving DecidableEq

/-- The function `XTEA_init`: the four words of the key are copied. -/
def XTEA_init (key : List Nat) : XTEA_t :=
  { key := (List.range 4).map (fun i => key.getD i 0) }

/-- The expression `(((d << 4) ^ (d >> 5)) + d) ^ (sum + xtea->key[idx])` on
`uint32_t`. -/
def xtea_term (xtea : XTEA_t) (d sum idx : Nat) : Nat :=
  (((((d <<< 4) % 2 ^ 32) ^^^ (d >>> 5)) + d) % 2 ^ 32)
    ^^^ ((sum + xtea.key.getD idx 0) % 2 ^ 32)

/-- The body of the loop of `XTEA_encrypt` on `(d0, d1, sum)`. -/
def XTEA_encrypt_round (xtea : XTEA_t) (s : Nat × Nat × Nat) : Nat × Nat × Nat :=
  let d0 := s.1
  let d1 := s.2.1
  let sum := s.2.2
  let d0 := (d0 + xtea_term xtea d1 sum (sum &&& 3)) % 2 ^ 32
  let sum := (sum + XTEA_DELTA) % 2 ^ 32
  let d1 := (d1 + xtea_term xtea d0 sum ((sum >>> 11) &&& 3)) % 2 ^ 32
  (d0, d1, sum)

/-- The function `XTEA_encrypt` on `data[0]` and `data[1]`: the loop runs
`XTEA_NUMBER_OF_ROUNDS` times from `sum = 0`. -/
def XTEA_encrypt (xtea : XTEA_t) (data : Nat × Nat) : Nat × Nat :=
  let s := (XTEA_encrypt_round xtea)^[XTEA_NUMBER_OF_ROUNDS] (data.1, data.2, 0)
  (s.1, s.2.1)

/-- The body of the loop of `XTEA_decrypt` on `(d0, d1, sum)`; a subtraction on
`uint32_t` adds `2 ^ 32` before it subtracts. -/
def XTEA_decrypt_round (xtea : XTEA_t) (s : Nat × Nat × Nat) : Nat × Nat × Nat :=
  let d0 := s.1
  let d1 := s.2.1
  let sum := s.2.2
  let d1 := (d1 + 2 ^ 32 - xtea_term xtea d0 sum ((sum >>> 11) &&& 3)) % 2 ^ 32
  let sum := (sum + 2 ^ 32 - XTEA_DELTA) % 2 ^ 32
  let d0 := (d0 + 2 ^ 32 - xtea_term xtea d1 sum (sum &&& 3)) % 2 ^ 32
  (d0, d1, sum)

/-- The function `XTEA_decrypt` on `data[0]` and `data[1]`: the loop runs
`XTEA_NUMBER_OF_ROUNDS` times from `sum = XTEA_DELTA * XTEA_NUMBER_OF_ROUNDS`. -/
def XTEA_decrypt (xtea : XTEA_t) (data : Nat × Nat) : Nat × Nat :=
  let s := (XTEA_decrypt_round xtea)^[XTEA_NUMBER_OF_ROUNDS]
    (data.1, data.2, (XTEA_DELTA * XTEA_NUMBER_OF_ROUNDS) % 2 ^ 32)
  (s.1, s.2.1)

/-! ## Notions used by the statements -/

/-- What the fan-out may change in an entry: only the QoS bits of its message. -/
def SameEntry (q q' : MQTT_Queue_t) : Prop :=
  q'.p_qos = q.p_qos ∧ q'.retain = q.retain ∧ q'.message.topic = q.message.topic ∧
    q'.message.id = q.message.id ∧ q'.message.payload = q.message.payload ∧
    q'.message.flags.retain = q.message.flags.retain ∧ q'.message.flags.dup = q.message.flags.dup

/-- Two broker states that differ at most in the trace of socket events. -/
def SameButWire (b b' : Broker) : Prop :=
  b'.sessions_current = b.sessions_current ∧ b'.sessions_stored = b.sessions_stored ∧
    b'.queues_pending = b.queues_pending ∧ b'.queues_retained = b.queues_retained ∧
    b'.next = b.next

/-- What a retained entry stands for: its topic, its payload and the publisher's
original QoS. -/
def entryView (q : MQTT_Queue_t) : CStr × List Nat × Nat :=
  (q.message.topic, q.message.payload, q.p_qos)

/-- A network on which every send succeeds. -/
def netUp : Net := fun _ _ _ => true

/-- The topics of the retained store, oldest first. -/
def retainedTopics (b : Broker) : List CStr :=
  b.queues_retained.map (fun r => r.message.topic)

/-- The retained-store invariant: no two entries have the same topic and there are
at most `MAX_RETAINED` entries. -/
def RetainedInv (cfg : Config) (b : Broker) : Prop :=
  (retainedTopics b).Nodup ∧ b.queues_retained.length ≤ cfg.MAX_RETAINED

instance (cfg : Config) (b : Broker) : Decidable (RetainedInv cfg b) := by
  unfold RetainedInv; infer_instance

/-- The broker states reachable from the initial one. Only `MQTT_queue_process` and
`MQTT_queue_handleRetained` access `queues.retained`; every other operation of the
broker is a step that leaves the retained list as it is. -/
inductive RetainedReachable (cfg : Config) : Broker → Prop where
  | init : RetainedReachable cfg Broker.init
  | process (net : Net) (b : Broker) :
      RetainedReachable cfg b → RetainedReachable cfg (MQTT_queue_process net cfg b)
  | replay (net : Net) (b : Broker) (sd : Int) (topic_filter : CStr) (g_qos : Nat) :
      RetainedReachable cfg b →
      RetainedReachable cfg (MQTT_queue_handleRetained net b sd topic_filter g_qos)
  | drop (b : Broker) (i : Nat) :
      RetainedReachable cfg b → RetainedReachable cfg (MQTT_session_drop cfg b i)
  | publish (net : Net) (b b' : Broker) (session session' : MQTT_Session_t) (msg : List Nat)
      (ok : Bool) :
      RetainedReachable cfg b → publish_h net cfg b session msg = some (ok, b', session') →
      RetainedReachable cfg b'
  | other (b b' : Broker) :
      RetainedReachable cfg b → b'.queues_retained = b.queues_retained →
      RetainedReachable cfg b'

/-- The value of the id counter after `next_id` was called with the counter at `n`:
the next 16-bit value, stepping over 0. -/
def next_after (n : Nat) : Nat := if (n + 1) % 65536 = 0 then 1 else (n + 1) % 65536

/-- The PUBLISH packet as the specification describes it: a header byte with type 3,
dup 0, the QoS in bits 2-1 and the retain bit in bit 0; the remaining length; the
topic as a length-prefixed string; the packet-id when the QoS is not 0; the
payload. -/
def publish_packet (topic : CStr) (id qos retain : Nat) (payload : List Nat) : List Nat :=
  [48 + 2 * qos + retain]
    ++ MQTT_br_encodeSize (2 + topic.length + (if qos = 0 then 0 else 2) + payload.length)
    ++ MQTT_br_writeString topic
    ++ (if qos = 0 then [] else MQTT_br_writeInt id)
    ++ payload

/-- Fan-out of an entry to one session as the specification describes it: for every
subscription whose filter matches the topic of the entry, in order, one PUBLISH sent
on the socket of the session with QoS min(p_qos, granted QoS) and retain bit 0. -/
def fanout_session (sd : Int) (subs : List MQTT_Subscription_t) (entry : MQTT_Queue_t)
    (id : Nat) : List Event :=
  (subs.filter (fun sub => isTopicMatched sub.topic_filter entry.message.topic)).map
    (fun sub => Event.send sd
      (publish_packet entry.message.topic id (min entry.p_qos sub.qos) 0 entry.message.payload)
      true)

/-- Fan-out of an entry to every session, in the order of the session list. -/
def fanout_entry (entry : MQTT_Queue_t) (id : Nat) : List MQTT_Session_t → List Event
  | [] => []
  | s :: rest => fanout_session s.sd s.subscriptions entry id ++ fanout_entry entry id rest

/-- Fan-out of the pending entries, head first, each with the next packet-id. -/
def fanout_all (sessions : List MQTT_Session_t) : List MQTT_Queue_t → Nat → List Event
  | [], _ => []
  | entry :: rest, id =>
    fanout_entry entry id sessions ++ fanout_all sessions rest (next_after id)

/-- Retained replay as the specification describes it: for every stored entry whose
topic matches the filter, in store order, one PUBLISH on the socket with QoS
min(original QoS, granted QoS) and retain bit 1, each with the next packet-id. -/
def replay_retained (sd : Int) (topic_filter : CStr) (g_qos : Nat) :
    List MQTT_Queue_t → Nat → List Event
  | [], _ => []
  | r :: rest, id =>
    if isTopicMatched topic_filter r.message.topic then
      Event.send sd
        (publish_packet r.message.topic id (min r.p_qos g_qos) 1 r.message.payload) true
        :: replay_retained sd topic_filter g_qos rest (next_after id)
    else replay_retained sd topic_filter g_qos rest id

/-- The PUBREC packet for packet-id `k`: type 5, remaining length 2, the packet-id
in big-endian order. -/
def pubrec_packet (k : Nat) : List Nat := [80, 2, (k / 256) % 256, k % 256]

/-- A session handling the PUBLISH packets `msgs` one after the other, with no other
packet (in particular no PUBREL) in between. A return value of 0 makes the caller
drop the session, whose in-flight array comes back when the session is restored, so
the run goes on with the state the handler left. `none` is a read outside a packet
buffer. -/
def publish_all (net : Net) (cfg : Config) :
    List (List Nat) → Broker → MQTT_Session_t → Option (Broker × MQTT_Session_t)
  | [], b, session => some (b, session)
  | msg :: rest, b, session =>
    match publish_h net cfg b session msg with
    | none => none
    | some r => publish_all net cfg rest r.2.1 r.2.2

/-- The number of pending entries that come from a QoS-2 PUBLISH with packet-id
`k`. -/
def qos2_count (k : Nat) (pending : List MQTT_Queue_t) : Nat :=
  pending.countP (fun q => q.message.id = k ∧ q.p_qos = 2)

/-- The PUBCOMP packet for packet-id `k`: bytes 0x70 0x02 and the packet-id in
big-endian order. -/
def pubcomp_packet (k : Nat) : List Nat := [0x70, 2, (k / 256) % 256, k % 256]

/-- A packet as `MQTT_br_handler` reads it: the header byte, at most four length
bytes of which the last has bit 7 clear, and as many bytes as they say. -/
def Framed (msg : List Nat) : Prop :=
  ∃ n s, MQTT_br_decodeSize msg 1 = some (n, s) ∧ n ≤ 4 ∧ msg.length = 1 + n + s

/-- What the specification asks of a PUBREL with packet-id `k`: 4 bytes, header flags
dup = 0, qos = 1, retain = 0, remaining length 2 and a packet-id that is not 0. -/
def PubrelShape (msg : List Nat) (k : Nat) : Prop :=
  msg.length = 4 ∧ (msg.getD 0 0 / 8) % 2 = 0 ∧ (msg.getD 0 0 / 2) % 4 = 1 ∧
    msg.getD 0 0 % 2 = 0 ∧ msg.getD 1 0 = 2 ∧ k = 256 * msg.getD 2 0 + msg.getD 3 0 ∧ k ≠ 0

instance (msg : List Nat) (k : Nat) : Decidable (PubrelShape msg k) := by
  unfold PubrelShape; infer_instance

/-- A session at the end of `MQTT_session_activate`: cleaned when the session is
clean, as it is otherwise. -/
def settled (cfg : Config) (clean : Bool) (session : MQTT_Session_t) : MQTT_Session_t :=
  if clean then cleaned cfg session else session

/-- The client-ids of the sessions of a list that have one, in list order. -/
def sessionIds (l : List MQTT_Session_t) : List CStr := l.filterMap (fun s => s.id)

/-- The session invariant on the current and the stored list: the client-ids of all
these sessions are pairwise distinct; a current session that is not active has no
client-id; no client-id is empty; a stored session is not active, not clean, has no
socket and has a client-id. -/
def IdInvL (current stored : List MQTT_Session_t) : Prop :=
  (sessionIds (current ++ stored)).Nodup ∧
  (∀ s ∈ current, s.active = false → s.id = none) ∧
  (∀ s ∈ current ++ stored, s.id ≠ some []) ∧
  (∀ s ∈ stored, s.active = false ∧ s.clean = false ∧ s.sd = -1 ∧ s.id ≠ none)

/-- The session invariant of a broker state. -/
def IdInv (b : Broker) : Prop := IdInvL b.sessions_current b.sessions_stored

/-- The bounds of the tables of a broker state. -/
def BoundInv (cfg : Config) (b : Broker) : Prop :=
  b.sessions_current.length ≤ cfg.MAX_SESSIONS ∧
  b.sessions_stored.length ≤ cfg.MAX_STORED_SESSIONS ∧
  (∀ s ∈ b.sessions_current ++ b.sessions_stored,
    s.subscriptions.length ≤ cfg.MAX_SUBSCRIPTIONS) ∧
  b.queues_pending.length ≤ cfg.QUEUE_SIZE

/-- The broker states reachable from the initial one by the operations on sessions,
subscriptions and queues. `activate` is `MQTT_session_activate` as `MQTT_br_handler`
calls it through `connect_h`, on a session that is not active; `discard` is the
removal of a session whose CONNECT failed; the handlers that take a session by value
put it back at its position. -/
inductive Reachable (cfg : Config) : Broker → Prop where
  | init : Reachable cfg Broker.init
  | create (b : Broker) (sd : Int) (now : Nat) :
      Reachable cfg b → Reachable cfg (MQTT_session_create cfg b sd now).2
  | activate (b : Broker) (i : Nat) (session : MQTT_Session_t) (client_id : Option CStr)
      (keepalive : Nat) (clean : Bool) (lwt : Option MQTT_Message_t) (now : Nat) :
      Reachable cfg b → b.sessions_current.get? i = some session → session.active = false →
      Reachable cfg (MQTT_session_activate cfg b i client_id keepalive clean lwt now).2.2
  | close (b : Broker) (i : Nat) :
      Reachable cfg b → Reachable cfg (MQTT_session_close cfg b i)
  | drop (b : Broker) (i : Nat) :
      Reachable cfg b → Reachable cfg (MQTT_session_drop cfg b i)
  | discard (b : Broker) (i : Nat) :
      Reachable cfg b →
      Reachable cfg { b with sessions_current := b.sessions_current.eraseIdx i }
  | subscribe (b : Broker) (i : Nat) (session : MQTT_Session_t) (topic_filter : Option CStr)
      (qos : Int) :
      Reachable cfg b → b.sessions_current.get? i = some session →
      Reachable cfg { b with sessions_current :=
        b.sessions_current.set i (MQTT_subscriptions_add cfg session topic_filter qos).2 }
  | unsubscribe (b : Broker) (i : Nat) (session : MQTT_Session_t)
      (topic_filter : Option CStr) :
      Reachable cfg b → b.sessions_current.get? i = some session →
      Reachable cfg { b with sessions_current :=
        b.sessions_current.set i (MQTT_subscriptions_remove session topic_filter) }
  | enqueue (b : Broker) (message : MQTT_Message_t) :
      Reachable cfg b → Reachable cfg (MQTT_queue_add cfg b message).2
  | publish (net : Net) (b : Broker) (i : Nat) (session : MQTT_Session_t) (msg : List Nat)
      (r : Bool × Broker × MQTT_Session_t) :
      Reachable cfg b → b.sessions_current.get? i = some session →
      publish_h net cfg b session msg = some r →
      Reachable cfg { r.2.1 with sessions_current := r.2.1.sessions_current.set i r.2.2 }
  | pubrel (net : Net) (b : Broker) (i : Nat) (session : MQTT_Session_t) (msg : List Nat)
      (r : Bool × Broker × MQTT_Session_t) :
      Reachable cfg b → b.sessions_current.get? i = some session →
      pubrel_h net cfg b session msg = some r →
      Reachable cfg { r.2.1 with sessions_current := r.2.1.sessions_current.set i r.2.2 }
  | process (net : Net) (b : Broker) :
      Reachable cfg b → Reachable cfg (MQTT_queue_process net cfg b)
  | replay (net : Net) (b : Broker) (sd : Int) (topic_filter : CStr) (g_qos : Nat) :
      Reachable cfg b →
      Reachable cfg (MQTT_queue_handleRetained net b sd topic_filter g_qos)

/-- A byte string that is a concatenation of units: one byte below 0x80; a byte
110xxxxx and one byte 10xxxxxx; a byte 1110xxxx and two bytes 10xxxxxx; a byte
11110xxx and three bytes 10xxxxxx. -/
inductive Utf8Units : List Nat → Prop where
  | nil : Utf8Units []
  | one (b : Nat) (rest : List Nat) : b < 128 → Utf8Units rest → Utf8Units (b :: rest)
  | two (b c1 : Nat) (rest : List Nat) : b / 32 = 6 → c1 / 64 = 2 → Utf8Units rest →
      Utf8Units (b :: c1 :: rest)
  | three (b c1 c2 : Nat) (rest : List Nat) : b / 16 = 14 → c1 / 64 = 2 → c2 / 64 = 2 →
      Utf8Units rest → Utf8Units (b :: c1 :: c2 :: rest)
  | four (b c1 c2 c3 : Nat) (rest : List Nat) : b / 8 = 30 → c1 / 64 = 2 → c2 / 64 = 2 →
      c3 / 64 = 2 → Utf8Units rest → Utf8Units (b :: c1 :: c2 :: c3 :: rest)

/-- The number of continuation bytes a leading byte announces: 1 for 110xxxxx, 2 for
1110xxxx, 3 for 11110xxx, and 0 for any other byte. -/
def announced (lead : Nat) : Nat :=
  if lead / 32 = 6 then 1 else if lead / 16 = 14 then 2 else if lead / 8 = 30 then 3 else 0

/-- A string with a continuation byte (10xxxxxx) where a unit has to start. -/
def StrayContinuation (s : List Nat) : Prop :=
  ∃ pre c post, s = pre ++ c :: post ∧ Utf8Units pre ∧ c / 64 = 2

/-- A string with a multi-byte sequence cut short: after complete units, a leading
byte followed by fewer continuation bytes than it announces, and then the end of
the string or a byte that is not a continuation byte. -/
def TruncatedSequence (s : List Nat) : Prop :=
  ∃ pre lead conts post, s = pre ++ lead :: conts ++ post ∧ Utf8Units pre ∧
    (∀ c ∈ conts, c / 64 = 2) ∧ conts.length < announced lead ∧
    (post = [] ∨ ∃ d rest, post = d :: rest ∧ d / 64 ≠ 2)

/-- The body of a PUBLISH packet on the wire: the topic as a length-prefixed string,
the packet-id when the QoS is not 0, and the payload. -/
def publish_body (qos : Nat) (topic : CStr) (id : Nat) (payload : List Nat) : List Nat :=
  MQTT_br_writeString topic ++ (if qos = 0 then [] else MQTT_br_writeInt id) ++ payload

/-- A PUBLISH packet on the wire: the header byte with type 3 and the bits `dup`,
`qos` (two bits) and `retain`, the remaining length, and the body. -/
def publish_bytes (dup qos retain : Nat) (topic : CStr) (id : Nat) (payload : List Nat) :
    List Nat :=
  [48 + 8 * dup + 2 * qos + retain]
    ++ MQTT_br_encodeSize (publish_body qos topic id payload).length
    ++ publish_body qos topic id payload

/-- A CONNECT packet on the wire: the header byte 0x10, the remaining length, the
protocol name as a length-prefixed string, the protocol level, the connect flags,
the keepalive, and what follows (client-id, will, username, password). -/
def connect_bytes (magic : CStr) (level flags keepalive : Nat) (rest : List Nat) : List Nat :=
  [0x10]
    ++ MQTT_br_encodeSize
      (MQTT_br_writeString magic ++ [level, flags] ++ MQTT_br_writeInt keepalive ++ rest).length
    ++ (MQTT_br_writeString magic ++ [level, flags] ++ MQTT_br_writeInt keepalive ++ rest)

/-- Wildcard placement as the specification states it: a '#' is the last character
and is alone or comes right after a '/'; every '+' fills a whole level (each
neighbour, when there is one, is '/'). -/
def WildcardsPlaced (f : CStr) : Prop :=
  ∀ k < f.length,
    (f.getD k 0 = chHash → k + 1 = f.length ∧ (k = 0 ∨ f.getD (k - 1) 0 = chSlash)) ∧
    (f.getD k 0 = chPlus →
      (k = 0 ∨ f.getD (k - 1) 0 = chSlash) ∧ (k + 1 = f.length ∨ f.getD (k + 1) 0 = chSlash))

instance (f : CStr) : Decidable (WildcardsPlaced f) := by
  unfold WildcardsPlaced; infer_instance

/-- A topic filter a SUBSCRIBE may carry: not empty, at most 65535 bytes, a
concatenation of UTF-8 units without NUL, with the wildcards placed as the
specification states. -/
def ValidFilter (f : CStr) : Prop :=
  f ≠ [] ∧ f.length ≤ 65535 ∧ Utf8Units f ∧ 0 ∉ f ∧ WildcardsPlaced f

/-- The (filter, requested QoS) pairs of a SUBSCRIBE on the wire: each filter as a
length-prefixed string followed by the QoS byte. -/
def subscribe_entries : List (CStr × Nat) → List Nat
  | [] => []
  | e :: es => MQTT_br_writeString e.1 ++ [e.2] ++ subscribe_entries es

/-- A SUBSCRIBE packet on the wire: the header byte 0x82, the remaining length, the
packet-id and the (filter, requested QoS) pairs. -/
def subscribe_bytes (id : Nat) (entries : List (CStr × Nat)) : List Nat :=
  [0x82] ++ MQTT_br_encodeSize (2 + (subscribe_entries entries).length)
    ++ MQTT_br_writeInt id ++ subscribe_entries entries

/-- The session after `MQTT_subscriptions_add` was called for each pair in order. -/
def added (cfg : Config) : MQTT_Session_t → List (CStr × Nat) → MQTT_Session_t
  | s, [] => s
  | s, e :: es => added cfg (MQTT_subscriptions_add cfg s (some e.1) e.2).2 es

/-- The values `MQTT_subscriptions_add` returns when it is called for each pair in
order. -/
def grants (cfg : Config) : MQTT_Session_t → List (CStr × Nat) → List Nat
  | _, [] => []
  | s, e :: es =>
    (MQTT_subscriptions_add cfg s (some e.1) e.2).1
      :: grants cfg (MQTT_subscriptions_add cfg s (some e.1) e.2).2 es

/-- The broker after the retained messages were replayed for each pair that
`MQTT_subscriptions_add` granted, in order. -/
def replayed (net : Net) (cfg : Config) : Broker → MQTT_Session_t → List (CStr × Nat) → Broker
  | b, _, [] => b
  | b, s, e :: es =>
    replayed net cfg
      (if (MQTT_subscriptions_add cfg s (some e.1) e.2).1 ≠ 0x80 then
        MQTT_queue_handleRetained net b s.sd e.1 (MQTT_subscriptions_add cfg s (some e.1) e.2).1
       else b)
      (MQTT_subscriptions_add cfg s (some e.1) e.2).2 es

/-- The pending entries in the order in which the rounds of `MQTT_queue_process` take
them off the head of the pending list, for at most `fuel` rounds. -/
def drain_order (net : Net) (cfg : Config) : Nat → Broker → List MQTT_Queue_t
  | 0, _ => []
  | fuel + 1, b =>
    match b.queues_pending with
    | [] => []
    | queue :: _ => queue :: drain_order net cfg fuel (process_head net cfg b)

/-- An entry that `MQTT_session_drop` makes of the will of one of the sessions. -/
def WillOf (sessions : List MQTT_Session_t) (e : MQTT_Queue_t) : Prop :=
  ∃ s ∈ sessions, ∃ m, s.lwt = some m ∧ e = queue_entry m

/-- A socket event on the socket `sd`: a send, whether it succeeded or not. -/
def OnSocket (sd : Int) (e : Event) : Prop := ∃ buf ok, e = Event.send sd buf ok

/-- What a fan-out may do to the queues and the sessions besides sending: wills of
dropped sessions are appended to the pending queue, and the current list loses at
least as many sessions as wills were appended. -/
def WillsAdded (b b' : Broker) : Prop :=
  ∃ added, b'.queues_pending = b.queues_pending ++ added ∧
    added.length + b'.sessions_current.length ≤ b.sessions_current.length ∧
    b'.sessions_current.Sublist b.sessions_current ∧
    ∀ e ∈ added, WillOf b.sessions_current e

/-! ## Sample data -/

/-- A configuration with small limits. -/
def cfgSample : Config :=
  { MAX_SESSIONS := 4, MAX_STORED_SESSIONS := 2, MAX_SUBSCRIPTIONS := 4, MAX_INFLIGHT := 2,
    QUEUE_SIZE := 2, MAX_RETAINED := 2, INACTIVE_TIMEOUT := 10, STORE_SESSIONS := true }

/-- A queue entry as `MQTT_queue_add` makes it from a PUBLISH with the given topic,
payload, QoS and retain bit. -/
def sampleEntry (topic : String) (payload : List Nat) (qos retain : Nat) : MQTT_Queue_t :=
  { p_qos := qos, retain := retain,
    message := { topic := cstr topic, id := 0,
                 flags := { retain := retain, qos := qos, dup := 0 }, payload := payload } }

/-- An active session on socket `sd` with the given subscriptions. -/
def sampleSession (sd : Int) (subs : List (String × Nat)) (inbound : List Nat) :
    MQTT_Session_t :=
  { id := none, active := true, sd := sd, clean := true, keepalive := 60, timer := 0,
    inbound := inbound, lwt := none,
    subscriptions := subs.map (fun x => { topic_filter := cstr x.1, qos := x.2 }) }

/-- A broker whose retained store is full (topics "a" and "b") and whose pending
queue holds a retained publication on topic "c". -/
def brokerRetainedFull : Broker :=
  { Broker.init with
    queues_retained := [sampleEntry "a" [1] 0 1, sampleEntry "b" [2] 1 1],
    queues_pending := [sampleEntry "c" [3] 1 1] }

/-- A broker with two sessions and one pending publication on "sensor/temp" with
payload "23", published with QoS 1 and retain = 1. The session on socket 3 has two
matching subscriptions (granted QoS 0 and 1) and one that does not match; the
session on socket 4 has one matching subscription (granted QoS 2). -/
def brokerFanout : Broker :=
  { Broker.init with
    sessions_current :=
      [sampleSession 3 [("sensor/+", 0), ("sensor/#", 1), ("other", 2)] [0, 0],
       sampleSession 4 [("sensor/temp", 2)] [0, 0]],
    queues_pending := [sampleEntry "sensor/temp" [50, 51] 1 1] }

/-- A broker whose pending queue is full (`QUEUE_SIZE` of `cfgSample` is 2). -/
def brokerQueueFull : Broker :=
  { Broker.init with
    queues_pending := [sampleEntry "x" [1] 0 0, sampleEntry "y" [2] 0 0] }

/-- A QoS-2 PUBLISH with dup = 0, packet-id 7, topic "a" and payload "!". -/
def publishQos2 : List Nat := [0x34, 6, 0, 1, 97, 0, 7, 33]

/-- A PUBREL for packet-id 7. -/
def pubrelSeven : List Nat := [0x62, 2, 0, 7]

/-- An active session on socket 3 with client-id "c1", not clean, with the
subscription "x" (granted QoS 1), packet-id 9 in flight and the will "status/c1" =
"offline" (QoS 1, retain 0). -/
def sessionC1 : MQTT_Session_t :=
  { id := some (cstr "c1"), active := true, sd := 3, clean := false, keepalive := 60,
    timer := 5, inbound := [9, 0],
    lwt := some { topic := cstr "status/c1", id := 0,
                  flags := { retain := 0, qos := 1, dup := 0 },
                  payload := cstr "offline" },
    subscriptions := [{ topic_filter := cstr "x", qos := 1 }] }

/-- A broker with the session "c1" and, after it, a half-open session on socket 4. -/
def brokerC1 : Broker :=
  { Broker.init with sessions_current := [sessionC1, new_session cfgSample 4 7] }

/-- The broker after two clients connect on sockets 3 and 4 with client-ids "c1"
and "c2", both with clean = 0. -/
def brokerTwoClients : Broker :=
  (MQTT_session_activate cfgSample
    (MQTT_session_create cfgSample
      (MQTT_session_activate cfgSample
        (MQTT_session_create cfgSample Broker.init 3 0).2
        0 (some (cstr "c1")) 60 false none 1).2.2
      4 2).2
    1 (some (cstr "c2")) 60 false none 3).2.2

/-- The broker after the client "c1" of `brokerTwoClients` disconnects. -/
def brokerOneStored : Broker := MQTT_session_close cfgSample brokerTwoClients 0

/-- A stored session with the given client-id: the session "c1" after a close. -/
def storedSample (id : String) : MQTT_Session_t :=
  closed { sessionC1 with id := some (cstr id) }

/-- A broker whose stored list is full (`MAX_STORED_SESSIONS` of `cfgSample` is 2),
with the sessions "c1" and "c2". -/
def brokerStoredFull : Broker :=
  { Broker.init with sessions_stored := [storedSample "c1", storedSample "c2"] }

/-- A broker whose current list is full (`MAX_SESSIONS` of `cfgSample` is 4). -/
def brokerSessionsFull : Broker :=
  { Broker.init with
    sessions_current := [new_session cfgSample 3 0, new_session cfgSample 4 0,
      new_session cfgSample 5 0, new_session cfgSample 6 0] }

/-- The broker after one connection was accepted on socket 3. -/
def brokerHalfOpen : Broker := (MQTT_session_create cfgSample Broker.init 3 0).2

/-- The broker `brokerOneStored` (the session "c1" stored, the session "c2" current)
with one retained message on the topic "a" and one pending publication. -/
def brokerBeforeRestart : Broker :=
  { brokerOneStored with
    queues_retained := [sampleEntry "a" [1] 0 1],
    queues_pending := [sampleEntry "b" [2] 0 0] }

/-- A network on which every send on the socket `sd` fails and every other send
succeeds. -/
def netFailing (sd : Int) : Net := fun _ sd' _ => decide (sd' ≠ sd)

/-- A broker with the session "c1" (subscribed to "x", with the will "status/c1") and
one pending publication on "x". -/
def brokerWillDrain : Broker :=
  { Broker.init with
    sessions_current := [sessionC1],
    queues_pending := [sampleEntry "x" [1] 0 0] }

/-- A broker with three sessions on the sockets 3, 4 and 5, each subscribed to "x",
and the id counter at 7. -/
def brokerThree : Broker :=
  { Broker.init with
    sessions_current :=
      [sampleSession 3 [("x", 0)] [0, 0], sampleSession 4 [("x", 1)] [0, 0],
       sampleSession 5 [("x", 2)] [0, 0]],
    next := 7 }

/-! ## Theorems: the topic matcher -/

theorem matchLoop_nil_right (f : CStr) : matchLoop f [] = f.isEmpty := by
  cases f <;> simp [matchLoop, matchResult]

theorem matchLoop_nil_left (n : CStr) : matchLoop [] n = n.isEmpty := by
  cases n <;> simp [matchLoop, matchResult]

/-- A literal character of the filter is consumed together with the same character
of the name. -/
theorem matchLoop_cons_same (c : Nat) (f n : CStr) (h1 : c ≠ chPlus) (h2 : c ≠ chHash) :
    matchLoop (c :: f) (c :: n) = matchLoop f n := by
  simp [matchLoop, h1, h2]

/-- A common wildcard-free beginning of filter and name is skipped. -/
theorem matchLoop_common (p f n : CStr) (hp : WildFree p) :
    matchLoop (p ++ f) (p ++ n) = matchLoop f n := by
  induction p with
  | nil => rfl
  | cons c p ih =>
    have hc1 : c ≠ chPlus := fun h => hp.1 (by simp [h])
    have hc2 : c ≠ chHash := fun h => hp.2 (by simp [h])
    have hp' : WildFree p :=
      ⟨fun h => hp.1 (List.mem_cons_of_mem _ h), fun h => hp.2 (List.mem_cons_of_mem _ h)⟩
    simpa [matchLoop, hc1, hc2] using ih hp'

/-- A wildcard-free filter matches only the name equal to it. -/
theorem matchLoop_literal (f : CStr) (hf : WildFree f) :
    ∀ n : CStr, matchLoop f n = true → f = n := by
  induction f with
  | nil => intro n h; cases n <;> simp_all [matchLoop, matchResult]
  | cons c f ih =>
    intro n h
    have hc1 : c ≠ chPlus := fun h => hf.1 (by simp [h])
    have hc2 : c ≠ chHash := fun h => hf.2 (by simp [h])
    have hf' : WildFree f :=
      ⟨fun h => hf.1 (List.mem_cons_of_mem _ h), fun h => hf.2 (List.mem_cons_of_mem _ h)⟩
    cases n with
    | nil => simp [matchLoop, matchResult] at h
    | cons d n =>
      by_cases hcd : c = d
      · subst hcd
        rw [matchLoop_cons_same c f n hc1 hc2] at h
        rw [ih hf' n h]
      · exfalso
        simp only [matchLoop] at h
        split at h
        · simp [matchResult] at h
        · simp [matchResult, hc1, hc2, hcd] at h

/-- The '+' loop stops on the last character of a level that is followed by '/'. -/
theorem skipLevel_level (x r : CStr) (hne : x ≠ []) (hx : chSlash ∉ x) :
    (skipLevel (x ++ chSlash :: r)).tail = chSlash :: r := by
  induction x with
  | nil => exact absurd rfl hne
  | cons c x ih =>
    cases x with
    | nil => simp [skipLevel]
    | cons d x =>
      have hd : d ≠ chSlash := fun h => hx (by simp [h])
      have hx' : chSlash ∉ d :: x := fun h => hx (List.mem_cons_of_mem _ h)
      have := ih (by simp) hx'
      simpa [skipLevel, hd] using this

/-- A '+' of the filter consumes a non-empty '/'-free level that is followed by '/'. -/
theorem matchLoop_plus_level (f x r : CStr) (hne : x ≠ []) (hx : chSlash ∉ x) :
    matchLoop (chPlus :: f) (x ++ chSlash :: r) = matchLoop f (chSlash :: r) := by
  have hs := skipLevel_level x r hne hx
  cases x with
  | nil => exact absurd rfl hne
  | cons c x =>
    have hc : c ≠ chSlash := fun h => hx (by simp [h])
    simp only [List.cons_append] at hs ⊢
    simp [matchLoop, hc, hs]

/-- A '+' of the filter does not consume an empty level. -/
theorem matchLoop_plus_slash (f r : CStr) :
    matchLoop (chPlus :: f) (chSlash :: r) = false := by
  simp [matchLoop, matchResult]

/-- A filter that does not begin with '#' is decided by the loop. -/
theorem isTopicMatched_of_head (f n : CStr) (h : f.head? ≠ some chHash) :
    isTopicMatched f n = matchLoop f n := by
  simp [isTopicMatched, h]

theorem head_append_ne_hash (p r : CStr) (hne : p ≠ []) (hp : WildFree p) :
    (p ++ r).head? ≠ some chHash := by
  cases p with
  | nil => exact absurd rfl hne
  | cons c p =>
    have hc2 : c ≠ chHash := fun h => hp.2 (by simp [h])
    simpa using hc2

/-- C2, as stated, fails on the topic "/a": it does not begin with '$' and the
filter "#" does not match it. -/
theorem hash_filter_rejects_leading_slash :
    ¬ (isTopicMatched (cstr "#") (cstr "/a") = true ↔ (cstr "/a").head? ≠ some chDollar) := by
  decide

/-- C2 (amended): for every topic string t, the filter "#" matches t exactly when t
is not empty and begins with neither '$' nor '/'. -/
theorem hash_filter_matches_iff (t : CStr) :
    isTopicMatched (cstr "#") t = true ↔
      (t ≠ [] ∧ t.head? ≠ some chDollar ∧ t.head? ≠ some chSlash) := by
  have hf : cstr "#" = [chHash] := by decide
  rw [hf]
  cases t with
  | nil => simp [isTopicMatched, matchLoop, matchResult]
  | cons c t =>
    by_cases h1 : c = chDollar
    · simp [isTopicMatched, h1]
    · by_cases h2 : c = chSlash
      · subst h2
        simp [isTopicMatched, matchLoop, matchResult]
      · simp [isTopicMatched, matchLoop, matchResult, h1, h2]

/-- C3, as stated, fails on its own example: the filter "a/#" does not match the
topic "a". -/
theorem hash_rejects_parent_level :
    ¬ (isTopicMatched (cstr "a" ++ cstr "/#") (cstr "a") = true) := by
  decide

/-- C3 (amended): for every non-empty wildcard-free topic p, the filter p + "/#"
does not match p itself: '#' does not match zero trailing levels. -/
theorem hash_needs_a_trailing_level (p : CStr) (hne : p ≠ []) (hp : WildFree p) :
    isTopicMatched (p ++ cstr "/#") p = false := by
  rw [isTopicMatched_of_head _ _ (head_append_ne_hash p _ hne hp)]
  have h := matchLoop_common p (cstr "/#") [] hp
  rw [List.append_nil] at h
  rw [h, matchLoop_nil_right]
  decide

theorem hash_needs_a_trailing_level_witness :
    cstr "a" ≠ [] ∧ WildFree (cstr "a") ∧ isTopicMatched (cstr "a" ++ cstr "/#") (cstr "a") = false :=
  ⟨by decide, by decide, hash_needs_a_trailing_level (cstr "a") (by decide) (by decide)⟩

/-- C4: for all non-empty, wildcard-free, '/'-free strings p, q and x, the filter
p + "/+/" + q matches the topic p + "/" + x + "/" + q, and for every further such
string y it does not match p + "/" + x + "/" + y + "/" + q. -/
theorem plus_matches_exactly_one_level (p q x : CStr) (hp : Level p) (hq : Level q)
    (hx : Level x) :
    isTopicMatched (p ++ cstr "/+/" ++ q) (p ++ cstr "/" ++ x ++ cstr "/" ++ q) = true ∧
    ∀ y : CStr, Level y →
      isTopicMatched (p ++ cstr "/+/" ++ q)
        (p ++ cstr "/" ++ x ++ cstr "/" ++ y ++ cstr "/" ++ q) = false := by
  have h1 : cstr "/+/" = [chSlash, chPlus, chSlash] := by decide
  have h2 : cstr "/" = [chSlash] := by decide
  have hs1 : chSlash ≠ chPlus := by decide
  have hs2 : chSlash ≠ chHash := by decide
  rw [h1, h2]
  constructor
  · rw [isTopicMatched_of_head _ _ (by
      rw [List.append_assoc]; exact head_append_ne_hash p _ hp.1 hp.2.1)]
    have e1 : p ++ [chSlash, chPlus, chSlash] ++ q = p ++ (chSlash :: chPlus :: chSlash :: q) := by
      simp
    have e2 : p ++ [chSlash] ++ x ++ [chSlash] ++ q = p ++ (chSlash :: (x ++ chSlash :: q)) := by
      simp
    rw [e1, e2, matchLoop_common p _ _ hp.2.1, matchLoop_cons_same _ _ _ hs1 hs2,
      matchLoop_plus_level _ x q hx.1 hx.2.2, matchLoop_cons_same _ _ _ hs1 hs2]
    have := matchLoop_common q [] [] hq.2.1
    simpa [matchLoop, matchResult] using this
  · intro y hy
    rw [isTopicMatched_of_head _ _ (by
      rw [List.append_assoc]; exact head_append_ne_hash p _ hp.1 hp.2.1)]
    have e1 : p ++ [chSlash, chPlus, chSlash] ++ q = p ++ (chSlash :: chPlus :: chSlash :: q) := by
      simp
    have e2 : p ++ [chSlash] ++ x ++ [chSlash] ++ y ++ [chSlash] ++ q
        = p ++ (chSlash :: (x ++ chSlash :: (y ++ chSlash :: q))) := by
      simp
    rw [e1, e2, matchLoop_common p _ _ hp.2.1, matchLoop_cons_same _ _ _ hs1 hs2,
      matchLoop_plus_level _ x _ hx.1 hx.2.2, matchLoop_cons_same _ _ _ hs1 hs2]
    cases hm : matchLoop q (y ++ chSlash :: q) with
    | false => rfl
    | true =>
      exfalso
      have := congrArg List.length (matchLoop_literal q hq.2.1 _ hm)
      simp at this
      omega

theorem plus_matches_exactly_one_level_witness :
    Level (cstr "a") ∧ Level (cstr "b") ∧ Level (cstr "x") ∧ Level (cstr "y") ∧
    isTopicMatched (cstr "a" ++ cstr "/+/" ++ cstr "b")
        (cstr "a" ++ cstr "/" ++ cstr "x" ++ cstr "/" ++ cstr "b") = true ∧
    isTopicMatched (cstr "a" ++ cstr "/+/" ++ cstr "b")
        (cstr "a" ++ cstr "/" ++ cstr "x" ++ cstr "/" ++ cstr "y" ++ cstr "/" ++ cstr "b")
      = false :=
  ⟨by decide, by decide, by decide, by decide,
    (plus_matches_exactly_one_level (cstr "a") (cstr "b") (cstr "x")
      (by decide) (by decide) (by decide)).1,
    (plus_matches_exactly_one_level (cstr "a") (cstr "b") (cstr "x")
      (by decide) (by decide) (by decide)).2 (cstr "y") (by decide)⟩

/-- C5, as stated, fails: the filter "a/+/b" does not match the topic "a//b", whose
middle level is empty. -/
theorem plus_rejects_empty_level :
    ¬ (isTopicMatched (cstr "a" ++ cstr "/+/" ++ cstr "b") (cstr "a" ++ cstr "//" ++ cstr "b") = true
      ∧ isTopicMatched (cstr "a" ++ cstr "/+") (cstr "a" ++ cstr "/") = true) := by
  decide

/-- C5 (amended): '+' does not match an empty topic level: for all wildcard-free,
'/'-free, non-empty p and q, the filter p + "/+/" + q does not match p + "//" + q and
the filter p + "/+" does not match p + "/". -/
theorem plus_needs_a_nonempty_level (p q : CStr) (hp : Level p) (_hq : Level q) :
    isTopicMatched (p ++ cstr "/+/" ++ q) (p ++ cstr "//" ++ q) = false ∧
    isTopicMatched (p ++ cstr "/+") (p ++ cstr "/") = false := by
  have h1 : cstr "/+/" = [chSlash, chPlus, chSlash] := by decide
  have h2 : cstr "//" = [chSlash, chSlash] := by decide
  have h3 : cstr "/+" = [chSlash, chPlus] := by decide
  have h4 : cstr "/" = [chSlash] := by decide
  have hs1 : chSlash ≠ chPlus := by decide
  have hs2 : chSlash ≠ chHash := by decide
  rw [h1, h2, h3, h4]
  constructor
  · rw [isTopicMatched_of_head _ _ (by
      rw [List.append_assoc]; exact head_append_ne_hash p _ hp.1 hp.2.1)]
    have e1 : p ++ [chSlash, chPlus, chSlash] ++ q = p ++ (chSlash :: chPlus :: chSlash :: q) := by
      simp
    have e2 : p ++ [chSlash, chSlash] ++ q = p ++ (chSlash :: chSlash :: q) := by simp
    rw [e1, e2, matchLoop_common p _ _ hp.2.1, matchLoop_cons_same _ _ _ hs1 hs2,
      matchLoop_plus_slash]
  · rw [isTopicMatched_of_head _ _ (head_append_ne_hash p _ hp.1 hp.2.1)]
    have e1 : p ++ [chSlash, chPlus] = p ++ (chSlash :: [chPlus]) := rfl
    have e2 : p ++ [chSlash] = p ++ (chSlash :: []) := rfl
    rw [e1, e2, matchLoop_common p _ _ hp.2.1, matchLoop_cons_same _ _ _ hs1 hs2,
      matchLoop_nil_right]
    rfl

theorem plus_needs_a_nonempty_level_witness :
    Level (cstr "a") ∧ Level (cstr "b") ∧
    isTopicMatched (cstr "a" ++ cstr "/+/" ++ cstr "b") (cstr "a" ++ cstr "//" ++ cstr "b") = false ∧
    isTopicMatched (cstr "a" ++ cstr "/+") (cstr "a" ++ cstr "/") = false :=
  ⟨by decide, by decide,
    plus_needs_a_nonempty_level (cstr "a") (cstr "b") (by decide) (by decide)⟩

theorem joinLevels_head (ls : List CStr) (hne : ls ≠ []) (hl : ∀ l ∈ ls, l ≠ [] ∧ chSlash ∉ l) :
    ∃ c r, joinLevels ls = c :: r ∧ c ≠ chSlash := by
  cases ls with
  | nil => exact absurd rfl hne
  | cons l ls =>
    have h := hl l (by simp)
    cases l with
    | nil => exact absurd rfl h.1
    | cons c l =>
      have hc : c ≠ chSlash := fun e => h.2 (by simp [e])
      cases ls with
      | nil => exact ⟨c, l, rfl, hc⟩
      | cons m ms => exact ⟨c, l ++ chSlash :: joinLevels (m :: ms), rfl, hc⟩

/-- C6: for every wildcard-free topic p and every remainder r made of one or more
non-empty levels joined by '/', the filter p + "/#" matches the topic p + "/" + r. -/
theorem hash_matches_trailing_levels (p : CStr) (ls : List CStr) (hp : WildFree p)
    (hne : ls ≠ []) (hl : ∀ l ∈ ls, l ≠ [] ∧ chSlash ∉ l) :
    isTopicMatched (p ++ cstr "/#") (p ++ cstr "/" ++ joinLevels ls) = true := by
  have h1 : cstr "/#" = [chSlash, chHash] := by decide
  have h2 : cstr "/" = [chSlash] := by decide
  have hs1 : chSlash ≠ chPlus := by decide
  have hs2 : chSlash ≠ chHash := by decide
  obtain ⟨c, r, hr, hc⟩ := joinLevels_head ls hne hl
  rw [h1, h2, hr]
  have hh : (p ++ [chSlash, chHash]).head? ≠ some chHash := by
    cases p with
    | nil => decide
    | cons d p =>
      have hd : d ≠ chHash := fun e => hp.2 (by simp [e])
      simpa using hd
  rw [isTopicMatched_of_head _ _ hh]
  have e1 : p ++ [chSlash, chHash] = p ++ (chSlash :: [chHash]) := rfl
  have e2 : p ++ [chSlash] ++ c :: r = p ++ (chSlash :: c :: r) := by simp
  rw [e1, e2, matchLoop_common p _ _ hp, matchLoop_cons_same _ _ _ hs1 hs2]
  simp [matchLoop, matchResult, hc]

theorem hash_matches_trailing_levels_witness :
    WildFree (cstr "a") ∧
    isTopicMatched (cstr "a" ++ cstr "/#")
      (cstr "a" ++ cstr "/" ++ joinLevels [cstr "b", cstr "c"]) = true ∧
    cstr "a" ++ cstr "/" ++ joinLevels [cstr "b", cstr "c"] = cstr "a/b/c" :=
  ⟨by decide,
    hash_matches_trailing_levels (cstr "a") [cstr "b", cstr "c"] (by decide) (by decide)
      (by decide),
    by decide⟩

/-! ## Theorems: the retained store -/

theorem SameEntry_refl (q : MQTT_Queue_t) : SameEntry q q := by simp [SameEntry]

theorem SameEntry_trans {q q' q'' : MQTT_Queue_t} (h : SameEntry q q') (h' : SameEntry q' q'') :
    SameEntry q q'' := by
  obtain ⟨a1, a2, a3, a4, a5, a6, a7⟩ := h
  obtain ⟨c1, c2, c3, c4, c5, c6, c7⟩ := h'
  exact ⟨c1.trans a1, c2.trans a2, c3.trans a3, c4.trans a4, c5.trans a5, c6.trans a6,
    c7.trans a7⟩

theorem SameEntry_withQos (q : MQTT_Queue_t) (k : Nat) : SameEntry q (withQos q k) := by
  simp [SameEntry, withQos]

theorem SameButWire_refl (b : Broker) : SameButWire b b := by simp [SameButWire]

theorem SameButWire_trans {b b' b'' : Broker} (h : SameButWire b b') (h' : SameButWire b' b'') :
    SameButWire b b'' := by
  obtain ⟨a1, a2, a3, a4, a5⟩ := h
  obtain ⟨c1, c2, c3, c4, c5⟩ := h'
  exact ⟨c1.trans a1, c2.trans a2, c3.trans a3, c4.trans a4, c5.trans a5⟩

theorem do_send_frame (net : Net) (b : Broker) (sd : Int) (buf : List Nat) :
    SameButWire b (do_send net b sd buf).2 := by
  simp [SameButWire, do_send]

theorem process_subscriptions_cons (net : Net) (sd : Int) (sub : MQTT_Subscription_t)
    (rest : List MQTT_Subscription_t) (b : Broker) (q : MQTT_Queue_t) :
    process_subscriptions net sd (sub :: rest) b q =
      if isTopicMatched sub.topic_filter q.message.topic then
        if (publish_message net b sd (withQos q (capped_qos q.p_qos sub.qos)).message).1 then
          process_subscriptions net sd rest
            (publish_message net b sd (withQos q (capped_qos q.p_qos sub.qos)).message).2
            (withQos q (capped_qos q.p_qos sub.qos))
        else (false, (publish_message net b sd (withQos q (capped_qos q.p_qos sub.qos)).message).2,
          withQos q (capped_qos q.p_qos sub.qos))
      else process_subscriptions net sd rest b q := by
  simp only [process_subscriptions]

/-- The fan-out to one session changes the trace of the broker and the QoS bits of
the entry, and nothing else. -/
theorem process_subscriptions_frame (net : Net) (sd : Int) (subs : List MQTT_Subscription_t) :
    ∀ (b : Broker) (q : MQTT_Queue_t),
      SameButWire b (process_subscriptions net sd subs b q).2.1 ∧
        SameEntry q (process_subscriptions net sd subs b q).2.2 := by
  induction subs with
  | nil => intro b q; exact ⟨SameButWire_refl b, SameEntry_refl q⟩
  | cons sub rest ih =>
    intro b q
    rw [process_subscriptions_cons]
    by_cases hm : isTopicMatched sub.topic_filter q.message.topic = true
    · rw [if_pos hm]
      by_cases hs : (publish_message net b sd (withQos q (capped_qos q.p_qos sub.qos)).message).1 = true
      · rw [if_pos hs]
        have h := ih (publish_message net b sd (withQos q (capped_qos q.p_qos sub.qos)).message).2
          (withQos q (capped_qos q.p_qos sub.qos))
        exact ⟨SameButWire_trans (do_send_frame _ _ _ _) h.1,
          SameEntry_trans (SameEntry_withQos _ _) h.2⟩
      · rw [if_neg hs]
        exact ⟨do_send_frame _ _ _ _, SameEntry_withQos _ _⟩
    · rw [if_neg hm]
      exact ih b q

theorem MQTT_queue_add_retained (cfg : Config) (b : Broker) (m : MQTT_Message_t) :
    (MQTT_queue_add cfg b m).2.queues_retained = b.queues_retained ∧
      (MQTT_queue_add cfg b m).2.next = b.next := by
  unfold MQTT_queue_add
  split <;> simp

theorem publish_lwt_retained (cfg : Config) (b : Broker) (lwt : Option MQTT_Message_t) :
    (publish_lwt cfg b lwt).queues_retained = b.queues_retained ∧
      (publish_lwt cfg b lwt).next = b.next := by
  cases lwt with
  | none => exact ⟨rfl, rfl⟩
  | some m => exact MQTT_queue_add_retained cfg b m

theorem store_or_free_retained (cfg : Config) (b : Broker) (session : MQTT_Session_t) :
    (store_or_free cfg b session).queues_retained = b.queues_retained ∧
      (store_or_free cfg b session).next = b.next := by
  unfold store_or_free session_store session_free
  split <;> simp

theorem MQTT_session_drop_retained (cfg : Config) (b : Broker) (i : Nat) :
    (MQTT_session_drop cfg b i).queues_retained = b.queues_retained ∧
      (MQTT_session_drop cfg b i).next = b.next := by
  unfold MQTT_session_drop
  cases hg : b.sessions_current.get? i with
  | none => simp
  | some session =>
    simp only []
    refine ⟨((store_or_free_retained cfg _ _).1.trans (publish_lwt_retained cfg _ _).1),
      ((store_or_free_retained cfg _ _).2.trans (publish_lwt_retained cfg _ _).2)⟩

/-- The fan-out over the sessions leaves the retained store and the id counter alone
and changes at most the QoS bits of the entry. -/
theorem process_sessions_loop_frame (net : Net) (cfg : Config) (todo : List MQTT_Session_t) :
    ∀ (i : Nat) (b : Broker) (q : MQTT_Queue_t),
      (process_sessions_loop net cfg todo i b q).1.queues_retained = b.queues_retained ∧
      (process_sessions_loop net cfg todo i b q).1.next = b.next ∧
        SameEntry q (process_sessions_loop net cfg todo i b q).2 := by
  induction todo with
  | nil => intro i b q; exact ⟨rfl, rfl, SameEntry_refl q⟩
  | cons s rest ih =>
    intro i b q
    have hf := process_subscriptions_frame net s.sd s.subscriptions b q
    simp only [process_sessions_loop]
    split
    · have h := ih (i + 1) (process_subscriptions net s.sd s.subscriptions b q).2.1
        (process_subscriptions net s.sd s.subscriptions b q).2.2
      exact ⟨h.1.trans hf.1.2.2.2.1, h.2.1.trans hf.1.2.2.2.2, SameEntry_trans hf.2 h.2.2⟩
    · have h := ih i (MQTT_session_drop cfg (process_subscriptions net s.sd s.subscriptions b q).2.1 i)
        (process_subscriptions net s.sd s.subscriptions b q).2.2
      have hd := MQTT_session_drop_retained cfg
        (process_subscriptions net s.sd s.subscriptions b q).2.1 i
      exact ⟨(h.1.trans hd.1).trans hf.1.2.2.2.1, (h.2.1.trans hd.2).trans hf.1.2.2.2.2,
        SameEntry_trans hf.2 h.2.2⟩

theorem eraseP_topic_eq_filter (t : CStr) (l : List MQTT_Queue_t)
    (h : (l.map (fun r => r.message.topic)).Nodup) :
    l.eraseP (fun r => t = r.message.topic) = l.filter (fun r => r.message.topic ≠ t) := by
  induction l with
  | nil => rfl
  | cons r rs ih =>
    rw [List.map_cons, List.nodup_cons] at h
    by_cases ht : t = r.message.topic
    · have hall : ∀ x ∈ rs, x.message.topic ≠ t := by
        intro x hx e
        exact h.1 (List.mem_map.mpr ⟨x, hx, by rw [e, ht]⟩)
      have hf : rs.filter (fun r => r.message.topic ≠ t) = rs :=
        List.filter_eq_self.mpr (by intro x hx; simpa using hall x hx)
      simp [List.eraseP_cons, ht, List.filter_cons]
      simpa [ht] using hf.symm
    · have ht' : r.message.topic ≠ t := fun e => ht e.symm
      simp [List.eraseP_cons, ht, List.filter_cons, ht', ih h.2]

theorem process_head_retained (net : Net) (cfg : Config) (b : Broker) (queue : MQTT_Queue_t)
    (rest : List MQTT_Queue_t) (hp : b.queues_pending = queue :: rest) :
    ∃ q', entryView q' = entryView queue ∧ q'.retain = queue.retain ∧
      (process_head net cfg b).queues_retained = retained_update cfg b.queues_retained q' := by
  have hf := process_sessions_loop_frame net cfg (next_id b).2.sessions_current 0 (next_id b).2
    (asPending queue (next_id b).1)
  refine ⟨(process_sessions net cfg (next_id b).2 (asPending queue (next_id b).1)).2, ?_, ?_, ?_⟩
  · obtain ⟨a1, _, a3, _, a5, _, _⟩ := hf.2.2
    unfold entryView process_sessions
    rw [a1, a3, a5]
    rfl
  · exact hf.2.2.2.1
  · unfold process_head
    rw [hp]
    simp only [store_retained, process_sessions]
    rw [hf.1]
    rfl

theorem retained_update_view (cfg : Config) (l : List MQTT_Queue_t) (q q' : MQTT_Queue_t)
    (hv : entryView q' = entryView q) (hr : q'.retain = q.retain)
    (hn : (l.map (fun r => r.message.topic)).Nodup) (hlen : l.length ≤ cfg.MAX_RETAINED) :
    (q.retain = 0 → retained_update cfg l q' = l) ∧
    (q.retain ≠ 0 → q.message.payload = [] →
      retained_update cfg l q' = l.filter (fun r => r.message.topic ≠ q.message.topic)) ∧
    (q.retain ≠ 0 → q.message.payload ≠ [] →
      retained_update cfg l q' =
        (if (l.filter (fun r => r.message.topic ≠ q.message.topic)).length = cfg.MAX_RETAINED
          then (l.filter (fun r => r.message.topic ≠ q.message.topic)).tail
          else l.filter (fun r => r.message.topic ≠ q.message.topic)) ++ [q']) := by
  have ht : q'.message.topic = q.message.topic := congrArg Prod.fst hv
  have hpl : q'.message.payload = q.message.payload := congrArg (fun v => v.2.1) hv
  have hle : (l.filter (fun r => r.message.topic ≠ q.message.topic)).length ≤ cfg.MAX_RETAINED :=
    le_trans (List.length_filter_le _ _) hlen
  refine ⟨?_, ?_, ?_⟩
  · intro h0
    simp [retained_update, hr, h0]
  · intro h1 he
    simp [retained_update, hr, h1, hpl, he, ht, eraseP_topic_eq_filter _ l hn]
  · intro h1 he
    have hpos : 0 < q.message.payload.length := List.length_pos.mpr he
    simp only [retained_update, hr, ne_eq, h1, not_false_eq_true, if_true, hpl, hpos, ht,
      eraseP_topic_eq_filter _ l hn, gt_iff_lt, ge_iff_le]
    by_cases hc : (l.filter (fun r => r.message.topic ≠ q.message.topic)).length = cfg.MAX_RETAINED
    · rw [if_pos hc, if_pos (le_of_eq hc.symm)]
    · rw [if_neg hc, if_neg (fun h => hc (le_antisymm hle h))]

theorem retained_update_inv (cfg : Config) (l : List MQTT_Queue_t) (q : MQTT_Queue_t)
    (hmax : 1 ≤ cfg.MAX_RETAINED)
    (hn : (l.map (fun r => r.message.topic)).Nodup) (hlen : l.length ≤ cfg.MAX_RETAINED) :
    ((retained_update cfg l q).map (fun r => r.message.topic)).Nodup ∧
      (retained_update cfg l q).length ≤ cfg.MAX_RETAINED := by
  by_cases h0 : q.retain = 0
  · simp [retained_update, h0, hn, hlen]
  · have hsub : (l.eraseP (fun r => q.message.topic = r.message.topic)).Sublist l :=
      List.eraseP_sublist l
    have hkn : ((l.eraseP (fun r => q.message.topic = r.message.topic)).map
        (fun r => r.message.topic)).Nodup := hn.sublist (hsub.map _)
    have hkl : (l.eraseP (fun r => q.message.topic = r.message.topic)).length ≤ cfg.MAX_RETAINED :=
      le_trans hsub.length_le hlen
    have hnot : ∀ x ∈ l.eraseP (fun r => q.message.topic = r.message.topic),
        x.message.topic ≠ q.message.topic := by
      intro x hx
      rw [eraseP_topic_eq_filter _ l hn] at hx
      simpa using (List.mem_filter.mp hx).2
    by_cases hp : q.message.payload.length > 0
    · simp only [retained_update, ne_eq, h0, not_false_eq_true, if_true, hp]
      by_cases hc : (l.eraseP (fun r => q.message.topic = r.message.topic)).length
          ≥ cfg.MAX_RETAINED
      · rw [if_pos hc]
        have hts : (l.eraseP (fun r => q.message.topic = r.message.topic)).tail.Sublist
            (l.eraseP (fun r => q.message.topic = r.message.topic)) := List.tail_sublist _
        refine ⟨?_, ?_⟩
        · rw [List.map_append, List.nodup_append]
          refine ⟨hkn.sublist (hts.map _), by simp, ?_⟩
          intro t ht1 ht2
          obtain ⟨x, hx, rfl⟩ := List.mem_map.mp ht1
          simp at ht2
          exact hnot x (hts.subset hx) ht2
        · simp only [List.length_append, List.length_tail, List.length_singleton]
          omega
      · rw [if_neg hc]
        refine ⟨?_, ?_⟩
        · rw [List.map_append, List.nodup_append]
          refine ⟨hkn, by simp, ?_⟩
          intro t ht1 ht2
          obtain ⟨x, hx, rfl⟩ := List.mem_map.mp ht1
          simp at ht2
          exact hnot x hx ht2
        · simp only [List.length_append, List.length_singleton]
          omega
    · simp only [retained_update, ne_eq, h0, not_false_eq_true, if_true, hp, if_false]
      exact ⟨hkn, hkl⟩

theorem process_head_inv (net : Net) (cfg : Config) (b : Broker) (hmax : 1 ≤ cfg.MAX_RETAINED)
    (h : RetainedInv cfg b) : RetainedInv cfg (process_head net cfg b) := by
  cases hp : b.queues_pending with
  | nil => simpa [process_head, hp] using h
  | cons queue rest =>
    obtain ⟨q', _, _, he⟩ := process_head_retained net cfg b queue rest hp
    unfold RetainedInv retainedTopics
    rw [he]
    exact retained_update_inv cfg _ q' hmax h.1 h.2

theorem queue_process_loop_inv (net : Net) (cfg : Config) (hmax : 1 ≤ cfg.MAX_RETAINED)
    (fuel : Nat) : ∀ b : Broker, RetainedInv cfg b →
      RetainedInv cfg (queue_process_loop net cfg fuel b) := by
  induction fuel with
  | zero => intro b h; exact h
  | succ n ih =>
    intro b h
    cases hp : b.queues_pending with
    | nil => simpa [queue_process_loop, hp] using h
    | cons queue rest =>
      simp only [queue_process_loop, hp]
      exact ih _ (process_head_inv net cfg b hmax h)

/-- The replay loop leaves the topic, payload and original QoS of every retained
entry as they are. -/
theorem handleRetained_loop_view (net : Net) (sd : Int) (f : CStr) (g : Nat)
    (l : List MQTT_Queue_t) : ∀ b : Broker,
      (handleRetained_loop net sd f g l b).1.map entryView = l.map entryView := by
  induction l with
  | nil => intro b; rfl
  | cons r rest ih =>
    intro b
    simp only [handleRetained_loop]
    split
    · split
      · simp only [List.map_cons, ih]
        rfl
      · rfl
    · simp only [List.map_cons, ih]

theorem handleRetained_view (net : Net) (b : Broker) (sd : Int) (f : CStr) (g : Nat) :
    (MQTT_queue_handleRetained net b sd f g).queues_retained.map entryView
      = b.queues_retained.map entryView := by
  simp only [MQTT_queue_handleRetained]
  exact handleRetained_loop_view net sd f g b.queues_retained b

theorem map_topic_of_view (l l' : List MQTT_Queue_t) (h : l'.map entryView = l.map entryView) :
    l'.map (fun r => r.message.topic) = l.map (fun r => r.message.topic) := by
  have := congrArg (List.map Prod.fst) h
  simpa [List.map_map, Function.comp, entryView] using this

theorem handleRetained_inv (net : Net) (cfg : Config) (b : Broker) (sd : Int) (f : CStr) (g : Nat)
    (h : RetainedInv cfg b) : RetainedInv cfg (MQTT_queue_handleRetained net b sd f g) := by
  have hv := handleRetained_view net b sd f g
  have ht := map_topic_of_view _ _ hv
  have hl := congrArg List.length hv
  simp only [List.length_map] at hl
  unfold RetainedInv retainedTopics
  rw [ht, hl]
  exact h

theorem publish_h_retained (net : Net) (cfg : Config) (b b' : Broker)
    (session session' : MQTT_Session_t) (msg : List Nat) (ok : Bool)
    (h : publish_h net cfg b session msg = some (ok, b', session')) :
    b'.queues_retained = b.queues_retained := by
  unfold publish_h at h
  split at h
  · exact absurd h (by simp)
  · simp at h; rw [← h.2.1]
  · rename_i packet_id message _
    have ha := MQTT_queue_add_retained cfg b message
    simp only [send_puback, send_pubrec, do_send] at h
    split at h
    · split at h <;> simp at h <;> rw [← h.2.1]
      exact ha.1
    · split at h
      · split at h <;> simp at h <;> rw [← h.2.1]
        exact ha.1
      · split at h
        · simp at h; rw [← h.2.1]
        · split at h
          · split at h <;> simp at h <;> rw [← h.2.1]
          · split at h <;> simp at h <;> rw [← h.2.1]
            exact ha.1

/-- C7: one round of `MQTT_queue_process` on a broker whose retained store has
pairwise distinct topics and at most MAX_RETAINED (at least 1) entries. An entry with
retain = 0 leaves the store unchanged. An entry with retain = 1 on topic t and an
empty payload leaves exactly the stored entries whose topic differs from t, in
order, so t has no retained entry afterwards. An entry with retain = 1 and a
non-empty payload leaves those entries, without the oldest of them when they still
number MAX_RETAINED, followed by the entry itself (same topic, payload and original
QoS) as the newest. -/
theorem retained_store_update (net : Net) (cfg : Config) (b : Broker) (queue : MQTT_Queue_t)
    (rest : List MQTT_Queue_t) (hp : b.queues_pending = queue :: rest)
    (_hmax : 1 ≤ cfg.MAX_RETAINED) (hinv : RetainedInv cfg b) :
    (queue.retain = 0 → (process_head net cfg b).queues_retained = b.queues_retained) ∧
    (queue.retain ≠ 0 → queue.message.payload = [] →
      (process_head net cfg b).queues_retained
          = b.queues_retained.filter (fun r => r.message.topic ≠ queue.message.topic) ∧
        queue.message.topic ∉ retainedTopics (process_head net cfg b)) ∧
    (queue.retain ≠ 0 → queue.message.payload ≠ [] →
      (process_head net cfg b).queues_retained.dropLast
          = (if (b.queues_retained.filter
                  (fun r => r.message.topic ≠ queue.message.topic)).length = cfg.MAX_RETAINED
              then (b.queues_retained.filter
                  (fun r => r.message.topic ≠ queue.message.topic)).tail
              else b.queues_retained.filter
                  (fun r => r.message.topic ≠ queue.message.topic)) ∧
        (process_head net cfg b).queues_retained.getLast?.map entryView
          = some (entryView queue)) := by
  obtain ⟨q', hv, hr, he⟩ := process_head_retained net cfg b queue rest hp
  have hu := retained_update_view cfg b.queues_retained queue q' hv hr hinv.1 hinv.2
  refine ⟨?_, ?_, ?_⟩
  · intro h0
    rw [he, hu.1 h0]
  · intro h1 hpl
    have hq := hu.2.1 h1 hpl
    refine ⟨by rw [he, hq], ?_⟩
    unfold retainedTopics
    rw [he, hq]
    intro hmem
    obtain ⟨x, hx, hxt⟩ := List.mem_map.mp hmem
    have := (List.mem_filter.mp hx).2
    simp at this
    exact this hxt
  · intro h1 hpl
    have hq := hu.2.2 h1 hpl
    rw [he, hq]
    exact ⟨by simp, by simp [hv]⟩

theorem retained_store_update_witness :
    brokerRetainedFull.queues_pending = [sampleEntry "c" [3] 1 1] ∧
    1 ≤ cfgSample.MAX_RETAINED ∧ RetainedInv cfgSample brokerRetainedFull ∧
    (process_head netUp cfgSample brokerRetainedFull).queues_retained.dropLast
      = [sampleEntry "b" [2] 1 1] ∧
    (process_head netUp cfgSample brokerRetainedFull).queues_retained.getLast?.map entryView
      = some (cstr "c", [3], 1) :=
  ⟨rfl, by decide, by decide,
    (retained_store_update netUp cfgSample brokerRetainedFull (sampleEntry "c" [3] 1 1) [] rfl
      (by decide) (by decide)).2.2 (by decide) (by decide)⟩

/-- C8: with MAX_RETAINED at least 1, every reachable broker state has a retained
store in which no two entries have the same topic and which holds at most
MAX_RETAINED entries; `MQTT_queue_process` and `MQTT_queue_handleRetained` preserve
this invariant. -/
theorem retained_store_invariant (cfg : Config) (hmax : 1 ≤ cfg.MAX_RETAINED) :
    (∀ b : Broker, RetainedReachable cfg b → RetainedInv cfg b) ∧
    (∀ (net : Net) (b : Broker), RetainedInv cfg b →
      RetainedInv cfg (MQTT_queue_process net cfg b)) ∧
    (∀ (net : Net) (b : Broker) (sd : Int) (topic_filter : CStr) (g_qos : Nat),
      RetainedInv cfg b →
      RetainedInv cfg (MQTT_queue_handleRetained net b sd topic_filter g_qos)) := by
  have hproc : ∀ (net : Net) (b : Broker), RetainedInv cfg b →
      RetainedInv cfg (MQTT_queue_process net cfg b) :=
    fun net b h => queue_process_loop_inv net cfg hmax _ b h
  have hrep : ∀ (net : Net) (b : Broker) (sd : Int) (topic_filter : CStr) (g_qos : Nat),
      RetainedInv cfg b →
      RetainedInv cfg (MQTT_queue_handleRetained net b sd topic_filter g_qos) :=
    fun net b sd f g h => handleRetained_inv net cfg b sd f g h
  have hcongr : ∀ b b' : Broker, b'.queues_retained = b.queues_retained →
      RetainedInv cfg b → RetainedInv cfg b' := by
    intro b b' he h
    unfold RetainedInv retainedTopics at *
    rw [he]
    exact h
  refine ⟨?_, hproc, hrep⟩
  intro b hb
  induction hb with
  | init => exact ⟨List.nodup_nil, Nat.zero_le _⟩
  | process net b _ ih => exact hproc net b ih
  | replay net b sd f g _ ih => exact hrep net b sd f g ih
  | drop b i _ ih => exact hcongr b _ (MQTT_session_drop_retained cfg b i).1 ih
  | publish net b b' session session' msg ok _ hpub ih =>
    exact hcongr b b' (publish_h_retained net cfg b b' session session' msg ok hpub) ih
  | other b b' _ he ih => exact hcongr b b' he ih

theorem retained_store_invariant_witness :
    1 ≤ cfgSample.MAX_RETAINED ∧ RetainedInv cfgSample brokerRetainedFull ∧
    RetainedInv cfgSample (MQTT_queue_process netUp cfgSample brokerRetainedFull) ∧
    RetainedInv cfgSample (MQTT_queue_process netUp cfgSample Broker.init) :=
  ⟨by decide, by decide,
    (retained_store_invariant cfgSample (by decide)).2.1 netUp brokerRetainedFull (by decide),
    (retained_store_invariant cfgSample (by decide)).1 _
      (RetainedReachable.process netUp Broker.init RetainedReachable.init)⟩

/-! ## Theorems: fan-out and retained replay -/

theorem next_id_next (b : Broker) : (next_id b).2.next = next_after b.next := by
  simp only [next_id, next_after]
  split <;> simp_all

theorem next_id_frame (b : Broker) :
    (next_id b).1 = b.next ∧ (next_id b).2.wire = b.wire ∧
      (next_id b).2.sessions_current = b.sessions_current ∧
      (next_id b).2.queues_pending = b.queues_pending ∧
      (next_id b).2.queues_retained = b.queues_retained := by
  simp [next_id]

theorem capped_qos_eq_min (p g : Nat) : capped_qos p g = min p g := by
  unfold capped_qos
  split <;> omega

/-- The buffer built by `publish_message` is the PUBLISH packet of the specification
when the QoS is at most 2 and the retain bit at most 1. -/
theorem publish_buffer_eq (m : MQTT_Message_t) (k r : Nat) (hk : k ≤ 2) (hr : r ≤ 1)
    (hq : m.flags.qos = k) (hret : m.flags.retain = r) :
    publish_buffer m = publish_packet m.topic m.id k r m.payload := by
  unfold publish_buffer publish_packet publish_header
  rw [hq, hret]
  interval_cases k <;> interval_cases r <;> simp

theorem publish_message_ok (net : Net) (hnet : ∀ h sd buf, net h sd buf = true) (b : Broker)
    (sd : Int) (m : MQTT_Message_t) :
    publish_message net b sd m =
      (true, { b with wire := b.wire ++ [Event.send sd (publish_buffer m) true] }) := by
  simp [publish_message, do_send, hnet]

theorem fanout_session_withQos (sd : Int) (subs : List MQTT_Subscription_t) (q : MQTT_Queue_t)
    (k id : Nat) : fanout_session sd subs (withQos q k) id = fanout_session sd subs q id := rfl

theorem fanout_session_cons (sd : Int) (sub : MQTT_Subscription_t)
    (rest : List MQTT_Subscription_t) (q : MQTT_Queue_t) (id : Nat) :
    fanout_session sd (sub :: rest) q id =
      if isTopicMatched sub.topic_filter q.message.topic then
        Event.send sd
          (publish_packet q.message.topic id (min q.p_qos sub.qos) 0 q.message.payload) true
          :: fanout_session sd rest q id
      else fanout_session sd rest q id := by
  unfold fanout_session
  by_cases h : isTopicMatched sub.topic_filter q.message.topic = true
  · simp [List.filter_cons, h]
  · simp [List.filter_cons, h]

/-- When every send succeeds, the fan-out to one session succeeds and sends what the
specification says. -/
theorem process_subscriptions_ok (net : Net) (hnet : ∀ h sd buf, net h sd buf = true) (sd : Int)
    (subs : List MQTT_Subscription_t) :
    ∀ (b : Broker) (q : MQTT_Queue_t), q.p_qos ≤ 2 → q.message.flags.retain = 0 →
      (process_subscriptions net sd subs b q).1 = true ∧
      (process_subscriptions net sd subs b q).2.1.wire
        = b.wire ++ fanout_session sd subs q q.message.id := by
  induction subs with
  | nil => intro b q _ _; simp [process_subscriptions, fanout_session]
  | cons sub rest ih =>
    intro b q hq hr
    rw [process_subscriptions_cons, fanout_session_cons]
    by_cases hm : isTopicMatched sub.topic_filter q.message.topic = true
    · rw [if_pos hm, if_pos hm, publish_message_ok net hnet]
      simp only [if_true]
      have hk : min q.p_qos sub.qos ≤ 2 := le_trans (Nat.min_le_left _ _) hq
      have hbuf : publish_buffer (withQos q (capped_qos q.p_qos sub.qos)).message
          = publish_packet q.message.topic q.message.id (min q.p_qos sub.qos) 0
              q.message.payload := by
        have := publish_buffer_eq (withQos q (capped_qos q.p_qos sub.qos)).message
          (min q.p_qos sub.qos) 0 hk (Nat.zero_le _)
          (by simp only [withQos, capped_qos_eq_min]; omega) hr
        simpa [withQos] using this
      have h := ih { b with wire := b.wire ++ [Event.send sd
          (publish_buffer (withQos q (capped_qos q.p_qos sub.qos)).message) true] }
        (withQos q (capped_qos q.p_qos sub.qos)) hq hr
      refine ⟨h.1, ?_⟩
      rw [h.2, fanout_session_withQos, hbuf]
      simp [withQos]
    · rw [if_neg hm, if_neg hm]
      exact ih b q hq hr

theorem fanout_entry_congr (q q' : MQTT_Queue_t) (id : Nat) (a1 : q'.p_qos = q.p_qos)
    (a3 : q'.message.topic = q.message.topic) (a5 : q'.message.payload = q.message.payload)
    (sessions : List MQTT_Session_t) : fanout_entry q' id sessions = fanout_entry q id sessions := by
  induction sessions with
  | nil => rfl
  | cons s rest ih =>
    simp only [fanout_entry, ih, fanout_session, a1, a3, a5]

theorem fanout_entry_same (q q' : MQTT_Queue_t) (id : Nat) (h : SameEntry q q')
    (sessions : List MQTT_Session_t) : fanout_entry q' id sessions = fanout_entry q id sessions :=
  fanout_entry_congr q q' id h.1 h.2.2.1 h.2.2.2.2.1 sessions

/-- When every send succeeds, the fan-out over the sessions drops no session and
sends what the specification says. -/
theorem process_sessions_loop_ok (net : Net) (hnet : ∀ h sd buf, net h sd buf = true)
    (cfg : Config) (todo : List MQTT_Session_t) :
    ∀ (i : Nat) (b : Broker) (q : MQTT_Queue_t), q.p_qos ≤ 2 → q.message.flags.retain = 0 →
      SameButWire b (process_sessions_loop net cfg todo i b q).1 ∧
      (process_sessions_loop net cfg todo i b q).1.wire
        = b.wire ++ fanout_entry q q.message.id todo := by
  induction todo with
  | nil => intro i b q _ _; simp [process_sessions_loop, fanout_entry, SameButWire_refl]
  | cons s rest ih =>
    intro i b q hq hr
    have hok := process_subscriptions_ok net hnet s.sd s.subscriptions b q hq hr
    have hf := process_subscriptions_frame net s.sd s.subscriptions b q
    simp only [process_sessions_loop, hok.1, if_true]
    obtain ⟨a1, _, _, a4, _, a6, _⟩ := hf.2
    have h := ih (i + 1) (process_subscriptions net s.sd s.subscriptions b q).2.1
      (process_subscriptions net s.sd s.subscriptions b q).2.2 (by rw [a1]; exact hq)
      (by rw [a6]; exact hr)
    refine ⟨SameButWire_trans hf.1 h.1, ?_⟩
    rw [h.2, hok.2, a4, fanout_entry_same q _ _ hf.2, fanout_entry, List.append_assoc]

/-- One round of the drain when every send succeeds. -/
theorem process_head_ok (net : Net) (hnet : ∀ h sd buf, net h sd buf = true) (cfg : Config)
    (b : Broker) (queue : MQTT_Queue_t) (rest : List MQTT_Queue_t)
    (hp : b.queues_pending = queue :: rest) (hq : queue.p_qos ≤ 2) :
    (process_head net cfg b).wire = b.wire ++ fanout_entry queue b.next b.sessions_current ∧
    (process_head net cfg b).queues_pending = rest ∧
    (process_head net cfg b).sessions_current = b.sessions_current ∧
    (process_head net cfg b).next = next_after b.next := by
  have hn := next_id_frame b
  have h := process_sessions_loop_ok net hnet cfg (next_id b).2.sessions_current 0 (next_id b).2
    (asPending queue (next_id b).1) hq rfl
  obtain ⟨⟨s1, _, s3, _, s5⟩, hw⟩ := h
  unfold process_head
  rw [hp]
  simp only [store_retained, process_sessions]
  refine ⟨?_, ?_, ?_, ?_⟩
  · rw [hw, hn.2.1, hn.2.2.1, hn.1]
    rw [fanout_entry_congr queue (asPending queue b.next) _ rfl rfl rfl]
    rfl
  · rw [s3, hn.2.2.2.1, hp]
    rfl
  · rw [s1, hn.2.2.1]
  · rw [s5, next_id_next]

theorem queue_process_loop_ok (net : Net) (hnet : ∀ h sd buf, net h sd buf = true) (cfg : Config)
    (pending : List MQTT_Queue_t) :
    ∀ (fuel : Nat) (b : Broker), b.queues_pending = pending → pending.length ≤ fuel →
      (∀ e ∈ pending, e.p_qos ≤ 2) →
      (queue_process_loop net cfg fuel b).wire
          = b.wire ++ fanout_all b.sessions_current pending b.next ∧
        (queue_process_loop net cfg fuel b).queues_pending = [] ∧
        (queue_process_loop net cfg fuel b).sessions_current = b.sessions_current := by
  induction pending with
  | nil =>
    intro fuel b hp _ _
    cases fuel <;> simp [queue_process_loop, hp, fanout_all]
  | cons e rest ih =>
    intro fuel b hp hfuel hq
    cases fuel with
    | zero => simp at hfuel
    | succ n =>
      have h1 := process_head_ok net hnet cfg b e rest hp (hq e (by simp))
      have h2 := ih n (process_head net cfg b) h1.2.1 (by simpa using hfuel)
        (fun x hx => hq x (List.mem_cons_of_mem _ hx))
      simp only [queue_process_loop, hp]
      refine ⟨?_, h2.2.1, h2.2.2.trans h1.2.2.1⟩
      rw [h2.1, h1.1, h1.2.2.1, h1.2.2.2, fanout_all, List.append_assoc]

/-- C1: when every send succeeds (and the QoS of every pending entry is 0, 1 or 2),
`MQTT_queue_process` sends, for every pending entry in order, to every current
session in order, exactly one PUBLISH for each subscription of that session whose
filter matches the topic of the entry and nothing for the other subscriptions; each
such PUBLISH has QoS min(p_qos, granted QoS) and retain bit 0. It leaves the pending
queue empty and the current sessions as they were. -/
theorem fanout_of_pending_entries (net : Net) (cfg : Config) (b : Broker)
    (hnet : ∀ h sd buf, net h sd buf = true) (hq : ∀ e ∈ b.queues_pending, e.p_qos ≤ 2) :
    (MQTT_queue_process net cfg b).wire
        = b.wire ++ fanout_all b.sessions_current b.queues_pending b.next ∧
      (MQTT_queue_process net cfg b).queues_pending = [] ∧
      (MQTT_queue_process net cfg b).sessions_current = b.sessions_current :=
  queue_process_loop_ok net hnet cfg b.queues_pending _ b rfl (Nat.le_add_right _ _) hq

theorem fanout_of_pending_entries_witness :
    (MQTT_queue_process netUp cfgSample brokerFanout).wire =
      [Event.send 3 ([48, 15, 0, 11] ++ cstr "sensor/temp" ++ [50, 51]) true,
       Event.send 3 ([50, 17, 0, 11] ++ cstr "sensor/temp" ++ [0, 1] ++ [50, 51]) true,
       Event.send 4 ([50, 17, 0, 11] ++ cstr "sensor/temp" ++ [0, 1] ++ [50, 51]) true] :=
  (fanout_of_pending_entries netUp cfgSample brokerFanout (fun _ _ _ => rfl)
    (by decide)).1.trans (by decide)

theorem handleRetained_loop_ok (net : Net) (hnet : ∀ h sd buf, net h sd buf = true) (sd : Int)
    (f : CStr) (g : Nat) (hg : g ≤ 2) (l : List MQTT_Queue_t) :
    ∀ b : Broker,
      (handleRetained_loop net sd f g l b).2.wire
        = b.wire ++ replay_retained sd f g l b.next := by
  induction l with
  | nil => intro b; simp [handleRetained_loop, replay_retained]
  | cons r rest ih =>
    intro b
    simp only [handleRetained_loop, replay_retained]
    by_cases hm : isTopicMatched f r.message.topic = true
    · rw [if_pos hm, if_pos hm, publish_message_ok net hnet]
      simp only [if_true]
      have hk : min r.p_qos g ≤ 2 := le_trans (Nat.min_le_right _ _) hg
      have hbuf : publish_buffer (asRetained r (next_id b).1 (capped_qos r.p_qos g)).message
          = publish_packet r.message.topic b.next (min r.p_qos g) 1 r.message.payload := by
        have := publish_buffer_eq (asRetained r (next_id b).1 (capped_qos r.p_qos g)).message
          (min r.p_qos g) 1 hk (le_refl _)
          (by simp only [asRetained, capped_qos_eq_min]; omega) rfl
        simpa [asRetained, next_id] using this
      rw [ih, hbuf]
      simp [next_id_next, (next_id_frame b).2.1]
    · rw [if_neg hm, if_neg hm]
      exact ih b

/-- C9: when every send succeeds and the granted QoS is 0, 1 or 2,
`MQTT_queue_handleRetained` sends the session exactly one PUBLISH for each retained
entry whose topic matches the filter, in store order, with retain bit 1 and QoS
min(original QoS of the entry, g_qos), and nothing for the other entries; the stored
topics, payloads and original QoS values are unchanged. -/
theorem retained_replay (net : Net) (b : Broker) (sd : Int) (topic_filter : CStr) (g_qos : Nat)
    (hnet : ∀ h sd buf, net h sd buf = true) (hg : g_qos ≤ 2) :
    (MQTT_queue_handleRetained net b sd topic_filter g_qos).wire
        = b.wire ++ replay_retained sd topic_filter g_qos b.queues_retained b.next ∧
      (MQTT_queue_handleRetained net b sd topic_filter g_qos).queues_retained.map entryView
        = b.queues_retained.map entryView :=
  ⟨handleRetained_loop_ok net hnet sd topic_filter g_qos hg b.queues_retained b,
    handleRetained_view net b sd topic_filter g_qos⟩

theorem retained_replay_witness :
    (MQTT_queue_handleRetained netUp brokerRetainedFull 5 (cstr "b") 2).wire =
      [Event.send 5 [51, 6, 0, 1, 98, 0, 1, 2] true] ∧
    (MQTT_queue_handleRetained netUp brokerRetainedFull 5 (cstr "b") 2).queues_retained.map
        entryView = [(cstr "a", [1], 0), (cstr "b", [2], 1)] :=
  ⟨(retained_replay netUp brokerRetainedFull 5 (cstr "b") 2 (fun _ _ _ => rfl)
      (by decide)).1.trans (by decide),
    (retained_replay netUp brokerRetainedFull 5 (cstr "b") 2 (fun _ _ _ => rfl)
      (by decide)).2.trans (by decide)⟩

/-! ## Theorems: inbound QoS 2 -/

theorem inflight_scan_spec (inbound : List Nat) (v max : Nat) :
    ∀ (fuel idx : Nat), idx + fuel = max →
      idx ≤ inflight_scan inbound v max fuel idx ∧
      inflight_scan inbound v max fuel idx ≤ max ∧
      (∀ j, idx ≤ j → j < inflight_scan inbound v max fuel idx → inbound.getD j 0 ≠ v) ∧
      (inflight_scan inbound v max fuel idx < max →
        inbound.getD (inflight_scan inbound v max fuel idx) 0 = v) := by
  intro fuel
  induction fuel with
  | zero =>
    intro idx h
    simp only [inflight_scan]
    refine ⟨le_refl _, by omega, fun j h1 h2 => by omega, fun h' => by omega⟩
  | succ n ih =>
    intro idx h
    simp only [inflight_scan]
    by_cases hc : idx < max ∧ inbound.getD idx 0 ≠ v
    · rw [if_pos hc]
      obtain ⟨h1, h2, h3, h4⟩ := ih (idx + 1) (by omega)
      refine ⟨by omega, h2, ?_, h4⟩
      intro j hj1 hj2
      by_cases hj : j = idx
      · rw [hj]; exact hc.2
      · exact h3 j (by omega) hj2
    · rw [if_neg hc]
      refine ⟨le_refl _, by omega, fun j h1 h2 => by omega, ?_⟩
      intro hlt
      by_contra hne
      exact hc ⟨hlt, hne⟩

theorem inflight_scan_found (inbound : List Nat) (v max : Nat) (hlen : inbound.length = max)
    (hv : v ∈ inbound) :
    inflight_scan inbound v max max 0 < max ∧
      inbound.getD (inflight_scan inbound v max max 0) 0 = v := by
  obtain ⟨_, h2, h3, h4⟩ := inflight_scan_spec inbound v max max 0 (by omega)
  have hlt : inflight_scan inbound v max max 0 < max := by
    by_contra hge
    obtain ⟨j, hj, hjv⟩ := List.getElem_of_mem hv
    have := h3 j (Nat.zero_le _) (by omega)
    rw [List.getD_eq_getElem _ _ hj] at this
    exact this hjv
  exact ⟨hlt, h4 hlt⟩

theorem inflight_scan_absent (inbound : List Nat) (v max : Nat) (hlen : inbound.length = max)
    (hv : v ∉ inbound) : inflight_scan inbound v max max 0 = max := by
  obtain ⟨_, h2, _, h4⟩ := inflight_scan_spec inbound v max max 0 (by omega)
  by_contra hne
  have hlt : inflight_scan inbound v max max 0 < max := by omega
  have := h4 hlt
  rw [List.getD_eq_getElem _ _ (by omega)] at this
  exact hv (this ▸ List.getElem_mem _)

/-- The slot of a packet-id that is in the in-flight array holds that packet-id. -/
theorem inflight_slot_present (cfg : Config) (inbound : List Nat) (k : Nat)
    (hlen : inbound.length = cfg.MAX_INFLIGHT) (hk : k ∈ inbound) :
    inflight_slot cfg inbound k < cfg.MAX_INFLIGHT ∧
      inbound.getD (inflight_slot cfg inbound k) 0 = k := by
  have h := inflight_scan_found inbound k cfg.MAX_INFLIGHT hlen hk
  unfold inflight_slot
  simp only [ge_iff_le]
  rw [if_neg (by omega)]
  exact h

/-- The slot of a packet-id that is not in the in-flight array is the first free
slot when there is one. -/
theorem inflight_slot_free (cfg : Config) (inbound : List Nat) (k : Nat)
    (hlen : inbound.length = cfg.MAX_INFLIGHT) (hk : k ∉ inbound) (h0 : 0 ∈ inbound) :
    inflight_slot cfg inbound k < cfg.MAX_INFLIGHT ∧
      inbound.getD (inflight_slot cfg inbound k) 0 = 0 := by
  have h1 := inflight_scan_absent inbound k cfg.MAX_INFLIGHT hlen hk
  have h := inflight_scan_found inbound 0 cfg.MAX_INFLIGHT hlen h0
  unfold inflight_slot
  simp only [ge_iff_le]
  rw [if_pos (by omega)]
  exact h

/-- There is no slot for a packet-id that is not in the in-flight array when no slot
is free. -/
theorem inflight_slot_full (cfg : Config) (inbound : List Nat) (k : Nat)
    (hlen : inbound.length = cfg.MAX_INFLIGHT) (hk : k ∉ inbound) (h0 : 0 ∉ inbound) :
    inflight_slot cfg inbound k = cfg.MAX_INFLIGHT := by
  have h1 := inflight_scan_absent inbound k cfg.MAX_INFLIGHT hlen hk
  have h := inflight_scan_absent inbound 0 cfg.MAX_INFLIGHT hlen h0
  unfold inflight_slot
  simp only [ge_iff_le]
  rw [if_pos (by omega)]
  exact h

/-- What `publish_decode` returns for an accepted packet: the message carries the
packet-id, which is not 0 unless the QoS is 0, and the QoS is 0, 1 or 2. -/
theorem publish_decode_id (msg : List Nat) (k : Nat) (m : MQTT_Message_t)
    (h : publish_decode msg = some (some (k, m))) :
    m.id = k ∧ m.flags.qos ≤ 2 ∧ (m.flags.qos ≠ 0 → k ≠ 0) ∧ (m.flags.qos = 0 → k = 0) := by
  unfold publish_decode at h
  split at h
  · simp at h
  · split at h
    · simp at h
    · rename_i byte _
      simp only [] at h
      split at h
      · simp at h
      · split at h
        · simp at h
        · split at h
          · simp at h
          · split at h
            · simp at h
            · split at h
              · simp at h
              · split at h
                · simp at h
                · split at h
                  · simp at h
                  · split at h
                    · simp at h
                    · split at h
                      · split at h
                        · simp at h
                        · split at h
                          · simp at h
                          · simp only [Option.some.injEq, Prod.mk.injEq] at h
                            obtain ⟨h1, h2⟩ := h
                            subst h2
                            subst h1
                            rename_i hq _ _ _ _ _
                            refine ⟨rfl, ?_, ?_, ?_⟩
                            · simp only []; omega
                            · intro _; assumption
                            · intro h0; simp only [] at h0; omega
                      · simp only [Option.some.injEq, Prod.mk.injEq] at h
                        obtain ⟨h1, h2⟩ := h
                        subst h2
                        subst h1
                        rename_i hq
                        refine ⟨rfl, ?_, ?_, ?_⟩
                        · simp only []; omega
                        · intro h0; simp only [] at h0; omega
                        · intro _; rfl

theorem MQTT_queue_add_ok (cfg : Config) (b : Broker) (m : MQTT_Message_t)
    (h : b.queues_pending.length < cfg.QUEUE_SIZE) :
    MQTT_queue_add cfg b m
      = (true, { b with queues_pending := b.queues_pending ++ [queue_entry m] }) := by
  unfold MQTT_queue_add
  rw [if_neg (by omega)]

theorem MQTT_queue_add_full (cfg : Config) (b : Broker) (m : MQTT_Message_t)
    (h : cfg.QUEUE_SIZE ≤ b.queues_pending.length) : MQTT_queue_add cfg b m = (false, b) := by
  unfold MQTT_queue_add
  rw [if_pos h]

theorem send_pubrec_eq (net : Net) (b : Broker) (sd : Int) (k : Nat) :
    send_pubrec net b sd k =
      (net b.wire sd (pubrec_packet k),
        { b with wire := b.wire ++ [Event.send sd (pubrec_packet k)
            (net b.wire sd (pubrec_packet k))] }) := rfl

/-- The QoS-2 branch of `publish_h`. -/
theorem publish_h_qos2 (net : Net) (cfg : Config) (b : Broker) (session : MQTT_Session_t)
    (msg : List Nat) (k : Nat) (m : MQTT_Message_t)
    (hdec : publish_decode msg = some (some (k, m))) (h0 : m.flags.qos ≠ 0)
    (h1 : m.flags.qos ≠ 1) :
    publish_h net cfg b session msg =
      if inflight_slot cfg session.inbound k ≥ cfg.MAX_INFLIGHT then some (false, b, session)
      else if session.inbound.getD (inflight_slot cfg session.inbound k) 0 = k then
        if m.flags.dup = 0 then some (false, b, session)
        else some ((send_pubrec net b session.sd k).1, (send_pubrec net b session.sd k).2, session)
      else if (MQTT_queue_add cfg b m).1 then
        some ((send_pubrec net (MQTT_queue_add cfg b m).2 session.sd k).1,
          (send_pubrec net (MQTT_queue_add cfg b m).2 session.sd k).2,
          { session with
            inbound := session.inbound.set (inflight_slot cfg session.inbound k) k })
      else some (false, b, session) := by
  unfold publish_h
  rw [hdec]
  simp only [h0, h1, if_false]

theorem mem_set_of_getD_ne (l : List Nat) (k v idx : Nat) (hk : k ∈ l)
    (hne : l.getD idx 0 ≠ k) : k ∈ l.set idx v := by
  obtain ⟨j, hj, hjk⟩ := List.getElem_of_mem hk
  have hji : idx ≠ j := by
    intro e
    subst e
    rw [List.getD_eq_getElem _ _ hj] at hne
    exact hne hjk
  refine List.mem_iff_getElem.mpr ⟨j, by simpa using hj, ?_⟩
  rw [List.getElem_set_ne hji]
  exact hjk

theorem mem_set_self (l : List Nat) (v idx : Nat) (h : idx < l.length) : v ∈ l.set idx v :=
  List.mem_iff_getElem.mpr ⟨idx, by simpa using h, by simp⟩

theorem qos2_count_append (k : Nat) (l : List MQTT_Queue_t) (e : MQTT_Queue_t) :
    qos2_count k (l ++ [e]) =
      qos2_count k l + (if e.message.id = k ∧ e.p_qos = 2 then 1 else 0) := by
  unfold qos2_count
  rw [List.countP_append, List.countP_cons, List.countP_nil]
  simp

theorem queue_add_count (cfg : Config) (b : Broker) (m : MQTT_Message_t) (k : Nat) :
    qos2_count k (MQTT_queue_add cfg b m).2.queues_pending = qos2_count k b.queues_pending ∨
    (m.id = k ∧ m.flags.qos = 2 ∧ (MQTT_queue_add cfg b m).1 = true ∧
      qos2_count k (MQTT_queue_add cfg b m).2.queues_pending
        = qos2_count k b.queues_pending + 1) := by
  unfold MQTT_queue_add
  split
  · exact Or.inl rfl
  · simp only [qos2_count_append, queue_entry]
    by_cases h : m.id = k ∧ m.flags.qos = 2
    · right
      simp [h]
    · left
      simp [h]

/-- One PUBLISH handled by a session, as far as packet-id `k` is concerned: a
packet-id in the in-flight array stays there and nothing is enqueued for it; when it
is not there, at most one QoS-2 entry with that packet-id is enqueued, and then the
packet-id is in the array. -/
theorem publish_h_count (net : Net) (cfg : Config) (b : Broker) (session : MQTT_Session_t)
    (msg : List Nat) (k : Nat) (hk : k ≠ 0) (hlen : session.inbound.length = cfg.MAX_INFLIGHT)
    (hd : publish_decode msg ≠ none) :
    ∃ r, publish_h net cfg b session msg = some r ∧
      r.2.2.inbound.length = cfg.MAX_INFLIGHT ∧
      (k ∈ session.inbound → k ∈ r.2.2.inbound ∧
        qos2_count k r.2.1.queues_pending = qos2_count k b.queues_pending) ∧
      (k ∉ session.inbound →
        qos2_count k r.2.1.queues_pending = qos2_count k b.queues_pending ∨
        (qos2_count k r.2.1.queues_pending = qos2_count k b.queues_pending + 1 ∧
          k ∈ r.2.2.inbound)) := by
  cases hdec : publish_decode msg with
  | none => exact absurd hdec hd
  | some d =>
    cases d with
    | none =>
      refine ⟨(false, b, session), by simp [publish_h, hdec], hlen, fun h => ⟨h, rfl⟩,
        fun _ => Or.inl rfl⟩
    | some pm =>
      obtain ⟨pid, m⟩ := pm
      obtain ⟨hid, hq, hnz, hz⟩ := publish_decode_id msg pid m hdec
      have hadd := queue_add_count cfg b m k
      by_cases h0 : m.flags.qos = 0
      · have hcount : qos2_count k (MQTT_queue_add cfg b m).2.queues_pending
            = qos2_count k b.queues_pending := by
          rcases hadd with h | h
          · exact h
          · omega
        by_cases ha : (MQTT_queue_add cfg b m).1 = true
        · exact ⟨(true, (MQTT_queue_add cfg b m).2, session), by simp [publish_h, hdec, h0, ha],
            hlen, fun h => ⟨h, hcount⟩, fun _ => Or.inl hcount⟩
        · exact ⟨(false, b, session), by simp [publish_h, hdec, h0, ha], hlen,
            fun h => ⟨h, rfl⟩, fun _ => Or.inl rfl⟩
      · by_cases h1 : m.flags.qos = 1
        · have hcount : qos2_count k (MQTT_queue_add cfg b m).2.queues_pending
              = qos2_count k b.queues_pending := by
            rcases hadd with h | h
            · exact h
            · omega
          by_cases ha : (MQTT_queue_add cfg b m).1 = true
          · exact ⟨((send_puback net (MQTT_queue_add cfg b m).2 session.sd pid).1,
                (send_puback net (MQTT_queue_add cfg b m).2 session.sd pid).2, session),
              by simp [publish_h, hdec, h1, ha], hlen, fun h => ⟨h, hcount⟩,
              fun _ => Or.inl hcount⟩
          · exact ⟨(false, b, session), by simp [publish_h, hdec, h1, ha], hlen,
              fun h => ⟨h, rfl⟩, fun _ => Or.inl rfl⟩
        · rw [publish_h_qos2 net cfg b session msg pid m hdec h0 h1]
          have hpid : pid ≠ 0 := hnz h0
          by_cases hs : inflight_slot cfg session.inbound pid ≥ cfg.MAX_INFLIGHT
          · rw [if_pos hs]
            exact ⟨_, rfl, hlen, fun h => ⟨h, rfl⟩, fun _ => Or.inl rfl⟩
          · rw [if_neg hs]
            by_cases hg : session.inbound.getD (inflight_slot cfg session.inbound pid) 0 = pid
            · rw [if_pos hg]
              by_cases hdup : m.flags.dup = 0
              · rw [if_pos hdup]
                exact ⟨_, rfl, hlen, fun h => ⟨h, rfl⟩, fun _ => Or.inl rfl⟩
              · rw [if_neg hdup]
                exact ⟨_, rfl, hlen, fun h => ⟨h, rfl⟩, fun _ => Or.inl rfl⟩
            · rw [if_neg hg]
              by_cases ha : (MQTT_queue_add cfg b m).1 = true
              · rw [if_pos ha]
                have hpn : pid ∉ session.inbound := fun hin =>
                  hg (inflight_slot_present cfg session.inbound pid hlen hin).2
                have hfree : session.inbound.getD (inflight_slot cfg session.inbound pid) 0
                    = 0 := by
                  by_cases h00 : 0 ∈ session.inbound
                  · exact (inflight_slot_free cfg session.inbound pid hlen hpn h00).2
                  · exact absurd (inflight_slot_full cfg session.inbound pid hlen hpn h00)
                      (by omega)
                refine ⟨_, rfl, by simpa using hlen, ?_, ?_⟩
                · intro hin
                  have hne : pid ≠ k := fun e => hpn (e ▸ hin)
                  refine ⟨mem_set_of_getD_ne _ _ _ _ hin (by rw [hfree]; exact fun e => hk e.symm),
                    ?_⟩
                  rcases hadd with h | h
                  · exact h
                  · exact absurd (hid.symm.trans h.1) hne
                · intro _
                  rcases hadd with h | h
                  · exact Or.inl h
                  · right
                    refine ⟨h.2.2.2, ?_⟩
                    have hpk : pid = k := hid.symm.trans h.1
                    rw [← hpk]
                    exact mem_set_self _ _ _ (by omega)
              · rw [if_neg ha]
                exact ⟨_, rfl, hlen, fun h => ⟨h, rfl⟩, fun _ => Or.inl rfl⟩

/-- A run of PUBLISH packets without a PUBREL in between enqueues at most one QoS-2
entry with packet-id `k`, and none when `k` is already in the in-flight array. -/
theorem publish_all_count (net : Net) (cfg : Config) (k : Nat) (hk : k ≠ 0)
    (msgs : List (List Nat)) :
    ∀ (b : Broker) (session : MQTT_Session_t), session.inbound.length = cfg.MAX_INFLIGHT →
      (∀ m ∈ msgs, publish_decode m ≠ none) →
      ∃ r, publish_all net cfg msgs b session = some r ∧
        qos2_count k r.1.queues_pending ≤ qos2_count k b.queues_pending + 1 ∧
        (k ∈ session.inbound →
          qos2_count k r.1.queues_pending = qos2_count k b.queues_pending) := by
  induction msgs with
  | nil => intro b session _ _; exact ⟨(b, session), rfl, Nat.le_succ _, fun _ => rfl⟩
  | cons msg rest ih =>
    intro b session hlen hd
    obtain ⟨r, hr, hl, hin, hout⟩ :=
      publish_h_count net cfg b session msg k hk hlen (hd msg (by simp))
    obtain ⟨r', hr', hle, heq⟩ := ih r.2.1 r.2.2 hl (fun m hm => hd m (List.mem_cons_of_mem _ hm))
    refine ⟨r', by simp [publish_all, hr, hr'], ?_, ?_⟩
    · by_cases hmem : k ∈ session.inbound
      · have := (hin hmem).2
        have := heq (hin hmem).1
        omega
      · rcases hout hmem with h | h
        · omega
        · have := heq h.2
          omega
    · intro hmem
      have := (hin hmem).2
      have := heq (hin hmem).1
      omega

/-- C10, as stated, fails in (b): packet-id 7 is not in the in-flight array and
both slots are free, but the pending queue is full, so the handler fails, nothing
is enqueued, no slot is written and no PUBREC is sent. -/
theorem publish_qos2_queue_full :
    publish_decode publishQos2
        = some (some (7, MQTT_Message_t.mk (cstr "a") 7 (MQTT_Flags_t.mk 0 2 0) [33])) ∧
      7 ∉ (sampleSession 3 [] [0, 0]).inbound ∧ 0 ∈ (sampleSession 3 [] [0, 0]).inbound ∧
      publish_h netUp cfgSample brokerQueueFull (sampleSession 3 [] [0, 0]) publishQos2
        = some (false, brokerQueueFull, sampleSession 3 [] [0, 0]) := by
  decide

/-- C10 (amended): for a session and a packet that `publish_h` decodes as a QoS-2
PUBLISH with packet-id k: (a) if k is in the in-flight array, nothing is enqueued
and the array is unchanged, the handler fails when dup = 0 and sends PUBREC(k) when
dup = 1; (b) if k is absent, a slot is free and the pending queue is not full,
exactly one entry is enqueued, k is written into the first free slot and PUBREC(k)
is sent; if the pending queue is full the handler fails and nothing changes; (c) if
k is absent and no slot is free, the handler fails and nothing changes. Consequently
a run of PUBLISH packets with no PUBREL in between enqueues at most one QoS-2 entry
with packet-id k, and none when k is already in flight. -/
theorem publish_qos2_exactly_once (net : Net) (cfg : Config) (b : Broker)
    (session : MQTT_Session_t) (msg : List Nat) (k : Nat) (m : MQTT_Message_t)
    (hdec : publish_decode msg = some (some (k, m))) (hq2 : m.flags.qos = 2)
    (hlen : session.inbound.length = cfg.MAX_INFLIGHT) :
    (k ∈ session.inbound →
      (m.flags.dup = 0 → publish_h net cfg b session msg = some (false, b, session)) ∧
      (m.flags.dup ≠ 0 → publish_h net cfg b session msg =
        some (net b.wire session.sd (pubrec_packet k),
          { b with wire := b.wire ++ [Event.send session.sd (pubrec_packet k)
              (net b.wire session.sd (pubrec_packet k))] },
          session))) ∧
    (k ∉ session.inbound → 0 ∈ session.inbound → b.queues_pending.length < cfg.QUEUE_SIZE →
      inflight_slot cfg session.inbound k < cfg.MAX_INFLIGHT ∧
      session.inbound.getD (inflight_slot cfg session.inbound k) 0 = 0 ∧
      publish_h net cfg b session msg =
        some (net b.wire session.sd (pubrec_packet k),
          { b with
            queues_pending := b.queues_pending ++ [queue_entry m],
            wire := b.wire ++ [Event.send session.sd (pubrec_packet k)
              (net b.wire session.sd (pubrec_packet k))] },
          { session with
            inbound := session.inbound.set (inflight_slot cfg session.inbound k) k })) ∧
    (k ∉ session.inbound → 0 ∈ session.inbound → cfg.QUEUE_SIZE ≤ b.queues_pending.length →
      publish_h net cfg b session msg = some (false, b, session)) ∧
    (k ∉ session.inbound → 0 ∉ session.inbound →
      publish_h net cfg b session msg = some (false, b, session)) ∧
    (∀ msgs : List (List Nat), (∀ x ∈ msgs, publish_decode x ≠ none) →
      ∃ r, publish_all net cfg msgs b session = some r ∧
        qos2_count k r.1.queues_pending ≤ qos2_count k b.queues_pending + 1 ∧
        (k ∈ session.inbound →
          qos2_count k r.1.queues_pending = qos2_count k b.queues_pending)) := by
  have h0 : m.flags.qos ≠ 0 := by omega
  have h1 : m.flags.qos ≠ 1 := by omega
  have hk : k ≠ 0 := (publish_decode_id msg k m hdec).2.2.1 h0
  have hbr := publish_h_qos2 net cfg b session msg k m hdec h0 h1
  refine ⟨?_, ?_, ?_, ?_, ?_⟩
  · intro hin
    obtain ⟨hs1, hs2⟩ := inflight_slot_present cfg session.inbound k hlen hin
    rw [hbr, if_neg (by omega), if_pos hs2]
    exact ⟨fun hd => by rw [if_pos hd], fun hd => by rw [if_neg hd, send_pubrec_eq]⟩
  · intro hout hfree hq
    obtain ⟨hs1, hs2⟩ := inflight_slot_free cfg session.inbound k hlen hout hfree
    refine ⟨hs1, hs2, ?_⟩
    rw [hbr, if_neg (by omega), if_neg (by rw [hs2]; exact fun e => hk e.symm),
      MQTT_queue_add_ok cfg b m hq]
    simp only [if_true, send_pubrec_eq]
  · intro hout hfree hq
    obtain ⟨hs1, hs2⟩ := inflight_slot_free cfg session.inbound k hlen hout hfree
    rw [hbr, if_neg (by omega), if_neg (by rw [hs2]; exact fun e => hk e.symm),
      MQTT_queue_add_full cfg b m hq]
    simp
  · intro hout hfull
    rw [hbr, if_pos (by rw [inflight_slot_full cfg session.inbound k hlen hout hfull])]
  · intro msgs hd
    exact publish_all_count net cfg k hk msgs b session hlen hd

theorem publish_qos2_exactly_once_witness :
    publish_h netUp cfgSample Broker.init (sampleSession 3 [] [0, 0]) publishQos2 =
      some (true,
        { Broker.init with
          queues_pending :=
            [MQTT_Queue_t.mk 2 0 (MQTT_Message_t.mk (cstr "a") 7 (MQTT_Flags_t.mk 0 2 0) [33])],
          wire := [Event.send 3 [80, 2, 0, 7] true] },
        sampleSession 3 [] [7, 0]) :=
  ((publish_qos2_exactly_once netUp cfgSample Broker.init (sampleSession 3 [] [0, 0]) publishQos2
    7 (MQTT_Message_t.mk (cstr "a") 7 (MQTT_Flags_t.mk 0 2 0) [33]) (by decide) rfl rfl).2.1
    (by decide) (by decide) (by decide)).2.2.trans (by decide)

/-! ## Theorems: PUBREL -/

theorem getD_set_zero (r : List Nat) (n idx : Nat) :
    (r.set n 0).getD idx 0 = if idx = n then 0 else r.getD idx 0 := by
  by_cases hi : idx = n
  · subst hi
    by_cases hlen : idx < r.length
    · simp [List.getD_eq_getElem?_getD, List.getElem?_set, hlen]
    · simp [List.getD_eq_getElem?_getD, List.getElem?_set, hlen]
  · have hne : n ≠ idx := fun e => hi e.symm
    simp [List.getD_eq_getElem?_getD, List.getElem?_set, hne, hi]

theorem inflight_clear_range (k : Nat) (l : List Nat) (n : Nat) :
    ((List.range n).foldl
        (fun inb i => if inb.getD i 0 = k then inb.set i 0 else inb) l).length = l.length ∧
    ∀ idx, ((List.range n).foldl
        (fun inb i => if inb.getD i 0 = k then inb.set i 0 else inb) l).getD idx 0
      = if idx < n ∧ l.getD idx 0 = k then 0 else l.getD idx 0 := by
  induction n with
  | zero => simp
  | succ n ih =>
    rw [List.range_succ, List.foldl_append]
    simp only [List.foldl_cons, List.foldl_nil]
    generalize (List.range n).foldl
        (fun inb i => if inb.getD i 0 = k then inb.set i 0 else inb) l = r at ih ⊢
    obtain ⟨hl, hg⟩ := ih
    have hn : r.getD n 0 = l.getD n 0 := by
      rw [hg n]; simp
    rw [hn]
    by_cases hk : l.getD n 0 = k
    · rw [if_pos hk]
      refine ⟨by simpa using hl, ?_⟩
      intro idx
      rw [getD_set_zero, hg idx]
      by_cases hi : idx = n
      · subst hi
        rw [if_pos rfl, if_pos ⟨Nat.lt_succ_self _, hk⟩]
      · by_cases h1 : idx < n
        · have : idx < n + 1 := by omega
          simp [h1, this, hi]
        · have : ¬ idx < n + 1 := by omega
          simp [h1, this, hi]
    · rw [if_neg hk]
      refine ⟨hl, ?_⟩
      intro idx
      rw [hg idx]
      by_cases hi : idx = n
      · subst hi
        rw [if_neg (fun h => hk h.2), if_neg (fun h => hk h.2)]
      · by_cases h1 : idx < n
        · have : idx < n + 1 := by omega
          simp [h1, this]
        · have : ¬ idx < n + 1 := by omega
          simp [h1, this]

/-- The clearing loop of `pubrel_h`, slot by slot. -/
theorem inflight_clear_slots (max k : Nat) (inbound : List Nat) :
    (inflight_clear max k inbound).length = inbound.length ∧
    ∀ idx, idx < max → (inflight_clear max k inbound).getD idx 0
      = if inbound.getD idx 0 = k then 0 else inbound.getD idx 0 := by
  obtain ⟨h1, h2⟩ := inflight_clear_range k inbound max
  refine ⟨h1, ?_⟩
  intro idx hidx
  unfold inflight_clear
  rw [h2 idx]
  simp [hidx]

theorem decodeSize_four_short (h l hi lo : Nat) (hc : ¬ (l / 128) % 2 ≠ 0) :
    MQTT_br_decodeSize [h, l, hi, lo] 1 = some (1, l % 128) := by
  simp [MQTT_br_decodeSize, decodeSizeLoop, hc]

theorem decodeSize_four_long (h l hi lo n s : Nat) (hc : (l / 128) % 2 ≠ 0)
    (hd : MQTT_br_decodeSize [h, l, hi, lo] 1 = some (n, s)) : 2 ≤ n := by
  simp only [MQTT_br_decodeSize, decodeSizeLoop, List.get?_cons_succ, List.get?_cons_zero] at hd
  rw [if_neg (by omega), if_pos hc, if_neg (by omega)] at hd
  split at hd
  · rw [if_neg (by omega)] at hd
    split at hd
    · rw [if_neg (by omega)] at hd
      simp at hd
    · simp at hd; omega
  · simp at hd; omega

theorem pubrel_decode_four (h l hi lo k : Nat) (hb : ∀ x ∈ [h, l, hi, lo], x < 256)
    (ht : h / 16 = 6) :
    pubrel_decode [h, l, hi, lo] = some (some k) ↔ PubrelShape [h, l, hi, lo] k := by
  have hl : l < 256 := hb l (by simp)
  have ht' : (h / 16) % 16 = 6 := by omega
  have hshape : PubrelShape [h, l, hi, lo] k ↔
      ((h / 8) % 2 = 0 ∧ (h / 2) % 4 = 1 ∧ h % 2 = 0 ∧ l = 2 ∧ k = 256 * hi + lo ∧ k ≠ 0) := by
    simp [PubrelShape]
  rw [hshape]
  by_cases hf : (h / 8) % 2 ≠ 0 ∨ (h / 2) % 4 ≠ 1 ∨ h % 2 ≠ 0
  · have : pubrel_decode [h, l, hi, lo] = some none := by
      simp only [pubrel_decode, List.length_cons, List.length_nil, List.get?_cons_zero, ht']
      rw [if_neg (by simp), if_neg (by simp), if_pos hf]
    rw [this]
    constructor
    · intro e; simp at e
    · rintro ⟨f1, f2, f3, _⟩; rcases hf with hf | hf | hf <;> omega
  · have hf' : (h / 8) % 2 = 0 ∧ (h / 2) % 4 = 1 ∧ h % 2 = 0 := by omega
    by_cases hc : (l / 128) % 2 ≠ 0
    · have hno : pubrel_decode [h, l, hi, lo] ≠ some (some k) := by
        simp only [pubrel_decode, List.length_cons, List.length_nil, List.get?_cons_zero, ht']
        rw [if_neg (by simp), if_neg (by simp), if_neg hf]
        cases hd : MQTT_br_decodeSize [h, l, hi, lo] 1 with
        | none => simp
        | some r =>
          obtain ⟨n, s⟩ := r
          have hn := decodeSize_four_long h l hi lo n s hc hd
          have hr : MQTT_br_readInt [h, l, hi, lo] (1 + n) = none := by
            obtain ⟨m, rfl⟩ : ∃ m, n = m + 2 := ⟨n - 2, by omega⟩
            have e : 1 + (m + 2) = m + 3 := by omega
            rw [e]
            cases m <;> simp [MQTT_br_readInt]
          simp only [hr]
          split <;> simp
      constructor
      · intro e; exact absurd e hno
      · rintro ⟨_, _, _, h2, _⟩; omega
    · have hd := decodeSize_four_short h l hi lo hc
      have hs : l % 128 = l := by omega
      have hr : MQTT_br_readInt [h, l, hi, lo] (1 + 1) = some (256 * hi + lo) := by
        simp [MQTT_br_readInt]
      have : pubrel_decode [h, l, hi, lo] =
          if l ≠ 2 then some none
          else if 256 * hi + lo = 0 then some none else some (some (256 * hi + lo)) := by
        simp only [pubrel_decode, List.length_cons, List.length_nil, List.get?_cons_zero, ht']
        rw [if_neg (by simp), if_neg (by simp), if_neg hf, hd, hs]
        simp only [hr]
      rw [this]
      by_cases hl2 : l = 2
      · rw [if_neg (by omega)]
        by_cases hz : 256 * hi + lo = 0
        · rw [if_pos hz]
          constructor
          · intro e; simp at e
          · rintro ⟨_, _, _, _, h5, h6⟩; omega
        · rw [if_neg hz]
          constructor
          · intro e
            simp only [Option.some.injEq] at e
            exact ⟨hf'.1, hf'.2.1, hf'.2.2, hl2, e.symm, by omega⟩
          · rintro ⟨_, _, _, _, h5, _⟩
            rw [h5]
      · rw [if_pos hl2]
        constructor
        · intro e; simp at e
        · rintro ⟨_, _, _, h4, _⟩; exact absurd h4 hl2
theorem list_of_length_four (msg : List Nat) (h : msg.length = 4) :
    ∃ a c d e, msg = [a, c, d, e] := by
  match msg, h with
  | [a, c, d, e], _ => exact ⟨a, c, d, e, rfl⟩

theorem pubrel_decode_iff (msg : List Nat) (hb : ∀ x ∈ msg, x < 256)
    (ht : msg.getD 0 0 / 16 = 6) (k : Nat) :
    pubrel_decode msg = some (some k) ↔ PubrelShape msg k := by
  by_cases hlen : msg.length = 4
  · obtain ⟨a, c, d, e, rfl⟩ := list_of_length_four msg hlen
    exact pubrel_decode_four a c d e k hb (by simpa using ht)
  · constructor
    · intro e
      simp [pubrel_decode, hlen] at e
    · intro e
      exact absurd e.1 hlen

/-- The validation of `pubrel_h` stays inside a packet framed by the reader. -/
theorem pubrel_decode_framed (msg : List Nat) (hfr : Framed msg) : pubrel_decode msg ≠ none := by
  obtain ⟨n, s, hd, hn, hlen⟩ := hfr
  by_cases h4 : msg.length = 4
  · obtain ⟨a, c, d, e, rfl⟩ := list_of_length_four msg h4
    simp only [pubrel_decode, List.length_cons, List.length_nil, List.get?_cons_zero, hd]
    rw [if_neg (by simp)]
    split
    · simp
    · split
      · simp
      · split
        · simp
        · rename_i hs2
          have hn1 : n = 1 := by
            simp only [List.length_cons, List.length_nil] at hlen
            omega
          subst hn1
          simp only [MQTT_br_readInt, List.get?_cons_succ, List.get?_cons_zero]
          split <;> simp
  · simp [pubrel_decode, h4]

/-- C11: for a packet of type PUBREL as the reader frames it, `pubrel_h` accepts the
packet exactly when it is 4 bytes long, its header flags are dup = 0, qos = 1,
retain = 0, its remaining length is 2 and its packet-id k is not 0. On acceptance
every in-flight slot equal to k becomes 0, every other slot is unchanged, and
PUBCOMP (bytes 0x70 0x02 k_hi k_lo) is sent, whether or not k was in the array; the
returned value is the outcome of that send. Otherwise the handler returns 0 and
changes nothing. -/
theorem pubrel_handling (net : Net) (cfg : Config) (b : Broker) (session : MQTT_Session_t)
    (msg : List Nat) (hb : ∀ x ∈ msg, x < 256) (ht : msg.getD 0 0 / 16 = 6)
    (hfr : Framed msg) :
    (∀ k, PubrelShape msg k →
      pubrel_h net cfg b session msg =
        some (net b.wire session.sd (pubcomp_packet k),
          { b with wire := b.wire ++ [Event.send session.sd (pubcomp_packet k)
              (net b.wire session.sd (pubcomp_packet k))] },
          { session with inbound := inflight_clear cfg.MAX_INFLIGHT k session.inbound }) ∧
      (inflight_clear cfg.MAX_INFLIGHT k session.inbound).length = session.inbound.length ∧
      (∀ idx, idx < cfg.MAX_INFLIGHT →
        (inflight_clear cfg.MAX_INFLIGHT k session.inbound).getD idx 0
          = if session.inbound.getD idx 0 = k then 0 else session.inbound.getD idx 0) ∧
      pubcomp_packet k = [0x70, 0x02, msg.getD 2 0, msg.getD 3 0]) ∧
    ((∀ k, ¬ PubrelShape msg k) → pubrel_h net cfg b session msg = some (false, b, session)) := by
  constructor
  · intro k hk
    have hdec := (pubrel_decode_iff msg hb ht k).mpr hk
    have hslots := inflight_clear_slots cfg.MAX_INFLIGHT k session.inbound
    refine ⟨?_, hslots.1, hslots.2, ?_⟩
    · simp only [pubrel_h, hdec]
      rfl
    · obtain ⟨h4, _, _, _, _, hkk, _⟩ := hk
      obtain ⟨a, c, d, e, rfl⟩ := list_of_length_four msg h4
      have hd : d < 256 := hb d (by simp)
      have he : e < 256 := hb e (by simp)
      simp only [List.getD_cons_zero, List.getD_cons_succ] at hkk ⊢
      simp only [pubcomp_packet, hkk]
      have e1 : (256 * d + e) / 256 % 256 = d := by omega
      have e2 : (256 * d + e) % 256 = e := by omega
      rw [e1, e2]
  · intro hno
    cases hd : pubrel_decode msg with
    | none => exact absurd hd (pubrel_decode_framed msg hfr)
    | some r =>
      cases r with
      | none => simp [pubrel_h, hd]
      | some k => exact absurd ((pubrel_decode_iff msg hb ht k).mp hd) (hno k)

theorem pubrel_handling_witness :
    PubrelShape pubrelSeven 7 ∧
    pubrel_h netUp cfgSample Broker.init (sampleSession 3 [] [7, 5]) pubrelSeven =
      some (true, { Broker.init with wire := [Event.send 3 [0x70, 0x02, 0, 7] true] },
        sampleSession 3 [] [0, 5]) :=
  ⟨by decide,
    ((pubrel_handling netUp cfgSample Broker.init (sampleSession 3 [] [7, 5]) pubrelSeven
      (by decide) (by decide) ⟨1, 2, by decide, by decide, by decide⟩).1 7 (by decide)).1.trans
      (by decide)⟩

/-! ## Theorems: close, drop and the last will -/

theorem store_or_free_frame (cfg : Config) (b : Broker) (session : MQTT_Session_t) :
    (store_or_free cfg b session).sessions_current = b.sessions_current ∧
      (store_or_free cfg b session).queues_pending = b.queues_pending := by
  unfold store_or_free session_store session_free
  split <;> simp

theorem store_or_free_stored (cfg : Config) (b : Broker) (session : MQTT_Session_t) :
    (store_or_free cfg b session).sessions_stored =
      if cfg.STORE_SESSIONS = true ∧ session.id ≠ none ∧ session.clean = false then
        (if b.sessions_stored.length ≥ cfg.MAX_STORED_SESSIONS then b.sessions_stored.tail
          else b.sessions_stored) ++ [session]
      else b.sessions_stored := by
  unfold store_or_free session_store session_free
  cases h1 : cfg.STORE_SESSIONS <;> cases h2 : session.id <;> cases h3 : session.clean <;> simp

theorem publish_lwt_frame (cfg : Config) (b : Broker) (lwt : Option MQTT_Message_t) :
    (publish_lwt cfg b lwt).sessions_current = b.sessions_current ∧
      (publish_lwt cfg b lwt).sessions_stored = b.sessions_stored := by
  cases lwt with
  | none => exact ⟨rfl, rfl⟩
  | some m =>
    simp only [publish_lwt, MQTT_queue_add]
    split <;> simp

/-- C16: `MQTT_session_close` leaves the pending queue unchanged; `MQTT_session_drop`
of a session without a will leaves it unchanged; `MQTT_session_drop` of a session
with a will, when the pending queue is not full, appends exactly one entry, whose
topic and payload are those of the will and whose p_qos and retain state are the
will-QoS and the will-retain. -/
theorem lwt_on_drop_not_on_close (cfg : Config) (b : Broker) (i : Nat)
    (session : MQTT_Session_t) (hget : b.sessions_current.get? i = some session) :
    (MQTT_session_close cfg b i).queues_pending = b.queues_pending ∧
    (session.lwt = none → (MQTT_session_drop cfg b i).queues_pending = b.queues_pending) ∧
    (∀ lwt, session.lwt = some lwt → b.queues_pending.length < cfg.QUEUE_SIZE →
      (MQTT_session_drop cfg b i).queues_pending = b.queues_pending ++ [queue_entry lwt] ∧
      (queue_entry lwt).message.topic = lwt.topic ∧
      (queue_entry lwt).message.payload = lwt.payload ∧
      (queue_entry lwt).p_qos = lwt.flags.qos ∧
      (queue_entry lwt).retain = lwt.flags.retain) := by
  refine ⟨?_, ?_, ?_⟩
  · simp only [MQTT_session_close, hget]
    rw [(store_or_free_frame cfg _ _).2]
  · intro hl
    simp only [MQTT_session_drop, hget, hl, publish_lwt]
    rw [(store_or_free_frame cfg _ _).2]
  · intro lwt hl hq
    refine ⟨?_, rfl, rfl, rfl, rfl⟩
    simp only [MQTT_session_drop, hget, hl, publish_lwt]
    rw [(store_or_free_frame cfg _ _).2, MQTT_queue_add_ok cfg _ lwt (by simpa using hq)]

theorem lwt_on_drop_not_on_close_witness :
    (MQTT_session_close cfgSample brokerC1 0).queues_pending = [] ∧
    (MQTT_session_drop cfgSample brokerC1 0).queues_pending =
      [MQTT_Queue_t.mk 1 0
        (MQTT_Message_t.mk (cstr "status/c1") 0 (MQTT_Flags_t.mk 0 1 0) (cstr "offline"))] ∧
    (MQTT_session_drop cfgSample brokerC1 1).queues_pending = [] :=
  ⟨(lwt_on_drop_not_on_close cfgSample brokerC1 0 sessionC1 rfl).1,
    ((lwt_on_drop_not_on_close cfgSample brokerC1 0 sessionC1 rfl).2.2 _ rfl
      (by decide)).1.trans (by decide),
    (lwt_on_drop_not_on_close cfgSample brokerC1 1 (new_session cfgSample 4 7) rfl).2.1 rfl⟩

/-- C17: with session storage enabled (and room for at least one stored session),
after `MQTT_session_close` or `MQTT_session_drop` the session is no longer in the
current list. When it has a client-id and clean = false it is the newest stored
session, with its client-id, subscriptions and in-flight array as they were (the
oldest stored session is evicted when the stored list was full); otherwise the
stored list is unchanged. -/
theorem store_or_free_on_close_and_drop (cfg : Config) (b : Broker) (i : Nat)
    (session : MQTT_Session_t) (hget : b.sessions_current.get? i = some session)
    (hstore : cfg.STORE_SESSIONS = true) (_hmax : 1 ≤ cfg.MAX_STORED_SESSIONS) :
    (MQTT_session_close cfg b i).sessions_current = b.sessions_current.eraseIdx i ∧
    (MQTT_session_drop cfg b i).sessions_current = b.sessions_current.eraseIdx i ∧
    ((session.id ≠ none ∧ session.clean = false) →
      (MQTT_session_close cfg b i).sessions_stored =
        (if b.sessions_stored.length ≥ cfg.MAX_STORED_SESSIONS then b.sessions_stored.tail
          else b.sessions_stored) ++ [closed session] ∧
      (MQTT_session_drop cfg b i).sessions_stored =
        (if b.sessions_stored.length ≥ cfg.MAX_STORED_SESSIONS then b.sessions_stored.tail
          else b.sessions_stored) ++ [closed session] ∧
      (closed session).id = session.id ∧
      (closed session).subscriptions = session.subscriptions ∧
      (closed session).inbound = session.inbound) ∧
    (¬ (session.id ≠ none ∧ session.clean = false) →
      (MQTT_session_close cfg b i).sessions_stored = b.sessions_stored ∧
      (MQTT_session_drop cfg b i).sessions_stored = b.sessions_stored) := by
  have hc : (closed session).id = session.id ∧ (closed session).clean = session.clean :=
    ⟨rfl, rfl⟩
  refine ⟨?_, ?_, ?_, ?_⟩
  · simp only [MQTT_session_close, hget]
    rw [(store_or_free_frame cfg _ _).1]
  · simp only [MQTT_session_drop, hget]
    rw [(store_or_free_frame cfg _ _).1, (publish_lwt_frame cfg _ _).1]
  · intro h
    refine ⟨?_, ?_, rfl, rfl, rfl⟩
    · simp only [MQTT_session_close, hget]
      rw [store_or_free_stored, if_pos ⟨hstore, by rw [hc.1]; exact h.1, by rw [hc.2]; exact h.2⟩]
    · simp only [MQTT_session_drop, hget]
      rw [store_or_free_stored, if_pos ⟨hstore, by rw [hc.1]; exact h.1, by rw [hc.2]; exact h.2⟩,
        (publish_lwt_frame cfg _ _).2]
  · intro h
    have hneg : ¬ (cfg.STORE_SESSIONS = true ∧ (closed session).id ≠ none ∧
        (closed session).clean = false) := by
      rw [hc.1, hc.2]
      exact fun hh => h hh.2
    refine ⟨?_, ?_⟩
    · simp only [MQTT_session_close, hget]
      rw [store_or_free_stored, if_neg hneg]
    · simp only [MQTT_session_drop, hget]
      rw [store_or_free_stored, if_neg hneg, (publish_lwt_frame cfg _ _).2]

theorem store_or_free_on_close_and_drop_witness :
    (MQTT_session_close cfgSample brokerC1 0).sessions_current = [new_session cfgSample 4 7] ∧
    (MQTT_session_close cfgSample brokerC1 0).sessions_stored = [closed sessionC1] ∧
    (MQTT_session_drop cfgSample brokerC1 1).sessions_stored = [] :=
  ⟨(store_or_free_on_close_and_drop cfgSample brokerC1 0 sessionC1 rfl rfl (by decide)).1,
    ((store_or_free_on_close_and_drop cfgSample brokerC1 0 sessionC1 rfl rfl
      (by decide)).2.2.1 (by decide)).1,
    ((store_or_free_on_close_and_drop cfgSample brokerC1 1 (new_session cfgSample 4 7) rfl rfl
      (by decide)).2.2.2 (by decide)).2⟩

/-! ## Theorems: subscriptions -/

theorem subscriptions_update_none (f : CStr) (q : Nat) (l : List MQTT_Subscription_t) :
    subscriptions_update f q l = none ↔ ∀ it ∈ l, it.topic_filter ≠ f := by
  induction l with
  | nil => simp [subscriptions_update]
  | cons it rest ih =>
    by_cases h : it.topic_filter = f
    · simp [subscriptions_update, h]
    · simp [subscriptions_update, h, ih]

theorem subscriptions_update_some (f : CStr) (q : Nat) (l l' : List MQTT_Subscription_t)
    (h : subscriptions_update f q l = some l') :
    ∃ pre it post, l = pre ++ it :: post ∧ (∀ x ∈ pre, x.topic_filter ≠ f) ∧
      it.topic_filter = f ∧ l' = pre ++ { it with qos := q } :: post := by
  induction l generalizing l' with
  | nil => simp [subscriptions_update] at h
  | cons a rest ih =>
    by_cases ha : a.topic_filter = f
    · simp only [subscriptions_update, ha, if_true, Option.some.injEq] at h
      exact ⟨[], a, rest, rfl, by simp, ha, by simp [← h, ha]⟩
    · simp only [subscriptions_update, ha, if_false, Option.map_eq_some'] at h
      obtain ⟨r, hr, hl'⟩ := h
      obtain ⟨pre, it, post, h1, h2, h3, h4⟩ := ih r hr
      refine ⟨a :: pre, it, post, by simp [h1], ?_, h3, by simp [← hl', h4]⟩
      intro x hx
      rcases List.mem_cons.mp hx with e | e
      · rw [e]; exact ha
      · exact h2 x e

/-- C19: `MQTT_subscriptions_add` (the allocation succeeding) returns 0, 1, 2 or 0x80.
For a non-empty filter and a QoS in {0, 1, 2}: if the session has a subscription
with that filter, the QoS of the first such subscription becomes the requested one,
the requested QoS is returned and no subscription is added; otherwise, if the
session holds MAX_SUBSCRIPTIONS subscriptions or more, 0x80 is returned and nothing
changes; otherwise (filter, qos) is appended and qos is returned. A NULL or empty
filter or a QoS outside {0, 1, 2} returns 0x80 and changes nothing. -/
theorem subscriptions_add_spec (cfg : Config) (session : MQTT_Session_t)
    (topic_filter : Option CStr) (qos : Int) :
    ((MQTT_subscriptions_add cfg session topic_filter qos).1 = 0 ∨
      (MQTT_subscriptions_add cfg session topic_filter qos).1 = 1 ∨
      (MQTT_subscriptions_add cfg session topic_filter qos).1 = 2 ∨
      (MQTT_subscriptions_add cfg session topic_filter qos).1 = 0x80) ∧
    (∀ f, topic_filter = some f → f ≠ [] → (qos = 0 ∨ qos = 1 ∨ qos = 2) →
      ((∃ it ∈ session.subscriptions, it.topic_filter = f) →
        ∃ pre it post, session.subscriptions = pre ++ it :: post ∧
          (∀ x ∈ pre, x.topic_filter ≠ f) ∧ it.topic_filter = f ∧
          MQTT_subscriptions_add cfg session topic_filter qos =
            (qos.toNat, { session with
              subscriptions := pre ++ { it with qos := qos.toNat } :: post })) ∧
      ((∀ it ∈ session.subscriptions, it.topic_filter ≠ f) →
        session.subscriptions.length ≥ cfg.MAX_SUBSCRIPTIONS →
        MQTT_subscriptions_add cfg session topic_filter qos = (0x80, session)) ∧
      ((∀ it ∈ session.subscriptions, it.topic_filter ≠ f) →
        session.subscriptions.length < cfg.MAX_SUBSCRIPTIONS →
        MQTT_subscriptions_add cfg session topic_filter qos =
          (qos.toNat, { session with
            subscriptions := session.subscriptions
              ++ [{ topic_filter := f, qos := qos.toNat }] }))) ∧
    ((topic_filter = none ∨ topic_filter = some [] ∨ ¬ (qos = 0 ∨ qos = 1 ∨ qos = 2)) →
      MQTT_subscriptions_add cfg session topic_filter qos = (0x80, session)) := by
  refine ⟨?_, ?_, ?_⟩
  · unfold MQTT_subscriptions_add
    cases topic_filter with
    | none => simp
    | some f =>
      simp only []
      split
      · simp
      · split
        · simp
        · rename_i hq
          have hq' : qos = 0 ∨ qos = 1 ∨ qos = 2 := by omega
          have ht : qos.toNat = 0 ∨ qos.toNat = 1 ∨ qos.toNat = 2 := by
            rcases hq' with e | e | e <;> subst e <;> simp
          split
          · rcases ht with e | e | e <;> simp [e]
          · split
            · simp
            · rcases ht with e | e | e <;> simp [e]
  · intro f hf hne hq
    subst hf
    have hlen : ¬ f.length = 0 := fun e => hne (List.length_eq_zero.mp e)
    have hq' : ¬ (qos ≠ 0 ∧ qos ≠ 1 ∧ qos ≠ 2) := by omega
    refine ⟨?_, ?_, ?_⟩
    · rintro ⟨it, hit, hitf⟩
      cases hu : subscriptions_update f qos.toNat session.subscriptions with
      | none =>
        exact absurd hitf ((subscriptions_update_none f _ _).mp hu it hit)
      | some l' =>
        obtain ⟨pre, it', post, h1, h2, h3, h4⟩ := subscriptions_update_some f _ _ l' hu
        refine ⟨pre, it', post, h1, h2, h3, ?_⟩
        simp only [MQTT_subscriptions_add, hlen, if_false, hq', hu, h4]
    · intro hall hfull
      have hu := (subscriptions_update_none f qos.toNat session.subscriptions).mpr hall
      simp only [MQTT_subscriptions_add, hlen, if_false, hq', hu, hfull, if_true]
    · intro hall hroom
      have hu := (subscriptions_update_none f qos.toNat session.subscriptions).mpr hall
      have hnf : ¬ session.subscriptions.length ≥ cfg.MAX_SUBSCRIPTIONS := by omega
      simp only [MQTT_subscriptions_add, hlen, if_false, hq', hu, hnf]
  · intro h
    rcases h with e | e | e
    · subst e; rfl
    · subst e; simp [MQTT_subscriptions_add]
    · cases topic_filter with
      | none => rfl
      | some f =>
        have hq' : qos ≠ 0 ∧ qos ≠ 1 ∧ qos ≠ 2 := by omega
        simp only [MQTT_subscriptions_add, hq']
        split <;> simp

theorem subscriptions_add_spec_witness :
    MQTT_subscriptions_add cfgSample sessionC1 (some (cstr "y")) 0 =
      (0, { sessionC1 with
        subscriptions := [MQTT_Subscription_t.mk (cstr "x") 1, MQTT_Subscription_t.mk (cstr "y") 0] }) ∧
    MQTT_subscriptions_add cfgSample sessionC1 (some (cstr "y")) 3 = (0x80, sessionC1) :=
  ⟨(((subscriptions_add_spec cfgSample sessionC1 (some (cstr "y")) 0).2.1 (cstr "y") rfl
      (by decide) (by decide)).2.2 (by decide) (by decide)).trans (by decide),
    (subscriptions_add_spec cfgSample sessionC1 (some (cstr "y")) 3).2.2 (by decide)⟩

theorem eraseP_filter_eq_filter (f : CStr) (l : List MQTT_Subscription_t)
    (h : (l.map (fun it => it.topic_filter)).Nodup) :
    l.eraseP (fun it => it.topic_filter = f) = l.filter (fun it => it.topic_filter ≠ f) := by
  induction l with
  | nil => rfl
  | cons r rs ih =>
    rw [List.map_cons, List.nodup_cons] at h
    by_cases ht : r.topic_filter = f
    · have hall : ∀ x ∈ rs, x.topic_filter ≠ f := by
        intro x hx e
        exact h.1 (List.mem_map.mpr ⟨x, hx, by rw [e, ht]⟩)
      have hf : rs.filter (fun it => it.topic_filter ≠ f) = rs :=
        List.filter_eq_self.mpr (by intro x hx; simpa using hall x hx)
      simp [List.eraseP_cons, ht, List.filter_cons]
      simpa [ht] using hf.symm
    · simp [List.eraseP_cons, ht, List.filter_cons, ih h.2]

/-- C20: for a session whose filters are pairwise distinct (and, as registered
filters are, not empty) and every filter f, `MQTT_subscriptions_remove` leaves
exactly the subscriptions whose filter is not f, in their order, and changes nothing
else in the session; no subscription with filter f remains; removing f a second time
changes nothing; and removing a filter the session does not have changes nothing. -/
theorem subscriptions_remove_idempotent (session : MQTT_Session_t) (f : CStr)
    (hd : (session.subscriptions.map (fun it => it.topic_filter)).Nodup)
    (hne : ∀ it ∈ session.subscriptions, it.topic_filter ≠ []) :
    MQTT_subscriptions_remove session (some f) =
      { session with
        subscriptions := session.subscriptions.filter (fun it => it.topic_filter ≠ f) } ∧
    (∀ it ∈ (MQTT_subscriptions_remove session (some f)).subscriptions, it.topic_filter ≠ f) ∧
    MQTT_subscriptions_remove (MQTT_subscriptions_remove session (some f)) (some f)
      = MQTT_subscriptions_remove session (some f) ∧
    ((∀ it ∈ session.subscriptions, it.topic_filter ≠ f) →
      MQTT_subscriptions_remove session (some f) = session) := by
  have h1 : MQTT_subscriptions_remove session (some f) =
      { session with
        subscriptions := session.subscriptions.filter (fun it => it.topic_filter ≠ f) } := by
    by_cases hf : f.length = 0
    · have hnil : f = [] := List.length_eq_zero.mp hf
      have hs : session.subscriptions.filter (fun it => it.topic_filter ≠ f)
          = session.subscriptions :=
        List.filter_eq_self.mpr (by intro x hx; simpa [hnil] using hne x hx)
      simp only [MQTT_subscriptions_remove, hf, if_true, hs]
    · simp only [MQTT_subscriptions_remove, hf, if_false]
      rw [eraseP_filter_eq_filter f _ hd]
  have h2 : ∀ it ∈ (MQTT_subscriptions_remove session (some f)).subscriptions,
      it.topic_filter ≠ f := by
    rw [h1]
    intro it hit
    simpa using (List.mem_filter.mp hit).2
  refine ⟨h1, h2, ?_, ?_⟩
  · by_cases hf : f.length = 0
    · simp only [MQTT_subscriptions_remove, hf, if_true]
    · have : (MQTT_subscriptions_remove session (some f)).subscriptions.eraseP
          (fun it => it.topic_filter = f)
          = (MQTT_subscriptions_remove session (some f)).subscriptions :=
        List.eraseP_of_forall_not (by intro a ha; simpa using h2 a ha)
      conv_lhs => rw [MQTT_subscriptions_remove]
      simp only [hf, if_false, this]
  · intro hall
    rw [h1]
    have hs : session.subscriptions.filter (fun it => it.topic_filter ≠ f)
        = session.subscriptions :=
      List.filter_eq_self.mpr (by intro x hx; simpa using hall x hx)
    rw [hs]

theorem subscriptions_remove_idempotent_witness :
    MQTT_subscriptions_remove (sampleSession 3 [("x", 1), ("y", 0)] [0, 0]) (some (cstr "x"))
      = sampleSession 3 [("y", 0)] [0, 0] ∧
    MQTT_subscriptions_remove (sampleSession 3 [("y", 0)] [0, 0]) (some (cstr "x"))
      = sampleSession 3 [("y", 0)] [0, 0] :=
  ⟨(subscriptions_remove_idempotent (sampleSession 3 [("x", 1), ("y", 0)] [0, 0]) (cstr "x")
      (by decide) (by decide)).1.trans (by decide),
    (subscriptions_remove_idempotent (sampleSession 3 [("y", 0)] [0, 0]) (cstr "x")
      (by decide) (by decide)).2.2.2 (by decide)⟩

/-! ## Theorems: activation -/

theorem get?_mid {α : Type} (P : List α) (s : α) (R : List α) :
    (P ++ s :: R).get? P.length = some s := by
  induction P with
  | nil => rfl
  | cons a P ih => simpa using ih

theorem getElem?_mid {α : Type} (P : List α) (s : α) (R : List α) :
    (P ++ s :: R)[P.length]? = some s := by
  simpa using get?_mid P s R

theorem getElem_mid {α : Type} (P : List α) (s : α) (R : List α)
    (h : P.length < (P ++ s :: R).length) : (P ++ s :: R)[P.length] = s := by
  have := getElem?_mid P s R
  rw [List.getElem?_eq_getElem h] at this
  exact Option.some.inj this

theorem set_mid {α : Type} (P : List α) (s v : α) (R : List α) :
    (P ++ s :: R).set P.length v = P ++ v :: R := by
  induction P with
  | nil => rfl
  | cons a P ih => simp [ih]

theorem take_mid {α : Type} (P : List α) (s : α) (R : List α) :
    (P ++ s :: R).take P.length = P := by
  induction P with
  | nil => rfl
  | cons a P ih => simp [ih]

theorem drop_mid {α : Type} (P : List α) (s : α) (R : List α) :
    (P ++ s :: R).drop (P.length + 1) = R := by
  induction P with
  | nil => rfl
  | cons a P ih => simp [ih]

theorem eraseIdx_mid {α : Type} (P : List α) (s : α) (R : List α) :
    (P ++ s :: R).eraseIdx P.length = P ++ R := by
  induction P with
  | nil => rfl
  | cons a P ih => simpa using ih

/-- A list splits around the element at a position. -/
theorem get?_split {α : Type} (l : List α) (i : Nat) (s : α) (h : l.get? i = some s) :
    ∃ P R, l = P ++ s :: R ∧ P.length = i := by
  induction l generalizing i with
  | nil => simp at h
  | cons a l ih =>
    cases i with
    | zero =>
      simp at h
      exact ⟨[], l, by simp [h], rfl⟩
    | succ i =>
      obtain ⟨P, R, h1, h2⟩ := ih i (by simpa using h)
      exact ⟨a :: P, R, by simp [h1], by simp [h2]⟩

theorem take_out_none (X : CStr) (l : List MQTT_Session_t) :
    take_out X l = none ↔ ∀ s ∈ l, s.id ≠ some X := by
  induction l with
  | nil => simp [take_out]
  | cons a rest ih =>
    by_cases h : a.id = some X
    · simp [take_out, h]
    · simp [take_out, h, ih]

theorem take_out_some (X : CStr) (l l' : List MQTT_Session_t) (it : MQTT_Session_t)
    (h : take_out X l = some (it, l')) :
    ∃ A B, l = A ++ it :: B ∧ l' = A ++ B ∧ it.id = some X ∧ ∀ s ∈ A, s.id ≠ some X := by
  induction l generalizing l' with
  | nil => simp [take_out] at h
  | cons a rest ih =>
    by_cases ha : a.id = some X
    · simp only [take_out, ha, if_true, Option.some.injEq, Prod.mk.injEq] at h
      obtain ⟨h1, h2⟩ := h
      subst h1 h2
      exact ⟨[], rest, rfl, rfl, ha, by simp⟩
    · simp only [take_out, ha, if_false, Option.map_eq_some'] at h
      obtain ⟨r, hr, he⟩ := h
      obtain ⟨r1, r2⟩ := r
      simp only [Prod.mk.injEq] at he
      obtain ⟨e1, e2⟩ := he
      subst e1 e2
      obtain ⟨A, B, h1, h2, h3, h4⟩ := ih r2 hr
      refine ⟨a :: A, B, by simp [h1], by simp [h2], h3, ?_⟩
      intro s hs
      rcases List.mem_cons.mp hs with e | e
      · rw [e]; exact ha
      · exact h4 s e

/-- The session found by a scan when the client-id occurs once: the scan takes out
exactly that session. -/
theorem take_out_unique (X : CStr) (A B : List MQTT_Session_t) (old : MQTT_Session_t)
    (hold : old.id = some X) (hA : ∀ s ∈ A, s.id ≠ some X) :
    take_out X (A ++ old :: B) = some (old, A ++ B) := by
  induction A with
  | nil => simp [take_out, hold]
  | cons a A ih =>
    have ha : a.id ≠ some X := hA a (by simp)
    have := ih (fun s hs => hA s (List.mem_cons_of_mem _ hs))
    simp [take_out, ha, this]

/-- The function `MQTT_session_activate` on a current list split around the
session. -/
theorem activate_split (cfg : Config) (b : Broker) (P : List MQTT_Session_t)
    (session : MQTT_Session_t) (R : List MQTT_Session_t) (client_id : Option CStr)
    (keepalive : Nat) (clean : Bool) (lwt : Option MQTT_Message_t) (now : Nat)
    (hc : b.sessions_current = P ++ session :: R) :
    MQTT_session_activate cfg b P.length client_id keepalive clean lwt now =
      match (activated session client_id keepalive clean lwt now).id with
      | none =>
        (false, P.length, { b with
          sessions_current :=
            P ++ settled cfg clean (activated session client_id keepalive clean lwt now) :: R })
      | some X =>
        match take_out X P with
        | some (it, P') =>
          (!clean, P'.length, { b with
            sessions_current := P' ++ settled cfg clean
              (take_over (activated session client_id keepalive clean lwt now) it) :: R,
            wire := b.wire ++ [Event.close it.sd] })
        | none =>
          match take_out X R with
          | some (it, R') =>
            (!clean, P.length, { b with
              sessions_current := P ++ settled cfg clean
                (take_over (activated session client_id keepalive clean lwt now) it) :: R',
              wire := b.wire ++ [Event.close it.sd] })
          | none =>
            match take_out X b.sessions_stored with
            | some (it, S') =>
              (!clean, P.length, { b with
                sessions_current := P ++ settled cfg clean
                  (take_over (activated session client_id keepalive clean lwt now) it) :: R,
                sessions_stored := S' })
            | none =>
              (false, P.length, { b with
                sessions_current := P ++ settled cfg clean
                  (activated session client_id keepalive clean lwt now) :: R }) := by
  unfold MQTT_session_activate
  rw [hc, get?_mid]
  simp only [set_mid]
  unfold session_retrieve
  simp only [get?_mid, take_mid, drop_mid, set_mid]
  cases hid : (activated session client_id keepalive clean lwt now).id with
  | none =>
    cases clean <;> simp [get?_mid, getElem?_mid, getElem_mid, set_mid, settled]
  | some X =>
    simp only []
    cases h1 : take_out X P with
    | some r =>
      obtain ⟨it, P'⟩ := r
      cases clean <;> simp [get?_mid, getElem?_mid, getElem_mid, set_mid, settled]
    | none =>
      simp only []
      cases h2 : take_out X R with
      | some r =>
        obtain ⟨it, R'⟩ := r
        cases clean <;> simp [get?_mid, getElem?_mid, getElem_mid, set_mid, settled]
      | none =>
        simp only []
        cases h3 : take_out X b.sessions_stored with
        | some r =>
          obtain ⟨it, S'⟩ := r
          cases clean <;> simp [get?_mid, getElem?_mid, getElem_mid, set_mid, settled]
        | none =>
          cases clean <;> simp [get?_mid, getElem?_mid, getElem_mid, set_mid, settled]

/-! ## Theorems: the session invariant -/

theorem sessionIds_append (l l' : List MQTT_Session_t) :
    sessionIds (l ++ l') = sessionIds l ++ sessionIds l' := by
  simp [sessionIds]

theorem sessionIds_cons_none (s : MQTT_Session_t) (l : List MQTT_Session_t) (h : s.id = none) :
    sessionIds (s :: l) = sessionIds l := by
  simp [sessionIds, List.filterMap_cons, h]

theorem sessionIds_cons_some (s : MQTT_Session_t) (l : List MQTT_Session_t) (X : CStr)
    (h : s.id = some X) : sessionIds (s :: l) = X :: sessionIds l := by
  simp [sessionIds, List.filterMap_cons, h]

theorem mem_sessionIds (X : CStr) (l : List MQTT_Session_t) :
    X ∈ sessionIds l ↔ ∃ s ∈ l, s.id = some X := by
  simp [sessionIds]

theorem sessionIds_sublist {l l' : List MQTT_Session_t} (h : l'.Sublist l) :
    (sessionIds l').Sublist (sessionIds l) :=
  h.filterMap _

theorem nodup_middle (X : CStr) (l1 l2 : List CStr) :
    (l1 ++ X :: l2).Nodup ↔ X ∉ l1 ++ l2 ∧ (l1 ++ l2).Nodup := by
  rw [List.Perm.nodup_iff List.perm_middle, List.nodup_cons]

/-- The session invariant passes to sublists of the two lists. -/
theorem IdInvL_sublist {cur sto cur' sto' : List MQTT_Session_t} (h : IdInvL cur sto)
    (hc : cur'.Sublist cur) (hs : sto'.Sublist sto) : IdInvL cur' sto' := by
  obtain ⟨h1, h2, h3, h4⟩ := h
  refine ⟨?_, ?_, ?_, ?_⟩
  · exact h1.sublist (sessionIds_sublist (hc.append hs))
  · intro s hs'; exact h2 s (hc.subset hs')
  · intro s hs'; exact h3 s ((hc.append hs).subset hs')
  · intro s hs'; exact h4 s (hs.subset hs')

/-- The session invariant does not see a change of a current session that keeps its
client-id and its active flag. -/
theorem IdInvL_touch {P R sto : List MQTT_Session_t} {s s' : MQTT_Session_t}
    (h : IdInvL (P ++ s :: R) sto) (hid : s'.id = s.id) (hact : s'.active = s.active) :
    IdInvL (P ++ s' :: R) sto := by
  obtain ⟨h1, h2, h3, h4⟩ := h
  have hids : sessionIds (P ++ s' :: R ++ sto) = sessionIds (P ++ s :: R ++ sto) := by
    simp [sessionIds, List.filterMap_cons, hid]
  refine ⟨by rw [hids]; exact h1, ?_, ?_, h4⟩
  · intro x hx
    simp only [List.mem_append, List.mem_cons] at hx
    rcases hx with hx | hx | hx
    · exact h2 x (by simp [hx])
    · subst hx
      rw [hid, hact]
      exact h2 s (by simp)
    · exact h2 x (by simp [hx])
  · intro x hx
    simp only [List.mem_append, List.mem_cons] at hx
    rcases hx with (hx | hx | hx) | hx
    · exact h3 x (by simp [hx])
    · subst hx
      rw [hid]
      exact h3 s (by simp)
    · exact h3 x (by simp [hx])
    · exact h3 x (by simp [hx])

/-- A new half-open session keeps the session invariant. -/
theorem IdInvL_create {cur sto : List MQTT_Session_t} {s : MQTT_Session_t}
    (h : IdInvL cur sto) (hid : s.id = none) : IdInvL (cur ++ [s]) sto := by
  obtain ⟨h1, h2, h3, h4⟩ := h
  have hids : sessionIds (cur ++ [s] ++ sto) = sessionIds (cur ++ sto) := by
    simp [sessionIds, List.filterMap_cons, hid]
  refine ⟨by rw [hids]; exact h1, ?_, ?_, h4⟩
  · intro x hx
    simp only [List.mem_append, List.mem_singleton] at hx
    rcases hx with hx | hx
    · exact h2 x hx
    · subst hx; exact fun _ => hid
  · intro x hx
    simp only [List.mem_append, List.mem_singleton] at hx
    rcases hx with (hx | hx) | hx
    · exact h3 x (by simp [hx])
    · subst hx; rw [hid]; simp
    · exact h3 x (by simp [hx])

theorem not_mem_ids_of_remove (X : CStr) (A B : List MQTT_Session_t) (it : MQTT_Session_t)
    (hid : it.id = some X) (hn : (sessionIds (A ++ it :: B)).Nodup) :
    X ∉ sessionIds (A ++ B) := by
  rw [sessionIds_append, sessionIds_cons_some it B X hid, nodup_middle] at hn
  rw [sessionIds_append]
  exact hn.1

/-- A session that is stored when it leaves the current list keeps the session
invariant. -/
theorem IdInvL_store {P R sto sto0 : List MQTT_Session_t} {s s' : MQTT_Session_t}
    (h : IdInvL (P ++ s :: R) sto) (hsub : sto0.Sublist sto) (hid : s'.id = s.id)
    (hne : s'.id ≠ none) (hact : s'.active = false) (hclean : s'.clean = false)
    (hsd : s'.sd = -1) : IdInvL (P ++ R) (sto0 ++ [s']) := by
  have hrest : IdInvL (P ++ R) sto0 :=
    IdInvL_sublist h (List.Sublist.append (List.Sublist.refl P) (List.sublist_cons_self s R)) hsub
  obtain ⟨X, hX⟩ := Option.ne_none_iff_exists'.mp hne
  have hsX : s.id = some X := by rw [← hid]; exact hX
  have hnot : X ∉ sessionIds (P ++ R ++ sto0) := by
    have h1 := h.1
    rw [List.append_assoc, List.cons_append] at h1
    have := not_mem_ids_of_remove X P (R ++ sto) s hsX h1
    intro hmem
    apply this
    rw [List.append_assoc] at hmem
    exact (sessionIds_sublist (List.Sublist.append (List.Sublist.refl P)
      (List.Sublist.append (List.Sublist.refl R) hsub))).subset hmem
  obtain ⟨h1, h2, h3, h4⟩ := hrest
  refine ⟨?_, h2, ?_, ?_⟩
  · have e : sessionIds (P ++ R ++ (sto0 ++ [s']))
        = sessionIds (P ++ R ++ sto0) ++ X :: [] := by
      rw [← List.append_assoc, sessionIds_append, sessionIds_cons_some s' [] X hX]
      rfl
    rw [e, nodup_middle]
    simp only [List.append_nil]
    exact ⟨hnot, h1⟩
  · intro x hx
    simp only [List.mem_append, List.mem_singleton] at hx
    rcases hx with (hx | hx) | hx | hx
    · exact h3 x (by simp [hx])
    · exact h3 x (by simp [hx])
    · exact h3 x (by simp [hx])
    · subst hx
      rw [hid]
      exact h.2.2.1 s (by simp)
  · intro x hx
    simp only [List.mem_append, List.mem_singleton] at hx
    rcases hx with hx | hx
    · exact h4 x hx
    · subst hx
      exact ⟨hact, hclean, hsd, hne⟩

/-- An active session with a fresh client-id in the current list keeps the session
invariant. -/
theorem IdInvL_insert {P R sto : List MQTT_Session_t} {new : MQTT_Session_t} (X : CStr)
    (h : IdInvL (P ++ R) sto) (hid : new.id = some X) (hX : X ≠ [])
    (hact : new.active = true) (hnot : X ∉ sessionIds (P ++ R ++ sto)) :
    IdInvL (P ++ new :: R) sto := by
  obtain ⟨h1, h2, h3, h4⟩ := h
  refine ⟨?_, ?_, ?_, h4⟩
  · have e : sessionIds (P ++ new :: R ++ sto)
        = sessionIds P ++ X :: sessionIds (R ++ sto) := by
      rw [List.append_assoc, List.cons_append, sessionIds_append,
        sessionIds_cons_some new (R ++ sto) X hid]
    rw [e, nodup_middle, ← sessionIds_append, ← List.append_assoc]
    exact ⟨hnot, h1⟩
  · intro x hx
    simp only [List.mem_append, List.mem_cons] at hx
    rcases hx with hx | hx | hx
    · exact h2 x (by simp [hx])
    · subst hx
      intro hf
      rw [hact] at hf
      exact absurd hf (by simp)
    · exact h2 x (by simp [hx])
  · intro x hx
    simp only [List.mem_append, List.mem_cons] at hx
    rcases hx with (hx | hx | hx) | hx
    · exact h3 x (by simp [hx])
    · subst hx
      rw [hid]
      intro e
      exact hX (Option.some.inj e)
    · exact h3 x (by simp [hx])
    · exact h3 x (by simp [hx])

/-- An activation that gives the session no client-id keeps the session
invariant. -/
theorem IdInvL_anonymous {P R sto : List MQTT_Session_t} {s s' : MQTT_Session_t}
    (h : IdInvL (P ++ s :: R) sto) (hs : s.id = none) (hid : s'.id = none) :
    IdInvL (P ++ s' :: R) sto := by
  obtain ⟨h1, h2, h3, h4⟩ := h
  have hids : sessionIds (P ++ s' :: R ++ sto) = sessionIds (P ++ s :: R ++ sto) := by
    simp [sessionIds, List.filterMap_cons, hid, hs]
  refine ⟨by rw [hids]; exact h1, ?_, ?_, h4⟩
  · intro x hx
    simp only [List.mem_append, List.mem_cons] at hx
    rcases hx with hx | hx | hx
    · exact h2 x (by simp [hx])
    · subst hx; exact fun _ => hid
    · exact h2 x (by simp [hx])
  · intro x hx
    simp only [List.mem_append, List.mem_cons] at hx
    rcases hx with (hx | hx | hx) | hx
    · exact h3 x (by simp [hx])
    · subst hx; rw [hid]; simp
    · exact h3 x (by simp [hx])
    · exact h3 x (by simp [hx])

theorem activated_id (session : MQTT_Session_t) (client_id : Option CStr) (keepalive : Nat)
    (clean : Bool) (lwt : Option MQTT_Message_t) (now : Nat) (hs : session.id = none) :
    (activated session client_id keepalive clean lwt now).id =
      match client_id with
      | some c => if c ≠ [] then some c else none
      | none => none := by
  cases client_id with
  | none => simp [activated, hs]
  | some c =>
    by_cases hc : c = []
    · simp [activated, hs, hc]
    · have : c.length ≠ 0 := fun e => hc (List.length_eq_zero.mp e)
      simp [activated, hc, this]

theorem activated_id_some (session : MQTT_Session_t) (client_id : Option CStr) (keepalive : Nat)
    (clean : Bool) (lwt : Option MQTT_Message_t) (now : Nat) (hs : session.id = none) (X : CStr)
    (h : (activated session client_id keepalive clean lwt now).id = some X) :
    client_id = some X ∧ X ≠ [] := by
  rw [activated_id _ _ _ _ _ _ hs] at h
  cases client_id with
  | none => simp at h
  | some c =>
    by_cases hc : c = []
    · simp [hc] at h
    · simp only [hc, ne_eq, not_false_eq_true, if_true, Option.some.injEq] at h
      subst h
      exact ⟨rfl, hc⟩

theorem settled_id (cfg : Config) (clean : Bool) (s : MQTT_Session_t) :
    (settled cfg clean s).id = s.id ∧ (settled cfg clean s).active = s.active := by
  cases clean <;> exact ⟨rfl, rfl⟩

/-- The function `MQTT_session_activate` on a session that is not active keeps the
session invariant. -/
theorem activate_IdInv (cfg : Config) (b : Broker) (P : List MQTT_Session_t)
    (session : MQTT_Session_t) (R : List MQTT_Session_t) (client_id : Option CStr)
    (keepalive : Nat) (clean : Bool) (lwt : Option MQTT_Message_t) (now : Nat)
    (hc : b.sessions_current = P ++ session :: R) (hinv : IdInv b)
    (hact : session.active = false) :
    IdInv (MQTT_session_activate cfg b P.length client_id keepalive clean lwt now).2.2 := by
  unfold IdInv at hinv ⊢
  rw [hc] at hinv
  have hs : session.id = none := hinv.2.1 session (by simp) hact
  have hrest : IdInvL (P ++ R) b.sessions_stored :=
    IdInvL_sublist hinv
      (List.Sublist.append (List.Sublist.refl P) (List.sublist_cons_self session R))
      (List.Sublist.refl _)
  have hn := hinv.1
  simp only [List.append_assoc, List.cons_append, sessionIds_append,
    sessionIds_cons_none session _ hs] at hn
  rw [activate_split cfg b P session R client_id keepalive clean lwt now hc]
  cases hid : (activated session client_id keepalive clean lwt now).id with
  | none =>
    simp only []
    exact IdInvL_anonymous hinv hs (by rw [(settled_id cfg clean _).1]; exact hid)
  | some X =>
    obtain ⟨_, hX⟩ := activated_id_some session client_id keepalive clean lwt now hs X hid
    simp only []
    cases h1 : take_out X P with
    | some r =>
      obtain ⟨it, P'⟩ := r
      obtain ⟨A, B, e1, e2, e3, _⟩ := take_out_some X P P' it h1
      simp only []
      subst e1 e2
      refine IdInvL_insert X (IdInvL_sublist hrest
        (List.Sublist.append (List.Sublist.append (List.Sublist.refl A)
          (List.sublist_cons_self it B)) (List.Sublist.refl R)) (List.Sublist.refl _))
        (by rw [(settled_id cfg clean _).1]; exact hid) hX
        (by rw [(settled_id cfg clean _).2]; rfl) ?_
      simp only [List.append_assoc, List.cons_append, sessionIds_append,
        sessionIds_cons_some it _ X e3] at hn ⊢
      rw [nodup_middle] at hn
      exact hn.1
    | none =>
      simp only []
      have hP : X ∉ sessionIds P := by
        rw [mem_sessionIds]
        rintro ⟨s, hs1, hs2⟩
        exact (take_out_none X P).mp h1 s hs1 hs2
      cases h2 : take_out X R with
      | some r =>
        obtain ⟨it, R'⟩ := r
        obtain ⟨A, B, e1, e2, e3, _⟩ := take_out_some X R R' it h2
        simp only []
        subst e1 e2
        refine IdInvL_insert X (IdInvL_sublist hrest
          (List.Sublist.append (List.Sublist.refl P)
            (List.Sublist.append (List.Sublist.refl A) (List.sublist_cons_self it B)))
          (List.Sublist.refl _))
          (by rw [(settled_id cfg clean _).1]; exact hid) hX
          (by rw [(settled_id cfg clean _).2]; rfl) ?_
        simp only [List.append_assoc, List.cons_append, sessionIds_append,
          sessionIds_cons_some it _ X e3] at hn ⊢
        rw [← List.append_assoc, nodup_middle] at hn
        simpa [List.append_assoc] using hn.1
      | none =>
        simp only []
        have hR : X ∉ sessionIds R := by
          rw [mem_sessionIds]
          rintro ⟨s, hs1, hs2⟩
          exact (take_out_none X R).mp h2 s hs1 hs2
        cases h3 : take_out X b.sessions_stored with
        | some r =>
          obtain ⟨it, S'⟩ := r
          obtain ⟨A, B, e1, e2, e3, _⟩ := take_out_some X b.sessions_stored S' it h3
          simp only []
          rw [e1] at hrest hn
          subst e2
          refine IdInvL_insert X (IdInvL_sublist hrest (List.Sublist.refl _)
            (List.Sublist.append (List.Sublist.refl A) (List.sublist_cons_self it B)))
            (by rw [(settled_id cfg clean _).1]; exact hid) hX
            (by rw [(settled_id cfg clean _).2]; rfl) ?_
          simp only [List.append_assoc, List.cons_append, sessionIds_append,
            sessionIds_cons_some it _ X e3] at hn ⊢
          rw [← List.append_assoc, ← List.append_assoc, nodup_middle] at hn
          simpa [List.append_assoc] using hn.1
        | none =>
          simp only []
          have hS : X ∉ sessionIds b.sessions_stored := by
            rw [mem_sessionIds]
            rintro ⟨s, hs1, hs2⟩
            exact (take_out_none X _).mp h3 s hs1 hs2
          refine IdInvL_insert X hrest
            (by rw [(settled_id cfg clean _).1]; exact hid) hX
            (by rw [(settled_id cfg clean _).2]; rfl) ?_
          simp only [List.append_assoc, sessionIds_append, List.mem_append]
          tauto

theorem IdInv_congr {b b' : Broker} (h : IdInv b)
    (hc : b'.sessions_current = b.sessions_current)
    (hs : b'.sessions_stored = b.sessions_stored) : IdInv b' := by
  unfold IdInv at h ⊢
  rw [hc, hs]
  exact h

theorem eraseIdx_of_split {α : Type} (l P R : List α) (s : α) (i : Nat)
    (h : l = P ++ s :: R) (hi : P.length = i) : l.eraseIdx i = P ++ R := by
  rw [h, ← hi, eraseIdx_mid]

theorem set_of_split {α : Type} (l P R : List α) (s v : α) (i : Nat)
    (h : l = P ++ s :: R) (hi : P.length = i) : l.set i v = P ++ v :: R := by
  rw [h, ← hi, set_mid]

theorem store_or_free_IdInv (cfg : Config) (b : Broker) (P R : List MQTT_Session_t)
    (s : MQTT_Session_t) (hc : b.sessions_current = P ++ R)
    (h : IdInvL (P ++ s :: R) b.sessions_stored) : IdInv (store_or_free cfg b (closed s)) := by
  unfold IdInv
  rw [(store_or_free_frame cfg b (closed s)).1, store_or_free_stored, hc]
  split
  · rename_i hcond
    refine IdInvL_store h ?_ rfl hcond.2.1 rfl hcond.2.2 rfl
    split
    · exact List.tail_sublist _
    · exact List.Sublist.refl _
  · exact IdInvL_sublist h
      (List.Sublist.append (List.Sublist.refl P) (List.sublist_cons_self s R))
      (List.Sublist.refl _)

theorem close_IdInv (cfg : Config) (b : Broker) (i : Nat) (h : IdInv b) :
    IdInv (MQTT_session_close cfg b i) := by
  unfold MQTT_session_close
  cases hget : b.sessions_current.get? i with
  | none => exact h
  | some s =>
    obtain ⟨P, R, hc, hi⟩ := get?_split _ _ _ hget
    simp only []
    refine store_or_free_IdInv cfg _ P R s ?_ ?_
    · exact eraseIdx_of_split _ P R s i hc hi
    · unfold IdInv at h
      rw [hc] at h
      exact h

theorem drop_IdInv (cfg : Config) (b : Broker) (i : Nat) (h : IdInv b) :
    IdInv (MQTT_session_drop cfg b i) := by
  unfold MQTT_session_drop
  cases hget : b.sessions_current.get? i with
  | none => exact h
  | some s =>
    obtain ⟨P, R, hc, hi⟩ := get?_split _ _ _ hget
    simp only []
    refine store_or_free_IdInv cfg _ P R s ?_ ?_
    · rw [(publish_lwt_frame cfg _ _).1]
      exact eraseIdx_of_split _ P R s i hc hi
    · rw [(publish_lwt_frame cfg _ _).2]
      unfold IdInv at h
      rw [hc] at h
      exact h

theorem touch_IdInv (b : Broker) (i : Nat) (s s' : MQTT_Session_t) (h : IdInv b)
    (hget : b.sessions_current.get? i = some s) (hid : s'.id = s.id)
    (hact : s'.active = s.active) (b' : Broker)
    (hc : b'.sessions_current = b.sessions_current.set i s')
    (hs : b'.sessions_stored = b.sessions_stored) : IdInv b' := by
  obtain ⟨P, R, hsplit, hi⟩ := get?_split _ _ _ hget
  unfold IdInv at h ⊢
  rw [hc, hs, set_of_split _ P R s s' i hsplit hi]
  rw [hsplit] at h
  exact IdInvL_touch h hid hact

theorem subscriptions_add_shape (cfg : Config) (session : MQTT_Session_t)
    (topic_filter : Option CStr) (qos : Int) :
    (MQTT_subscriptions_add cfg session topic_filter qos).2.id = session.id ∧
    (MQTT_subscriptions_add cfg session topic_filter qos).2.active = session.active := by
  unfold MQTT_subscriptions_add
  cases topic_filter with
  | none => exact ⟨rfl, rfl⟩
  | some f =>
    simp only []
    split
    · exact ⟨rfl, rfl⟩
    · split
      · exact ⟨rfl, rfl⟩
      · split
        · exact ⟨rfl, rfl⟩
        · split <;> exact ⟨rfl, rfl⟩

theorem subscriptions_remove_shape (session : MQTT_Session_t) (topic_filter : Option CStr) :
    (MQTT_subscriptions_remove session topic_filter).id = session.id ∧
    (MQTT_subscriptions_remove session topic_filter).active = session.active := by
  unfold MQTT_subscriptions_remove
  cases topic_filter with
  | none => exact ⟨rfl, rfl⟩
  | some f =>
    simp only []
    split <;> exact ⟨rfl, rfl⟩

/-- What `publish_h` leaves as it is: the session lists of the broker, and the
session apart from its in-flight array. -/
theorem publish_h_shape (net : Net) (cfg : Config) (b : Broker) (session : MQTT_Session_t)
    (msg : List Nat) (r : Bool × Broker × MQTT_Session_t)
    (h : publish_h net cfg b session msg = some r) :
    r.2.1.sessions_current = b.sessions_current ∧ r.2.1.sessions_stored = b.sessions_stored ∧
    r.2.2.id = session.id ∧ r.2.2.active = session.active ∧
    r.2.2.subscriptions = session.subscriptions ∧
    (r.2.1.queues_pending = b.queues_pending ∨
      ∃ m, r.2.1.queues_pending = (MQTT_queue_add cfg b m).2.queues_pending) := by
  unfold publish_h at h
  split at h
  · exact absurd h (by simp)
  · simp only [Option.some.injEq] at h
    subst h
    exact ⟨rfl, rfl, rfl, rfl, rfl, Or.inl rfl⟩
  · rename_i packet_id message _
    have ha : (MQTT_queue_add cfg b message).2.sessions_current = b.sessions_current ∧
        (MQTT_queue_add cfg b message).2.sessions_stored = b.sessions_stored := by
      unfold MQTT_queue_add
      split <;> exact ⟨rfl, rfl⟩
    simp only [send_puback, send_pubrec, do_send] at h
    split at h
    · split at h <;> simp only [Option.some.injEq] at h <;> subst h
      · exact ⟨ha.1, ha.2, rfl, rfl, rfl, Or.inr ⟨message, rfl⟩⟩
      · exact ⟨rfl, rfl, rfl, rfl, rfl, Or.inl rfl⟩
    · split at h
      · split at h <;> simp only [Option.some.injEq] at h <;> subst h
        · exact ⟨ha.1, ha.2, rfl, rfl, rfl, Or.inr ⟨message, rfl⟩⟩
        · exact ⟨rfl, rfl, rfl, rfl, rfl, Or.inl rfl⟩
      · split at h
        · simp only [Option.some.injEq] at h
          subst h
          exact ⟨rfl, rfl, rfl, rfl, rfl, Or.inl rfl⟩
        · split at h
          · split at h <;> simp only [Option.some.injEq] at h <;> subst h <;>
              exact ⟨rfl, rfl, rfl, rfl, rfl, Or.inl rfl⟩
          · split at h <;> simp only [Option.some.injEq] at h <;> subst h
            · exact ⟨ha.1, ha.2, rfl, rfl, rfl, Or.inr ⟨message, rfl⟩⟩
            · exact ⟨rfl, rfl, rfl, rfl, rfl, Or.inl rfl⟩

/-- What `pubrel_h` leaves as it is. -/
theorem pubrel_h_shape (net : Net) (cfg : Config) (b : Broker) (session : MQTT_Session_t)
    (msg : List Nat) (r : Bool × Broker × MQTT_Session_t)
    (h : pubrel_h net cfg b session msg = some r) :
    r.2.1.sessions_current = b.sessions_current ∧ r.2.1.sessions_stored = b.sessions_stored ∧
    r.2.2.id = session.id ∧ r.2.2.active = session.active ∧
    r.2.2.subscriptions = session.subscriptions ∧
    r.2.1.queues_pending = b.queues_pending := by
  unfold pubrel_h at h
  split at h
  · exact absurd h (by simp)
  · simp only [Option.some.injEq] at h
    subst h
    exact ⟨rfl, rfl, rfl, rfl, rfl, rfl⟩
  · simp only [Option.some.injEq] at h
    subst h
    exact ⟨rfl, rfl, rfl, rfl, rfl, rfl⟩

/-- A property of broker states that `MQTT_session_drop` preserves, and that does
not see the trace, the id counter, the retained store and the removal of pending
entries, is preserved by the fan-out over the sessions. -/
theorem process_sessions_loop_preserves (Q : Broker → Prop) (net : Net) (cfg : Config)
    (hdrop : ∀ b i, Q b → Q (MQTT_session_drop cfg b i))
    (hframe : ∀ b b' : Broker, Q b → b'.sessions_current = b.sessions_current →
      b'.sessions_stored = b.sessions_stored →
      b'.queues_pending.length ≤ b.queues_pending.length → Q b')
    (todo : List MQTT_Session_t) :
    ∀ (i : Nat) (b : Broker) (q : MQTT_Queue_t), Q b →
      Q (process_sessions_loop net cfg todo i b q).1 := by
  induction todo with
  | nil => intro i b q h; exact h
  | cons s rest ih =>
    intro i b q h
    have hf := (process_subscriptions_frame net s.sd s.subscriptions b q).1
    have h1 : Q (process_subscriptions net s.sd s.subscriptions b q).2.1 :=
      hframe b _ h hf.1 hf.2.1 (le_of_eq (congrArg List.length hf.2.2.1))
    simp only [process_sessions_loop]
    split
    · exact ih _ _ _ h1
    · exact ih _ _ _ (hdrop _ _ h1)

theorem process_head_preserves (Q : Broker → Prop) (net : Net) (cfg : Config)
    (hdrop : ∀ b i, Q b → Q (MQTT_session_drop cfg b i))
    (hframe : ∀ b b' : Broker, Q b → b'.sessions_current = b.sessions_current →
      b'.sessions_stored = b.sessions_stored →
      b'.queues_pending.length ≤ b.queues_pending.length → Q b')
    (b : Broker) (h : Q b) : Q (process_head net cfg b) := by
  unfold process_head
  cases hp : b.queues_pending with
  | nil => exact h
  | cons queue rest =>
    simp only [process_sessions]
    have h1 : Q (next_id b).2 := hframe b _ h rfl rfl (le_refl _)
    have h2 := process_sessions_loop_preserves Q net cfg hdrop hframe
      (next_id b).2.sessions_current 0 (next_id b).2 (asPending queue (next_id b).1) h1
    refine hframe _ _ h2 rfl rfl ?_
    simp [store_retained]

theorem queue_process_preserves (Q : Broker → Prop) (net : Net) (cfg : Config)
    (hdrop : ∀ b i, Q b → Q (MQTT_session_drop cfg b i))
    (hframe : ∀ b b' : Broker, Q b → b'.sessions_current = b.sessions_current →
      b'.sessions_stored = b.sessions_stored →
      b'.queues_pending.length ≤ b.queues_pending.length → Q b')
    (b : Broker) (h : Q b) : Q (MQTT_queue_process net cfg b) := by
  unfold MQTT_queue_process
  generalize b.queues_pending.length + b.sessions_current.length = fuel
  induction fuel generalizing b with
  | zero => exact h
  | succ n ih =>
    unfold queue_process_loop
    cases hp : b.queues_pending with
    | nil => exact h
    | cons queue rest =>
      exact ih _ (process_head_preserves Q net cfg hdrop hframe b h)

theorem handleRetained_loop_frame (net : Net) (sd : Int) (f : CStr) (g : Nat)
    (l : List MQTT_Queue_t) : ∀ b : Broker,
      (handleRetained_loop net sd f g l b).2.sessions_current = b.sessions_current ∧
      (handleRetained_loop net sd f g l b).2.sessions_stored = b.sessions_stored ∧
      (handleRetained_loop net sd f g l b).2.queues_pending = b.queues_pending := by
  induction l with
  | nil => intro b; exact ⟨rfl, rfl, rfl⟩
  | cons r rest ih =>
    intro b
    simp only [handleRetained_loop]
    split
    · split
      · have h := ih (publish_message net (next_id b).2 sd
          (asRetained r (next_id b).1 (capped_qos r.p_qos g)).message).2
        exact ⟨h.1, h.2.1, h.2.2⟩
      · exact ⟨rfl, rfl, rfl⟩
    · exact ih b

theorem handleRetained_frame (net : Net) (b : Broker) (sd : Int) (f : CStr) (g : Nat) :
    (MQTT_queue_handleRetained net b sd f g).sessions_current = b.sessions_current ∧
    (MQTT_queue_handleRetained net b sd f g).sessions_stored = b.sessions_stored ∧
    (MQTT_queue_handleRetained net b sd f g).queues_pending = b.queues_pending := by
  simp only [MQTT_queue_handleRetained]
  exact handleRetained_loop_frame net sd f g b.queues_retained b

theorem MQTT_queue_add_frame (cfg : Config) (b : Broker) (m : MQTT_Message_t) :
    (MQTT_queue_add cfg b m).2.sessions_current = b.sessions_current ∧
    (MQTT_queue_add cfg b m).2.sessions_stored = b.sessions_stored ∧
    ((MQTT_queue_add cfg b m).2.queues_pending.length ≤ cfg.QUEUE_SIZE ∨
      (MQTT_queue_add cfg b m).2.queues_pending = b.queues_pending) := by
  unfold MQTT_queue_add
  split
  · exact ⟨rfl, rfl, Or.inr rfl⟩
  · refine ⟨rfl, rfl, Or.inl ?_⟩
    simp only [List.length_append, List.length_singleton]
    omega

/-- Every reachable broker state satisfies the session invariant. -/
theorem reachable_IdInv (cfg : Config) (b : Broker) (h : Reachable cfg b) : IdInv b := by
  induction h with
  | init =>
    exact ⟨by simp [Broker.init, sessionIds], by simp [Broker.init], by simp [Broker.init],
      by simp [Broker.init]⟩
  | create b sd now _ ih =>
    unfold MQTT_session_create
    split
    · exact ih
    · exact IdInvL_create ih rfl
  | activate b i session client_id keepalive clean lwt now _ hget hact ih =>
    obtain ⟨P, R, hc, hi⟩ := get?_split _ _ _ hget
    subst hi
    exact activate_IdInv cfg b P session R client_id keepalive clean lwt now hc ih hact
  | close b i _ ih => exact close_IdInv cfg b i ih
  | drop b i _ ih => exact drop_IdInv cfg b i ih
  | discard b i _ ih =>
    exact IdInvL_sublist ih (List.eraseIdx_sublist _ _) (List.Sublist.refl _)
  | subscribe b i session topic_filter qos _ hget ih =>
    have hs := subscriptions_add_shape cfg session topic_filter qos
    exact touch_IdInv b i session _ ih hget hs.1 hs.2 _ rfl rfl
  | unsubscribe b i session topic_filter _ hget ih =>
    have hs := subscriptions_remove_shape session topic_filter
    exact touch_IdInv b i session _ ih hget hs.1 hs.2 _ rfl rfl
  | enqueue b message _ ih =>
    exact IdInv_congr ih (MQTT_queue_add_frame cfg b message).1
      (MQTT_queue_add_frame cfg b message).2.1
  | publish net b i session msg r _ hget hpub ih =>
    obtain ⟨h1, h2, h3, h4, _, _⟩ := publish_h_shape net cfg b session msg r hpub
    exact touch_IdInv b i session r.2.2 ih hget h3 h4 _ (by simp [h1]) h2
  | pubrel net b i session msg r _ hget hpub ih =>
    obtain ⟨h1, h2, h3, h4, _, _⟩ := pubrel_h_shape net cfg b session msg r hpub
    exact touch_IdInv b i session r.2.2 ih hget h3 h4 _ (by simp [h1]) h2
  | process net b _ ih =>
    exact queue_process_preserves IdInv net cfg (fun b i h => drop_IdInv cfg b i h)
      (fun b b' h hc hs _ => IdInv_congr h hc hs) b ih
  | replay net b sd f g _ ih =>
    exact IdInv_congr ih (handleRetained_frame net b sd f g).1
      (handleRetained_frame net b sd f g).2.1

theorem mem_of_get?_ne {α : Type} (P : List α) (a : α) (R : List α) (j : Nat) (c : α)
    (hj : j ≠ P.length) (h : (P ++ a :: R).get? j = some c) : c ∈ P ∨ c ∈ R := by
  induction P generalizing j with
  | nil =>
    cases j with
    | zero => exact absurd rfl hj
    | succ j =>
      right
      simp only [List.nil_append, List.get?_cons_succ] at h
      exact List.get?_mem h
  | cons p P ih =>
    cases j with
    | zero =>
      left
      simp only [List.cons_append, List.get?_cons_zero, Option.some.injEq] at h
      simp [h]
    | succ j =>
      simp only [List.cons_append, List.get?_cons_succ] at h
      rcases ih j (by simpa using hj) h with e | e
      · exact Or.inl (List.mem_cons_of_mem _ e)
      · exact Or.inr e

theorem sampleTwoClients_reachable : Reachable cfgSample brokerTwoClients :=
  Reachable.activate _ 1 (new_session cfgSample 4 2) _ _ _ _ _
    (Reachable.create _ 4 2
      (Reachable.activate _ 0 (new_session cfgSample 3 0) _ _ _ _ _
        (Reachable.create _ 3 0 Reachable.init) rfl rfl))
    rfl rfl

theorem sampleOneStored_reachable : Reachable cfgSample brokerOneStored :=
  Reachable.close _ 0 sampleTwoClients_reachable

/-- C12: in every reachable broker state, two distinct current sessions that are
both active and both have a client-id have different client-ids. -/
theorem active_client_ids_unique (cfg : Config) (b : Broker) (h : Reachable cfg b)
    (i j : Nat) (a c : MQTT_Session_t) (hij : i ≠ j)
    (hi : b.sessions_current.get? i = some a) (hj : b.sessions_current.get? j = some c)
    (_ha : a.active = true) (_hc : c.active = true) (X : CStr) (hX : a.id = some X) :
    c.id ≠ some X := by
  have hinv := (reachable_IdInv cfg b h).1
  obtain ⟨P, R, hsplit, hP⟩ := get?_split _ _ _ hi
  rw [hsplit] at hinv hj
  rw [List.append_assoc, List.cons_append, sessionIds_append,
    sessionIds_cons_some a _ X hX, nodup_middle, sessionIds_append] at hinv
  intro hcX
  apply hinv.1
  have hmem := mem_of_get?_ne P a R j c (by omega) hj
  simp only [List.mem_append]
  rcases hmem with e | e
  · exact Or.inl ((mem_sessionIds X P).mpr ⟨c, e, hcX⟩)
  · exact Or.inr (Or.inl ((mem_sessionIds X R).mpr ⟨c, e, hcX⟩))

theorem active_client_ids_unique_witness :
    Reachable cfgSample brokerTwoClients ∧
    brokerTwoClients.sessions_current.map (fun s => (s.active, s.id))
      = [(true, some (cstr "c1")), (true, some (cstr "c2"))] ∧
    some (cstr "c2") ≠ some (cstr "c1") :=
  ⟨sampleTwoClients_reachable, by decide,
    active_client_ids_unique cfgSample brokerTwoClients sampleTwoClients_reachable 0 1
      (activated (new_session cfgSample 3 0) (some (cstr "c1")) 60 false none 1)
      (activated (new_session cfgSample 4 2) (some (cstr "c2")) 60 false none 3)
      (by decide) (by decide) (by decide) rfl rfl (cstr "c1") rfl⟩

theorem map_id_nodup (l : List MQTT_Session_t) (hn : (sessionIds l).Nodup)
    (hs : ∀ s ∈ l, s.id ≠ none) : (l.map (fun s => s.id)).Nodup := by
  induction l with
  | nil => simp
  | cons a l ih =>
    obtain ⟨X, hX⟩ := Option.ne_none_iff_exists'.mp (hs a (by simp))
    rw [sessionIds_cons_some a l X hX, List.nodup_cons] at hn
    rw [List.map_cons, List.nodup_cons]
    refine ⟨?_, ih hn.2 (fun s hs' => hs s (List.mem_cons_of_mem _ hs'))⟩
    intro hmem
    obtain ⟨s, hs1, hs2⟩ := List.mem_map.mp hmem
    exact hn.1 ((mem_sessionIds X l).mpr ⟨s, hs1, hs2.trans hX⟩)

/-- C13: in every reachable broker state, every stored session is not active, not
clean, has no socket (sd = -1) and has a non-empty client-id; the client-ids of the
stored sessions are pairwise distinct; and no active current session has the
client-id of a stored session. -/
theorem stored_session_invariant (cfg : Config) (b : Broker) (h : Reachable cfg b) :
    (∀ s ∈ b.sessions_stored, s.active = false ∧ s.clean = false ∧ s.sd = -1 ∧
      ∃ X, s.id = some X ∧ X ≠ []) ∧
    (b.sessions_stored.map (fun s => s.id)).Nodup ∧
    (∀ s ∈ b.sessions_stored, ∀ a ∈ b.sessions_current, a.active = true → a.id ≠ s.id) := by
  obtain ⟨h1, _, h3, h4⟩ := reachable_IdInv cfg b h
  rw [sessionIds_append, List.nodup_append] at h1
  refine ⟨?_, ?_, ?_⟩
  · intro s hs
    obtain ⟨a1, a2, a3, a4⟩ := h4 s hs
    obtain ⟨X, hX⟩ := Option.ne_none_iff_exists'.mp a4
    refine ⟨a1, a2, a3, X, hX, ?_⟩
    intro e
    exact h3 s (by simp [hs]) (by rw [hX, e])
  · exact map_id_nodup _ h1.2.1 (fun s hs => (h4 s hs).2.2.2)
  · intro s hs a ha _ hid
    obtain ⟨X, hX⟩ := Option.ne_none_iff_exists'.mp (h4 s hs).2.2.2
    exact h1.2.2 ((mem_sessionIds X _).mpr ⟨a, ha, hid.trans hX⟩)
      ((mem_sessionIds X _).mpr ⟨s, hs, hX⟩)

theorem stored_session_invariant_witness :
    Reachable cfgSample brokerOneStored ∧
    brokerOneStored.sessions_stored.map (fun s => (s.active, s.clean, s.sd, s.id))
      = [(false, false, -1, some (cstr "c1"))] ∧
    (brokerOneStored.sessions_stored.map (fun s => s.id)).Nodup :=
  ⟨sampleOneStored_reachable, by decide,
    (stored_session_invariant cfgSample brokerOneStored sampleOneStored_reachable).2.1⟩

/-! ## Theorems: substitution, restore and the session-present flag -/

theorem get?_side_of_mem {α : Type} (P : List α) (a : α) (R : List α) (c : α)
    (h : c ∈ P ∨ c ∈ R) : ∃ j, j ≠ P.length ∧ (P ++ a :: R).get? j = some c := by
  induction P with
  | nil =>
    rcases h with h | h
    · simp at h
    · obtain ⟨n, hn⟩ := List.get?_of_mem h
      exact ⟨n + 1, by simp, by simpa using hn⟩
  | cons p P ih =>
    by_cases hp : c = p
    · exact ⟨0, by simp, by simp [hp]⟩
    · have h' : c ∈ P ∨ c ∈ R := by
        rcases h with h | h
        · rcases List.mem_cons.mp h with e | e
          · exact absurd e hp
          · exact Or.inl e
        · exact Or.inr h
      obtain ⟨j, hj1, hj2⟩ := ih h'
      exact ⟨j + 1, by simpa using hj1, by simpa using hj2⟩

/-- With distinct client-ids, the session at one position is the only one of the
two lists with its client-id. -/
theorem ids_unique_at (l sto : List MQTT_Session_t) (k : Nat) (new : MQTT_Session_t)
    (X : CStr) (hn : (sessionIds (l ++ sto)).Nodup) (hk : l.get? k = some new)
    (hX : new.id = some X) :
    (∀ k' s, l.get? k' = some s → k' ≠ k → s.id ≠ some X) ∧
    (∀ s ∈ sto, s.id ≠ some X) := by
  obtain ⟨P, R, hsplit, hP⟩ := get?_split _ _ _ hk
  rw [hsplit] at hn
  rw [List.append_assoc, List.cons_append, sessionIds_append,
    sessionIds_cons_some new _ X hX, nodup_middle, sessionIds_append] at hn
  have hnot := hn.1
  simp only [List.mem_append, mem_sessionIds, not_or, not_exists, not_and] at hnot
  constructor
  · intro k' s hs hk'
    rw [hsplit] at hs
    rcases mem_of_get?_ne P new R k' s (by omega) hs with e | e
    · exact hnot.1 s e
    · exact hnot.2.1 s e
  · intro s hs
    exact hnot.2.2 s hs

/-- The session at the position that `MQTT_session_activate` returns: it has the
client-id given by the assignments and the socket of the activated session, and
when clean = 1 it has no subscription and a zeroed in-flight array. -/
theorem activate_at (cfg : Config) (b : Broker) (P : List MQTT_Session_t)
    (session : MQTT_Session_t) (R : List MQTT_Session_t) (client_id : Option CStr)
    (keepalive : Nat) (clean : Bool) (lwt : Option MQTT_Message_t) (now : Nat)
    (hc : b.sessions_current = P ++ session :: R) :
    ∃ new,
      (MQTT_session_activate cfg b P.length client_id keepalive clean lwt now).2.2.sessions_current.get?
        (MQTT_session_activate cfg b P.length client_id keepalive clean lwt now).2.1 = some new ∧
      new.id = (activated session client_id keepalive clean lwt now).id ∧
      new.sd = session.sd ∧ new.active = true ∧
      (clean = true → new.subscriptions = [] ∧
        new.inbound = List.replicate cfg.MAX_INFLIGHT 0 ∧
        (MQTT_session_activate cfg b P.length client_id keepalive clean lwt now).1 = false) := by
  rw [activate_split cfg b P session R client_id keepalive clean lwt now hc]
  cases hid : (activated session client_id keepalive clean lwt now).id with
  | none =>
    refine ⟨_, get?_mid _ _ _, ?_⟩
    cases clean <;>
      simp [settled, cleaned, MQTT_subscriptions_clear, hid] <;> simp [activated]
  | some X =>
    simp only []
    cases h1 : take_out X P with
    | some r =>
      obtain ⟨it, P'⟩ := r
      refine ⟨_, get?_mid _ _ _, ?_⟩
      cases clean <;>
        simp [settled, cleaned, MQTT_subscriptions_clear, take_over, hid] <;> simp [activated]
    | none =>
      simp only []
      cases h2 : take_out X R with
      | some r =>
        obtain ⟨it, R'⟩ := r
        refine ⟨_, get?_mid _ _ _, ?_⟩
        cases clean <;>
          simp [settled, cleaned, MQTT_subscriptions_clear, take_over, hid] <;> simp [activated]
      | none =>
        simp only []
        cases h3 : take_out X b.sessions_stored with
        | some r =>
          obtain ⟨it, S'⟩ := r
          refine ⟨_, get?_mid _ _ _, ?_⟩
          cases clean <;>
            simp [settled, cleaned, MQTT_subscriptions_clear, take_over, hid] <;> simp [activated]
        | none =>
          refine ⟨_, get?_mid _ _ _, ?_⟩
          cases clean <;>
            simp [settled, cleaned, MQTT_subscriptions_clear, hid] <;> simp [activated]

/-- With distinct client-ids, the scan over `A ++ old :: B` finds `old`, and no
session of a list whose client-ids are apart from it has the client-id. -/
theorem nodup_others (X : CStr) (A B : List MQTT_Session_t) (old : MQTT_Session_t)
    (hold : old.id = some X) (hn : (sessionIds (A ++ old :: B)).Nodup) :
    ∀ s ∈ A ++ B, s.id ≠ some X := by
  rw [sessionIds_append, sessionIds_cons_some old _ X hold, nodup_middle] at hn
  intro s hs hsX
  apply hn.1
  rw [← sessionIds_append, mem_sessionIds]
  exact ⟨s, hs, hsX⟩

/-- The function `MQTT_session_activate` with clean = 0 and a client-id that one
other session has: the result, with the lists around the old session. -/
theorem activate_restores (cfg : Config) (b : Broker) (P : List MQTT_Session_t)
    (session : MQTT_Session_t) (R : List MQTT_Session_t) (X : CStr) (keepalive : Nat)
    (lwt : Option MQTT_Message_t) (now : Nat) (old : MQTT_Session_t)
    (hc : b.sessions_current = P ++ session :: R) (hinv : IdInv b)
    (hact : session.active = false) (hX : X ≠ [])
    (hold : old ∈ P ++ (R ++ b.sessions_stored)) (hid : old.id = some X) :
    ∃ P' R' S' w,
      MQTT_session_activate cfg b P.length (some X) keepalive false lwt now =
        (true, P'.length, { b with
          sessions_current :=
            P' ++ take_over (activated session (some X) keepalive false lwt now) old :: R',
          sessions_stored := S', wire := w }) ∧
      P'.length + R'.length + S'.length + 1 = P.length + R.length + b.sessions_stored.length := by
  have hinv0 := hinv
  unfold IdInv at hinv
  rw [hc] at hinv
  have hs : session.id = none := hinv.2.1 session (by simp) hact
  have hn := hinv.1
  simp only [List.append_assoc, List.cons_append, sessionIds_append,
    sessionIds_cons_none session _ hs] at hn
  rw [← sessionIds_append, ← sessionIds_append] at hn
  have hida : (activated session (some X) keepalive false lwt now).id = some X := by
    rw [activated_id _ _ _ _ _ _ hs]
    simp [hX]
  rw [activate_split cfg b P session R (some X) keepalive false lwt now hc, hida]
  simp only [settled, Bool.not_false, Bool.false_eq_true, if_false]
  rcases List.mem_append.mp hold with hP | hRS
  · obtain ⟨A, B, hAB⟩ := List.append_of_mem hP
    subst hAB
    rw [List.append_assoc, List.cons_append] at hn
    have hne := nodup_others X A (B ++ (R ++ b.sessions_stored)) old hid hn
    rw [take_out_unique X A B old hid (fun s hs => hne s (by simp [hs]))]
    exact ⟨A ++ B, R, b.sessions_stored, _, rfl, by simp; omega⟩
  · have hPn : take_out X P = none := by
      rw [take_out_none]
      intro s hs
      obtain ⟨A, B, hAB⟩ := List.append_of_mem hRS
      rw [hAB, ← List.append_assoc] at hn
      exact nodup_others X (P ++ A) B old hid hn s (by simp [hs])
    rw [hPn]
    simp only []
    rcases List.mem_append.mp hRS with hR | hS
    · obtain ⟨A, B, hAB⟩ := List.append_of_mem hR
      subst hAB
      rw [List.append_assoc, List.cons_append, ← List.append_assoc] at hn
      have hne := nodup_others X (P ++ A) (B ++ b.sessions_stored) old hid hn
      rw [take_out_unique X A B old hid (fun s hs => hne s (by simp [hs]))]
      exact ⟨P, A ++ B, b.sessions_stored, _, rfl, by simp; omega⟩
    · have hRn : take_out X R = none := by
        rw [take_out_none]
        intro s hs
        obtain ⟨A, B, hAB⟩ := List.append_of_mem hS
        rw [hAB, ← List.append_assoc, ← List.append_assoc] at hn
        exact nodup_others X (P ++ R ++ A) B old hid hn s (by simp [hs])
      rw [hRn]
      simp only []
      obtain ⟨A, B, hAB⟩ := List.append_of_mem hS
      have hn' := hn
      rw [hAB, ← List.append_assoc, ← List.append_assoc] at hn'
      have hne := nodup_others X (P ++ R ++ A) B old hid hn'
      rw [hAB, take_out_unique X A B old hid (fun s hs => hne s (by simp [hs]))]
      exact ⟨P, R, A ++ B, b.wire, rfl, by simp; omega⟩

theorem sampleC1_IdInv : IdInv brokerC1 := by
  unfold IdInv IdInvL
  decide

/-- C14: in a broker state with the session invariant (every reachable state), when
a session that is not active is activated with clean = 0 and a non-empty client-id
X that another current session or a stored session `old` has, then the session at
the returned position has client-id X, the socket of the activated session, and
the subscription list and in-flight array of `old`; afterwards no other current
session and no stored session has client-id X, and the two lists together hold one
session less. -/
theorem restore_moves_state (cfg : Config) (b : Broker) (i : Nat) (session : MQTT_Session_t)
    (X : CStr) (keepalive : Nat) (lwt : Option MQTT_Message_t) (now : Nat)
    (old : MQTT_Session_t) (hinv : IdInv b)
    (hget : b.sessions_current.get? i = some session) (hact : session.active = false)
    (hX : X ≠ [])
    (hold : (∃ j, j ≠ i ∧ b.sessions_current.get? j = some old) ∨ old ∈ b.sessions_stored)
    (hid : old.id = some X) :
    ((MQTT_session_activate cfg b i (some X) keepalive false lwt now).2.2.sessions_current.get?
        (MQTT_session_activate cfg b i (some X) keepalive false lwt now).2.1).map
      (fun s => (s.id, s.sd, s.active, s.subscriptions, s.inbound))
      = some (some X, session.sd, true, old.subscriptions, old.inbound) ∧
    (∀ k s,
      (MQTT_session_activate cfg b i (some X) keepalive false lwt now).2.2.sessions_current.get? k
        = some s →
      k ≠ (MQTT_session_activate cfg b i (some X) keepalive false lwt now).2.1 →
      s.id ≠ some X) ∧
    (∀ s ∈ (MQTT_session_activate cfg b i (some X) keepalive false lwt now).2.2.sessions_stored,
      s.id ≠ some X) ∧
    (MQTT_session_activate cfg b i (some X) keepalive false lwt now).2.2.sessions_current.length
      + (MQTT_session_activate cfg b i (some X) keepalive false lwt now).2.2.sessions_stored.length
      + 1 = b.sessions_current.length + b.sessions_stored.length := by
  obtain ⟨P, R, hc, hP⟩ := get?_split _ _ _ hget
  subst hP
  have hmem : old ∈ P ++ (R ++ b.sessions_stored) := by
    rcases hold with ⟨j, hj, hjo⟩ | hs
    · rw [hc] at hjo
      rcases mem_of_get?_ne P session R j old hj hjo with e | e
      · simp [e]
      · simp [e]
    · simp [hs]
  have hinv' := activate_IdInv cfg b P session R (some X) keepalive false lwt now hc hinv hact
  obtain ⟨P', R', S', w, heq, hlen⟩ :=
    activate_restores cfg b P session R X keepalive lwt now old hc hinv hact hX hmem hid
  rw [heq] at hinv' ⊢
  have hXl : X.length ≠ 0 := fun e => hX (List.length_eq_zero.mp e)
  have hnid : (take_over (activated session (some X) keepalive false lwt now) old).id = some X := by
    simp [take_over, activated, hXl]
  have hu := ids_unique_at _ S' P'.length _ X hinv'.1 (get?_mid P' _ R') hnid
  refine ⟨?_, hu.1, hu.2, ?_⟩
  · simp only [get?_mid, Option.map_some']
    simp [take_over, activated, hXl]
  · simp only [hc, List.length_append, List.length_cons]
    omega

theorem restore_moves_state_witness :
    IdInv brokerC1 ∧
    brokerC1.sessions_current.get? 1 = some (new_session cfgSample 4 7) ∧
    brokerC1.sessions_current.get? 0 = some sessionC1 ∧
    ((MQTT_session_activate cfgSample brokerC1 1 (some (cstr "c1")) 60 false none
        9).2.2.sessions_current.get?
        (MQTT_session_activate cfgSample brokerC1 1 (some (cstr "c1")) 60 false none 9).2.1).map
      (fun s => (s.id, s.sd, s.active, s.subscriptions, s.inbound))
      = some (some (cstr "c1"), 4, true, [{ topic_filter := cstr "x", qos := 1 }], [9, 0]) :=
  ⟨sampleC1_IdInv, rfl, rfl,
    (restore_moves_state cfgSample brokerC1 1 (new_session cfgSample 4 7) (cstr "c1") 60 none 9
      sessionC1 sampleC1_IdInv rfl rfl (by decide) (Or.inl ⟨0, by decide, rfl⟩) rfl).1⟩

theorem take_out_isSome (X : CStr) (l : List MQTT_Session_t) :
    (∃ r, take_out X l = some r) ↔ ∃ s ∈ l, s.id = some X := by
  constructor
  · rintro ⟨r, hr⟩
    by_contra hne
    have : take_out X l = none := (take_out_none X l).mpr (fun s hs e => hne ⟨s, hs, e⟩)
    rw [this] at hr
    exact Option.noConfusion hr
  · rintro ⟨s, hs, e⟩
    cases h : take_out X l with
    | some r => exact ⟨r, rfl⟩
    | none => exact absurd e ((take_out_none X l).mp h s hs)

/-- The value that `MQTT_session_activate` leaves in `*present`, for a session
that has no client-id yet. -/
theorem activate_present (cfg : Config) (b : Broker) (P : List MQTT_Session_t)
    (session : MQTT_Session_t) (R : List MQTT_Session_t) (client_id : Option CStr)
    (keepalive : Nat) (clean : Bool) (lwt : Option MQTT_Message_t) (now : Nat)
    (hc : b.sessions_current = P ++ session :: R) (hs : session.id = none) :
    (MQTT_session_activate cfg b P.length client_id keepalive clean lwt now).1 = true ↔
      clean = false ∧ ∃ X, client_id = some X ∧ X ≠ [] ∧
        ∃ s ∈ P ++ (R ++ b.sessions_stored), s.id = some X := by
  rw [activate_split cfg b P session R client_id keepalive clean lwt now hc]
  cases hid : (activated session client_id keepalive clean lwt now).id with
  | none =>
    simp only [Bool.false_eq_true, false_iff, not_and, not_exists]
    intro _ X hcl hX
    rw [activated_id _ _ _ _ _ _ hs, hcl] at hid
    simp [hX] at hid
  | some X =>
    obtain ⟨hcl, hX⟩ := activated_id_some session client_id keepalive clean lwt now hs X hid
    subst hcl
    simp only []
    have hex : (∃ Y, some X = some Y ∧ Y ≠ [] ∧ ∃ s ∈ P ++ (R ++ b.sessions_stored), s.id = some Y)
        ↔ ∃ s ∈ P ++ (R ++ b.sessions_stored), s.id = some X := by
      constructor
      · rintro ⟨Y, hY, _, h⟩
        cases hY
        exact h
      · intro h
        exact ⟨X, rfl, hX, h⟩
    rw [hex]
    cases h1 : take_out X P with
    | some r =>
      obtain ⟨s, hs1, hs2⟩ := (take_out_isSome X P).mp ⟨r, h1⟩
      have : ∃ s ∈ P ++ (R ++ b.sessions_stored), s.id = some X := ⟨s, by simp [hs1], hs2⟩
      cases clean <;> simp [-List.mem_append, this]
    | none =>
      simp only []
      cases h2 : take_out X R with
      | some r =>
        obtain ⟨s, hs1, hs2⟩ := (take_out_isSome X R).mp ⟨r, h2⟩
        have : ∃ s ∈ P ++ (R ++ b.sessions_stored), s.id = some X := ⟨s, by simp [hs1], hs2⟩
        cases clean <;> simp [-List.mem_append, this]
      | none =>
        simp only []
        cases h3 : take_out X b.sessions_stored with
        | some r =>
          obtain ⟨s, hs1, hs2⟩ := (take_out_isSome X _).mp ⟨r, h3⟩
          have : ∃ s ∈ P ++ (R ++ b.sessions_stored), s.id = some X := ⟨s, by simp [hs1], hs2⟩
          cases clean <;> simp [-List.mem_append, this]
        | none =>
          have : ¬ ∃ s ∈ P ++ (R ++ b.sessions_stored), s.id = some X := by
            rintro ⟨s, hs1, hs2⟩
            simp only [List.mem_append] at hs1
            rcases hs1 with e | e | e
            · exact (take_out_none X P).mp h1 s e hs2
            · exact (take_out_none X R).mp h2 s e hs2
            · exact (take_out_none X _).mp h3 s e hs2
          simp only [Bool.false_eq_true, false_iff, not_and]
          exact fun _ => this

/-- C15: in a broker state with the session invariant (every reachable state), for
a session that is not active, `MQTT_session_activate` reports present = 1 exactly
when clean = 0, the client-id is given and not empty, and another current session
or a stored session has that client-id; with clean = 1 it reports present = 0, the
session at the returned position has an empty subscription list and an all-zero
in-flight array, and no other current session and no stored session has the
client-id afterwards. -/
theorem session_present_and_clean (cfg : Config) (b : Broker) (i : Nat)
    (session : MQTT_Session_t) (client_id : Option CStr) (keepalive : Nat) (clean : Bool)
    (lwt : Option MQTT_Message_t) (now : Nat) (hinv : IdInv b)
    (hget : b.sessions_current.get? i = some session) (hact : session.active = false) :
    ((MQTT_session_activate cfg b i client_id keepalive clean lwt now).1 = true ↔
      clean = false ∧ ∃ X, client_id = some X ∧ X ≠ [] ∧
        ((∃ j s, j ≠ i ∧ b.sessions_current.get? j = some s ∧ s.id = some X) ∨
          ∃ s ∈ b.sessions_stored, s.id = some X)) ∧
    (clean = true →
      (MQTT_session_activate cfg b i client_id keepalive clean lwt now).1 = false ∧
      ((MQTT_session_activate cfg b i client_id keepalive clean lwt now).2.2.sessions_current.get?
          (MQTT_session_activate cfg b i client_id keepalive clean lwt now).2.1).map
        (fun s => (s.sd, s.active, s.subscriptions, s.inbound))
        = some (session.sd, true, [], List.replicate cfg.MAX_INFLIGHT 0) ∧
      ∀ X, client_id = some X → X ≠ [] →
        (∀ k s,
          (MQTT_session_activate cfg b i client_id keepalive clean lwt now).2.2.sessions_current.get? k
            = some s →
          k ≠ (MQTT_session_activate cfg b i client_id keepalive clean lwt now).2.1 →
          s.id ≠ some X) ∧
        ∀ s ∈ (MQTT_session_activate cfg b i client_id keepalive clean lwt now).2.2.sessions_stored,
          s.id ≠ some X) := by
  obtain ⟨P, R, hc, hP⟩ := get?_split _ _ _ hget
  subst hP
  have hs : session.id = none := hinv.2.1 session (by rw [hc]; simp) hact
  constructor
  · rw [activate_present cfg b P session R client_id keepalive clean lwt now hc hs]
    apply and_congr_right
    intro _
    apply exists_congr
    intro X
    apply and_congr_right
    intro _
    apply and_congr_right
    intro _
    constructor
    · rintro ⟨s, hmem, hsX⟩
      simp only [List.mem_append] at hmem
      rcases hmem with e | e | e
      · obtain ⟨j, hj1, hj2⟩ := get?_side_of_mem P session R s (Or.inl e)
        exact Or.inl ⟨j, s, hj1, by rw [hc]; exact hj2, hsX⟩
      · obtain ⟨j, hj1, hj2⟩ := get?_side_of_mem P session R s (Or.inr e)
        exact Or.inl ⟨j, s, hj1, by rw [hc]; exact hj2, hsX⟩
      · exact Or.inr ⟨s, e, hsX⟩
    · rintro (⟨j, s, hj1, hj2, hsX⟩ | ⟨s, e, hsX⟩)
      · rw [hc] at hj2
        rcases mem_of_get?_ne P session R j s hj1 hj2 with e | e
        · exact ⟨s, by simp [e], hsX⟩
        · exact ⟨s, by simp [e], hsX⟩
      · exact ⟨s, by simp [e], hsX⟩
  · intro hcl
    have hinv' := activate_IdInv cfg b P session R client_id keepalive clean lwt now hc hinv hact
    obtain ⟨new, h1, h2, h3, h4, h5⟩ :=
      activate_at cfg b P session R client_id keepalive clean lwt now hc
    obtain ⟨h6, h7, h8⟩ := h5 hcl
    refine ⟨h8, ?_, ?_⟩
    · rw [h1, Option.map_some', h3, h4, h6, h7]
    · intro X hcX hX
      have hnX : new.id = some X := by
        rw [h2, activated_id _ _ _ _ _ _ hs, hcX]
        simp [hX]
      exact ids_unique_at _ _ _ new X hinv'.1 h1 hnX

theorem session_present_and_clean_witness :
    IdInv brokerC1 ∧
    brokerC1.sessions_current.get? 1 = some (new_session cfgSample 4 7) ∧
    (MQTT_session_activate cfgSample brokerC1 1 (some (cstr "c1")) 60 true none 9).1 = false ∧
    ((MQTT_session_activate cfgSample brokerC1 1 (some (cstr "c1")) 60 true none
        9).2.2.sessions_current.get?
        (MQTT_session_activate cfgSample brokerC1 1 (some (cstr "c1")) 60 true none 9).2.1).map
      (fun s => (s.sd, s.active, s.subscriptions, s.inbound))
      = some (4, true, [], [0, 0]) :=
  ⟨sampleC1_IdInv, rfl,
    ((session_present_and_clean cfgSample brokerC1 1 (new_session cfgSample 4 7)
      (some (cstr "c1")) 60 true none 9 sampleC1_IdInv rfl rfl).2 rfl).1,
    ((session_present_and_clean cfgSample brokerC1 1 (new_session cfgSample 4 7)
      (some (cstr "c1")) 60 true none 9 sampleC1_IdInv rfl rfl).2 rfl).2.1⟩

/-! ## Theorems: the bounds of the tables -/

theorem BoundInv_frame (cfg : Config) (b b' : Broker) (h : BoundInv cfg b)
    (hc : b'.sessions_current = b.sessions_current)
    (hs : b'.sessions_stored = b.sessions_stored)
    (hp : b'.queues_pending.length ≤ b.queues_pending.length) : BoundInv cfg b' := by
  obtain ⟨h1, h2, h3, h4⟩ := h
  exact ⟨by rw [hc]; exact h1, by rw [hs]; exact h2, by rw [hc, hs]; exact h3,
    le_trans hp h4⟩

theorem BoundInv_pending (cfg : Config) (b b' : Broker) (h : BoundInv cfg b)
    (hc : b'.sessions_current = b.sessions_current)
    (hs : b'.sessions_stored = b.sessions_stored)
    (hp : b'.queues_pending.length ≤ cfg.QUEUE_SIZE) : BoundInv cfg b' := by
  obtain ⟨h1, h2, h3, _⟩ := h
  exact ⟨by rw [hc]; exact h1, by rw [hs]; exact h2, by rw [hc, hs]; exact h3, hp⟩

theorem queue_add_pending_le (cfg : Config) (b : Broker) (m : MQTT_Message_t)
    (h : b.queues_pending.length ≤ cfg.QUEUE_SIZE) :
    (MQTT_queue_add cfg b m).2.queues_pending.length ≤ cfg.QUEUE_SIZE := by
  rcases (MQTT_queue_add_frame cfg b m).2.2 with e | e
  · exact e
  · rw [e]; exact h

theorem BoundInv_touch (cfg : Config) (b b' : Broker) (i : Nat) (s' : MQTT_Session_t)
    (h : BoundInv cfg b) (hsub : s'.subscriptions.length ≤ cfg.MAX_SUBSCRIPTIONS)
    (hc : b'.sessions_current = b.sessions_current.set i s')
    (hs : b'.sessions_stored = b.sessions_stored)
    (hp : b'.queues_pending.length ≤ cfg.QUEUE_SIZE) : BoundInv cfg b' := by
  obtain ⟨h1, h2, h3, _⟩ := h
  refine ⟨by rw [hc, List.length_set]; exact h1, by rw [hs]; exact h2, ?_, hp⟩
  intro x hx
  rw [hc, hs] at hx
  rcases List.mem_append.mp hx with e | e
  · rcases List.mem_or_eq_of_mem_set e with e' | e'
    · exact h3 x (by simp [e'])
    · rw [e']; exact hsub
  · exact h3 x (by simp [e])

theorem subscriptions_update_length (f : CStr) (q : Nat) (l l' : List MQTT_Subscription_t)
    (h : subscriptions_update f q l = some l') : l'.length = l.length := by
  obtain ⟨pre, it, post, h1, _, _, h2⟩ := subscriptions_update_some f q l l' h
  rw [h1, h2]
  simp

theorem subscriptions_add_bound (cfg : Config) (session : MQTT_Session_t)
    (topic_filter : Option CStr) (qos : Int)
    (h : session.subscriptions.length ≤ cfg.MAX_SUBSCRIPTIONS) :
    (MQTT_subscriptions_add cfg session topic_filter qos).2.subscriptions.length
      ≤ cfg.MAX_SUBSCRIPTIONS := by
  unfold MQTT_subscriptions_add
  cases topic_filter with
  | none => exact h
  | some filter =>
    simp only []
    split
    · exact h
    · split
      · exact h
      · cases hu : subscriptions_update filter qos.toNat session.subscriptions with
        | some subs =>
          simp only []
          rw [subscriptions_update_length _ _ _ _ hu]
          exact h
        | none =>
          simp only []
          split
          · exact h
          · simp only [List.length_append, List.length_singleton]
            omega

theorem subscriptions_remove_bound (cfg : Config) (session : MQTT_Session_t)
    (topic_filter : Option CStr)
    (h : session.subscriptions.length ≤ cfg.MAX_SUBSCRIPTIONS) :
    (MQTT_subscriptions_remove session topic_filter).subscriptions.length
      ≤ cfg.MAX_SUBSCRIPTIONS := by
  unfold MQTT_subscriptions_remove
  cases topic_filter with
  | none => exact h
  | some filter =>
    simp only []
    split
    · exact h
    · exact le_trans (List.Sublist.length_le (List.eraseP_sublist _)) h

theorem store_or_free_BoundInv (cfg : Config) (b : Broker) (s : MQTT_Session_t)
    (hmax : 1 ≤ cfg.MAX_STORED_SESSIONS) (h : BoundInv cfg b)
    (hs : s.subscriptions.length ≤ cfg.MAX_SUBSCRIPTIONS) :
    BoundInv cfg (store_or_free cfg b s) := by
  obtain ⟨h1, h2, h3, h4⟩ := h
  have hf := store_or_free_frame cfg b s
  have hst := store_or_free_stored cfg b s
  refine ⟨by rw [hf.1]; exact h1, ?_, ?_, by rw [hf.2]; exact h4⟩
  · rw [hst]
    split
    · split
      · simp only [List.length_append, List.length_tail, List.length_singleton]
        omega
      · simp only [List.length_append, List.length_singleton]
        omega
    · exact h2
  · intro x hx
    rw [hf.1, hst] at hx
    rcases List.mem_append.mp hx with e | e
    · exact h3 x (by simp [e])
    · split at e
      · rcases List.mem_append.mp e with e' | e'
        · split at e'
          · exact h3 x (List.mem_append_right _ (List.mem_of_mem_tail e'))
          · exact h3 x (List.mem_append_right _ e')
        · rw [List.mem_singleton.mp e']; exact hs
      · exact h3 x (List.mem_append_right _ e)

theorem erase_BoundInv (cfg : Config) (b : Broker) (i : Nat) (w : List Event)
    (h : BoundInv cfg b) :
    BoundInv cfg { b with sessions_current := b.sessions_current.eraseIdx i, wire := w } := by
  obtain ⟨h1, h2, h3, h4⟩ := h
  have hsub := List.eraseIdx_sublist b.sessions_current i
  refine ⟨le_trans hsub.length_le h1, h2, ?_, h4⟩
  intro x hx
  rcases List.mem_append.mp hx with e | e
  · exact h3 x (List.mem_append_left _ (hsub.subset e))
  · exact h3 x (List.mem_append_right _ e)

theorem close_BoundInv (cfg : Config) (b : Broker) (i : Nat)
    (hmax : 1 ≤ cfg.MAX_STORED_SESSIONS) (h : BoundInv cfg b) :
    BoundInv cfg (MQTT_session_close cfg b i) := by
  unfold MQTT_session_close
  cases hget : b.sessions_current.get? i with
  | none => exact h
  | some session =>
    simp only []
    exact store_or_free_BoundInv cfg _ _ hmax (erase_BoundInv cfg b i _ h)
      (h.2.2.1 session (List.mem_append_left _ (List.get?_mem hget)))

theorem drop_BoundInv (cfg : Config) (b : Broker) (i : Nat)
    (hmax : 1 ≤ cfg.MAX_STORED_SESSIONS) (h : BoundInv cfg b) :
    BoundInv cfg (MQTT_session_drop cfg b i) := by
  unfold MQTT_session_drop
  cases hget : b.sessions_current.get? i with
  | none => exact h
  | some session =>
    simp only []
    refine store_or_free_BoundInv cfg _ _ hmax ?_
      (h.2.2.1 session (List.mem_append_left _ (List.get?_mem hget)))
    have he := erase_BoundInv cfg b i (b.wire ++ [Event.close session.sd]) h
    refine BoundInv_pending cfg _ _ he (publish_lwt_frame cfg _ _).1
      (publish_lwt_frame cfg _ _).2 ?_
    cases hl : session.lwt with
    | none => exact he.2.2.2
    | some m => exact queue_add_pending_le cfg _ m he.2.2.2

theorem BoundInv_replace (cfg : Config) (b : Broker) (P R P' R' S' : List MQTT_Session_t)
    (session new : MQTT_Session_t) (w : List Event) (h : BoundInv cfg b)
    (hc : b.sessions_current = P ++ session :: R) (hP : P'.Sublist P) (hR : R'.Sublist R)
    (hS : S'.Sublist b.sessions_stored)
    (hnew : new.subscriptions.length ≤ cfg.MAX_SUBSCRIPTIONS) :
    BoundInv cfg { b with
      sessions_current := P' ++ new :: R', sessions_stored := S', wire := w } := by
  obtain ⟨h1, h2, h3, h4⟩ := h
  rw [hc] at h1 h3
  refine ⟨?_, le_trans hS.length_le h2, ?_, h4⟩
  · have := hP.length_le
    have := hR.length_le
    simp only [List.length_append, List.length_cons] at h1 ⊢
    omega
  · intro x hx
    simp only [List.mem_append, List.mem_cons] at hx
    rcases hx with (e | e | e) | e
    · exact h3 x (by simp [hP.subset e])
    · rw [e]; exact hnew
    · exact h3 x (by simp [hR.subset e])
    · exact h3 x (by simp [hS.subset e])

theorem settled_bound (cfg : Config) (clean : Bool) (s : MQTT_Session_t)
    (h : s.subscriptions.length ≤ cfg.MAX_SUBSCRIPTIONS) :
    (settled cfg clean s).subscriptions.length ≤ cfg.MAX_SUBSCRIPTIONS := by
  cases clean
  · exact h
  · simp [settled, cleaned, MQTT_subscriptions_clear]

theorem take_out_sublist (X : CStr) (l l' : List MQTT_Session_t) (it : MQTT_Session_t)
    (h : take_out X l = some (it, l')) : l'.Sublist l ∧ it ∈ l := by
  obtain ⟨A, B, h1, h2, _, _⟩ := take_out_some X l l' it h
  rw [h1, h2]
  exact ⟨List.Sublist.append (List.Sublist.refl A) (List.sublist_cons_self it B), by simp⟩

/-- The function `MQTT_session_activate` keeps the bounds of the tables. -/
theorem activate_BoundInv (cfg : Config) (b : Broker) (P : List MQTT_Session_t)
    (session : MQTT_Session_t) (R : List MQTT_Session_t) (client_id : Option CStr)
    (keepalive : Nat) (clean : Bool) (lwt : Option MQTT_Message_t) (now : Nat)
    (hc : b.sessions_current = P ++ session :: R) (h : BoundInv cfg b) :
    BoundInv cfg (MQTT_session_activate cfg b P.length client_id keepalive clean lwt now).2.2 := by
  have hb := h.2.2.1
  rw [hc] at hb
  have hses : (activated session client_id keepalive clean lwt now).subscriptions.length
      ≤ cfg.MAX_SUBSCRIPTIONS := hb session (by simp)
  rw [activate_split cfg b P session R client_id keepalive clean lwt now hc]
  cases hid : (activated session client_id keepalive clean lwt now).id with
  | none =>
    exact BoundInv_replace cfg b P R P R b.sessions_stored session _ b.wire h hc
      (List.Sublist.refl _) (List.Sublist.refl _) (List.Sublist.refl _)
      (settled_bound cfg clean _ hses)
  | some X =>
    simp only []
    cases h1 : take_out X P with
    | some r =>
      obtain ⟨it, P'⟩ := r
      obtain ⟨hsub, hmem⟩ := take_out_sublist X P P' it h1
      exact BoundInv_replace cfg b P R P' R b.sessions_stored session _ _ h hc
        hsub (List.Sublist.refl _) (List.Sublist.refl _)
        (settled_bound cfg clean _ (hb it (by simp [hmem])))
    | none =>
      simp only []
      cases h2 : take_out X R with
      | some r =>
        obtain ⟨it, R'⟩ := r
        obtain ⟨hsub, hmem⟩ := take_out_sublist X R R' it h2
        exact BoundInv_replace cfg b P R P R' b.sessions_stored session _ _ h hc
          (List.Sublist.refl _) hsub (List.Sublist.refl _)
          (settled_bound cfg clean _ (hb it (by simp [hmem])))
      | none =>
        simp only []
        cases h3 : take_out X b.sessions_stored with
        | some r =>
          obtain ⟨it, S'⟩ := r
          obtain ⟨hsub, hmem⟩ := take_out_sublist X _ S' it h3
          exact BoundInv_replace cfg b P R P R S' session _ b.wire h hc
            (List.Sublist.refl _) (List.Sublist.refl _) hsub
            (settled_bound cfg clean _ (hb it (by simp [hmem])))
        | none =>
          exact BoundInv_replace cfg b P R P R b.sessions_stored session _ b.wire h hc
            (List.Sublist.refl _) (List.Sublist.refl _) (List.Sublist.refl _)
            (settled_bound cfg clean _ hses)

/-- Every reachable broker state keeps the bounds of the tables, when stored
sessions have room for at least one. -/
theorem reachable_BoundInv (cfg : Config) (hmax : 1 ≤ cfg.MAX_STORED_SESSIONS) (b : Broker)
    (h : Reachable cfg b) : BoundInv cfg b := by
  induction h with
  | init =>
    exact ⟨by simp [Broker.init], by simp [Broker.init], by simp [Broker.init],
      by simp [Broker.init]⟩
  | create b sd now _ ih =>
    unfold MQTT_session_create
    split
    · exact ih
    · obtain ⟨h1, h2, h3, h4⟩ := ih
      refine ⟨?_, h2, ?_, h4⟩
      · simp only [List.length_append, List.length_singleton]
        omega
      · intro x hx
        simp only [List.mem_append, List.mem_singleton] at hx
        rcases hx with (e | e) | e
        · exact h3 x (by simp [e])
        · rw [e]; simp [new_session]
        · exact h3 x (by simp [e])
  | activate b i session client_id keepalive clean lwt now _ hget hact ih =>
    obtain ⟨P, R, hc, hi⟩ := get?_split _ _ _ hget
    subst hi
    exact activate_BoundInv cfg b P session R client_id keepalive clean lwt now hc ih
  | close b i _ ih => exact close_BoundInv cfg b i hmax ih
  | drop b i _ ih => exact drop_BoundInv cfg b i hmax ih
  | discard b i _ ih => exact erase_BoundInv cfg b i b.wire ih
  | subscribe b i session topic_filter qos _ hget ih =>
    exact BoundInv_touch cfg b _ i _ ih
      (subscriptions_add_bound cfg session topic_filter qos
        (ih.2.2.1 session (List.mem_append_left _ (List.get?_mem hget))))
      rfl rfl ih.2.2.2
  | unsubscribe b i session topic_filter _ hget ih =>
    exact BoundInv_touch cfg b _ i _ ih
      (subscriptions_remove_bound cfg session topic_filter
        (ih.2.2.1 session (List.mem_append_left _ (List.get?_mem hget))))
      rfl rfl ih.2.2.2
  | enqueue b message _ ih =>
    exact BoundInv_pending cfg b _ ih (MQTT_queue_add_frame cfg b message).1
      (MQTT_queue_add_frame cfg b message).2.1 (queue_add_pending_le cfg b message ih.2.2.2)
  | publish net b i session msg r _ hget hpub ih =>
    obtain ⟨h1, h2, _, _, h5, h6⟩ := publish_h_shape net cfg b session msg r hpub
    refine BoundInv_touch cfg b _ i r.2.2 ih ?_ (by simp [h1]) h2 ?_
    · rw [h5]
      exact ih.2.2.1 session (List.mem_append_left _ (List.get?_mem hget))
    · rcases h6 with e | ⟨m, e⟩
      · simp only [e]; exact ih.2.2.2
      · simp only [e]; exact queue_add_pending_le cfg b m ih.2.2.2
  | pubrel net b i session msg r _ hget hpub ih =>
    obtain ⟨h1, h2, _, _, h5, h6⟩ := pubrel_h_shape net cfg b session msg r hpub
    refine BoundInv_touch cfg b _ i r.2.2 ih ?_ (by simp [h1]) h2 ?_
    · rw [h5]
      exact ih.2.2.1 session (List.mem_append_left _ (List.get?_mem hget))
    · simp only [h6]; exact ih.2.2.2
  | process net b _ ih =>
    exact queue_process_preserves (BoundInv cfg) net cfg
      (fun b i h => drop_BoundInv cfg b i hmax h)
      (fun b b' h hc hs hp => BoundInv_frame cfg b b' h hc hs hp) b ih
  | replay net b sd f g _ ih =>
    exact BoundInv_frame cfg b _ ih (handleRetained_frame net b sd f g).1
      (handleRetained_frame net b sd f g).2.1
      (le_of_eq (by rw [(handleRetained_frame net b sd f g).2.2]))

/-- C18: when the stored list has room for at least one session, every reachable
broker state has at most MAX_SESSIONS current sessions, at most MAX_STORED_SESSIONS
stored sessions, at most MAX_SUBSCRIPTIONS subscriptions in every session and at
most QUEUE_SIZE pending entries; `MQTT_session_create` returns NULL and
`MQTT_queue_add` returns 0, both with the state unchanged, when their table is
full; and `session_store` on a full stored list removes its first (oldest) session
and adds the new one at the end. -/
theorem bounded_tables (cfg : Config) (hmax : 1 ≤ cfg.MAX_STORED_SESSIONS) :
    (∀ b, Reachable cfg b →
      b.sessions_current.length ≤ cfg.MAX_SESSIONS ∧
      b.sessions_stored.length ≤ cfg.MAX_STORED_SESSIONS ∧
      (∀ s ∈ b.sessions_current ++ b.sessions_stored,
        s.subscriptions.length ≤ cfg.MAX_SUBSCRIPTIONS) ∧
      b.queues_pending.length ≤ cfg.QUEUE_SIZE) ∧
    (∀ b sd now, cfg.MAX_SESSIONS ≤ b.sessions_current.length →
      MQTT_session_create cfg b sd now = (none, b)) ∧
    (∀ b message, cfg.QUEUE_SIZE ≤ b.queues_pending.length →
      MQTT_queue_add cfg b message = (false, b)) ∧
    (∀ b session, cfg.MAX_STORED_SESSIONS ≤ b.sessions_stored.length →
      (session_store cfg b session).sessions_stored = b.sessions_stored.tail ++ [session] ∧
      (session_store cfg b session).sessions_stored.length = b.sessions_stored.length) := by
  refine ⟨fun b h => reachable_BoundInv cfg hmax b h, ?_, ?_, ?_⟩
  · intro b sd now h
    simp [MQTT_session_create, h]
  · intro b message h
    simp [MQTT_queue_add, h]
  · intro b session h
    have hpos : 0 < b.sessions_stored.length := by omega
    simp only [session_store, ge_iff_le, h, if_true, List.length_append, List.length_tail,
      List.length_singleton, true_and]
    omega

theorem bounded_tables_witness :
    1 ≤ cfgSample.MAX_STORED_SESSIONS ∧
    Reachable cfgSample brokerOneStored ∧
    brokerOneStored.sessions_stored.length ≤ 2 ∧
    MQTT_session_create cfgSample brokerSessionsFull 7 0 = (none, brokerSessionsFull) ∧
    MQTT_queue_add cfgSample brokerQueueFull (sampleEntry "z" [3] 0 0).message
      = (false, brokerQueueFull) ∧
    (session_store cfgSample brokerStoredFull (storedSample "c3")).sessions_stored
      = [storedSample "c2", storedSample "c3"] :=
  ⟨by decide, sampleOneStored_reachable,
    ((bounded_tables cfgSample (by decide)).1 brokerOneStored sampleOneStored_reachable).2.1,
    (bounded_tables cfgSample (by decide)).2.1 brokerSessionsFull 7 0 (by decide),
    (bounded_tables cfgSample (by decide)).2.2.1 brokerQueueFull _ (by decide),
    ((bounded_tables cfgSample (by decide)).2.2.2 brokerStoredFull (storedSample "c3")
      (by decide)).1⟩

/-! ## Theorems: the wire codec -/

theorem encodeSize_cases (n : Nat) (h : n ≤ 268435455) :
    (n < 128 ∧ MQTT_br_encodeSize n = [n]) ∨
    (128 ≤ n ∧ n < 16384 ∧ MQTT_br_encodeSize n = [n % 128 + 128, n / 128]) ∨
    (16384 ≤ n ∧ n < 2097152 ∧
      MQTT_br_encodeSize n = [n % 128 + 128, n / 128 % 128 + 128, n / 16384]) ∨
    (2097152 ≤ n ∧
      MQTT_br_encodeSize n =
        [n % 128 + 128, n / 128 % 128 + 128, n / 16384 % 128 + 128, n / 2097152]) := by
  have e1 : n / 128 / 128 = n / 16384 := by rw [Nat.div_div_eq_div_mul]
  have e2 : n / 16384 / 128 = n / 2097152 := by rw [Nat.div_div_eq_div_mul]
  by_cases h1 : n < 128
  · left
    refine ⟨h1, ?_⟩
    have : n / 128 = 0 := by omega
    have : n % 128 = n := by omega
    simp [MQTT_br_encodeSize, encodeSizeLoop, *]
  · right
    by_cases h2 : n < 16384
    · left
      refine ⟨by omega, h2, ?_⟩
      have a1 : n / 128 > 0 := by omega
      have a2 : n / 128 / 128 = 0 := by omega
      have a3 : n / 128 % 128 = n / 128 := by omega
      simp [MQTT_br_encodeSize, encodeSizeLoop, a1, a2, a3]
    · right
      by_cases h3 : n < 2097152
      · left
        refine ⟨by omega, h3, ?_⟩
        have a1 : n / 128 > 0 := by omega
        have a2 : 0 < n / 16384 := by omega
        have a3 : n / 16384 / 128 = 0 := by omega
        have a4 : n / 16384 % 128 = n / 16384 := by omega
        simp [MQTT_br_encodeSize, encodeSizeLoop, a1, a2, a3, a4, e1]
      · right
        refine ⟨by omega, ?_⟩
        have a1 : n / 128 > 0 := by omega
        have a2 : 0 < n / 16384 := by omega
        have a3 : 0 < n / 2097152 := by omega
        have a4 : n / 2097152 / 128 = 0 := by omega
        have a5 : n / 2097152 % 128 = n / 2097152 := by omega
        simp [MQTT_br_encodeSize, encodeSizeLoop, a1, a2, a3, a4, a5, e1, e2]

theorem decodeSizeLoop_append_left (pre l : List Nat) (fuel p len v m : Nat) :
    decodeSizeLoop (pre ++ l) fuel (pre.length + p) len v m = decodeSizeLoop l fuel p len v m := by
  induction fuel generalizing p len v m with
  | zero => rfl
  | succ fuel ih =>
    have hg : (pre ++ l).get? (pre.length + p) = l.get? p := by
      rw [List.get?_eq_getElem?, List.get?_eq_getElem?, List.getElem?_append_right (by omega)]
      congr 1
      omega
    simp only [decodeSizeLoop, hg]
    split
    · rfl
    · cases l.get? p with
      | none => rfl
      | some c =>
        simp only []
        rw [← ih (p + 1)]
        rfl

/-- The remaining length decoded from an encoded length at any place of a buffer. -/
theorem decodeSize_encodeSize (pre post : List Nat) (n : Nat) (h : n ≤ 268435455) :
    MQTT_br_decodeSize (pre ++ MQTT_br_encodeSize n ++ post) pre.length
      = some ((MQTT_br_encodeSize n).length, n) := by
  unfold MQTT_br_decodeSize
  rw [List.append_assoc]
  have := decodeSizeLoop_append_left pre (MQTT_br_encodeSize n ++ post) 5 0 0 0 1
  rw [Nat.add_zero] at this
  rw [this]
  rcases encodeSize_cases n h with ⟨h1, e⟩ | ⟨h1, h2, e⟩ | ⟨h1, h2, e⟩ | ⟨h1, e⟩
  · rw [e]
    have a : n / 128 % 2 = 0 := by omega
    have c : n % 128 = n := by omega
    simp [decodeSizeLoop, a, c]
  · rw [e]
    have a : (n % 128 + 128) / 128 % 2 = 1 := by omega
    have a' : n / 128 / 128 % 2 = 0 := by omega
    simp [decodeSizeLoop, a, a']
    omega
  · rw [e]
    have a : (n % 128 + 128) / 128 % 2 = 1 := by omega
    have a2 : (n / 128 % 128 + 128) / 128 % 2 = 1 := by omega
    have a' : n / 16384 / 128 % 2 = 0 := by omega
    simp [decodeSizeLoop, a, a2, a']
    omega
  · rw [e]
    have a : (n % 128 + 128) / 128 % 2 = 1 := by omega
    have a2 : (n / 128 % 128 + 128) / 128 % 2 = 1 := by omega
    have a3 : (n / 16384 % 128 + 128) / 128 % 2 = 1 := by omega
    have a' : n / 2097152 / 128 % 2 = 0 := by omega
    simp [decodeSizeLoop, a, a2, a3, a']
    omega
/-- C23: for every n from 0 to 268435455, `MQTT_br_encodeSize` writes between 1 and 4
bytes, each below 256, all but the last with bit 7 set and the last with bit 7
clear, and `MQTT_br_decodeSize` on those bytes returns their number and the value
n. -/
theorem encodeSize_decodeSize_roundtrip (n : Nat) (h : n ≤ 268435455) :
    1 ≤ (MQTT_br_encodeSize n).length ∧ (MQTT_br_encodeSize n).length ≤ 4 ∧
    (∀ x ∈ MQTT_br_encodeSize n, x < 256) ∧
    (∀ i, i + 1 < (MQTT_br_encodeSize n).length →
      (MQTT_br_encodeSize n).getD i 0 / 128 % 2 = 1) ∧
    (MQTT_br_encodeSize n).getD ((MQTT_br_encodeSize n).length - 1) 0 / 128 % 2 = 0 ∧
    MQTT_br_decodeSize (MQTT_br_encodeSize n) 0 = some ((MQTT_br_encodeSize n).length, n) := by
  have hd := decodeSize_encodeSize [] [] n h
  simp only [List.nil_append, List.append_nil, List.length_nil] at hd
  refine ⟨?_, ?_, ?_, ?_, ?_, hd⟩
  · rcases encodeSize_cases n h with ⟨_, e⟩ | ⟨_, _, e⟩ | ⟨_, _, e⟩ | ⟨_, e⟩ <;> simp [e]
  · rcases encodeSize_cases n h with ⟨_, e⟩ | ⟨_, _, e⟩ | ⟨_, _, e⟩ | ⟨_, e⟩ <;> simp [e]
  · intro x hx
    rcases encodeSize_cases n h with ⟨_, e⟩ | ⟨_, _, e⟩ | ⟨_, _, e⟩ | ⟨_, e⟩ <;>
      rw [e] at hx <;> simp only [List.mem_cons, List.mem_singleton, List.not_mem_nil,
        or_false] at hx <;> omega
  · intro i hi
    rcases encodeSize_cases n h with ⟨_, e⟩ | ⟨_, _, e⟩ | ⟨_, _, e⟩ | ⟨_, e⟩ <;>
      rw [e] at hi ⊢ <;> simp only [List.length_cons, List.length_nil] at hi
    · omega
    · have : i = 0 := by omega
      subst this
      simp only [List.getD_cons_zero]
      omega
    · have : i = 0 ∨ i = 1 := by omega
      rcases this with rfl | rfl <;> simp only [List.getD_cons_zero, List.getD_cons_succ] <;>
        omega
    · have : i = 0 ∨ i = 1 ∨ i = 2 := by omega
      rcases this with rfl | rfl | rfl <;>
        simp only [List.getD_cons_zero, List.getD_cons_succ] <;> omega
  · rcases encodeSize_cases n h with ⟨_, e⟩ | ⟨_, _, e⟩ | ⟨_, _, e⟩ | ⟨_, e⟩ <;>
      rw [e] <;> simp only [List.length_cons, List.length_nil, Nat.add_one_sub_one,
        List.getD_cons_zero, List.getD_cons_succ] <;> omega

theorem encodeSize_decodeSize_roundtrip_witness :
    268435455 ≤ 268435455 ∧
    MQTT_br_encodeSize 268435455 = [255, 255, 255, 127] ∧
    MQTT_br_decodeSize (MQTT_br_encodeSize 268435455) 0
      = some ((MQTT_br_encodeSize 268435455).length, 268435455) :=
  ⟨by decide, by decide, (encodeSize_decodeSize_roundtrip 268435455 (by decide)).2.2.2.2.2⟩

theorem utf8_loop_nul (s : List Nat) (cnt : Nat) (h : 0 ∈ s) : utf8_loop s cnt = false := by
  induction s generalizing cnt with
  | nil => simp at h
  | cons c rest ih =>
    by_cases hc : c = 0
    · simp [utf8_loop, hc]
    · have hr : 0 ∈ rest := by
        rcases List.mem_cons.mp h with e | e
        · exact absurd e.symm hc
        · exact e
      simp only [utf8_loop, hc, if_false]
      split
      · split
        · exact ih 1 hr
        · split
          · exact ih 2 hr
          · split
            · exact ih 3 hr
            · split
              · rfl
              · exact ih 0 hr
      · split
        · rfl
        · exact ih _ hr

theorem utf8_loop_conts (conts rest : List Nat) (cnt : Nat) (hc : ∀ c ∈ conts, c / 64 = 2)
    (hl : conts.length ≤ cnt) :
    utf8_loop (conts ++ rest) cnt = utf8_loop rest (cnt - conts.length) := by
  induction conts generalizing cnt with
  | nil => simp
  | cons c conts ih =>
    have h2 : c / 64 = 2 := hc c (by simp)
    have hc0 : c ≠ 0 := by omega
    simp only [List.length_cons] at hl
    have hcnt : cnt ≠ 0 := by omega
    rw [List.cons_append]
    have hstep : utf8_loop (c :: (conts ++ rest)) cnt = utf8_loop (conts ++ rest) (cnt - 1) := by
      simp only [utf8_loop, hc0, hcnt, h2, if_false, ne_eq, not_true_eq_false]
    rw [hstep, ih (cnt - 1) (fun x hx => hc x (List.mem_cons_of_mem _ hx)) (by omega)]
    congr 1
    simp only [List.length_cons]
    omega

theorem utf8_loop_lead (lead : Nat) (rest : List Nat) (h0 : announced lead ≠ 0) :
    utf8_loop (lead :: rest) 0 = utf8_loop rest (announced lead) := by
  unfold announced at h0 ⊢
  have hl : lead ≠ 0 := by
    intro e
    subst e
    simp at h0
  simp only [utf8_loop, hl, if_false, if_true]
  split
  · rfl
  · split
    · rfl
    · split
      · rfl
      · simp_all

theorem utf8_loop_units (pre rest : List Nat) (hu : Utf8Units pre) (h0 : 0 ∉ pre) :
    utf8_loop (pre ++ rest) 0 = utf8_loop rest 0 := by
  induction hu with
  | nil => rfl
  | one b tl hb _ ih =>
    have hb0 : b ≠ 0 := fun e => h0 (by simp [e])
    have h1 : ¬ b / 32 = 6 := by omega
    have h2 : ¬ b / 16 = 14 := by omega
    have h3 : ¬ b / 8 = 30 := by omega
    have h4 : b / 128 = 0 := by omega
    simp only [List.cons_append, utf8_loop, hb0, h1, h2, h3, h4, if_false, if_true, ne_eq,
      not_true_eq_false]
    exact ih (fun h => h0 (List.mem_cons_of_mem _ h))
  | two b c1 tl hb h1 _ ih =>
    have ha : announced b = 1 := by simp [announced, hb]
    have := utf8_loop_conts [c1] (tl ++ rest) 1 (by simp [h1]) (by simp)
    simp only [List.cons_append, List.nil_append, List.length_singleton, Nat.sub_self] at this
    rw [List.cons_append, utf8_loop_lead b _ (by rw [ha]; decide), ha, List.cons_append, this]
    exact ih (fun h => h0 (by simp [h]))
  | three b c1 c2 tl hb h1 h2 _ ih =>
    have ha : announced b = 2 := by
      have : ¬ b / 32 = 6 := by omega
      simp [announced, hb, this]
    have := utf8_loop_conts [c1, c2] (tl ++ rest) 2 (by simp [h1, h2]) (by simp)
    simp only [List.cons_append, List.nil_append, List.length_cons, List.length_nil,
      Nat.sub_self] at this
    rw [List.cons_append, utf8_loop_lead b _ (by rw [ha]; decide), ha, List.cons_append,
      List.cons_append, this]
    exact ih (fun h => h0 (by simp [h]))
  | four b c1 c2 c3 tl hb h1 h2 h3 _ ih =>
    have ha : announced b = 3 := by
      have : ¬ b / 32 = 6 := by omega
      have : ¬ b / 16 = 14 := by omega
      simp [announced, hb, *]
    have := utf8_loop_conts [c1, c2, c3] (tl ++ rest) 3 (by simp [h1, h2, h3]) (by simp)
    simp only [List.cons_append, List.nil_append, List.length_cons, List.length_nil,
      Nat.sub_self] at this
    rw [List.cons_append, utf8_loop_lead b _ (by rw [ha]; decide), ha, List.cons_append,
      List.cons_append, List.cons_append, this]
    exact ih (fun h => h0 (by simp [h]))

theorem utf8_validate_units (s : List Nat) (hu : Utf8Units s) (h0 : 0 ∉ s) :
    utf8_validate s = true := by
  have := utf8_loop_units s [] hu h0
  rw [List.append_nil] at this
  unfold utf8_validate
  rw [this]
  rfl

theorem readInt_writeInt (pre post : List Nat) (n : Nat) (h : n ≤ 65535) :
    MQTT_br_readInt (pre ++ MQTT_br_writeInt n ++ post) pre.length = some n := by
  have h1 : (pre ++ MQTT_br_writeInt n ++ post).get? pre.length = some (n / 256 % 256) := by
    have := get?_mid pre (n / 256 % 256) (n % 256 :: post)
    simpa [MQTT_br_writeInt] using this
  have h2 : (pre ++ MQTT_br_writeInt n ++ post).get? (pre.length + 1) = some (n % 256) := by
    have := get?_mid (pre ++ [n / 256 % 256]) (n % 256) post
    simpa [MQTT_br_writeInt] using this
  unfold MQTT_br_readInt
  rw [h1, h2]
  simp only [Option.some.injEq]
  omega

/-- The function `MQTT_br_readString` on a length-prefixed string at any place of a
buffer. -/
theorem readString_at (pre post : List Nat) (s : CStr) (hne : s ≠ []) (hlen : s.length ≤ 65535) :
    MQTT_br_readString (pre ++ MQTT_br_writeString s ++ post) pre.length =
      (if utf8_validate s then some s else none, pre.length + 2 + s.length) ∧
    MQTT_br_readString_len (pre ++ MQTT_br_writeString s ++ post) pre.length =
      if utf8_validate s then s.length else 0 := by
  have hpos : 0 < s.length := List.length_pos.mpr hne
  have hri : MQTT_br_readInt (pre ++ MQTT_br_writeString s ++ post) pre.length
      = some s.length := by
    have := readInt_writeInt pre (s ++ post) s.length hlen
    simpa [MQTT_br_writeString, List.append_assoc] using this
  have hl : (pre ++ MQTT_br_writeString s ++ post).length
      = pre.length + 2 + s.length + post.length := by
    simp [MQTT_br_writeString, MQTT_br_writeInt]
    omega
  have hdrop : ((pre ++ MQTT_br_writeString s ++ post).drop (pre.length + 2)).take s.length
      = s := by
    have e : pre ++ MQTT_br_writeString s ++ post
        = (pre ++ MQTT_br_writeInt s.length) ++ (s ++ post) := by
      simp [MQTT_br_writeString, List.append_assoc]
    have e2 : (pre ++ MQTT_br_writeInt s.length).length = pre.length + 2 := by
      simp [MQTT_br_writeInt]
    rw [e, ← e2, List.drop_left, List.take_left]
  have c1 : ¬ (pre.length + 2 + s.length + post.length ≤ pre.length + 1) := by omega
  have c2 : s.length ≠ 0 := by omega
  have c3 : ¬ (pre.length + 2 + s.length > pre.length + 2 + s.length + post.length) := by omega
  constructor
  · unfold MQTT_br_readString
    rw [hri]
    simp only [hl, c1, c2, c3, hdrop, if_false]
    split <;> rfl
  · unfold MQTT_br_readString_len
    rw [hri]
    simp only [hl, c1, c2, c3, hdrop, if_false]

theorem readString_empty (pre post : List Nat) :
    MQTT_br_readString (pre ++ MQTT_br_writeString [] ++ post) pre.length
      = (none, pre.length + 2) ∧
    MQTT_br_readString_len (pre ++ MQTT_br_writeString [] ++ post) pre.length = 0 := by
  have hri : MQTT_br_readInt (pre ++ MQTT_br_writeString [] ++ post) pre.length = some 0 := by
    have := readInt_writeInt pre post 0 (by omega)
    simpa [MQTT_br_writeString] using this
  have hl : (pre ++ MQTT_br_writeString [] ++ post).length = pre.length + 2 + post.length := by
    simp [MQTT_br_writeString, MQTT_br_writeInt]
    omega
  have c1 : ¬ (pre.length + 2 + post.length ≤ pre.length + 1) := by omega
  constructor
  · unfold MQTT_br_readString
    rw [hri]
    simp only [hl, c1, if_false, if_true]
  · unfold MQTT_br_readString_len
    rw [hri]
    simp only [hl, c1, if_false, if_true]
theorem utf8_validate_stray (s : List Nat) (h : StrayContinuation s) :
    utf8_validate s = false := by
  obtain ⟨pre, c, post, hs, hu, hc⟩ := h
  by_cases h0 : 0 ∈ s
  · exact utf8_loop_nul s 0 h0
  · have hp : 0 ∉ pre := fun e => h0 (by rw [hs]; simp [e])
    unfold utf8_validate
    rw [hs, utf8_loop_units pre _ hu hp]
    have c0 : c ≠ 0 := by omega
    have c1 : ¬ c / 32 = 6 := by omega
    have c2 : ¬ c / 16 = 14 := by omega
    have c3 : ¬ c / 8 = 30 := by omega
    have c4 : c / 128 ≠ 0 := by omega
    simp only [utf8_loop, c0, c1, c2, c3, c4, if_false, if_true, ne_eq, not_false_eq_true]

theorem utf8_validate_truncated (s : List Nat) (h : TruncatedSequence s) :
    utf8_validate s = false := by
  obtain ⟨pre, lead, conts, post, hs, hu, hc, hl, hpost⟩ := h
  by_cases h0 : 0 ∈ s
  · exact utf8_loop_nul s 0 h0
  · have hp : 0 ∉ pre := fun e => h0 (by rw [hs]; simp [e])
    unfold utf8_validate
    rw [hs, List.append_assoc, List.cons_append, utf8_loop_units pre _ hu hp,
      utf8_loop_lead lead _ (by omega), utf8_loop_conts conts post _ hc (by omega)]
    have hk : announced lead - conts.length ≠ 0 := by omega
    rcases hpost with e | ⟨d, rest, e, hd⟩
    · rw [e]
      simp [utf8_loop, hk]
    · rw [e]
      by_cases d0 : d = 0
      · simp [utf8_loop, d0]
      · simp only [utf8_loop, d0, hk, hd, if_false, if_true, ne_eq, not_false_eq_true]

/-- C25: for every non-empty string s of at most 65535 bytes with no NUL byte that is
a concatenation of UTF-8 units, `MQTT_br_writeString` writes the length of s as two
bytes, high byte first, and then the bytes of s; `MQTT_br_readString` on these bytes,
at any place of a buffer, returns the length of s, yields s and advances the read
position by 2 + |s|; on the bytes written for the empty string it returns 0 and
yields no string. -/
theorem readString_writeString_roundtrip (pre post : List Nat) (s : CStr) (hne : s ≠ [])
    (hlen : s.length ≤ 65535) (h0 : 0 ∉ s) (hu : Utf8Units s) :
    MQTT_br_writeString s = [s.length / 256, s.length % 256] ++ s ∧
    MQTT_br_readString (pre ++ MQTT_br_writeString s ++ post) pre.length
      = (some s, pre.length + 2 + s.length) ∧
    MQTT_br_readString_len (pre ++ MQTT_br_writeString s ++ post) pre.length = s.length ∧
    (MQTT_br_readString (pre ++ MQTT_br_writeString [] ++ post) pre.length).1 = none ∧
    MQTT_br_readString_len (pre ++ MQTT_br_writeString [] ++ post) pre.length = 0 := by
  have hv := utf8_validate_units s hu h0
  have hr := readString_at pre post s hne hlen
  rw [hv] at hr
  have he := readString_empty pre post
  refine ⟨?_, hr.1, hr.2, by rw [he.1], he.2⟩
  have : s.length / 256 % 256 = s.length / 256 := by omega
  simp [MQTT_br_writeString, MQTT_br_writeInt, this]

theorem readString_writeString_roundtrip_witness :
    [0x61, 0xC3, 0xA9] ≠ [] ∧ [0x61, 0xC3, 0xA9].length ≤ 65535 ∧ 0 ∉ [0x61, 0xC3, 0xA9] ∧
    Utf8Units [0x61, 0xC3, 0xA9] ∧
    MQTT_br_writeString [0x61, 0xC3, 0xA9] = [0, 3, 0x61, 0xC3, 0xA9] ∧
    MQTT_br_readString ([] ++ MQTT_br_writeString [0x61, 0xC3, 0xA9] ++ []) 0
      = (some [0x61, 0xC3, 0xA9], 5) :=
  ⟨by decide, by decide, by decide,
    Utf8Units.one _ _ (by decide) (Utf8Units.two _ _ _ (by decide) (by decide) Utf8Units.nil),
    (readString_writeString_roundtrip [] [] [0x61, 0xC3, 0xA9] (by decide) (by decide)
      (by decide)
      (Utf8Units.one _ _ (by decide)
        (Utf8Units.two _ _ _ (by decide) (by decide) Utf8Units.nil))).1,
    (readString_writeString_roundtrip [] [] [0x61, 0xC3, 0xA9] (by decide) (by decide)
      (by decide)
      (Utf8Units.one _ _ (by decide)
        (Utf8Units.two _ _ _ (by decide) (by decide) Utf8Units.nil))).2.1⟩

/-- Claim C26 fails on the code: the overlong (non-shortest-form) encodings C0 80 and
E0 80 80 are read as strings, `MQTT_br_readString` returns their length and yields
them, although its comment says that strings must contain only valid UTF-8
characters. -/
theorem readString_accepts_overlong :
    MQTT_br_readString (MQTT_br_writeString [0xC0, 0x80]) 0 = (some [0xC0, 0x80], 4) ∧
    MQTT_br_readString_len (MQTT_br_writeString [0xC0, 0x80]) 0 = 2 ∧
    MQTT_br_readString (MQTT_br_writeString [0xE0, 0x80, 0x80]) 0
      = (some [0xE0, 0x80, 0x80], 5) ∧
    MQTT_br_readString_len (MQTT_br_writeString [0xE0, 0x80, 0x80]) 0 = 3 := by
  decide

/-- What `MQTT_br_readString` does reject: it returns 0 and yields no string for every
length-prefixed string of at most 65535 bytes that contains a NUL byte, a stray
continuation byte or a truncated multi-byte sequence. -/
theorem readString_rejects_malformed (pre post : List Nat) (s : CStr) (hlen : s.length ≤ 65535)
    (hbad : 0 ∈ s ∨ StrayContinuation s ∨ TruncatedSequence s) :
    (MQTT_br_readString (pre ++ MQTT_br_writeString s ++ post) pre.length).1 = none ∧
    MQTT_br_readString_len (pre ++ MQTT_br_writeString s ++ post) pre.length = 0 := by
  have hv : utf8_validate s = false := by
    rcases hbad with h | h | h
    · exact utf8_loop_nul s 0 h
    · exact utf8_validate_stray s h
    · exact utf8_validate_truncated s h
  have hne : s ≠ [] := by
    rcases hbad with h | ⟨pre, c, post, hs, _⟩ | ⟨pre, lead, conts, post, hs, _⟩
    · intro e; rw [e] at h; simp at h
    · intro e; rw [e] at hs; simp at hs
    · intro e; rw [e] at hs; simp at hs
  have hr := readString_at pre post s hne hlen
  rw [hv] at hr
  exact ⟨by rw [hr.1]; rfl, hr.2⟩

theorem readString_rejects_malformed_witness :
    [0xE2, 0x82].length ≤ 65535 ∧ TruncatedSequence [0xE2, 0x82] ∧
    (MQTT_br_readString ([] ++ MQTT_br_writeString [0xE2, 0x82] ++ []) 0).1 = none ∧
    MQTT_br_readString_len ([] ++ MQTT_br_writeString [0xE2, 0x82] ++ []) 0 = 0 :=
  ⟨by decide,
    ⟨[], 0xE2, [0x82], [], rfl, Utf8Units.nil, by decide, by decide, Or.inl rfl⟩,
    readString_rejects_malformed [] [] [0xE2, 0x82] (by decide)
      (Or.inr (Or.inr
        ⟨[], 0xE2, [0x82], [], rfl, Utf8Units.nil, by decide, by decide, Or.inl rfl⟩))⟩

/-! ## Theorems: the packet reader -/

theorem read_size_four_continued (b1 b2 b3 b4 : Nat) (rest : List Nat)
    (h1 : b1 / 128 % 2 = 1) (h2 : b2 / 128 % 2 = 1) (h3 : b3 / 128 % 2 = 1)
    (h4 : b4 / 128 % 2 = 1) :
    read_size (b1 :: b2 :: b3 :: b4 :: rest) [] 0 1 = SizeRead.drop rest := by
  cases rest with
  | nil => simp [read_size, h1, h2, h3, h4]
  | cons c rest => simp [read_size, h1, h2, h3, h4]

theorem read_size_maximum (rest : List Nat) :
    read_size (0xFF :: 0xFF :: 0xFF :: 0x7F :: rest) [] 0 1
      = SizeRead.size [0xFF, 0xFF, 0xFF, 0x7F] 268435455 rest := by
  simp [read_size]

/-- C24: in the packet reader of `MQTT_br_handler` the length bytes FF FF FF 7F are
read as the remaining length 268435455 with exactly four length bytes (and the packet
of 1 + 4 + 268435455 bytes is handed over when the socket delivers it); for every
input whose first four length bytes all have the continuation bit set the session is
dropped, the bytes after the fourth length byte are not read, and the outcome does
not depend on the packet handlers. -/
theorem reader_length_boundary (handle : Broker → Nat → List Nat → Broker) (cfg : Config)
    (b : Broker) (i : Nat) (header_byte b1 b2 b3 b4 : Nat) (rest : List Nat)
    (h1 : b1 / 128 % 2 = 1) (h2 : b2 / 128 % 2 = 1) (h3 : b3 / 128 % 2 = 1)
    (h4 : b4 / 128 % 2 = 1) :
    read_size (0xFF :: 0xFF :: 0xFF :: 0x7F :: rest) [] 0 1
      = SizeRead.size [0xFF, 0xFF, 0xFF, 0x7F] 268435455 rest ∧
    (268435455 ≤ rest.length →
      MQTT_br_handler handle cfg b i (header_byte :: 0xFF :: 0xFF :: 0xFF :: 0x7F :: rest)
        = (handle b i ([header_byte] ++ [0xFF, 0xFF, 0xFF, 0x7F] ++ rest.take 268435455),
            rest.drop 268435455)) ∧
    read_size (b1 :: b2 :: b3 :: b4 :: rest) [] 0 1 = SizeRead.drop rest ∧
    MQTT_br_handler handle cfg b i (header_byte :: b1 :: b2 :: b3 :: b4 :: rest)
      = (MQTT_session_drop cfg b i, rest) := by
  refine ⟨read_size_maximum rest, ?_, read_size_four_continued b1 b2 b3 b4 rest h1 h2 h3 h4, ?_⟩
  · intro hlen
    have : ¬ (268435455 > 0 ∧ rest.length < 268435455) := by omega
    simp only [MQTT_br_handler, read_size_maximum, this, if_false]
  · simp only [MQTT_br_handler, read_size_four_continued b1 b2 b3 b4 rest h1 h2 h3 h4]

theorem reader_length_boundary_witness :
    0x80 / 128 % 2 = 1 ∧ 0xFF / 128 % 2 = 1 ∧
    MQTT_br_handler (fun b _ _ => b) cfgSample brokerC1 0 [0x30, 0x80, 0xFF, 0x80, 0xFF, 0x00, 9]
      = (MQTT_session_drop cfgSample brokerC1 0, [0x00, 9]) :=
  ⟨by decide, by decide,
    (reader_length_boundary (fun b _ _ => b) cfgSample brokerC1 0 0x30 0x80 0xFF 0x80 0xFF
      [0x00, 9] (by decide) (by decide) (by decide) (by decide)).2.2.2⟩

/-! ## Theorems: PUBLISH packets on the wire -/

theorem encodeSize_length_pos (n : Nat) (h : n ≤ 268435455) :
    1 ≤ (MQTT_br_encodeSize n).length ∧ (MQTT_br_encodeSize n).length ≤ 4 ∧
    (n < 128 → (MQTT_br_encodeSize n).length = 1) := by
  rcases encodeSize_cases n h with ⟨h1, e⟩ | ⟨h1, _, e⟩ | ⟨h1, _, e⟩ | ⟨h1, e⟩ <;>
    rw [e] <;> simp <;> omega

/-- The validation part of `publish_h` on a buffer laid out as a PUBLISH packet:
header byte, remaining length, topic string and what follows it. -/
theorem publish_decode_layout (h : Nat) (E : List Nat) (topic : CStr) (post : List Nat)
    (s : Nat) (hh : h / 16 % 16 = 3)
    (hdec : MQTT_br_decodeSize ([h] ++ E ++ MQTT_br_writeString topic ++ post) 1
      = some (E.length, s))
    (hel : 1 ≤ E.length) (hs : 5 ≤ s) (hpost : 3 ≤ topic.length + post.length)
    (htl : topic.length ≤ 65535) :
    publish_decode ([h] ++ E ++ MQTT_br_writeString topic ++ post) =
      if h / 2 % 4 = 3 then some none
      else if h / 2 % 4 = 0 ∧ h / 8 % 2 ≠ 0 then some none
      else if topic = [] ∨ utf8_validate topic = false then some none
      else if chHash ∈ topic ∨ chPlus ∈ topic ∨ topic.head? = some chDollar then some none
      else if h / 2 % 4 = 0 then
        some (some (0, MQTT_Message_t.mk topic 0
          (MQTT_Flags_t.mk (h % 2) (h / 2 % 4) (h / 8 % 2)) post))
      else
        match MQTT_br_readInt post 0 with
        | none => none
        | some packet_id =>
          if packet_id = 0 then some none
          else
            some (some (packet_id, MQTT_Message_t.mk topic packet_id
              (MQTT_Flags_t.mk (h % 2) (h / 2 % 4) (h / 8 % 2)) (post.drop 2))) := by
  have hlen : ([h] ++ E ++ MQTT_br_writeString topic ++ post).length
      = 1 + E.length + 2 + topic.length + post.length := by
    simp [MQTT_br_writeString, MQTT_br_writeInt]
    omega
  have hlong : ¬ ([h] ++ E ++ MQTT_br_writeString topic ++ post).length < 7 := by
    rw [hlen]; omega
  have hget : ([h] ++ E ++ MQTT_br_writeString topic ++ post).get? 0 = some h := by
    simp
  have hpre : ([h] ++ E).length = 1 + E.length := by
    simp; omega
  have hs5 : ¬ s < 5 := by omega
  have hq : h / 2 % 4 < 4 := Nat.mod_lt _ (by decide)
  unfold publish_decode
  simp only [hlong, if_false, hget, hh, ne_eq, not_true_eq_false, hdec, hs5]
  by_cases hq3 : h / 2 % 4 = 3
  · simp [hq3]
  · have hq012 : ¬ (¬ h / 2 % 4 = 0 ∧ ¬ h / 2 % 4 = 1 ∧ ¬ h / 2 % 4 = 2) := by omega
    simp only [hq012, if_false, hq3]
    by_cases hqd : h / 2 % 4 = 0 ∧ ¬ h / 8 % 2 = 0
    · simp [hqd]
    · simp only [hqd, if_false]
      by_cases htop : topic = []
      · subst htop
        have := (readString_empty ([h] ++ E) post).1
        rw [hpre] at this
        rw [this]
        simp
      · have := (readString_at ([h] ++ E) post topic htop htl).1
        rw [hpre] at this
        rw [this]
        by_cases hv : utf8_validate topic = true
        · have htl0 : topic.length ≠ 0 := fun e => htop (List.length_eq_zero.mp e)
          have hplen : ([h] ++ E ++ MQTT_br_writeString topic).length
              = 1 + E.length + 2 + topic.length := by
            simp [MQTT_br_writeString, MQTT_br_writeInt]
            omega
          have hdrop : ∀ k, ([h] ++ E ++ MQTT_br_writeString topic ++ post).drop
              (1 + E.length + 2 + topic.length + k) = post.drop k := by
            intro k
            rw [← hplen, List.drop_append]
          have hdrop0 := hdrop 0
          rw [Nat.add_zero, List.drop_zero] at hdrop0
          have hint : MQTT_br_readInt ([h] ++ E ++ MQTT_br_writeString topic ++ post)
              (1 + E.length + 2 + topic.length) = MQTT_br_readInt post 0 := by
            unfold MQTT_br_readInt
            have g0 : ([h] ++ E ++ MQTT_br_writeString topic ++ post).get?
                (1 + E.length + 2 + topic.length) = post.get? 0 := by
              rw [← hplen, List.get?_eq_getElem?, List.get?_eq_getElem?,
                List.getElem?_append_right (le_refl _), Nat.sub_self]
            have g1 : ([h] ++ E ++ MQTT_br_writeString topic ++ post).get?
                (1 + E.length + 2 + topic.length + 1) = post.get? (0 + 1) := by
              rw [← hplen, List.get?_eq_getElem?, List.get?_eq_getElem?,
                List.getElem?_append_right (by omega)]
              congr 1
              omega
            rw [g0, g1]
          simp only [hv, if_true, htl0, if_false, htop, false_or, Bool.true_eq_false]
          by_cases hw : chHash ∈ topic ∨ chPlus ∈ topic ∨ topic.head? = some chDollar
          · simp only [hw, if_true]
          · simp only [hw, if_false]
            by_cases hq0 : h / 2 % 4 = 0
            · simp only [hq0, hdrop0]
              simp
            · have hq12 : h / 2 % 4 = 1 ∨ h / 2 % 4 = 2 := by omega
              simp only [hq12, if_true, hq0, if_false, hint, hdrop 2]
        · have hv' : utf8_validate topic = false := by
            cases hc : utf8_validate topic
            · rfl
            · exact absurd hc hv
          simp [hv']

/-- What the validation part of `publish_h` makes of a PUBLISH packet on the wire. -/
theorem publish_decode_bytes (dup qos retain : Nat) (topic : CStr) (id : Nat)
    (payload : List Nat) (hd : dup < 2) (hq : qos < 4) (hr : retain < 2)
    (htl : topic.length ≤ 65535) (hid : id ≤ 65535)
    (hrl : (publish_body qos topic id payload).length ≤ 268435455) :
    publish_decode (publish_bytes dup qos retain topic id payload) =
      if (publish_body qos topic id payload).length < 5 then some none
      else if qos = 3 then some none
      else if qos = 0 ∧ dup ≠ 0 then some none
      else if topic = [] ∨ utf8_validate topic = false then some none
      else if chHash ∈ topic ∨ chPlus ∈ topic ∨ topic.head? = some chDollar then some none
      else if qos ≠ 0 ∧ id = 0 then some none
      else
        some (some (if qos = 0 then 0 else id,
          MQTT_Message_t.mk topic (if qos = 0 then 0 else id)
            (MQTT_Flags_t.mk retain qos dup) payload)) := by
  obtain ⟨hel1, _, hel⟩ := encodeSize_length_pos _ hrl
  have hblen : (publish_body qos topic id payload).length
      = 2 + topic.length + ((if qos = 0 then [] else MQTT_br_writeInt id) ++ payload).length := by
    simp [publish_body, MQTT_br_writeString, MQTT_br_writeInt]
    omega
  have hmsg : publish_bytes dup qos retain topic id payload
      = [48 + 8 * dup + 2 * qos + retain]
          ++ MQTT_br_encodeSize (publish_body qos topic id payload).length
          ++ MQTT_br_writeString topic
          ++ ((if qos = 0 then [] else MQTT_br_writeInt id) ++ payload) := by
    simp [publish_bytes, publish_body, List.append_assoc]
  by_cases hshort : (publish_body qos topic id payload).length < 5
  · have hlen : (publish_bytes dup qos retain topic id payload).length < 7 := by
      have : (publish_bytes dup qos retain topic id payload).length
          = 1 + (MQTT_br_encodeSize (publish_body qos topic id payload).length).length
            + (publish_body qos topic id payload).length := by
        simp [publish_bytes]
        omega
      rw [this, hel (by omega)]
      omega
    simp [publish_decode, hlen, hshort]
  · have hdec : MQTT_br_decodeSize (publish_bytes dup qos retain topic id payload) 1
        = some ((MQTT_br_encodeSize (publish_body qos topic id payload).length).length,
            (publish_body qos topic id payload).length) :=
      decodeSize_encodeSize [48 + 8 * dup + 2 * qos + retain] _ _ hrl
    rw [hmsg] at hdec ⊢
    rw [publish_decode_layout _ _ topic _ _ (by omega) hdec hel1 (by omega) (by omega) htl]
    have t2 : (48 + 8 * dup + 2 * qos + retain) / 2 % 4 = qos := by omega
    have t3 : (48 + 8 * dup + 2 * qos + retain) / 8 % 2 = dup := by omega
    have t4 : (48 + 8 * dup + 2 * qos + retain) % 2 = retain := by omega
    simp only [t2, t3, t4, hshort, if_false]
    by_cases hq0 : qos = 0
    · subst hq0
      simp
    · have hri := readInt_writeInt [] payload id hid
      simp only [List.nil_append, List.length_nil] at hri
      have hdrop : (MQTT_br_writeInt id ++ payload).drop 2 = payload := by
        simp [MQTT_br_writeInt]
      simp only [hq0, if_false, hri, hdrop, ne_eq, not_false_eq_true, true_and]

theorem publish_h_of_decode_none (net : Net) (cfg : Config) (b : Broker)
    (session : MQTT_Session_t) (msg : List Nat) (h : publish_decode msg = some none) :
    publish_h net cfg b session msg = some (false, b, session) := by
  simp [publish_h, h]

/-- C28: `publish_h` returns 0 and leaves the broker (so the pending queue) and the
session as they were for every PUBLISH packet whose header QoS is 3, or that has
dup = 1 with QoS 0, or whose topic is empty, contains '+' or '#' or begins with
'$', or whose QoS is 1 or 2 and whose packet-id is 0; for the two header conditions
this holds for every buffer. -/
theorem publish_validation (net : Net) (cfg : Config) (b : Broker) (session : MQTT_Session_t)
    (dup qos retain : Nat) (topic : CStr) (id : Nat) (payload : List Nat)
    (hd : dup < 2) (hq : qos < 4) (hr : retain < 2) (htl : topic.length ≤ 65535)
    (hid : id ≤ 65535) (hrl : (publish_body qos topic id payload).length ≤ 268435455)
    (hbad : qos = 3 ∨ (dup = 1 ∧ qos = 0) ∨ topic = [] ∨ chPlus ∈ topic ∨ chHash ∈ topic ∨
      topic.head? = some chDollar ∨ ((qos = 1 ∨ qos = 2) ∧ id = 0)) :
    publish_h net cfg b session (publish_bytes dup qos retain topic id payload)
      = some (false, b, session) ∧
    (∀ msg : List Nat,
      msg.getD 0 0 / 2 % 4 = 3 ∨ (msg.getD 0 0 / 8 % 2 = 1 ∧ msg.getD 0 0 / 2 % 4 = 0) →
      publish_h net cfg b session msg = some (false, b, session)) := by
  constructor
  · apply publish_h_of_decode_none
    rw [publish_decode_bytes dup qos retain topic id payload hd hq hr htl hid hrl]
    by_cases h1 : (publish_body qos topic id payload).length < 5
    · simp [h1]
    · simp only [h1, if_false]
      rcases hbad with h | h | h | h | h | h | h
      · simp [h]
      · simp [h.1, h.2]
      · split
        · rfl
        · split
          · rfl
          · simp [h]
      · split
        · rfl
        · split
          · rfl
          · split
            · rfl
            · simp [h]
      · split
        · rfl
        · split
          · rfl
          · split
            · rfl
            · simp [h]
      · split
        · rfl
        · split
          · rfl
          · split
            · rfl
            · simp [h]
      · have hq0 : qos ≠ 0 := by omega
        split
        · rfl
        · split
          · rfl
          · split
            · rfl
            · split
              · rfl
              · simp [hq0, h.2]
  · intro msg hmsg
    apply publish_h_of_decode_none
    unfold publish_decode
    by_cases hl : msg.length < 7
    · rw [if_pos hl]
    · have hpos : 0 < msg.length := by omega
      have hg : msg.get? 0 = some (msg.getD 0 0) := by
        cases msg with
        | nil => simp at hpos
        | cons a t => simp
      rw [if_neg hl, hg]
      dsimp only
      generalize msg.getD 0 0 = byte at hmsg
      by_cases ht : byte / 16 % 16 ≠ 3
      · rw [if_pos ht]
      · rw [if_neg ht]
        rcases hmsg with h | ⟨h1, h2⟩
        · rw [if_pos (by omega)]
        · rw [if_neg (by omega), if_pos ⟨h2, by omega⟩]

theorem publish_validation_witness :
    publish_h netUp cfgSample Broker.init (sampleSession 3 [] [0, 0])
        (publish_bytes 0 1 0 (cstr "a/+") 7 [33])
      = some (false, Broker.init, sampleSession 3 [] [0, 0]) :=
  (publish_validation netUp cfgSample Broker.init (sampleSession 3 [] [0, 0]) 0 1 0
    (cstr "a/+") 7 [33] (by decide) (by decide) (by decide) (by decide) (by decide) (by decide)
    (Or.inr (Or.inr (Or.inr (Or.inl (by decide)))))).1

theorem activate_anonymous (cfg : Config) (b : Broker) (i : Nat) (session : MQTT_Session_t)
    (keepalive : Nat) (clean : Bool) (lwt : Option MQTT_Message_t) (now : Nat)
    (hget : b.sessions_current.get? i = some session) (hid : session.id = none) :
    MQTT_session_activate cfg b i none keepalive clean lwt now =
      (false, i, { b with
        sessions_current := b.sessions_current.set i
          (settled cfg clean (activated session none keepalive clean lwt now)) }) := by
  obtain ⟨P, R, hc, hi⟩ := get?_split _ _ _ hget
  subst hi
  have hida : (activated session none keepalive clean lwt now).id = none := by
    simp [activated, hid]
  unfold MQTT_session_activate
  rw [hc, get?_mid]
  simp only [set_mid]
  unfold session_retrieve
  simp only [get?_mid, hida]
  cases clean <;> simp [get?_mid, getElem?_mid, getElem_mid, set_mid, settled]

theorem connect_h_absent_id_v4 (net : Net) (cfg : Config) (b : Broker) (i : Nat)
    (session : MQTT_Session_t) (now clean keepalive : Nat)
    (hget : b.sessions_current.get? i = some session) (hid : session.id = none)
    (hclean : clean ≤ 1) (hka : keepalive ≤ 65535) :
    connect_h net cfg b i (connect_bytes (cstr "MQTT") 4 (2 * clean) keepalive [0, 0]) now =
      if clean = 1 then
        some (connect_end net
          { b with
            sessions_current := b.sessions_current.set i
              (cleaned cfg (activated session none keepalive true none now)) }
          i 0 false)
      else some (connect_end net b i 2 false) := by
  have hk : 256 * (keepalive / 256 % 256) + keepalive % 256 = keepalive := by omega
  have hmsg : connect_bytes (cstr "MQTT") 4 (2 * clean) keepalive [0, 0]
      = [0x10, 12, 0, 4, 77, 81, 84, 84, 4, 2 * clean, keepalive / 256 % 256, keepalive % 256,
          0, 0] := by
    simp [connect_bytes, MQTT_br_writeString, MQTT_br_writeInt, cstr, MQTT_br_encodeSize,
      encodeSizeLoop]
  rw [hmsg]
  have hc : clean = 0 ∨ clean = 1 := by omega
  rcases hc with rfl | rfl
  · simp [connect_h, MQTT_br_decodeSize, decodeSizeLoop, MQTT_br_readString, MQTT_br_readInt,
      utf8_validate, utf8_loop, connect_version, cstr]
  · have hact := activate_anonymous cfg b i session keepalive true none now hget hid
    simp [connect_h, MQTT_br_decodeSize, decodeSizeLoop, MQTT_br_readString, MQTT_br_readInt,
      utf8_validate, utf8_loop, connect_version, cstr, connect_will, connect_credentials,
      MQTT_authenticate, hk, hact, settled]

theorem connect_h_absent_id_v3 (net : Net) (cfg : Config) (b : Broker) (i : Nat)
    (now clean keepalive : Nat) (hclean : clean ≤ 1) :
    connect_h net cfg b i (connect_bytes (cstr "MQIsdp") 3 (2 * clean) keepalive [0, 0]) now =
      some (connect_end net b i 2 false) := by
  have hmsg : connect_bytes (cstr "MQIsdp") 3 (2 * clean) keepalive [0, 0]
      = [0x10, 14, 0, 6, 77, 81, 73, 115, 100, 112, 3, 2 * clean, keepalive / 256 % 256,
          keepalive % 256, 0, 0] := by
    simp [connect_bytes, MQTT_br_writeString, MQTT_br_writeInt, cstr, MQTT_br_encodeSize,
      encodeSizeLoop]
  rw [hmsg]
  have hc : clean = 0 ∨ clean = 1 := by omega
  rcases hc with rfl | rfl <;>
    simp [connect_h, MQTT_br_decodeSize, decodeSizeLoop, MQTT_br_readString, MQTT_br_readInt,
      utf8_validate, utf8_loop, connect_version, cstr]

/-- The part of `connect_h` after `end` when the session is there and session-present
is 0: the CONNACK is sent on the socket of the session and the handler returns 1
when it was sent and the code is 0. -/
theorem connect_end_absent (net : Net) (b : Broker) (i : Nat) (session : MQTT_Session_t)
    (connack : Nat) (hget : b.sessions_current.get? i = some session) (hc : connack ≠ 0xFF) :
    connect_end net b i connack false =
      (net b.wire session.sd [0x20, 2, 0, connack] && decide (connack = 0), i,
        { b with
          wire := b.wire ++ [Event.send session.sd [0x20, 2, 0, connack]
            (net b.wire session.sd [0x20, 2, 0, connack])] }) := by
  unfold connect_end
  rw [if_pos hc, hget]
  simp only [send_connack, do_send, Bool.false_eq_true, and_false, if_false]
  cases net b.wire session.sd [2 * 16, 2, 0, connack] <;> simp

/-- C30: for a CONNECT on a half-open session with a supported protocol ("MQTT" level
4 or "MQIsdp" level 3), connect flags that hold only the clean-session bit (reserved
0, no will, no username, no password), any keepalive and a zero-length client-id:
when the protocol is v3.1.1 and clean = 1 the session is activated and CONNACK
20 02 00 00 is sent (the handler returns whether it was sent); in every other case
CONNACK 20 02 00 02 is sent, the handler returns 0 and the sessions are as they
were. -/
theorem connect_absent_client_id (net : Net) (cfg : Config) (b : Broker) (i : Nat)
    (session : MQTT_Session_t) (now : Nat) (magic : CStr) (level clean keepalive : Nat)
    (hget : b.sessions_current.get? i = some session) (_hact : session.active = false)
    (hid : session.id = none)
    (hproto : (magic = cstr "MQTT" ∧ level = 4) ∨ (magic = cstr "MQIsdp" ∧ level = 3))
    (hclean : clean ≤ 1) (hka : keepalive ≤ 65535) :
    (level = 4 ∧ clean = 1 →
      connect_h net cfg b i
          (connect_bytes magic level (2 * clean) keepalive (MQTT_br_writeString [])) now
        = some (net b.wire session.sd [0x20, 2, 0, 0], i,
            { b with
              sessions_current := b.sessions_current.set i
                (cleaned cfg (activated session none keepalive true none now)),
              wire := b.wire ++ [Event.send session.sd [0x20, 2, 0, 0]
                (net b.wire session.sd [0x20, 2, 0, 0])] }) ∧
      (cleaned cfg (activated session none keepalive true none now)).active = true) ∧
    (¬ (level = 4 ∧ clean = 1) →
      connect_h net cfg b i
          (connect_bytes magic level (2 * clean) keepalive (MQTT_br_writeString [])) now
        = some (false, i,
            { b with
              wire := b.wire ++ [Event.send session.sd [0x20, 2, 0, 2]
                (net b.wire session.sd [0x20, 2, 0, 2])] })) := by
  have hw : MQTT_br_writeString [] = [0, 0] := rfl
  rw [hw]
  constructor
  · rintro ⟨hl, hc⟩
    refine ⟨?_, rfl⟩
    rcases hproto with ⟨hm, _⟩ | ⟨_, h3⟩
    · subst hm hl hc
      rw [connect_h_absent_id_v4 net cfg b i session now 1 keepalive hget hid (by omega) hka,
        if_pos rfl]
      have hlt : i < b.sessions_current.length := by
        obtain ⟨P, R, hcur, hi⟩ := get?_split _ _ _ hget
        rw [hcur, ← hi]
        simp
      have hget' : (b.sessions_current.set i
          (cleaned cfg (activated session none keepalive true none now))).get? i
          = some (cleaned cfg (activated session none keepalive true none now)) := by
        simp [hlt]
      rw [connect_end_absent net _ i _ 0 hget' (by decide)]
      simp [cleaned, MQTT_subscriptions_clear, activated]
    · omega
  · intro hn
    rcases hproto with ⟨hm, hl⟩ | ⟨hm, hl⟩
    · subst hm hl
      have hc : ¬ clean = 1 := fun e => hn ⟨rfl, e⟩
      rw [connect_h_absent_id_v4 net cfg b i session now clean keepalive hget hid hclean hka,
        if_neg hc, connect_end_absent net b i session 2 hget (by decide)]
      simp
    · subst hm hl
      rw [connect_h_absent_id_v3 net cfg b i now clean keepalive hclean,
        connect_end_absent net b i session 2 hget (by decide)]
      simp

theorem connect_absent_client_id_witness :
    brokerHalfOpen.sessions_current.get? 0 = some (new_session cfgSample 3 0) ∧
    connect_bytes (cstr "MQTT") 4 (2 * 1) 60 (MQTT_br_writeString [])
      = [0x10, 0x0C, 0x00, 0x04, 0x4D, 0x51, 0x54, 0x54, 0x04, 0x02, 0x00, 0x3C, 0x00, 0x00] ∧
    connect_h netUp cfgSample brokerHalfOpen 0
        (connect_bytes (cstr "MQTT") 4 (2 * 1) 60 (MQTT_br_writeString [])) 5
      = some (true, 0,
          { brokerHalfOpen with
            sessions_current := brokerHalfOpen.sessions_current.set 0
              (cleaned cfgSample (activated (new_session cfgSample 3 0) none 60 true none 5)),
            wire := brokerHalfOpen.wire ++ [Event.send 3 [0x20, 0x02, 0x00, 0x00] true] }) :=
  ⟨rfl, rfl,
    ((connect_absent_client_id netUp cfgSample brokerHalfOpen 0 (new_session cfgSample 3 0) 5
      (cstr "MQTT") 4 1 60 rfl rfl rfl (Or.inl ⟨rfl, rfl⟩) (by decide) (by decide)).1
      ⟨rfl, rfl⟩).1⟩

/-! ## Theorems: SUBSCRIBE -/

theorem getD_indexOf (f : CStr) (c : Nat) (h : f.indexOf c < f.length) :
    f.getD (f.indexOf c) 0 = c := by
  have hm : c ∈ f := List.indexOf_lt_length.mp h
  rw [List.getD_eq_getElem?_getD, List.getElem?_eq_getElem h]
  simp [List.indexOf_get h]

theorem filter_error_of_placed (f : CStr) (h : WildcardsPlaced f) : filter_error f = false := by
  unfold filter_error
  simp only []
  have hh : f.indexOf chHash < f.length →
      f.indexOf chHash + 1 = f.length ∧
        (f.indexOf chHash = 0 ∨ f.getD (f.indexOf chHash - 1) 0 = chSlash) :=
    fun hlt => (h _ hlt).1 (getD_indexOf f chHash hlt)
  have hp : f.indexOf chPlus < f.length →
      (f.indexOf chPlus = 0 ∨ f.getD (f.indexOf chPlus - 1) 0 = chSlash) ∧
        (f.indexOf chPlus + 1 = f.length ∨ f.getD (f.indexOf chPlus + 1) 0 = chSlash) :=
    fun hlt => (h _ hlt).2 (getD_indexOf f chPlus hlt)
  have c1 : ¬ (f.indexOf chHash < f.length ∧ f.indexOf chHash ≠ f.length - 1) := by
    rintro ⟨a, b⟩
    have := (hh a).1
    omega
  have c2 : ¬ (f.indexOf chHash < f.length ∧ f.indexOf chHash ≠ 0
      ∧ f.getD (f.indexOf chHash - 1) 0 ≠ chSlash) := by
    rintro ⟨a, b, c⟩
    rcases (hh a).2 with e | e
    · exact b e
    · exact c e
  have c3 : ¬ (f.indexOf chPlus < f.length ∧ f.indexOf chPlus ≠ 0
      ∧ f.getD (f.indexOf chPlus - 1) 0 ≠ chSlash) := by
    rintro ⟨a, b, c⟩
    rcases (hp a).1 with e | e
    · exact b e
    · exact c e
  have c4 : ¬ (f.indexOf chPlus < f.length ∧ f.indexOf chPlus ≠ f.length - 1
      ∧ f.getD (f.indexOf chPlus + 1) 0 ≠ chSlash) := by
    rintro ⟨a, b, c⟩
    rcases (hp a).2 with e | e
    · omega
    · exact c e
  rw [if_neg c1, if_neg c2, if_neg c3, if_neg c4]

theorem subscribe_entries_length (entries : List (CStr × Nat))
    (h : ∀ e ∈ entries, e.1 ≠ []) :
    4 * entries.length ≤ (subscribe_entries entries).length := by
  induction entries with
  | nil => simp [subscribe_entries]
  | cons e es ih =>
    have : 0 < e.1.length := List.length_pos.mpr (h e (by simp))
    have := ih (fun x hx => h x (List.mem_cons_of_mem _ hx))
    simp [subscribe_entries, MQTT_br_writeString, MQTT_br_writeInt]
    omega

/-- The loop of `subscribe_h` over the pairs a packet carries, when there is room for
their granted QoS bytes. -/
theorem subscribe_loop_entries (net : Net) (cfg : Config) (entries : List (CStr × Nat)) :
    ∀ (pre g : List Nat) (b : Broker) (s : MQTT_Session_t) (fuel : Nat),
      entries.length < fuel → g.length + entries.length ≤ cfg.MAX_SUBSCRIPTIONS →
      (∀ e ∈ entries, ValidFilter e.1 ∧ e.2 ≤ 2) →
      subscribe_loop net cfg (pre ++ subscribe_entries entries) fuel pre.length g b s
        = some (some (g ++ grants cfg s entries), replayed net cfg b s entries,
            added cfg s entries) := by
  induction entries with
  | nil =>
    intro pre g b s fuel hf _ _
    cases fuel with
    | zero => simp at hf
    | succ fuel =>
      simp [subscribe_loop, subscribe_entries, grants, replayed, added]
  | cons e es ih =>
    intro pre g b s fuel hf hg hv
    obtain ⟨⟨hne, hlen, hu, h0, hw⟩, hq⟩ := hv e (by simp)
    cases fuel with
    | zero => simp at hf
    | succ fuel =>
      have hpos : 0 < e.1.length := List.length_pos.mpr hne
      have hbuf : pre ++ subscribe_entries (e :: es)
          = pre ++ MQTT_br_writeString e.1 ++ (e.2 :: subscribe_entries es) := by
        simp [subscribe_entries, List.append_assoc]
      have hl : (pre ++ subscribe_entries (e :: es)).length
          = pre.length + 2 + e.1.length + 1 + (subscribe_entries es).length := by
        simp [subscribe_entries, MQTT_br_writeString, MQTT_br_writeInt]
        omega
      have hrs := (readString_at pre (e.2 :: subscribe_entries es) e.1 hne hlen).1
      rw [utf8_validate_units e.1 hu h0, if_pos rfl, ← hbuf] at hrs
      have hgq : (pre ++ subscribe_entries (e :: es)).get? (pre.length + 2 + e.1.length)
          = some e.2 := by
        have := get?_mid (pre ++ MQTT_br_writeString e.1) e.2 (subscribe_entries es)
        rw [← hbuf] at this
        rw [← this]
        congr 1
        simp [MQTT_br_writeString, MQTT_br_writeInt]
        omega
      have c1 : pre.length + 4 ≤ (pre ++ subscribe_entries (e :: es)).length := by
        rw [hl]; omega
      have c2 : ¬ (g.length ≥ cfg.MAX_SUBSCRIPTIONS) := by
        simp only [List.length_cons] at hg
        omega
      have c3 : ¬ (e.1.length = 0) := by omega
      have c4 : ¬ (e.2 > 2) := by omega
      have hnext := ih (pre ++ MQTT_br_writeString e.1 ++ [e.2])
        (g ++ [(MQTT_subscriptions_add cfg s (some e.1) e.2).1])
        (if (MQTT_subscriptions_add cfg s (some e.1) e.2).1 ≠ 0x80 then
          MQTT_queue_handleRetained net b s.sd e.1 (MQTT_subscriptions_add cfg s (some e.1) e.2).1
         else b)
        (MQTT_subscriptions_add cfg s (some e.1) e.2).2 fuel
        (by simp only [List.length_cons] at hf; omega)
        (by simp only [List.length_cons, List.length_append, List.length_nil] at hg ⊢; omega)
        (fun x hx => hv x (List.mem_cons_of_mem _ hx))
      have hbuf2 : pre ++ MQTT_br_writeString e.1 ++ [e.2] ++ subscribe_entries es
          = pre ++ subscribe_entries (e :: es) := by
        simp [subscribe_entries, List.append_assoc]
      have hl2 : (pre ++ MQTT_br_writeString e.1 ++ [e.2]).length
          = pre.length + 2 + e.1.length + 1 := by
        simp [MQTT_br_writeString, MQTT_br_writeInt]
        omega
      rw [hbuf2, hl2] at hnext
      rw [subscribe_loop]
      simp only [c1, c2, if_true, if_false, hrs, c3, filter_error_of_placed e.1 hw, hgq, c4,
        Bool.false_eq_true]
      rw [hnext]
      simp [grants, replayed, added]

theorem grants_length (cfg : Config) (entries : List (CStr × Nat)) (s : MQTT_Session_t) :
    (grants cfg s entries).length = entries.length := by
  induction entries generalizing s with
  | nil => rfl
  | cons e es ih => simp [grants, ih]

theorem subscriptions_add_sd (cfg : Config) (s : MQTT_Session_t) (f : Option CStr) (q : Int) :
    (MQTT_subscriptions_add cfg s f q).2.sd = s.sd := by
  unfold MQTT_subscriptions_add
  cases f with
  | none => rfl
  | some filter =>
    simp only []
    split
    · rfl
    · split
      · rfl
      · cases subscriptions_update filter q.toNat s.subscriptions with
        | some subs => rfl
        | none =>
          simp only []
          split <;> rfl

theorem added_sd (cfg : Config) (es : List (CStr × Nat)) (s : MQTT_Session_t) :
    (added cfg s es).sd = s.sd := by
  induction es generalizing s with
  | nil => rfl
  | cons e es ih => rw [added, ih, subscriptions_add_sd]

/-- The function `subscribe_h` on a SUBSCRIBE packet that carries at most
`MAX_SUBSCRIPTIONS` valid pairs. -/
theorem subscribe_h_bytes (net : Net) (cfg : Config) (b : Broker) (session : MQTT_Session_t)
    (id : Nat) (entries : List (CStr × Nat)) (hid : id ≠ 0) (hid' : id ≤ 65535)
    (hne : entries ≠ []) (hmax : entries.length ≤ cfg.MAX_SUBSCRIPTIONS)
    (hval : ∀ e ∈ entries, ValidFilter e.1 ∧ e.2 ≤ 2)
    (hrl : 2 + (subscribe_entries entries).length ≤ 268435455) :
    subscribe_h net cfg b session (subscribe_bytes id entries) =
      some ((send_suback net (replayed net cfg b session entries) session.sd id
              (grants cfg session entries)).1,
        (send_suback net (replayed net cfg b session entries) session.sd id
              (grants cfg session entries)).2,
        added cfg session entries) := by
  obtain ⟨hel1, _, _⟩ := encodeSize_length_pos _ hrl
  have hlen4 := subscribe_entries_length entries (fun e he => (hval e he).1.1)
  have hpos : 0 < entries.length := List.length_pos.mpr hne
  have hlen : (subscribe_bytes id entries).length
      = 1 + (MQTT_br_encodeSize (2 + (subscribe_entries entries).length)).length + 2
        + (subscribe_entries entries).length := by
    simp [subscribe_bytes, MQTT_br_writeInt]
    omega
  have hlong : ¬ (subscribe_bytes id entries).length < 8 := by
    rw [hlen]; omega
  have hget : (subscribe_bytes id entries).get? 0 = some 0x82 := by
    simp [subscribe_bytes]
  have hdec : MQTT_br_decodeSize (subscribe_bytes id entries) 1
      = some ((MQTT_br_encodeSize (2 + (subscribe_entries entries).length)).length,
          2 + (subscribe_entries entries).length) := by
    have := decodeSize_encodeSize [0x82] (MQTT_br_writeInt id ++ subscribe_entries entries)
      (2 + (subscribe_entries entries).length) hrl
    simpa [subscribe_bytes, List.append_assoc] using this
  have hpre : ([0x82] ++ MQTT_br_encodeSize (2 + (subscribe_entries entries).length)).length
      = 1 + (MQTT_br_encodeSize (2 + (subscribe_entries entries).length)).length := by
    simp; omega
  have hint : MQTT_br_readInt (subscribe_bytes id entries)
      (1 + (MQTT_br_encodeSize (2 + (subscribe_entries entries).length)).length) = some id := by
    have := readInt_writeInt
      ([0x82] ++ MQTT_br_encodeSize (2 + (subscribe_entries entries).length))
      (subscribe_entries entries) id hid'
    rw [hpre] at this
    exact this
  have hpre2 : ([0x82] ++ MQTT_br_encodeSize (2 + (subscribe_entries entries).length)
      ++ MQTT_br_writeInt id).length
      = 1 + (MQTT_br_encodeSize (2 + (subscribe_entries entries).length)).length + 2 := by
    simp [MQTT_br_writeInt]; omega
  have hloop := subscribe_loop_entries net cfg entries
    ([0x82] ++ MQTT_br_encodeSize (2 + (subscribe_entries entries).length)
      ++ MQTT_br_writeInt id) [] b session (subscribe_bytes id entries).length
    (by rw [hlen]; omega) (by simpa using hmax) hval
  rw [hpre2, List.nil_append] at hloop
  have hbytes : [0x82] ++ MQTT_br_encodeSize (2 + (subscribe_entries entries).length)
      ++ MQTT_br_writeInt id ++ subscribe_entries entries = subscribe_bytes id entries := rfl
  rw [hbytes] at hloop
  have hg0 : ¬ ((grants cfg session entries).length = 0) := by
    rw [grants_length]; omega
  have hs6 : ¬ (2 + (subscribe_entries entries).length < 6) := by omega
  have ht : ¬ (0x82 / 16 % 16 ≠ 8) := by decide
  have hf : ¬ (0x82 / 8 % 2 ≠ 0 ∨ 0x82 / 2 % 4 ≠ 1 ∨ 0x82 % 2 ≠ 0) := by decide
  unfold subscribe_h
  rw [if_neg hlong, hget]
  simp only [ht, hf, hdec, hint, hs6, hid, hloop, hg0, if_false, added_sd]

theorem grants_getD (cfg : Config) (entries : List (CStr × Nat)) (s : MQTT_Session_t) (k : Nat)
    (e : CStr × Nat) (h : entries.get? k = some e) :
    (grants cfg s entries).getD k 0
      = (MQTT_subscriptions_add cfg (added cfg s (entries.take k)) (some e.1) e.2).1 := by
  induction entries generalizing s k with
  | nil => simp at h
  | cons x xs ih =>
    cases k with
    | zero =>
      simp only [List.get?_cons_zero, Option.some.injEq] at h
      subst h
      simp [grants, added]
    | succ k =>
      simp only [List.get?_cons_succ] at h
      simp only [grants, List.getD_cons_succ, List.take_succ_cons, added]
      exact ih _ k h

theorem subscriptions_add_full (cfg : Config) (session : MQTT_Session_t) (f : CStr) (qos : Nat)
    (hf : f ≠ []) (hq : qos ≤ 2) (hnew : ∀ it ∈ session.subscriptions, it.topic_filter ≠ f)
    (hfull : cfg.MAX_SUBSCRIPTIONS ≤ session.subscriptions.length) :
    MQTT_subscriptions_add cfg session (some f) qos = (0x80, session) := by
  have hl : ¬ f.length = 0 := fun e => hf (List.length_eq_zero.mp e)
  have hq' : ¬ ((qos : Int) ≠ 0 ∧ (qos : Int) ≠ 1 ∧ (qos : Int) ≠ 2) := by omega
  have hu := (subscriptions_update_none f (qos : Int).toNat session.subscriptions).mpr hnew
  simp only [MQTT_subscriptions_add, hl, if_false, hq', hu]
  simp [hfull]

/-- The loop of `subscribe_h` over the pairs a packet carries, when there is no room
for all their granted QoS bytes: the pairs for which there is room are handled and
the next one makes the handler return 0. -/
theorem subscribe_loop_overflow (net : Net) (cfg : Config) (entries : List (CStr × Nat)) :
    ∀ (pre g : List Nat) (b : Broker) (s : MQTT_Session_t) (fuel : Nat),
      entries.length < fuel → g.length ≤ cfg.MAX_SUBSCRIPTIONS →
      cfg.MAX_SUBSCRIPTIONS < g.length + entries.length →
      (∀ e ∈ entries, ValidFilter e.1 ∧ e.2 ≤ 2) →
      subscribe_loop net cfg (pre ++ subscribe_entries entries) fuel pre.length g b s
        = some (none,
            replayed net cfg b s (entries.take (cfg.MAX_SUBSCRIPTIONS - g.length)),
            added cfg s (entries.take (cfg.MAX_SUBSCRIPTIONS - g.length))) := by
  induction entries with
  | nil =>
    intro pre g b s fuel _ hg ho _
    simp only [List.length_nil] at ho
    omega
  | cons e es ih =>
    intro pre g b s fuel hf hg ho hv
    obtain ⟨⟨hne, hlen, hu, h0, hw⟩, hq⟩ := hv e (by simp)
    cases fuel with
    | zero => simp at hf
    | succ fuel =>
      have hpos : 0 < e.1.length := List.length_pos.mpr hne
      have hbuf : pre ++ subscribe_entries (e :: es)
          = pre ++ MQTT_br_writeString e.1 ++ (e.2 :: subscribe_entries es) := by
        simp [subscribe_entries, List.append_assoc]
      have hl : (pre ++ subscribe_entries (e :: es)).length
          = pre.length + 2 + e.1.length + 1 + (subscribe_entries es).length := by
        simp [subscribe_entries, MQTT_br_writeString, MQTT_br_writeInt]
        omega
      have c1 : pre.length + 4 ≤ (pre ++ subscribe_entries (e :: es)).length := by
        rw [hl]; omega
      by_cases hfull : g.length ≥ cfg.MAX_SUBSCRIPTIONS
      · have hz : cfg.MAX_SUBSCRIPTIONS - g.length = 0 := by omega
        rw [subscribe_loop, hz]
        simp only [c1, hfull, if_true, List.take_zero, replayed, added]
      · have hrs := (readString_at pre (e.2 :: subscribe_entries es) e.1 hne hlen).1
        rw [utf8_validate_units e.1 hu h0, if_pos rfl, ← hbuf] at hrs
        have hgq : (pre ++ subscribe_entries (e :: es)).get? (pre.length + 2 + e.1.length)
            = some e.2 := by
          have := get?_mid (pre ++ MQTT_br_writeString e.1) e.2 (subscribe_entries es)
          rw [← hbuf] at this
          rw [← this]
          congr 1
          simp [MQTT_br_writeString, MQTT_br_writeInt]
          omega
        have c3 : ¬ (e.1.length = 0) := by omega
        have c4 : ¬ (e.2 > 2) := by omega
        have hnext := ih (pre ++ MQTT_br_writeString e.1 ++ [e.2])
          (g ++ [(MQTT_subscriptions_add cfg s (some e.1) e.2).1])
          (if (MQTT_subscriptions_add cfg s (some e.1) e.2).1 ≠ 0x80 then
            MQTT_queue_handleRetained net b s.sd e.1
              (MQTT_subscriptions_add cfg s (some e.1) e.2).1
           else b)
          (MQTT_subscriptions_add cfg s (some e.1) e.2).2 fuel
          (by simp only [List.length_cons] at hf; omega)
          (by simp only [List.length_append, List.length_cons, List.length_nil]; omega)
          (by
            simp only [List.length_cons, List.length_append, List.length_nil] at ho ⊢
            omega)
          (fun x hx => hv x (List.mem_cons_of_mem _ hx))
        have hbuf2 : pre ++ MQTT_br_writeString e.1 ++ [e.2] ++ subscribe_entries es
            = pre ++ subscribe_entries (e :: es) := by
          simp [subscribe_entries, List.append_assoc]
        have hl2 : (pre ++ MQTT_br_writeString e.1 ++ [e.2]).length
            = pre.length + 2 + e.1.length + 1 := by
          simp [MQTT_br_writeString, MQTT_br_writeInt]
          omega
        have hk : cfg.MAX_SUBSCRIPTIONS - g.length
            = (cfg.MAX_SUBSCRIPTIONS
                - (g ++ [(MQTT_subscriptions_add cfg s (some e.1) e.2).1]).length) + 1 := by
          simp only [List.length_append, List.length_cons, List.length_nil]
          omega
        rw [hbuf2, hl2] at hnext
        rw [subscribe_loop]
        simp only [c1, hfull, if_true, if_false, hrs, c3, filter_error_of_placed e.1 hw, hgq,
          c4, Bool.false_eq_true]
        rw [hnext, hk, List.take_succ_cons]
        simp only [replayed, added]

/-- The function `subscribe_h` on a SUBSCRIBE packet that carries more than
`MAX_SUBSCRIPTIONS` valid pairs: the first `MAX_SUBSCRIPTIONS` pairs are handled
and the handler returns 0 without a SUBACK. -/
theorem subscribe_h_bytes_over (net : Net) (cfg : Config) (b : Broker)
    (session : MQTT_Session_t) (id : Nat) (entries : List (CStr × Nat)) (hid : id ≠ 0)
    (hid' : id ≤ 65535) (hover : cfg.MAX_SUBSCRIPTIONS < entries.length)
    (hval : ∀ e ∈ entries, ValidFilter e.1 ∧ e.2 ≤ 2)
    (hrl : 2 + (subscribe_entries entries).length ≤ 268435455) :
    subscribe_h net cfg b session (subscribe_bytes id entries) =
      some (false, replayed net cfg b session (entries.take cfg.MAX_SUBSCRIPTIONS),
        added cfg session (entries.take cfg.MAX_SUBSCRIPTIONS)) := by
  obtain ⟨hel1, _, _⟩ := encodeSize_length_pos _ hrl
  have hlen4 := subscribe_entries_length entries (fun e he => (hval e he).1.1)
  have hpos : 0 < entries.length := by omega
  have hlen : (subscribe_bytes id entries).length
      = 1 + (MQTT_br_encodeSize (2 + (subscribe_entries entries).length)).length + 2
        + (subscribe_entries entries).length := by
    simp [subscribe_bytes, MQTT_br_writeInt]
    omega
  have hlong : ¬ (subscribe_bytes id entries).length < 8 := by
    rw [hlen]; omega
  have hget : (subscribe_bytes id entries).get? 0 = some 0x82 := by
    simp [subscribe_bytes]
  have hdec : MQTT_br_decodeSize (subscribe_bytes id entries) 1
      = some ((MQTT_br_encodeSize (2 + (subscribe_entries entries).length)).length,
          2 + (subscribe_entries entries).length) := by
    have := decodeSize_encodeSize [0x82] (MQTT_br_writeInt id ++ subscribe_entries entries)
      (2 + (subscribe_entries entries).length) hrl
    simpa [subscribe_bytes, List.append_assoc] using this
  have hpre : ([0x82] ++ MQTT_br_encodeSize (2 + (subscribe_entries entries).length)).length
      = 1 + (MQTT_br_encodeSize (2 + (subscribe_entries entries).length)).length := by
    simp; omega
  have hint : MQTT_br_readInt (subscribe_bytes id entries)
      (1 + (MQTT_br_encodeSize (2 + (subscribe_entries entries).length)).length) = some id := by
    have := readInt_writeInt
      ([0x82] ++ MQTT_br_encodeSize (2 + (subscribe_entries entries).length))
      (subscribe_entries entries) id hid'
    rw [hpre] at this
    exact this
  have hpre2 : ([0x82] ++ MQTT_br_encodeSize (2 + (subscribe_entries entries).length)
      ++ MQTT_br_writeInt id).length
      = 1 + (MQTT_br_encodeSize (2 + (subscribe_entries entries).length)).length + 2 := by
    simp [MQTT_br_writeInt]; omega
  have hloop := subscribe_loop_overflow net cfg entries
    ([0x82] ++ MQTT_br_encodeSize (2 + (subscribe_entries entries).length)
      ++ MQTT_br_writeInt id) [] b session (subscribe_bytes id entries).length
    (by rw [hlen]; omega) (Nat.zero_le _) (by simpa using hover) hval
  rw [hpre2, List.length_nil, Nat.sub_zero] at hloop
  have hbytes : [0x82] ++ MQTT_br_encodeSize (2 + (subscribe_entries entries).length)
      ++ MQTT_br_writeInt id ++ subscribe_entries entries = subscribe_bytes id entries := rfl
  rw [hbytes] at hloop
  have hs6 : ¬ (2 + (subscribe_entries entries).length < 6) := by omega
  have ht : ¬ (0x82 / 16 % 16 ≠ 8) := by decide
  have hf : ¬ (0x82 / 8 % 2 ≠ 0 ∨ 0x82 / 2 % 4 ≠ 1 ∨ 0x82 % 2 ≠ 0) := by decide
  unfold subscribe_h
  rw [if_neg hlong, hget]
  simp only [ht, hf, hdec, hint, hs6, hid, hloop, if_false]

/-- A SUBSCRIBE that lists five filters is refused when `MAX_SUBSCRIPTIONS` is 4: the
handler returns 0. -/
theorem subscribe_too_many_filters :
    subscribe_bytes 1 [(cstr "a", 0), (cstr "b", 0), (cstr "c", 0), (cstr "d", 0), (cstr "e", 0)]
      = [0x82, 22, 0, 1, 0, 1, 0x61, 0, 0, 1, 0x62, 0, 0, 1, 0x63, 0, 0, 1, 0x64, 0,
          0, 1, 0x65, 0] ∧
    (subscribe_h netUp cfgSample Broker.init (sampleSession 3 [] [0, 0])
        (subscribe_bytes 1
          [(cstr "a", 0), (cstr "b", 0), (cstr "c", 0), (cstr "d", 0), (cstr "e", 0)])).map
        (fun r => r.1)
      = some false := by
  constructor <;> rfl

/-- C22 (amended): for every SUBSCRIBE from a session with a non-zero packet-id that
lists at least one valid (filter, requested QoS) pair. When it lists at most
`MAX_SUBSCRIPTIONS` pairs, the handler registers the pairs in order, sends the
SUBACK with one granted QoS byte per pair and returns the outcome of that send; a
pair whose filter is new to the session when the session already holds
`MAX_SUBSCRIPTIONS` subscriptions gets the byte 0x80. When it lists more than
`MAX_SUBSCRIPTIONS` pairs, the handler returns 0 and sends no SUBACK, after it
handled the first `MAX_SUBSCRIPTIONS` pairs. -/
theorem subscribe_overflow_answered (net : Net) (cfg : Config) (b : Broker)
    (session : MQTT_Session_t) (id : Nat) (entries : List (CStr × Nat)) (hid : id ≠ 0)
    (hid' : id ≤ 65535) (hne : entries ≠ [])
    (hval : ∀ e ∈ entries, ValidFilter e.1 ∧ e.2 ≤ 2)
    (hrl : 2 + (subscribe_entries entries).length ≤ 268435455) :
    (entries.length ≤ cfg.MAX_SUBSCRIPTIONS →
      subscribe_h net cfg b session (subscribe_bytes id entries) =
        some (net (replayed net cfg b session entries).wire session.sd
                ([0x90] ++ MQTT_br_encodeSize (2 + entries.length) ++ MQTT_br_writeInt id
                  ++ grants cfg session entries),
          { replayed net cfg b session entries with
            wire := (replayed net cfg b session entries).wire ++
              [Event.send session.sd
                ([0x90] ++ MQTT_br_encodeSize (2 + entries.length) ++ MQTT_br_writeInt id
                  ++ grants cfg session entries)
                (net (replayed net cfg b session entries).wire session.sd
                  ([0x90] ++ MQTT_br_encodeSize (2 + entries.length) ++ MQTT_br_writeInt id
                    ++ grants cfg session entries))] },
          added cfg session entries) ∧
      (grants cfg session entries).length = entries.length ∧
      (∀ k e, entries.get? k = some e →
        cfg.MAX_SUBSCRIPTIONS ≤ (added cfg session (entries.take k)).subscriptions.length →
        (∀ it ∈ (added cfg session (entries.take k)).subscriptions, it.topic_filter ≠ e.1) →
        (grants cfg session entries).getD k 0 = 0x80)) ∧
    (cfg.MAX_SUBSCRIPTIONS < entries.length →
      subscribe_h net cfg b session (subscribe_bytes id entries) =
        some (false, replayed net cfg b session (entries.take cfg.MAX_SUBSCRIPTIONS),
          added cfg session (entries.take cfg.MAX_SUBSCRIPTIONS))) := by
  refine ⟨fun hmax => ⟨?_, grants_length cfg entries session, ?_⟩, fun hover =>
    subscribe_h_bytes_over net cfg b session id entries hid hid' hover hval hrl⟩
  · rw [subscribe_h_bytes net cfg b session id entries hid hid' hne hmax hval hrl]
    simp [send_suback, do_send, grants_length]
  · intro k e hk hfull hnew
    have hv := hval e (List.get?_mem hk)
    rw [grants_getD cfg entries session k e hk,
      subscriptions_add_full cfg _ e.1 e.2 hv.1.1 hv.2 hnew hfull]

theorem subscribe_overflow_answered_witness :
    subscribe_bytes 1 [(cstr "e", 1), (cstr "a", 2)]
      = [0x82, 10, 0, 1, 0, 1, 0x65, 1, 0, 1, 0x61, 2] ∧
    subscribe_h netUp cfgSample Broker.init
        (sampleSession 3 [("a", 0), ("b", 0), ("c", 0), ("d", 0)] [0, 0])
        (subscribe_bytes 1 [(cstr "e", 1), (cstr "a", 2)])
      = some (true,
          { Broker.init with wire := [Event.send 3 [0x90, 4, 0, 1, 0x80, 2] true] },
          sampleSession 3 [("a", 2), ("b", 0), ("c", 0), ("d", 0)] [0, 0]) ∧
    subscribe_h netUp cfgSample Broker.init (sampleSession 3 [] [0, 0])
        (subscribe_bytes 1
          [(cstr "a", 0), (cstr "b", 0), (cstr "c", 0), (cstr "d", 0), (cstr "e", 0)])
      = some (false, Broker.init,
          sampleSession 3 [("a", 0), ("b", 0), ("c", 0), ("d", 0)] [0, 0]) :=
  ⟨rfl,
    ((subscribe_overflow_answered netUp cfgSample Broker.init
      (sampleSession 3 [("a", 0), ("b", 0), ("c", 0), ("d", 0)] [0, 0]) 1
      [(cstr "e", 1), (cstr "a", 2)] (by decide) (by decide) (by decide)
      (fun e he => by
        simp only [List.mem_cons, List.mem_singleton, List.not_mem_nil, or_false] at he
        rcases he with rfl | rfl
        · exact ⟨⟨by decide, by decide, Utf8Units.one _ _ (by decide) Utf8Units.nil,
            by decide, by decide⟩, by decide⟩
        · exact ⟨⟨by decide, by decide, Utf8Units.one _ _ (by decide) Utf8Units.nil,
            by decide, by decide⟩, by decide⟩)
      (by decide)).1 (by decide)).1.trans rfl,
    ((subscribe_overflow_answered netUp cfgSample Broker.init (sampleSession 3 [] [0, 0]) 1
      [(cstr "a", 0), (cstr "b", 0), (cstr "c", 0), (cstr "d", 0), (cstr "e", 0)]
      (by decide) (by decide) (by decide)
      (fun e he => by
        simp only [List.mem_cons, List.mem_singleton, List.not_mem_nil, or_false] at he
        rcases he with rfl | rfl | rfl | rfl | rfl <;>
          exact ⟨⟨by decide, by decide, Utf8Units.one _ _ (by decide) Utf8Units.nil,
            by decide, by decide⟩, by decide⟩)
      (by decide)).2 (by decide)).trans rfl⟩

/-- C21 (failing input): the SUBSCRIBE 82 09 00 01 00 04 2B 2F 61 2B 00 carries the
filter "+/a+", whose second '+' does not fill a level; `subscribe_h` accepts it,
registers the filter and answers with SUBACK 90 03 00 01 00. -/
theorem subscribe_registers_misplaced_plus :
    ¬ WildcardsPlaced (cstr "+/a+") ∧
    filter_error (cstr "+/a+") = false ∧
    subscribe_bytes 1 [(cstr "+/a+", 0)]
      = [0x82, 0x09, 0x00, 0x01, 0x00, 0x04, 0x2B, 0x2F, 0x61, 0x2B, 0x00] ∧
    subscribe_h netUp cfgSample Broker.init (sampleSession 3 [] [0, 0])
        [0x82, 0x09, 0x00, 0x01, 0x00, 0x04, 0x2B, 0x2F, 0x61, 0x2B, 0x00]
      = some (true,
          { Broker.init with wire := [Event.send 3 [0x90, 0x03, 0x00, 0x01, 0x00] true] },
          sampleSession 3 [("+/a+", 0)] [0, 0]) := by
  refine ⟨by decide, by decide, rfl, rfl⟩

/-! ## Theorems: the UTF-8 validator -/

theorem utf8_loop_sound (s : List Nat) (cnt : Nat) (h : utf8_loop s cnt = true) :
    0 ∉ s ∧ ∃ conts rest, s = conts ++ rest ∧ conts.length = cnt ∧
      (∀ c ∈ conts, c / 64 = 2) ∧ Utf8Units rest := by
  induction s generalizing cnt with
  | nil =>
    have hc : cnt = 0 := by simpa [utf8_loop] using h
    exact ⟨by simp, [], [], rfl, by simp [hc], by simp, Utf8Units.nil⟩
  | cons c rest ih =>
    by_cases hc : c = 0
    · simp [utf8_loop, hc] at h
    simp only [utf8_loop, hc, if_false] at h
    by_cases hcnt : cnt = 0
    · subst hcnt
      simp only [if_true] at h
      by_cases h2 : c / 32 = 6
      · rw [if_pos h2] at h
        obtain ⟨h0, conts, r, e, hl, hcs, hu⟩ := ih 1 h
        match conts, hl, e, hcs with
        | [c1], _, e, hcs =>
          subst e
          exact ⟨by simpa [Ne.symm hc] using h0, [], c :: c1 :: r, rfl, rfl, by simp,
            Utf8Units.two c c1 r h2 (hcs c1 (by simp)) hu⟩
      rw [if_neg h2] at h
      by_cases h3 : c / 16 = 14
      · rw [if_pos h3] at h
        obtain ⟨h0, conts, r, e, hl, hcs, hu⟩ := ih 2 h
        match conts, hl, e, hcs with
        | [c1, c2], _, e, hcs =>
          subst e
          exact ⟨by simpa [Ne.symm hc] using h0, [], c :: c1 :: c2 :: r, rfl, rfl, by simp,
            Utf8Units.three c c1 c2 r h3 (hcs c1 (by simp)) (hcs c2 (by simp)) hu⟩
      rw [if_neg h3] at h
      by_cases h4 : c / 8 = 30
      · rw [if_pos h4] at h
        obtain ⟨h0, conts, r, e, hl, hcs, hu⟩ := ih 3 h
        match conts, hl, e, hcs with
        | [c1, c2, c3], _, e, hcs =>
          subst e
          exact ⟨by simpa [Ne.symm hc] using h0, [], c :: c1 :: c2 :: c3 :: r, rfl, rfl, by simp,
            Utf8Units.four c c1 c2 c3 r h4 (hcs c1 (by simp)) (hcs c2 (by simp))
              (hcs c3 (by simp)) hu⟩
      rw [if_neg h4] at h
      by_cases h5 : c / 128 ≠ 0
      · rw [if_pos h5] at h
        exact absurd h (by simp)
      rw [if_neg h5] at h
      obtain ⟨h0, conts, r, e, hl, hcs, hu⟩ := ih 0 h
      match conts, hl, e, hcs with
      | [], _, e, hcs =>
        simp only [List.nil_append] at e
        subst e
        exact ⟨by simpa [Ne.symm hc] using h0, [], c :: rest, rfl, rfl, by simp,
          Utf8Units.one c rest (by omega) hu⟩
    · rw [if_neg hcnt] at h
      by_cases h6 : c / 64 ≠ 2
      · rw [if_pos h6] at h
        exact absurd h (by simp)
      rw [if_neg h6] at h
      obtain ⟨h0, conts, r, e, hl, hcs, hu⟩ := ih (cnt - 1) h
      subst e
      refine ⟨by simpa [Ne.symm hc] using h0, c :: conts, r, rfl, by simp [hl]; omega, ?_, hu⟩
      intro x hx
      rcases List.mem_cons.mp hx with e | e
      · subst e
        omega
      · exact hcs x e

/-- Claim C38: `utf8_validate` accepts a byte string exactly when the string has no
zero byte and is a concatenation of units (one byte below 0x80; a byte 110xxxxx and
one byte 10xxxxxx; a byte 1110xxxx and two bytes 10xxxxxx; a byte 11110xxx and three
bytes 10xxxxxx); it accepts the overlong form C0 AF and the surrogate half
ED A0 80. -/
theorem utf8_validate_structural :
    (∀ s : List Nat, utf8_validate s = true ↔ (0 ∉ s ∧ Utf8Units s)) ∧
      utf8_validate [0xC0, 0xAF] = true ∧ utf8_validate [0xED, 0xA0, 0x80] = true := by
  refine ⟨fun s => ⟨fun h => ?_, fun h => utf8_validate_units s h.2 h.1⟩, by decide, by decide⟩
  obtain ⟨h0, conts, r, e, hl, _, hu⟩ := utf8_loop_sound s 0 h
  have : conts = [] := List.length_eq_zero.mp hl
  subst this
  simp only [List.nil_append] at e
  subst e
  exact ⟨h0, hu⟩

/-! ## Theorems: XTEA -/

theorem xtea_term_lt (xtea : XTEA_t) (d sum idx : Nat) : xtea_term xtea d sum idx < 2 ^ 32 :=
  Nat.xor_lt_two_pow (Nat.mod_lt _ (by decide)) (Nat.mod_lt _ (by decide))

theorem add_sub_wrap (x t : Nat) (hx : x < 2 ^ 32) (ht : t < 2 ^ 32) :
    ((x + t) % 2 ^ 32 + 2 ^ 32 - t) % 2 ^ 32 = x := by
  omega

theorem sub_add_wrap (x t : Nat) (hx : x < 2 ^ 32) (ht : t < 2 ^ 32) :
    ((x + 2 ^ 32 - t) % 2 ^ 32 + t) % 2 ^ 32 = x := by
  omega

/-- The states of the two loops: three words below `2 ^ 32`. -/
theorem XTEA_encrypt_round_lt (xtea : XTEA_t) (s : Nat × Nat × Nat) :
    (XTEA_encrypt_round xtea s).1 < 2 ^ 32 ∧ (XTEA_encrypt_round xtea s).2.1 < 2 ^ 32 ∧
      (XTEA_encrypt_round xtea s).2.2 < 2 ^ 32 :=
  ⟨Nat.mod_lt _ (by decide), Nat.mod_lt _ (by decide), Nat.mod_lt _ (by decide)⟩

theorem XTEA_decrypt_round_lt (xtea : XTEA_t) (s : Nat × Nat × Nat) :
    (XTEA_decrypt_round xtea s).1 < 2 ^ 32 ∧ (XTEA_decrypt_round xtea s).2.1 < 2 ^ 32 ∧
      (XTEA_decrypt_round xtea s).2.2 < 2 ^ 32 :=
  ⟨Nat.mod_lt _ (by decide), Nat.mod_lt _ (by decide), Nat.mod_lt _ (by decide)⟩

theorem XTEA_decrypt_encrypt_round (xtea : XTEA_t) (s : Nat × Nat × Nat)
    (h0 : s.1 < 2 ^ 32) (h1 : s.2.1 < 2 ^ 32) (h2 : s.2.2 < 2 ^ 32) :
    XTEA_decrypt_round xtea (XTEA_encrypt_round xtea s) = s := by
  obtain ⟨d0, d1, sum⟩ := s
  simp only at h0 h1 h2
  have e2 : ((sum + XTEA_DELTA) % 2 ^ 32 + 2 ^ 32 - XTEA_DELTA) % 2 ^ 32 = sum :=
    add_sub_wrap sum XTEA_DELTA h2 (by decide)
  simp only [XTEA_decrypt_round, XTEA_encrypt_round]
  rw [add_sub_wrap d1 _ h1 (xtea_term_lt _ _ _ _), e2,
    add_sub_wrap d0 _ h0 (xtea_term_lt _ _ _ _)]

theorem XTEA_encrypt_decrypt_round (xtea : XTEA_t) (s : Nat × Nat × Nat)
    (h0 : s.1 < 2 ^ 32) (h1 : s.2.1 < 2 ^ 32) (h2 : s.2.2 < 2 ^ 32) :
    XTEA_encrypt_round xtea (XTEA_decrypt_round xtea s) = s := by
  obtain ⟨d0, d1, sum⟩ := s
  simp only at h0 h1 h2
  have e2 : ((sum + 2 ^ 32 - XTEA_DELTA) % 2 ^ 32 + XTEA_DELTA) % 2 ^ 32 = sum :=
    sub_add_wrap sum XTEA_DELTA h2 (by decide)
  simp only [XTEA_decrypt_round, XTEA_encrypt_round]
  rw [sub_add_wrap d0 _ h0 (xtea_term_lt _ _ _ _), e2,
    sub_add_wrap d1 _ h1 (xtea_term_lt _ _ _ _)]

theorem XTEA_encrypt_iterate_lt (xtea : XTEA_t) (n : Nat) (s : Nat × Nat × Nat)
    (h0 : s.1 < 2 ^ 32) (h1 : s.2.1 < 2 ^ 32) (h2 : s.2.2 < 2 ^ 32) :
    ((XTEA_encrypt_round xtea)^[n] s).1 < 2 ^ 32 ∧
      ((XTEA_encrypt_round xtea)^[n] s).2.1 < 2 ^ 32 ∧
      ((XTEA_encrypt_round xtea)^[n] s).2.2 < 2 ^ 32 := by
  cases n with
  | zero => exact ⟨h0, h1, h2⟩
  | succ n =>
    rw [Function.iterate_succ_apply']
    exact XTEA_encrypt_round_lt xtea _

theorem XTEA_decrypt_iterate_lt (xtea : XTEA_t) (n : Nat) (s : Nat × Nat × Nat)
    (h0 : s.1 < 2 ^ 32) (h1 : s.2.1 < 2 ^ 32) (h2 : s.2.2 < 2 ^ 32) :
    ((XTEA_decrypt_round xtea)^[n] s).1 < 2 ^ 32 ∧
      ((XTEA_decrypt_round xtea)^[n] s).2.1 < 2 ^ 32 ∧
      ((XTEA_decrypt_round xtea)^[n] s).2.2 < 2 ^ 32 := by
  cases n with
  | zero => exact ⟨h0, h1, h2⟩
  | succ n =>
    rw [Function.iterate_succ_apply']
    exact XTEA_decrypt_round_lt xtea _

theorem XTEA_decrypt_encrypt_iterate (xtea : XTEA_t) (n : Nat) :
    ∀ s : Nat × Nat × Nat, s.1 < 2 ^ 32 → s.2.1 < 2 ^ 32 → s.2.2 < 2 ^ 32 →
      (XTEA_decrypt_round xtea)^[n] ((XTEA_encrypt_round xtea)^[n] s) = s := by
  induction n with
  | zero => intro s _ _ _; rfl
  | succ n ih =>
    intro s h0 h1 h2
    have hb := XTEA_encrypt_round_lt xtea s
    rw [Function.iterate_succ_apply (XTEA_encrypt_round xtea) n s,
      Function.iterate_succ_apply' (XTEA_decrypt_round xtea) n,
      ih (XTEA_encrypt_round xtea s) hb.1 hb.2.1 hb.2.2]
    exact XTEA_decrypt_encrypt_round xtea s h0 h1 h2

theorem XTEA_encrypt_decrypt_iterate (xtea : XTEA_t) (n : Nat) :
    ∀ s : Nat × Nat × Nat, s.1 < 2 ^ 32 → s.2.1 < 2 ^ 32 → s.2.2 < 2 ^ 32 →
      (XTEA_encrypt_round xtea)^[n] ((XTEA_decrypt_round xtea)^[n] s) = s := by
  induction n with
  | zero => intro s _ _ _; rfl
  | succ n ih =>
    intro s h0 h1 h2
    have hb := XTEA_decrypt_round_lt xtea s
    rw [Function.iterate_succ_apply (XTEA_decrypt_round xtea) n s,
      Function.iterate_succ_apply' (XTEA_encrypt_round xtea) n,
      ih (XTEA_decrypt_round xtea s) hb.1 hb.2.1 hb.2.2]
    exact XTEA_encrypt_decrypt_round xtea s h0 h1 h2

/-- The value of `sum` after `n` rounds of the loop of `XTEA_encrypt`. -/
theorem XTEA_encrypt_sum (xtea : XTEA_t) (n : Nat) :
    ∀ s : Nat × Nat × Nat, s.2.2 < 2 ^ 32 →
      ((XTEA_encrypt_round xtea)^[n] s).2.2 = (s.2.2 + n * XTEA_DELTA) % 2 ^ 32 := by
  induction n with
  | zero =>
    intro s h
    simp only [Function.iterate_zero, id, Nat.zero_mul, Nat.add_zero]
    exact (Nat.mod_eq_of_lt h).symm
  | succ n ih =>
    intro s _
    rw [Function.iterate_succ_apply, ih _ (XTEA_encrypt_round_lt xtea s).2.2]
    simp only [XTEA_encrypt_round, XTEA_DELTA]
    omega

/-- The value of `sum` after `n` rounds of the loop of `XTEA_decrypt`. -/
theorem XTEA_decrypt_sum (xtea : XTEA_t) (n : Nat) :
    ∀ s : Nat × Nat × Nat, s.2.2 < 2 ^ 32 →
      ((XTEA_decrypt_round xtea)^[n] s).2.2
        = (s.2.2 + n * (2 ^ 32 - XTEA_DELTA)) % 2 ^ 32 := by
  induction n with
  | zero =>
    intro s h
    simp only [Function.iterate_zero, id, Nat.zero_mul, Nat.add_zero]
    exact (Nat.mod_eq_of_lt h).symm
  | succ n ih =>
    intro s _
    rw [Function.iterate_succ_apply, ih _ (XTEA_decrypt_round_lt xtea s).2.2]
    simp only [XTEA_decrypt_round, XTEA_DELTA]
    omega

/-- Claim C37: for every key and every block of two 32-bit words, `XTEA_decrypt`
applied to the result of `XTEA_encrypt` with the same key gives the block back, and
so does `XTEA_encrypt` applied to the result of `XTEA_decrypt`; the arithmetic is
modulo `2 ^ 32` and each loop runs `XTEA_NUMBER_OF_ROUNDS = 16` times. -/
theorem XTEA_decrypt_inverts_encrypt (xtea : XTEA_t) (d0 d1 : Nat) (h0 : d0 < 2 ^ 32)
    (h1 : d1 < 2 ^ 32) :
    XTEA_decrypt xtea (XTEA_encrypt xtea (d0, d1)) = (d0, d1) ∧
      XTEA_encrypt xtea (XTEA_decrypt xtea (d0, d1)) = (d0, d1) ∧
      XTEA_NUMBER_OF_ROUNDS = 16 := by
  refine ⟨?_, ?_, rfl⟩
  · have hs := XTEA_encrypt_sum xtea XTEA_NUMBER_OF_ROUNDS (d0, d1, 0)
      (show (0 : Nat) < 2 ^ 32 by decide)
    have hi := XTEA_decrypt_encrypt_iterate xtea XTEA_NUMBER_OF_ROUNDS (d0, d1, 0) h0 h1
      (show (0 : Nat) < 2 ^ 32 by decide)
    have hS : (XTEA_DELTA * XTEA_NUMBER_OF_ROUNDS) % 2 ^ 32
        = ((XTEA_encrypt_round xtea)^[XTEA_NUMBER_OF_ROUNDS] (d0, d1, 0)).2.2 := by
      rw [hs]
      show _ = (0 + XTEA_NUMBER_OF_ROUNDS * XTEA_DELTA) % 2 ^ 32
      decide
    unfold XTEA_decrypt XTEA_encrypt
    simp only [hS, Prod.mk.eta, hi]
  · have hB : (XTEA_DELTA * XTEA_NUMBER_OF_ROUNDS) % 2 ^ 32 < 2 ^ 32 := by decide
    have hs := XTEA_decrypt_sum xtea XTEA_NUMBER_OF_ROUNDS
      (d0, d1, (XTEA_DELTA * XTEA_NUMBER_OF_ROUNDS) % 2 ^ 32) hB
    have hi := XTEA_encrypt_decrypt_iterate xtea XTEA_NUMBER_OF_ROUNDS
      (d0, d1, (XTEA_DELTA * XTEA_NUMBER_OF_ROUNDS) % 2 ^ 32) h0 h1 hB
    have hS : (0 : Nat) = ((XTEA_decrypt_round xtea)^[XTEA_NUMBER_OF_ROUNDS]
        (d0, d1, (XTEA_DELTA * XTEA_NUMBER_OF_ROUNDS) % 2 ^ 32)).2.2 := by
      rw [hs]
      show _ = ((XTEA_DELTA * XTEA_NUMBER_OF_ROUNDS) % 2 ^ 32
        + XTEA_NUMBER_OF_ROUNDS * (2 ^ 32 - XTEA_DELTA)) % 2 ^ 32
      decide
    unfold XTEA_encrypt XTEA_decrypt
    simp only [hS, Prod.mk.eta, hi]

theorem XTEA_decrypt_inverts_encrypt_witness :
    XTEA_encrypt (XTEA_init [0x00010203, 0x04050607, 0x08090A0B, 0x0C0D0E0F])
        (0x41424344, 0x45464748) ≠ (0x41424344, 0x45464748) ∧
    XTEA_decrypt (XTEA_init [0x00010203, 0x04050607, 0x08090A0B, 0x0C0D0E0F])
      (XTEA_encrypt (XTEA_init [0x00010203, 0x04050607, 0x08090A0B, 0x0C0D0E0F])
        (0x41424344, 0x45464748)) = (0x41424344, 0x45464748) :=
  ⟨by decide,
    (XTEA_decrypt_inverts_encrypt (XTEA_init [0x00010203, 0x04050607, 0x08090A0B, 0x0C0D0E0F])
      0x41424344 0x45464748 (by decide) (by decide)).1⟩

/-! ## Theorems: the packet-id counter -/

/-- The id counter after `k` calls of `next_id` on the broker as `broker_th` starts
it. -/
theorem next_id_iterate (k : Nat) :
    ((fun b => (next_id b).2)^[k] Broker.init).next = k % 65535 + 1 := by
  induction k with
  | zero => rfl
  | succ k ih =>
    rw [Function.iterate_succ_apply', next_id_next, ih]
    unfold next_after
    split <;> omega

/-- Claim C34: on the broker as `broker_th` starts it, the call of `next_id` that
comes after `k` earlier calls, that is the `(k + 1)`-th call, returns
`(k mod 65535) + 1`, which is never 0: the ids run 1, 2, ..., 65535 and then start
at 1 again (the 65535th call returns 65535, the 65536th returns 1). -/
theorem next_id_sequence :
    (∀ k : Nat,
      (next_id ((fun b => (next_id b).2)^[k] Broker.init)).1 = k % 65535 + 1 ∧
        (next_id ((fun b => (next_id b).2)^[k] Broker.init)).1 ≠ 0) ∧
    (next_id ((fun b => (next_id b).2)^[65534] Broker.init)).1 = 65535 ∧
    (next_id ((fun b => (next_id b).2)^[65535] Broker.init)).1 = 1 := by
  have h : ∀ k : Nat,
      (next_id ((fun b => (next_id b).2)^[k] Broker.init)).1 = k % 65535 + 1 := by
    intro k
    rw [(next_id_frame _).1, next_id_iterate]
  refine ⟨fun k => ⟨h k, ?_⟩, h 65534, h 65535⟩
  rw [h k]
  omega

/-! ## Theorems: takeover and the last will -/

/-- Claim C39: `MQTT_session_activate` never changes the pending queue. When the
half-open session of `brokerC1` takes the client-id "c1" over from the active
session that has a will, the old session is gone from the current list and is not
stored, its socket is closed, and its will is in no queue. -/
theorem activate_keeps_pending :
    (∀ (cfg : Config) (b : Broker) (i : Nat) (client_id : Option CStr) (keepalive : Nat)
        (clean : Bool) (lwt : Option MQTT_Message_t) (now : Nat),
      (MQTT_session_activate cfg b i client_id keepalive clean lwt now).2.2.queues_pending
        = b.queues_pending) ∧
    sessionC1.lwt ≠ none ∧
    (MQTT_session_activate cfgSample brokerC1 1 (some (cstr "c1")) 60 false none 9).2.2 =
      { brokerC1 with
        sessions_current :=
          [take_over (activated (new_session cfgSample 4 7) (some (cstr "c1")) 60 false none 9)
            sessionC1],
        wire := [Event.close 3] } ∧
    (MQTT_session_activate cfgSample brokerC1 1 (some (cstr "c1")) 60 false none 9).2.2.queues_pending
      = [] := by
  refine ⟨?_, by decide, by decide, by decide⟩
  intro cfg b i client_id keepalive clean lwt now
  cases hg : b.sessions_current.get? i with
  | none =>
    unfold MQTT_session_activate
    rw [hg]
  | some session =>
    obtain ⟨P, R, hc, hi⟩ := get?_split _ _ _ hg
    subst hi
    rw [activate_split cfg b P session R client_id keepalive clean lwt now hc]
    repeat' split
    all_goals rfl

/-! ## Theorems: the reset sequence -/

/-- A drop of the first current session: the session leaves the current list, the
retained store stays, and the session is stored when sessions are stored, it has an
id and is not clean. -/
theorem drop_first (cfg : Config) (b : Broker) (s : MQTT_Session_t)
    (rest : List MQTT_Session_t) (h : b.sessions_current = s :: rest) :
    (MQTT_session_drop cfg b 0).sessions_current = rest ∧
    (MQTT_session_drop cfg b 0).queues_retained = b.queues_retained ∧
    (MQTT_session_drop cfg b 0).sessions_stored =
      if cfg.STORE_SESSIONS = true ∧ s.id ≠ none ∧ s.clean = false then
        (if b.sessions_stored.length ≥ cfg.MAX_STORED_SESSIONS then b.sessions_stored.tail
          else b.sessions_stored) ++ [closed s]
      else b.sessions_stored := by
  refine ⟨?_, (MQTT_session_drop_retained cfg b 0).1, ?_⟩
  · unfold MQTT_session_drop
    rw [h]
    simp only [List.get?_cons_zero]
    rw [(store_or_free_frame cfg _ _).1, (publish_lwt_frame cfg _ _).1]
    rfl
  · unfold MQTT_session_drop
    rw [h]
    simp only [List.get?_cons_zero]
    rw [store_or_free_stored, (publish_lwt_frame cfg _ _).2]
    rfl

theorem sessions_reset_loop_spec (cfg : Config) (l : List MQTT_Session_t) :
    ∀ (fuel : Nat) (b : Broker), b.sessions_current = l → l.length ≤ fuel →
      (sessions_reset_loop cfg fuel b).sessions_current = [] ∧
      (sessions_reset_loop cfg fuel b).queues_retained = b.queues_retained ∧
      (sessions_reset_loop cfg fuel b).sessions_stored =
        l.foldl (fun stored s =>
          if cfg.STORE_SESSIONS = true ∧ s.id ≠ none ∧ s.clean = false then
            (if stored.length ≥ cfg.MAX_STORED_SESSIONS then stored.tail else stored)
              ++ [closed s]
          else stored) b.sessions_stored := by
  induction l with
  | nil =>
    intro fuel b h _
    cases fuel <;> simp [sessions_reset_loop, h]
  | cons s rest ih =>
    intro fuel b h hf
    cases fuel with
    | zero => simp at hf
    | succ n =>
      have hd := drop_first cfg b s rest h
      have := ih n (MQTT_session_drop cfg b 0) hd.1 (by simpa using hf)
      simp only [sessions_reset_loop, h, List.foldl_cons]
      rw [← hd.2.2, ← hd.2.1]
      exact this

theorem queue_clear_loop_spec (l : List MQTT_Queue_t) :
    ∀ (fuel : Nat) (b : Broker), b.queues_pending = l → l.length ≤ fuel →
      queue_clear_loop fuel b = { b with queues_pending := [] } := by
  induction l with
  | nil =>
    intro fuel b h _
    have e : b = { b with queues_pending := [] } := by
      cases b
      simp only [Broker.mk.injEq, true_and] at h ⊢
      simp [h]
    cases fuel with
    | zero => exact e
    | succ n =>
      simp only [queue_clear_loop, h]
      exact e
  | cons q rest ih =>
    intro fuel b h hf
    cases fuel with
    | zero => simp at hf
    | succ n =>
      simp only [queue_clear_loop, h]
      exact ih n { b with queues_pending := rest } rfl (by simpa using hf)

/-- The reset sequence of `broker_th` on a broker with a retained message, a stored
session and a current session that is not clean: the retained store and the stored
set are not empty afterwards. -/
theorem reset_keeps_retained_and_stored :
    (MQTT_queue_clear (MQTT_sessions_reset cfgSample brokerBeforeRestart)).queues_retained
      = [sampleEntry "a" [1] 0 1] ∧
    ((MQTT_queue_clear (MQTT_sessions_reset cfgSample brokerBeforeRestart)).sessions_stored.map
      (fun s => s.id)) = [some (cstr "c1"), some (cstr "c2")] ∧
    ¬ ((MQTT_queue_clear (MQTT_sessions_reset cfgSample brokerBeforeRestart)).sessions_current = []
      ∧ (MQTT_queue_clear (MQTT_sessions_reset cfgSample brokerBeforeRestart)).sessions_stored = []
      ∧ (MQTT_queue_clear (MQTT_sessions_reset cfgSample brokerBeforeRestart)).queues_pending = []
      ∧ (MQTT_queue_clear (MQTT_sessions_reset cfgSample brokerBeforeRestart)).queues_retained
        = []) := by
  decide

/-- Claim C36, as the code has it: after `MQTT_sessions_reset` and then
`MQTT_queue_clear`, whatever the state before, the current list and the pending
queue are empty; the retained store is as it was; the stored list is the one from
before to which every session of the current list that has a client-id and is not
clean was added in order, when sessions are stored (the first stored session is
removed when the limit is reached). -/
theorem reset_sequence (cfg : Config) (b : Broker) :
    (MQTT_queue_clear (MQTT_sessions_reset cfg b)).sessions_current = [] ∧
    (MQTT_queue_clear (MQTT_sessions_reset cfg b)).queues_pending = [] ∧
    (MQTT_queue_clear (MQTT_sessions_reset cfg b)).queues_retained = b.queues_retained ∧
    (MQTT_queue_clear (MQTT_sessions_reset cfg b)).sessions_stored =
      b.sessions_current.foldl (fun stored s =>
        if cfg.STORE_SESSIONS = true ∧ s.id ≠ none ∧ s.clean = false then
          (if stored.length ≥ cfg.MAX_STORED_SESSIONS then stored.tail else stored)
            ++ [closed s]
        else stored) b.sessions_stored := by
  have hr := sessions_reset_loop_spec cfg b.sessions_current b.sessions_current.length b rfl
    (le_refl _)
  have hc := queue_clear_loop_spec (MQTT_sessions_reset cfg b).queues_pending
    (MQTT_sessions_reset cfg b).queues_pending.length (MQTT_sessions_reset cfg b) rfl (le_refl _)
  unfold MQTT_queue_clear
  rw [hc]
  exact ⟨hr.1, rfl, hr.2.1, hr.2.2⟩

/-! ## Theorems: CONNECT with an unsupported protocol or a malformed client-id -/

/-- The function `connect_h` on a buffer of at least 14 bytes laid out as a CONNECT
packet (header byte 0x10, remaining length, protocol name, protocol level and what
follows) whose protocol name and level are not a supported pair: the handler goes
to `end` with the code 1. -/
theorem connect_h_unsupported (net : Net) (cfg : Config) (b : Broker) (i now : Nat)
    (E : List Nat) (magic : CStr) (level : Nat) (post : List Nat) (s : Nat)
    (hdec : MQTT_br_decodeSize ([0x10] ++ E ++ MQTT_br_writeString magic ++ level :: post) 1
      = some (E.length, s))
    (hs : s = 2 + magic.length + 1 + post.length)
    (hlen : 14 ≤ 1 + E.length + s) (hmag : magic.length ≤ 65535)
    (hproto : ¬ (magic = cstr "MQTT" ∧ level = 4) ∧ ¬ (magic = cstr "MQIsdp" ∧ level = 3)) :
    connect_h net cfg b i ([0x10] ++ E ++ MQTT_br_writeString magic ++ level :: post) now
      = some (connect_end net b i 1 false) := by
  have hl : ([0x10] ++ E ++ MQTT_br_writeString magic ++ level :: post).length
      = 1 + E.length + s := by
    simp [MQTT_br_writeString, MQTT_br_writeInt]
    omega
  have h14 : ¬ ([0x10] ++ E ++ MQTT_br_writeString magic ++ level :: post).length < 14 := by
    rw [hl]; omega
  have hget : ([0x10] ++ E ++ MQTT_br_writeString magic ++ level :: post).get? 0 = some 0x10 := by
    simp
  have hpre : ([0x10] ++ E).length = 1 + E.length := by
    simp; omega
  have hplen : ([0x10] ++ E ++ MQTT_br_writeString magic).length
      = 1 + E.length + 2 + magic.length := by
    simp [MQTT_br_writeString, MQTT_br_writeInt]
    omega
  have hlev : ([0x10] ++ E ++ MQTT_br_writeString magic ++ level :: post).get?
      (1 + E.length + 2 + magic.length) = some level := by
    rw [← hplen]
    exact get?_mid _ _ _
  have hsum : ¬ (1 + E.length + s
      ≠ ([0x10] ++ E ++ MQTT_br_writeString magic ++ level :: post).length) := by
    rw [hl]; simp
  unfold connect_h
  rw [if_neg h14, hget]
  simp only [hdec]
  rw [if_neg (by decide), if_neg (by decide), if_neg hsum]
  by_cases hm : magic = []
  · subst hm
    have := (readString_empty ([0x10] ++ E) (level :: post)).1
    rw [hpre] at this
    rw [this]
    simp [connect_version]
  · have := (readString_at ([0x10] ++ E) (level :: post) magic hm hmag).1
    rw [hpre] at this
    rw [this]
    by_cases hv : utf8_validate magic = true
    · simp only [hv, if_true]
      by_cases h4 : magic = cstr "MQTT"
      · have hl4 : ¬ level = 4 := fun e => hproto.1 ⟨h4, e⟩
        simp only [connect_version, h4, if_true]
        rw [h4] at hlev
        rw [hlev]
        simp [hl4]
      · by_cases h3 : magic = cstr "MQIsdp"
        · have hl3 : ¬ level = 3 := fun e => hproto.2 ⟨h3, e⟩
          have hne : ¬ (cstr "MQIsdp" = cstr "MQTT") := by decide
          rw [h3] at hlev
          simp only [connect_version, h3, hne, if_false, if_true]
          rw [hlev]
          simp [hl3]
        · simp [connect_version, h4, h3]
    · simp [hv, connect_version]

/-- A CONNECT of 12 bytes with the protocol name "MQ" and level 4: the fixed header
is valid (flags 0, remaining length 10 for a body of 10 bytes), the pair is not a
supported one, and `connect_h` returns 0 without sending a CONNACK. -/
theorem connect_short_unsupported :
    connect_bytes (cstr "MQ") 4 2 60 [0, 0]
      = [0x10, 0x0A, 0x00, 0x02, 0x4D, 0x51, 0x04, 0x02, 0x00, 0x3C, 0x00, 0x00] ∧
    MQTT_br_decodeSize (connect_bytes (cstr "MQ") 4 2 60 [0, 0]) 1 = some (1, 10) ∧
    (connect_bytes (cstr "MQ") 4 2 60 [0, 0]).length = 1 + 1 + 10 ∧
    ¬ (cstr "MQ" = cstr "MQTT" ∧ 4 = 4) ∧ ¬ (cstr "MQ" = cstr "MQIsdp" ∧ 4 = 3) ∧
    brokerHalfOpen.sessions_current.get? 0 = some (new_session cfgSample 3 0) ∧
    connect_h netUp cfgSample brokerHalfOpen 0 (connect_bytes (cstr "MQ") 4 2 60 [0, 0]) 5
      = some (false, 0, brokerHalfOpen) ∧
    brokerHalfOpen.wire = [] := by
  decide

/-- Claim C31, as the code has it: for every CONNECT packet of at least 14 bytes with
a valid fixed header (header byte 0x10, remaining length equal to the length of the
body) whose protocol name and level are neither "MQTT" with 4 nor "MQIsdp" with 3,
`connect_h` sends the CONNACK 20 02 00 01 (return code 1, session-present 0) on
the socket of the session, returns 0 and leaves the sessions as they were: the
session is not activated. -/
theorem connect_unsupported_protocol (net : Net) (cfg : Config) (b : Broker) (i : Nat)
    (session : MQTT_Session_t) (now : Nat) (magic : CStr) (level flags keepalive : Nat)
    (rest : List Nat) (hget : b.sessions_current.get? i = some session)
    (hmag : magic.length ≤ 65535)
    (hbody : (MQTT_br_writeString magic ++ [level, flags] ++ MQTT_br_writeInt keepalive
      ++ rest).length ≤ 268435455)
    (hlen : 14 ≤ (connect_bytes magic level flags keepalive rest).length)
    (hproto : ¬ (magic = cstr "MQTT" ∧ level = 4) ∧ ¬ (magic = cstr "MQIsdp" ∧ level = 3)) :
    connect_h net cfg b i (connect_bytes magic level flags keepalive rest) now
      = some (false, i,
          { b with
            wire := b.wire ++ [Event.send session.sd [0x20, 2, 0, 1]
              (net b.wire session.sd [0x20, 2, 0, 1])] }) := by
  have hmsg : connect_bytes magic level flags keepalive rest
      = [0x10] ++ MQTT_br_encodeSize (MQTT_br_writeString magic ++ [level, flags]
          ++ MQTT_br_writeInt keepalive ++ rest).length
        ++ MQTT_br_writeString magic
        ++ level :: (flags :: MQTT_br_writeInt keepalive ++ rest) := by
    simp [connect_bytes, List.append_assoc]
  have hdec := decodeSize_encodeSize [0x10]
    (MQTT_br_writeString magic ++ [level, flags] ++ MQTT_br_writeInt keepalive ++ rest) _ hbody
  have hbl : (MQTT_br_writeString magic ++ [level, flags] ++ MQTT_br_writeInt keepalive
      ++ rest).length = 2 + magic.length + 1 + (flags :: MQTT_br_writeInt keepalive ++ rest).length := by
    simp [MQTT_br_writeString, MQTT_br_writeInt]
    omega
  have hlen' : 14 ≤ 1 + (MQTT_br_encodeSize (MQTT_br_writeString magic ++ [level, flags]
      ++ MQTT_br_writeInt keepalive ++ rest).length).length
      + (MQTT_br_writeString magic ++ [level, flags] ++ MQTT_br_writeInt keepalive
        ++ rest).length := by
    have : (connect_bytes magic level flags keepalive rest).length
        = 1 + (MQTT_br_encodeSize (MQTT_br_writeString magic ++ [level, flags]
          ++ MQTT_br_writeInt keepalive ++ rest).length).length
          + (MQTT_br_writeString magic ++ [level, flags] ++ MQTT_br_writeInt keepalive
            ++ rest).length := by
      simp [connect_bytes]
      omega
    omega
  rw [hmsg]
  rw [connect_h_unsupported net cfg b i now _ magic level _ _ (by
      have e : [0x10] ++ MQTT_br_encodeSize (MQTT_br_writeString magic ++ [level, flags]
            ++ MQTT_br_writeInt keepalive ++ rest).length
          ++ MQTT_br_writeString magic ++ level :: (flags :: MQTT_br_writeInt keepalive ++ rest)
          = [0x10] ++ MQTT_br_encodeSize (MQTT_br_writeString magic ++ [level, flags]
            ++ MQTT_br_writeInt keepalive ++ rest).length
          ++ (MQTT_br_writeString magic ++ [level, flags] ++ MQTT_br_writeInt keepalive
            ++ rest) := by
        simp [List.append_assoc]
      rw [e]
      exact hdec) hbl hlen' hmag hproto,
    connect_end_absent net b i session 1 hget (by decide)]
  simp

theorem connect_unsupported_protocol_witness :
    brokerHalfOpen.sessions_current.get? 0 = some (new_session cfgSample 3 0) ∧
    connect_bytes (cstr "MQTT") 5 2 60 [0, 0]
      = [0x10, 0x0C, 0x00, 0x04, 0x4D, 0x51, 0x54, 0x54, 0x05, 0x02, 0x00, 0x3C, 0x00, 0x00] ∧
    connect_h netUp cfgSample brokerHalfOpen 0 (connect_bytes (cstr "MQTT") 5 2 60 [0, 0]) 5
      = some (false, 0,
          { brokerHalfOpen with
            wire := brokerHalfOpen.wire ++ [Event.send 3 [0x20, 0x02, 0x00, 0x01] true] }) :=
  ⟨rfl, by decide,
    connect_unsupported_protocol netUp cfgSample brokerHalfOpen 0 (new_session cfgSample 3 0) 5
      (cstr "MQTT") 5 2 60 [0, 0] rfl (by decide) (by decide) (by decide) (by decide)⟩

/-- Claim C32 fails on the code: a CONNECT for "MQTT" level 4 with clean = 1 whose
client-id field is the single byte 0x80 (not valid UTF-8), and one whose client-id
length prefix is 5 with one byte left in the packet, are both accepted by
`connect_h`: `MQTT_br_readString` leaves `client_id` NULL, the session is activated
without a client-id and the CONNACK 20 02 00 00 is sent. -/
theorem connect_accepts_malformed_client_id :
    utf8_validate [0x80] = false ∧
    connect_bytes (cstr "MQTT") 4 2 60 [0, 1, 0x80]
      = [0x10, 0x0D, 0x00, 0x04, 0x4D, 0x51, 0x54, 0x54, 0x04, 0x02, 0x00, 0x3C, 0x00, 0x01,
          0x80] ∧
    MQTT_br_readString (connect_bytes (cstr "MQTT") 4 2 60 [0, 1, 0x80]) 12 = (none, 15) ∧
    connect_h netUp cfgSample brokerHalfOpen 0
        (connect_bytes (cstr "MQTT") 4 2 60 [0, 1, 0x80]) 5
      = some (true, 0,
          { brokerHalfOpen with
            sessions_current :=
              [cleaned cfgSample (activated (new_session cfgSample 3 0) none 60 true none 5)],
            wire := [Event.send 3 [0x20, 0x02, 0x00, 0x00] true] }) ∧
    (cleaned cfgSample (activated (new_session cfgSample 3 0) none 60 true none 5)).active
      = true ∧
    connect_bytes (cstr "MQTT") 4 2 60 [0, 5, 0x61]
      = [0x10, 0x0D, 0x00, 0x04, 0x4D, 0x51, 0x54, 0x54, 0x04, 0x02, 0x00, 0x3C, 0x00, 0x05,
          0x61] ∧
    MQTT_br_readString (connect_bytes (cstr "MQTT") 4 2 60 [0, 5, 0x61]) 12 = (none, 14) ∧
    connect_h netUp cfgSample brokerHalfOpen 0
        (connect_bytes (cstr "MQTT") 4 2 60 [0, 5, 0x61]) 5
      = some (true, 0,
          { brokerHalfOpen with
            sessions_current :=
              [cleaned cfgSample (activated (new_session cfgSample 3 0) none 60 true none 5)],
            wire := [Event.send 3 [0x20, 0x02, 0x00, 0x00] true] }) := by
  decide

/-! ## Theorems: reads outside the packet -/

/-- Claim C40 fails on the code. The reader hands the 7 bytes 32 05 00 03 61 62 63
(a QoS-1 PUBLISH whose topic "abc" ends the packet) to the handler as they are;
`publish_h` reads the topic up to the end of the buffer and then reads the packet-id
at the indices 7 and 8, outside the 7 bytes of the packet. In the same way
`connect_h`, on the 18 bytes of a CONNECT with the will flag whose will topic "t"
ends the packet, reads the length of the will payload at the indices 18 and 19. -/
theorem handlers_read_past_the_packet :
    (∀ (handle : Broker → Nat → List Nat → Broker) (cfg : Config) (b : Broker) (i : Nat),
      MQTT_br_handler handle cfg b i [0x32, 0x05, 0x00, 0x03, 0x61, 0x62, 0x63]
        = (handle b i [0x32, 0x05, 0x00, 0x03, 0x61, 0x62, 0x63], [])) ∧
    [0x32, 0x05, 0x00, 0x03, 0x61, 0x62, 0x63].length = 7 ∧
    MQTT_br_readString [0x32, 0x05, 0x00, 0x03, 0x61, 0x62, 0x63] 2 = (some (cstr "abc"), 7) ∧
    MQTT_br_readInt [0x32, 0x05, 0x00, 0x03, 0x61, 0x62, 0x63] 7 = none ∧
    publish_decode [0x32, 0x05, 0x00, 0x03, 0x61, 0x62, 0x63] = none ∧
    (∀ (net : Net) (cfg : Config) (b : Broker) (session : MQTT_Session_t),
      publish_h net cfg b session [0x32, 0x05, 0x00, 0x03, 0x61, 0x62, 0x63] = none) ∧
    (∀ (handle : Broker → Nat → List Nat → Broker) (cfg : Config) (b : Broker) (i : Nat),
      MQTT_br_handler handle cfg b i
          [0x10, 0x10, 0x00, 0x04, 0x4D, 0x51, 0x54, 0x54, 0x04, 0x06, 0x00, 0x3C, 0x00, 0x01,
            0x61, 0x00, 0x01, 0x74]
        = (handle b i
            [0x10, 0x10, 0x00, 0x04, 0x4D, 0x51, 0x54, 0x54, 0x04, 0x06, 0x00, 0x3C, 0x00, 0x01,
              0x61, 0x00, 0x01, 0x74], [])) ∧
    MQTT_br_readString
        [0x10, 0x10, 0x00, 0x04, 0x4D, 0x51, 0x54, 0x54, 0x04, 0x06, 0x00, 0x3C, 0x00, 0x01,
          0x61, 0x00, 0x01, 0x74] 15 = (some (cstr "t"), 18) ∧
    connect_will
        [0x10, 0x10, 0x00, 0x04, 0x4D, 0x51, 0x54, 0x54, 0x04, 0x06, 0x00, 0x3C, 0x00, 0x01,
          0x61, 0x00, 0x01, 0x74] 6 15 = none ∧
    (∀ (net : Net) (cfg : Config) (b : Broker) (i now : Nat),
      connect_h net cfg b i
          [0x10, 0x10, 0x00, 0x04, 0x4D, 0x51, 0x54, 0x54, 0x04, 0x06, 0x00, 0x3C, 0x00, 0x01,
            0x61, 0x00, 0x01, 0x74] now = none) := by
  refine ⟨fun _ _ _ _ => rfl, rfl, by decide, by decide, by decide, fun _ _ _ _ => rfl,
    fun _ _ _ _ => rfl, by decide, rfl, fun _ _ _ _ _ => rfl⟩

/-! ## Theorems: the drain of the pending queue -/

theorem WillOf_mono {l l' : List MQTT_Session_t} (h : l'.Sublist l) (e : MQTT_Queue_t)
    (he : WillOf l' e) : WillOf l e := by
  obtain ⟨s, hs, m, hm, rfl⟩ := he
  exact ⟨s, h.subset hs, m, hm, rfl⟩

theorem WillsAdded_refl (b : Broker) : WillsAdded b b :=
  ⟨[], by simp, by simp, List.Sublist.refl _, by simp⟩

theorem WillsAdded_trans {b b' b'' : Broker} (h : WillsAdded b b') (h' : WillsAdded b' b'') :
    WillsAdded b b'' := by
  obtain ⟨a1, p1, l1, s1, w1⟩ := h
  obtain ⟨a2, p2, l2, s2, w2⟩ := h'
  refine ⟨a1 ++ a2, by rw [p2, p1, List.append_assoc], ?_, s2.trans s1, ?_⟩
  · simp only [List.length_append]
    omega
  · intro e he
    rcases List.mem_append.mp he with h1 | h2
    · exact w1 e h1
    · exact WillOf_mono s1 e (w2 e h2)

theorem WillsAdded_of_same {b b' : Broker} (h : SameButWire b b') : WillsAdded b b' := by
  obtain ⟨c, _, p, _, _⟩ := h
  exact ⟨[], by simp [p], by simp [c], by rw [c], by simp⟩

/-- A drop appends at most the will of the dropped session to the pending queue and
takes the session off the current list. -/
theorem drop_WillsAdded (cfg : Config) (b : Broker) (i : Nat) :
    WillsAdded b (MQTT_session_drop cfg b i) := by
  unfold MQTT_session_drop
  cases hg : b.sessions_current.get? i with
  | none => exact WillsAdded_refl b
  | some session =>
    obtain ⟨P, R, hc, hi⟩ := get?_split _ _ _ hg
    subst hi
    simp only []
    have hmem : session ∈ b.sessions_current := by rw [hc]; simp
    have hcur : ∀ x : Broker, x.sessions_current = b.sessions_current.eraseIdx P.length →
        x.sessions_current.length + 1 = b.sessions_current.length ∧
        x.sessions_current.Sublist b.sessions_current := by
      intro x hx
      rw [hx, hc, eraseIdx_mid]
      constructor
      · simp
        omega
      · simp
    cases hl : session.lwt with
    | none =>
      have h := hcur (store_or_free cfg (publish_lwt cfg
        { sessions_current := b.sessions_current.eraseIdx P.length,
          sessions_stored := b.sessions_stored, queues_pending := b.queues_pending,
          queues_retained := b.queues_retained, next := b.next,
          wire := b.wire ++ [Event.close session.sd] } none) (closed session))
        (by rw [(store_or_free_frame cfg _ _).1]; rfl)
      refine ⟨[], ?_, ?_, h.2, by simp⟩
      · rw [(store_or_free_frame cfg _ _).2]
        simp [publish_lwt]
      · simp only [List.length_nil]
        omega
    | some m =>
      have h := hcur (store_or_free cfg (publish_lwt cfg
        { sessions_current := b.sessions_current.eraseIdx P.length,
          sessions_stored := b.sessions_stored, queues_pending := b.queues_pending,
          queues_retained := b.queues_retained, next := b.next,
          wire := b.wire ++ [Event.close session.sd] } (some m)) (closed session))
        (by rw [(store_or_free_frame cfg _ _).1, (publish_lwt_frame cfg _ _).1])
      by_cases hfull : b.queues_pending.length ≥ cfg.QUEUE_SIZE
      · refine ⟨[], ?_, ?_, h.2, by simp⟩
        · rw [(store_or_free_frame cfg _ _).2]
          simp [publish_lwt, MQTT_queue_add, hfull]
        · simp only [List.length_nil]
          omega
      · refine ⟨[queue_entry m], ?_, ?_, h.2, ?_⟩
        · rw [(store_or_free_frame cfg _ _).2]
          simp [publish_lwt, MQTT_queue_add, hfull]
        · simp only [List.length_singleton]
          omega
        · intro e he
          rw [List.mem_singleton] at he
          exact ⟨session, hmem, m, hl, he⟩

theorem process_sessions_loop_WillsAdded (net : Net) (cfg : Config)
    (todo : List MQTT_Session_t) :
    ∀ (i : Nat) (b : Broker) (q : MQTT_Queue_t),
      WillsAdded b (process_sessions_loop net cfg todo i b q).1 := by
  induction todo with
  | nil => intro i b q; exact WillsAdded_refl b
  | cons s rest ih =>
    intro i b q
    have hf := WillsAdded_of_same (process_subscriptions_frame net s.sd s.subscriptions b q).1
    simp only [process_sessions_loop]
    split
    · exact WillsAdded_trans hf (ih _ _ _)
    · exact WillsAdded_trans hf (WillsAdded_trans (drop_WillsAdded cfg _ i) (ih _ _ _))

/-- One round of the drain takes the head off the pending queue and appends the
wills of the sessions it drops. -/
theorem process_head_pending (net : Net) (cfg : Config) (b : Broker) (queue : MQTT_Queue_t)
    (rest : List MQTT_Queue_t) (hp : b.queues_pending = queue :: rest) :
    ∃ added, (process_head net cfg b).queues_pending = rest ++ added ∧
      added.length + (process_head net cfg b).sessions_current.length
        ≤ b.sessions_current.length ∧
      (process_head net cfg b).sessions_current.Sublist b.sessions_current ∧
      ∀ e ∈ added, WillOf b.sessions_current e := by
  obtain ⟨added, p, l, s, w⟩ := process_sessions_loop_WillsAdded net cfg
    (next_id b).2.sessions_current 0 (next_id b).2 (asPending queue (next_id b).1)
  have hn := next_id_frame b
  rw [hn.2.2.2.1, hp] at p
  rw [hn.2.2.1] at l s w
  refine ⟨added, ?_, ?_, ?_, w⟩
  · unfold process_head
    rw [hp]
    simp only [store_retained, process_sessions]
    rw [p]
    rfl
  · unfold process_head
    rw [hp]
    exact l
  · unfold process_head
    rw [hp]
    exact s

theorem queue_process_loop_nil (net : Net) (cfg : Config) (fuel : Nat) (b : Broker)
    (hp : b.queues_pending = []) :
    queue_process_loop net cfg fuel b = b ∧ drain_order net cfg fuel b = [] := by
  cases fuel <;> simp [queue_process_loop, drain_order, hp]

/-- The loop of `MQTT_queue_process` with at least as much fuel as there are pending
entries and current sessions: the pending queue is empty at the end, more fuel gives
the same result, and the entries are taken in the order of the pending queue,
followed by the wills appended on the way. -/
theorem queue_process_loop_drains (net : Net) (cfg : Config) :
    ∀ (fuel : Nat) (b : Broker),
      b.queues_pending.length + b.sessions_current.length ≤ fuel →
      (queue_process_loop net cfg fuel b).queues_pending = [] ∧
      (∀ k, queue_process_loop net cfg (fuel + k) b = queue_process_loop net cfg fuel b ∧
        drain_order net cfg (fuel + k) b = drain_order net cfg fuel b) ∧
      ∃ appended, drain_order net cfg fuel b = b.queues_pending ++ appended ∧
        ∀ e ∈ appended, WillOf b.sessions_current e := by
  intro fuel
  induction fuel with
  | zero =>
    intro b h
    have hp : b.queues_pending = [] := List.length_eq_zero.mp (by omega)
    refine ⟨by simp [queue_process_loop, hp], fun k => ?_, [], ?_, by simp⟩
    · have h1 := queue_process_loop_nil net cfg (0 + k) b hp
      have h2 := queue_process_loop_nil net cfg 0 b hp
      rw [h1.1, h1.2, h2.1, h2.2]
      exact ⟨rfl, rfl⟩
    · simp [drain_order, hp]
  | succ n ih =>
    intro b h
    cases hp : b.queues_pending with
    | nil =>
      refine ⟨by simp [queue_process_loop, hp], fun k => ?_, [], ?_, by simp⟩
      · have h1 := queue_process_loop_nil net cfg (n + 1 + k) b hp
        have h2 := queue_process_loop_nil net cfg (n + 1) b hp
        rw [h1.1, h1.2, h2.1, h2.2]
        exact ⟨rfl, rfl⟩
      · simp [drain_order, hp]
    | cons queue rest =>
      obtain ⟨added, p, l, s, w⟩ := process_head_pending net cfg b queue rest hp
      have hm : (process_head net cfg b).queues_pending.length
          + (process_head net cfg b).sessions_current.length ≤ n := by
        rw [p, List.length_append]
        rw [hp, List.length_cons] at h
        omega
      obtain ⟨i1, i2, appended, i3, i4⟩ := ih (process_head net cfg b) hm
      refine ⟨?_, fun k => ?_, added ++ appended, ?_, ?_⟩
      · simp only [queue_process_loop, hp]
        exact i1
      · have e : n + 1 + k = (n + k) + 1 := by omega
        rw [e]
        simp only [queue_process_loop, drain_order, hp]
        rw [(i2 k).1, (i2 k).2]
        exact ⟨rfl, rfl⟩
      · simp only [drain_order, hp]
        rw [i3, p]
        simp
      · intro e he
        rcases List.mem_append.mp he with h1 | h2
        · exact w e h1
        · exact WillOf_mono s e (i4 e h2)

/-- What the retained-store part of a round does with the entry: an entry with
`state.retain` set and a payload is the last of the retained list, after entries that
were there before; any other entry is not added. -/
theorem retained_update_cases (cfg : Config) (l : List MQTT_Queue_t) (q : MQTT_Queue_t) :
    (q.retain ≠ 0 ∧ q.message.payload ≠ [] →
      ∃ kept, retained_update cfg l q = kept ++ [q] ∧ kept.Sublist l) ∧
    (¬ (q.retain ≠ 0 ∧ q.message.payload ≠ []) → (retained_update cfg l q).Sublist l) := by
  constructor
  · rintro ⟨hr, hpl⟩
    have hpos : q.message.payload.length > 0 := List.length_pos.mpr hpl
    unfold retained_update
    simp only [hr, ne_eq, not_false_eq_true, if_true, hpos]
    split
    · exact ⟨_, rfl, (List.tail_sublist _).trans (List.eraseP_sublist _)⟩
    · exact ⟨_, rfl, List.eraseP_sublist _⟩
  · intro h
    unfold retained_update
    by_cases hr : q.retain ≠ 0
    · have hpl : ¬ q.message.payload.length > 0 := by
        intro hpos
        exact h ⟨hr, List.length_pos.mp hpos⟩
      simp only [hr, ne_eq, not_false_eq_true, if_true, hpl, if_false]
      exact List.eraseP_sublist _
    · simp only [hr, if_false]
      exact List.Sublist.refl _

/-- Claim C33: `MQTT_queue_process` ends (the loop needs no more rounds than there
are pending entries and current sessions, and more fuel changes nothing) and leaves
the pending queue empty. The entries are taken head first in the order of the
pending queue, followed by the entries appended during the drain, each of which is
the will of a current session. In every round the head leaves the pending queue
(what is appended behind it are wills of dropped sessions) and the entry, with its
topic, payload, QoS and retain state, is either the last entry of the retained store
afterwards (when its retain state is set and it has a payload) or in no list at all:
the retained store then holds only entries it held before. -/
theorem queue_drained (net : Net) (cfg : Config) (b : Broker) :
    (∀ fuel, b.queues_pending.length + b.sessions_current.length ≤ fuel →
      queue_process_loop net cfg fuel b = MQTT_queue_process net cfg b ∧
      drain_order net cfg fuel b
        = drain_order net cfg (b.queues_pending.length + b.sessions_current.length) b) ∧
    (MQTT_queue_process net cfg b).queues_pending = [] ∧
    (∃ appended,
      drain_order net cfg (b.queues_pending.length + b.sessions_current.length) b
        = b.queues_pending ++ appended ∧
      ∀ e ∈ appended, WillOf b.sessions_current e) ∧
    (∀ queue rest, b.queues_pending = queue :: rest →
      ∃ entry added,
        entryView entry = entryView queue ∧ entry.retain = queue.retain ∧
        (process_head net cfg b).queues_pending = rest ++ added ∧
        (∀ e ∈ added, WillOf b.sessions_current e) ∧
        (queue.retain ≠ 0 ∧ queue.message.payload ≠ [] →
          ∃ kept, (process_head net cfg b).queues_retained = kept ++ [entry] ∧
            kept.Sublist b.queues_retained) ∧
        (¬ (queue.retain ≠ 0 ∧ queue.message.payload ≠ []) →
          (process_head net cfg b).queues_retained.Sublist b.queues_retained)) ∧
    drain_order (netFailing 3) cfgSample 2 brokerWillDrain
      = [sampleEntry "x" [1] 0 0,
         queue_entry (MQTT_Message_t.mk (cstr "status/c1") 0 (MQTT_Flags_t.mk 0 1 0)
           (cstr "offline"))] ∧
    (MQTT_queue_process (netFailing 3) cfgSample brokerWillDrain).queues_pending = [] := by
  obtain ⟨h1, h2, h3⟩ := queue_process_loop_drains net cfg
    (b.queues_pending.length + b.sessions_current.length) b (le_refl _)
  refine ⟨?_, h1, h3, ?_, by decide, by decide⟩
  · intro fuel hf
    obtain ⟨k, rfl⟩ := Nat.exists_eq_add_of_le hf
    exact h2 k
  · intro queue rest hp
    obtain ⟨entry, hv, hr, hret⟩ := process_head_retained net cfg b queue rest hp
    obtain ⟨added, p, _, _, w⟩ := process_head_pending net cfg b queue rest hp
    have hpl : entry.message.payload = queue.message.payload := congrArg (fun v => v.2.1) hv
    have hc := retained_update_cases cfg b.queues_retained entry
    rw [hr, hpl] at hc
    refine ⟨entry, added, hv, hr, p, w, ?_, ?_⟩
    · intro hq
      rw [hret]
      exact hc.1 hq
    · intro hq
      rw [hret]
      exact hc.2 hq

/-! ## Theorems: a send error in the fan-out -/

/-- When every send on the socket of a session succeeds, the fan-out to the session
succeeds and sends what the specification says. -/
theorem process_subscriptions_up (net : Net) (sd : Int) (hup : ∀ h buf, net h sd buf = true)
    (subs : List MQTT_Subscription_t) :
    ∀ (b : Broker) (q : MQTT_Queue_t), q.p_qos ≤ 2 → q.message.flags.retain = 0 →
      (process_subscriptions net sd subs b q).1 = true ∧
      (process_subscriptions net sd subs b q).2.1.wire
        = b.wire ++ fanout_session sd subs q q.message.id := by
  induction subs with
  | nil => intro b q _ _; simp [process_subscriptions, fanout_session]
  | cons sub rest ih =>
    intro b q hq hr
    rw [process_subscriptions_cons, fanout_session_cons]
    by_cases hm : isTopicMatched sub.topic_filter q.message.topic = true
    · have hpm : ∀ m, publish_message net b sd m
          = (true, { b with wire := b.wire ++ [Event.send sd (publish_buffer m) true] }) := by
        intro m
        simp [publish_message, do_send, hup]
      rw [if_pos hm, if_pos hm, hpm]
      simp only [if_true]
      have hk : min q.p_qos sub.qos ≤ 2 := le_trans (Nat.min_le_left _ _) hq
      have hbuf : publish_buffer (withQos q (capped_qos q.p_qos sub.qos)).message
          = publish_packet q.message.topic q.message.id (min q.p_qos sub.qos) 0
              q.message.payload := by
        have := publish_buffer_eq (withQos q (capped_qos q.p_qos sub.qos)).message
          (min q.p_qos sub.qos) 0 hk (Nat.zero_le _)
          (by simp only [withQos, capped_qos_eq_min]; omega) hr
        simpa [withQos] using this
      have h := ih { b with wire := b.wire ++ [Event.send sd
          (publish_buffer (withQos q (capped_qos q.p_qos sub.qos)).message) true] }
        (withQos q (capped_qos q.p_qos sub.qos)) hq hr
      refine ⟨h.1, ?_⟩
      rw [h.2, fanout_session_withQos, hbuf]
      simp [withQos]
    · rw [if_neg hm, if_neg hm]
      exact ih b q hq hr

/-- The fan-out over sessions whose sends all succeed: no session is dropped and
each receives what the specification says. -/
theorem process_sessions_loop_up (net : Net) (cfg : Config) (todo : List MQTT_Session_t)
    (hup : ∀ s ∈ todo, ∀ h buf, net h s.sd buf = true) :
    ∀ (i : Nat) (b : Broker) (q : MQTT_Queue_t), q.p_qos ≤ 2 → q.message.flags.retain = 0 →
      SameButWire b (process_sessions_loop net cfg todo i b q).1 ∧
      (process_sessions_loop net cfg todo i b q).1.wire
        = b.wire ++ fanout_entry q q.message.id todo ∧
      SameEntry q (process_sessions_loop net cfg todo i b q).2 := by
  induction todo with
  | nil =>
    intro i b q _ _
    simp [process_sessions_loop, fanout_entry, SameButWire_refl, SameEntry_refl]
  | cons s rest ih =>
    intro i b q hq hr
    have hok := process_subscriptions_up net s.sd (hup s (by simp)) s.subscriptions b q hq hr
    have hf := process_subscriptions_frame net s.sd s.subscriptions b q
    simp only [process_sessions_loop, hok.1, if_true]
    obtain ⟨a1, _, _, a4, _, a6, _⟩ := hf.2
    have h := ih (fun x hx => hup x (List.mem_cons_of_mem _ hx)) (i + 1)
      (process_subscriptions net s.sd s.subscriptions b q).2.1
      (process_subscriptions net s.sd s.subscriptions b q).2.2 (by rw [a1]; exact hq)
      (by rw [a6]; exact hr)
    refine ⟨SameButWire_trans hf.1 h.1, ?_, SameEntry_trans hf.2 h.2.2⟩
    rw [h.2.1, hok.2, a4, fanout_entry_same q _ _ hf.2, fanout_entry, List.append_assoc]

/-- The loop of `process_sessions` over sessions whose sends all succeed, followed by
other sessions: the loop goes on with the other sessions, further down the list. -/
theorem process_sessions_loop_append (net : Net) (cfg : Config) (pre : List MQTT_Session_t)
    (hup : ∀ s ∈ pre, ∀ h buf, net h s.sd buf = true) (rest : List MQTT_Session_t) :
    ∀ (i : Nat) (b : Broker) (q : MQTT_Queue_t), q.p_qos ≤ 2 → q.message.flags.retain = 0 →
      process_sessions_loop net cfg (pre ++ rest) i b q =
        process_sessions_loop net cfg rest (i + pre.length)
          (process_sessions_loop net cfg pre i b q).1
          (process_sessions_loop net cfg pre i b q).2 := by
  induction pre with
  | nil => intro i b q _ _; rfl
  | cons s pre ih =>
    intro i b q hq hr
    have hok := process_subscriptions_up net s.sd (hup s (by simp)) s.subscriptions b q hq hr
    have hf := process_subscriptions_frame net s.sd s.subscriptions b q
    obtain ⟨a1, _, _, _, _, a6, _⟩ := hf.2
    rw [List.cons_append]
    have hstep : ∀ l, process_sessions_loop net cfg (s :: l) i b q =
        process_sessions_loop net cfg l (i + 1)
          (process_subscriptions net s.sd s.subscriptions b q).2.1
          (process_subscriptions net s.sd s.subscriptions b q).2.2 := by
      intro l
      simp only [process_sessions_loop, hok.1, if_true]
    rw [hstep, hstep,
      ih (fun x hx => hup x (List.mem_cons_of_mem _ hx)) (i + 1) _ _ (by rw [a1]; exact hq)
        (by rw [a6]; exact hr)]
    simp only [List.length_cons]
    rw [Nat.add_assoc, Nat.add_comm 1]

/-- The events of the fan-out to one session, on any network: sends on the socket of
the session; all of them succeeded when the fan-out returns 1, and one of them
failed when it returns 0. -/
theorem process_subscriptions_events (net : Net) (sd : Int)
    (subs : List MQTT_Subscription_t) :
    ∀ (b : Broker) (q : MQTT_Queue_t),
      ∃ evs, (process_subscriptions net sd subs b q).2.1.wire = b.wire ++ evs ∧
        (∀ e ∈ evs, OnSocket sd e) ∧
        ((process_subscriptions net sd subs b q).1 = true →
          ¬ ∃ buf, Event.send sd buf false ∈ evs) ∧
        ((process_subscriptions net sd subs b q).1 = false →
          ∃ buf, Event.send sd buf false ∈ evs) := by
  induction subs with
  | nil =>
    intro b q
    exact ⟨[], by simp [process_subscriptions], by simp, by simp, by simp [process_subscriptions]⟩
  | cons sub rest ih =>
    intro b q
    rw [process_subscriptions_cons]
    by_cases hm : isTopicMatched sub.topic_filter q.message.topic = true
    · rw [if_pos hm]
      cases hs : net b.wire sd (publish_buffer (withQos q (capped_qos q.p_qos sub.qos)).message)
      · refine ⟨[Event.send sd
            (publish_buffer (withQos q (capped_qos q.p_qos sub.qos)).message) false], ?_, ?_, ?_, ?_⟩
        · simp [publish_message, do_send, hs]
        · intro e he
          rw [List.mem_singleton] at he
          exact ⟨_, _, he⟩
        · simp [publish_message, do_send, hs]
        · intro _
          exact ⟨_, List.mem_singleton.mpr rfl⟩
      · obtain ⟨evs, w, o, t, f⟩ := ih
          { b with wire := b.wire ++ [Event.send sd
            (publish_buffer (withQos q (capped_qos q.p_qos sub.qos)).message) true] }
          (withQos q (capped_qos q.p_qos sub.qos))
        have hpm : publish_message net b sd (withQos q (capped_qos q.p_qos sub.qos)).message
            = (true, { b with wire := b.wire ++ [Event.send sd
                (publish_buffer (withQos q (capped_qos q.p_qos sub.qos)).message) true] }) := by
          simp [publish_message, do_send, hs]
        rw [hpm]
        simp only [if_true]
        refine ⟨Event.send sd
            (publish_buffer (withQos q (capped_qos q.p_qos sub.qos)).message) true :: evs,
          ?_, ?_, ?_, ?_⟩
        · rw [w]
          simp
        · intro e he
          rcases List.mem_cons.mp he with h1 | h2
          · exact ⟨_, _, h1⟩
          · exact o e h2
        · intro h ⟨buf, hb⟩
          rcases List.mem_cons.mp hb with h1 | h2
          · simp at h1
          · exact t h ⟨buf, h2⟩
        · intro h
          obtain ⟨buf, hb⟩ := f h
          exact ⟨buf, List.mem_cons_of_mem _ hb⟩
    · rw [if_neg hm]
      exact ih b q

/-- A drop of the session in the middle of the current list: the session leaves the
list and its socket is closed. -/
theorem drop_mid_current (cfg : Config) (b : Broker) (P : List MQTT_Session_t)
    (s : MQTT_Session_t) (R : List MQTT_Session_t) (hc : b.sessions_current = P ++ s :: R) :
    (MQTT_session_drop cfg b P.length).sessions_current = P ++ R ∧
      (MQTT_session_drop cfg b P.length).wire = b.wire ++ [Event.close s.sd] := by
  unfold MQTT_session_drop
  rw [hc, get?_mid]
  simp only [eraseIdx_mid]
  constructor
  · rw [(store_or_free_frame cfg _ _).1, (publish_lwt_frame cfg _ _).1]
  · unfold store_or_free session_store session_free
    cases s.lwt with
    | none => simp only [publish_lwt]; split <;> rfl
    | some m =>
      simp only [publish_lwt, MQTT_queue_add]
      split <;> split <;> rfl

theorem fanout_entry_append (q : MQTT_Queue_t) (id : Nat) (l l' : List MQTT_Session_t) :
    fanout_entry q id (l ++ l') = fanout_entry q id l ++ fanout_entry q id l' := by
  induction l with
  | nil => rfl
  | cons s l ih => simp [fanout_entry, ih]

theorem SameEntry_withQos_both (q1 q2 : MQTT_Queue_t) (k : Nat) (h : SameEntry q1 q2) :
    SameEntry (withQos q1 k) (withQos q2 k) := by
  obtain ⟨a1, a2, a3, a4, a5, a6, a7⟩ := h
  exact ⟨a1, a2, a3, a4, a5, a6, a7⟩

theorem publish_buffer_withQos_same (q1 q2 : MQTT_Queue_t) (k : Nat) (h : SameEntry q1 q2) :
    publish_buffer (withQos q2 k).message = publish_buffer (withQos q1 k).message := by
  obtain ⟨_, _, a3, a4, a5, a6, _⟩ := h
  simp only [publish_buffer, publish_header, withQos, a3, a4, a5, a6]

/-- On a network whose answer to a send does not depend on what happened before, the
fan-out of the same entry to one session does the same in any two states of the
broker. -/
theorem process_subscriptions_rel (net : Net)
    (hnet : ∀ h h' sd buf, net h sd buf = net h' sd buf) (sd : Int)
    (subs : List MQTT_Subscription_t) :
    ∀ (b1 b2 : Broker) (q1 q2 : MQTT_Queue_t), SameEntry q1 q2 →
      ∃ evs, (process_subscriptions net sd subs b1 q1).2.1.wire = b1.wire ++ evs ∧
        (process_subscriptions net sd subs b2 q2).2.1.wire = b2.wire ++ evs ∧
        (process_subscriptions net sd subs b2 q2).1 = (process_subscriptions net sd subs b1 q1).1 ∧
        SameEntry (process_subscriptions net sd subs b1 q1).2.2
          (process_subscriptions net sd subs b2 q2).2.2 := by
  induction subs with
  | nil =>
    intro b1 b2 q1 q2 h
    exact ⟨[], by simp [process_subscriptions], by simp [process_subscriptions], rfl, h⟩
  | cons sub rest ih =>
    intro b1 b2 q1 q2 h
    have ht : q2.message.topic = q1.message.topic := h.2.2.1
    have hp : q2.p_qos = q1.p_qos := h.1
    have hbuf := publish_buffer_withQos_same q1 q2 (capped_qos q1.p_qos sub.qos) h
    have hq := SameEntry_withQos_both q1 q2 (capped_qos q1.p_qos sub.qos) h
    rw [process_subscriptions_cons, process_subscriptions_cons, ht, hp]
    by_cases hm : isTopicMatched sub.topic_filter q1.message.topic = true
    · rw [if_pos hm, if_pos hm]
      have hpm1 : publish_message net b1 sd (withQos q1 (capped_qos q1.p_qos sub.qos)).message
          = (net b1.wire sd (publish_buffer (withQos q1 (capped_qos q1.p_qos sub.qos)).message),
              { b1 with wire := b1.wire ++ [Event.send sd
                (publish_buffer (withQos q1 (capped_qos q1.p_qos sub.qos)).message)
                (net b1.wire sd
                  (publish_buffer (withQos q1 (capped_qos q1.p_qos sub.qos)).message))] }) := rfl
      have hpm2 : publish_message net b2 sd (withQos q2 (capped_qos q1.p_qos sub.qos)).message
          = (net b1.wire sd (publish_buffer (withQos q1 (capped_qos q1.p_qos sub.qos)).message),
              { b2 with wire := b2.wire ++ [Event.send sd
                (publish_buffer (withQos q1 (capped_qos q1.p_qos sub.qos)).message)
                (net b1.wire sd
                  (publish_buffer (withQos q1 (capped_qos q1.p_qos sub.qos)).message))] }) := by
        unfold publish_message do_send
        rw [hbuf, hnet b2.wire b1.wire]
      rw [hpm1, hpm2]
      cases net b1.wire sd (publish_buffer (withQos q1 (capped_qos q1.p_qos sub.qos)).message)
      · exact ⟨[Event.send sd
            (publish_buffer (withQos q1 (capped_qos q1.p_qos sub.qos)).message) false],
          rfl, rfl, rfl, hq⟩
      · obtain ⟨evs, w1, w2, f, e⟩ := ih
          { b1 with wire := b1.wire ++ [Event.send sd
            (publish_buffer (withQos q1 (capped_qos q1.p_qos sub.qos)).message) true] }
          { b2 with wire := b2.wire ++ [Event.send sd
            (publish_buffer (withQos q1 (capped_qos q1.p_qos sub.qos)).message) true] }
          (withQos q1 (capped_qos q1.p_qos sub.qos)) (withQos q2 (capped_qos q1.p_qos sub.qos)) hq
        simp only [if_true]
        refine ⟨Event.send sd
            (publish_buffer (withQos q1 (capped_qos q1.p_qos sub.qos)).message) true :: evs,
          ?_, ?_, f, e⟩
        · rw [w1]
          simp
        · rw [w2]
          simp
    · rw [if_neg hm, if_neg hm]
      exact ih b1 b2 q1 q2 h

/-- On a network whose answer to a send does not depend on what happened before, the
loop of `process_sessions` over the same sessions at two places of two current lists:
the same events, the same sessions kept, and each loop goes on behind them with what
follows. -/
theorem process_sessions_loop_rel (net : Net)
    (hnet : ∀ h h' sd buf, net h sd buf = net h' sd buf) (cfg : Config)
    (todo : List MQTT_Session_t) :
    ∀ (b1 b2 : Broker) (q1 q2 : MQTT_Queue_t) (C1 C2 T1 T2 rest1 rest2 : List MQTT_Session_t),
      b1.sessions_current = C1 ++ todo ++ T1 → b2.sessions_current = C2 ++ todo ++ T2 →
      SameEntry q1 q2 →
      ∃ Y K, K.Sublist todo ∧
        (process_sessions_loop net cfg todo C1.length b1 q1).1.wire = b1.wire ++ Y ∧
        (process_sessions_loop net cfg todo C2.length b2 q2).1.wire = b2.wire ++ Y ∧
        (process_sessions_loop net cfg todo C1.length b1 q1).1.sessions_current
          = C1 ++ K ++ T1 ∧
        (process_sessions_loop net cfg todo C2.length b2 q2).1.sessions_current
          = C2 ++ K ++ T2 ∧
        SameEntry (process_sessions_loop net cfg todo C1.length b1 q1).2
          (process_sessions_loop net cfg todo C2.length b2 q2).2 ∧
        process_sessions_loop net cfg (todo ++ rest1) C1.length b1 q1 =
          process_sessions_loop net cfg rest1 (C1.length + K.length)
            (process_sessions_loop net cfg todo C1.length b1 q1).1
            (process_sessions_loop net cfg todo C1.length b1 q1).2 ∧
        process_sessions_loop net cfg (todo ++ rest2) C2.length b2 q2 =
          process_sessions_loop net cfg rest2 (C2.length + K.length)
            (process_sessions_loop net cfg todo C2.length b2 q2).1
            (process_sessions_loop net cfg todo C2.length b2 q2).2 := by
  induction todo with
  | nil =>
    intro b1 b2 q1 q2 C1 C2 T1 T2 rest1 rest2 h1 h2 hq
    refine ⟨[], [], List.Sublist.refl _, by simp [process_sessions_loop],
      by simp [process_sessions_loop], by simpa [process_sessions_loop] using h1,
      by simpa [process_sessions_loop] using h2, by simpa [process_sessions_loop] using hq,
      by simp [process_sessions_loop], by simp [process_sessions_loop]⟩
  | cons s todo ih =>
    intro b1 b2 q1 q2 C1 C2 T1 T2 rest1 rest2 h1 h2 hq
    obtain ⟨evs, w1, w2, hflag, hq'⟩ :=
      process_subscriptions_rel net hnet s.sd s.subscriptions b1 b2 q1 q2 hq
    have f1 := (process_subscriptions_frame net s.sd s.subscriptions b1 q1).1
    have f2 := (process_subscriptions_frame net s.sd s.subscriptions b2 q2).1
    cases hres : (process_subscriptions net s.sd s.subscriptions b1 q1).1
    · -- the fan-out to the session fails: it is dropped in both lists
      rw [hres] at hflag
      have hstep1 : ∀ l, process_sessions_loop net cfg (s :: l) C1.length b1 q1 =
          process_sessions_loop net cfg l C1.length
            (MQTT_session_drop cfg (process_subscriptions net s.sd s.subscriptions b1 q1).2.1
              C1.length)
            (process_subscriptions net s.sd s.subscriptions b1 q1).2.2 := by
        intro l
        simp only [process_sessions_loop, hres, Bool.false_eq_true, if_false]
      have hstep2 : ∀ l, process_sessions_loop net cfg (s :: l) C2.length b2 q2 =
          process_sessions_loop net cfg l C2.length
            (MQTT_session_drop cfg (process_subscriptions net s.sd s.subscriptions b2 q2).2.1
              C2.length)
            (process_subscriptions net s.sd s.subscriptions b2 q2).2.2 := by
        intro l
        simp only [process_sessions_loop, hflag, Bool.false_eq_true, if_false]
      have d1 := drop_mid_current cfg
        (process_subscriptions net s.sd s.subscriptions b1 q1).2.1 C1 s (todo ++ T1)
        (by rw [f1.1, h1]; simp)
      have d2 := drop_mid_current cfg
        (process_subscriptions net s.sd s.subscriptions b2 q2).2.1 C2 s (todo ++ T2)
        (by rw [f2.1, h2]; simp)
      obtain ⟨Y, K, hK, v1, v2, c1, c2, e, g1, g2⟩ := ih
        (MQTT_session_drop cfg (process_subscriptions net s.sd s.subscriptions b1 q1).2.1
          C1.length)
        (MQTT_session_drop cfg (process_subscriptions net s.sd s.subscriptions b2 q2).2.1
          C2.length)
        (process_subscriptions net s.sd s.subscriptions b1 q1).2.2
        (process_subscriptions net s.sd s.subscriptions b2 q2).2.2 C1 C2 T1 T2 rest1 rest2
        (by rw [d1.1]; simp) (by rw [d2.1]; simp) hq'
      refine ⟨evs ++ [Event.close s.sd] ++ Y, K, List.Sublist.cons s hK, ?_, ?_, ?_, ?_, ?_, ?_, ?_⟩
      · rw [hstep1, v1, d1.2, w1]
        simp
      · rw [hstep2, v2, d2.2, w2]
        simp
      · rw [hstep1, c1]
      · rw [hstep2, c2]
      · rw [hstep1, hstep2]
        exact e
      · rw [List.cons_append, hstep1, hstep1, g1]
      · rw [List.cons_append, hstep2, hstep2, g2]
    · -- the fan-out to the session succeeds: it stays in both lists
      rw [hres] at hflag
      have hstep1 : ∀ l, process_sessions_loop net cfg (s :: l) C1.length b1 q1 =
          process_sessions_loop net cfg l (C1 ++ [s]).length
            (process_subscriptions net s.sd s.subscriptions b1 q1).2.1
            (process_subscriptions net s.sd s.subscriptions b1 q1).2.2 := by
        intro l
        simp only [process_sessions_loop, hres, if_true, List.length_append,
          List.length_singleton]
      have hstep2 : ∀ l, process_sessions_loop net cfg (s :: l) C2.length b2 q2 =
          process_sessions_loop net cfg l (C2 ++ [s]).length
            (process_subscriptions net s.sd s.subscriptions b2 q2).2.1
            (process_subscriptions net s.sd s.subscriptions b2 q2).2.2 := by
        intro l
        simp only [process_sessions_loop, hflag, if_true, List.length_append,
          List.length_singleton]
      obtain ⟨Y, K, hK, v1, v2, c1, c2, e, g1, g2⟩ := ih
        (process_subscriptions net s.sd s.subscriptions b1 q1).2.1
        (process_subscriptions net s.sd s.subscriptions b2 q2).2.1
        (process_subscriptions net s.sd s.subscriptions b1 q1).2.2
        (process_subscriptions net s.sd s.subscriptions b2 q2).2.2 (C1 ++ [s]) (C2 ++ [s])
        T1 T2 rest1 rest2 (by rw [f1.1, h1]; simp) (by rw [f2.1, h2]; simp) hq'
      have hl1 : (C1 ++ [s]).length + K.length = C1.length + (s :: K).length := by
        simp only [List.length_append, List.length_cons, List.length_nil]
        omega
      have hl2 : (C2 ++ [s]).length + K.length = C2.length + (s :: K).length := by
        simp only [List.length_append, List.length_cons, List.length_nil]
        omega
      refine ⟨evs ++ Y, s :: K, List.Sublist.cons₂ s hK, ?_, ?_, ?_, ?_, ?_, ?_, ?_⟩
      · rw [hstep1, v1, w1]
        simp
      · rw [hstep2, v2, w2]
        simp
      · rw [hstep1, c1]
        simp
      · rw [hstep2, c2]
        simp
      · rw [hstep1, hstep2]
        exact e
      · rw [List.cons_append, hstep1, hstep1, g1, hl1]
      · rw [List.cons_append, hstep2, hstep2, g2, hl2]

/-- The fan-out of one entry over the current list `pre ++ A :: post` when every send
to the sessions other than `A` succeeds. -/
theorem fanout_around_failure (net : Net) (cfg : Config) (b : Broker) (queue : MQTT_Queue_t)
    (pre : List MQTT_Session_t) (A : MQTT_Session_t) (post : List MQTT_Session_t)
    (hcur : b.sessions_current = pre ++ A :: post)
    (hq : queue.p_qos ≤ 2) (hr : queue.message.flags.retain = 0)
    (hup : ∀ s ∈ pre ++ post, ∀ h buf, net h s.sd buf = true) :
    (∃ evA : List Event, (∀ e ∈ evA, OnSocket A.sd e) ∧
      ((∃ buf, Event.send A.sd buf false ∈ evA) →
        (process_sessions net cfg b queue).1.sessions_current = pre ++ post ∧
        (process_sessions net cfg b queue).1.wire =
          b.wire ++ fanout_entry queue queue.message.id pre ++ evA ++ [Event.close A.sd]
            ++ fanout_entry queue queue.message.id post) ∧
      ((¬ ∃ buf, Event.send A.sd buf false ∈ evA) →
        (process_sessions net cfg b queue).1.sessions_current = pre ++ A :: post ∧
        (process_sessions net cfg b queue).1.wire =
          b.wire ++ fanout_entry queue queue.message.id pre ++ evA
            ++ fanout_entry queue queue.message.id post)) ∧
    (process_sessions net cfg { b with sessions_current := pre ++ post } queue).1.wire =
      b.wire ++ fanout_entry queue queue.message.id pre
        ++ fanout_entry queue queue.message.id post ∧
    (process_sessions net cfg { b with sessions_current := pre ++ post } queue).1.sessions_current
      = pre ++ post := by
  have hpre : ∀ s ∈ pre, ∀ h buf, net h s.sd buf = true :=
    fun s hs => hup s (List.mem_append_left _ hs)
  have hpost : ∀ s ∈ post, ∀ h buf, net h s.sd buf = true :=
    fun s hs => hup s (List.mem_append_right _ hs)
  constructor
  · obtain ⟨s1, w1, e1⟩ := process_sessions_loop_up net cfg pre hpre 0 b queue hq hr
    obtain ⟨a1, _, _, a4, _, a6, _⟩ := id e1
    obtain ⟨evA, wA, oA, tA, fA⟩ := process_subscriptions_events net A.sd A.subscriptions
      (process_sessions_loop net cfg pre 0 b queue).1
      (process_sessions_loop net cfg pre 0 b queue).2
    have hfA := process_subscriptions_frame net A.sd A.subscriptions
      (process_sessions_loop net cfg pre 0 b queue).1
      (process_sessions_loop net cfg pre 0 b queue).2
    obtain ⟨c1, _, _, c4, _, c6, _⟩ := hfA.2
    have hloop : process_sessions net cfg b queue =
        process_sessions_loop net cfg (A :: post) pre.length
          (process_sessions_loop net cfg pre 0 b queue).1
          (process_sessions_loop net cfg pre 0 b queue).2 := by
      unfold process_sessions
      rw [hcur, process_sessions_loop_append net cfg pre hpre (A :: post) 0 b queue hq hr,
        Nat.zero_add]
    have hsame : ∀ q', SameEntry queue q' →
        fanout_entry q' q'.message.id post = fanout_entry queue queue.message.id post := by
      intro q' h
      rw [h.2.2.2.1, fanout_entry_same queue q' _ h]
    have hqA : SameEntry queue (process_subscriptions net A.sd A.subscriptions
        (process_sessions_loop net cfg pre 0 b queue).1
        (process_sessions_loop net cfg pre 0 b queue).2).2.2 := SameEntry_trans e1 hfA.2
    refine ⟨evA, oA, ?_, ?_⟩
    · intro hfail
      have hres : (process_subscriptions net A.sd A.subscriptions
          (process_sessions_loop net cfg pre 0 b queue).1
          (process_sessions_loop net cfg pre 0 b queue).2).1 = false := by
        cases h : (process_subscriptions net A.sd A.subscriptions
          (process_sessions_loop net cfg pre 0 b queue).1
          (process_sessions_loop net cfg pre 0 b queue).2).1
        · rfl
        · exact absurd hfail (tA h)
      have hcA : (process_subscriptions net A.sd A.subscriptions
          (process_sessions_loop net cfg pre 0 b queue).1
          (process_sessions_loop net cfg pre 0 b queue).2).2.1.sessions_current
          = pre ++ A :: post := by
        rw [hfA.1.1, s1.1, hcur]
      have hd := drop_mid_current cfg _ pre A post hcA
      obtain ⟨s2, w2, _⟩ := process_sessions_loop_up net cfg post hpost pre.length
        (MQTT_session_drop cfg (process_subscriptions net A.sd A.subscriptions
          (process_sessions_loop net cfg pre 0 b queue).1
          (process_sessions_loop net cfg pre 0 b queue).2).2.1 pre.length)
        (process_subscriptions net A.sd A.subscriptions
          (process_sessions_loop net cfg pre 0 b queue).1
          (process_sessions_loop net cfg pre 0 b queue).2).2.2
        (by rw [c1, a1]; exact hq) (by rw [c6, a6]; exact hr)
      rw [hloop]
      simp only [process_sessions_loop, hres, Bool.false_eq_true, if_false]
      refine ⟨by rw [s2.1, hd.1], ?_⟩
      rw [w2, hd.2, wA, w1, hsame _ hqA]
    · intro hok
      have hres : (process_subscriptions net A.sd A.subscriptions
          (process_sessions_loop net cfg pre 0 b queue).1
          (process_sessions_loop net cfg pre 0 b queue).2).1 = true := by
        cases h : (process_subscriptions net A.sd A.subscriptions
          (process_sessions_loop net cfg pre 0 b queue).1
          (process_sessions_loop net cfg pre 0 b queue).2).1
        · exact absurd (fA h) hok
        · rfl
      obtain ⟨s2, w2, _⟩ := process_sessions_loop_up net cfg post hpost (pre.length + 1)
        (process_subscriptions net A.sd A.subscriptions
          (process_sessions_loop net cfg pre 0 b queue).1
          (process_sessions_loop net cfg pre 0 b queue).2).2.1
        (process_subscriptions net A.sd A.subscriptions
          (process_sessions_loop net cfg pre 0 b queue).1
          (process_sessions_loop net cfg pre 0 b queue).2).2.2
        (by rw [c1, a1]; exact hq) (by rw [c6, a6]; exact hr)
      rw [hloop]
      simp only [process_sessions_loop, hres, if_true]
      refine ⟨by rw [s2.1, hfA.1.1, s1.1, hcur], ?_⟩
      rw [w2, wA, w1, hsame _ hqA]
  · obtain ⟨s1, w1, _⟩ := process_sessions_loop_up net cfg (pre ++ post) hup 0
      { b with sessions_current := pre ++ post } queue hq hr
    unfold process_sessions
    simp only []
    refine ⟨?_, s1.1⟩
    rw [w1, fanout_entry_append, List.append_assoc]

theorem SameEntry_symm {q q' : MQTT_Queue_t} (h : SameEntry q q') : SameEntry q' q := by
  obtain ⟨a1, a2, a3, a4, a5, a6, a7⟩ := h
  exact ⟨a1.symm, a2.symm, a3.symm, a4.symm, a5.symm, a6.symm, a7.symm⟩

/-- The fan-out of one entry over the current list `pre ++ A :: post` and over the
list `pre ++ post`, on a network whose answer to a send does not depend on what
happened before. -/
theorem fanout_with_and_without (net : Net) (cfg : Config) (b : Broker) (queue : MQTT_Queue_t)
    (pre : List MQTT_Session_t) (A : MQTT_Session_t) (post : List MQTT_Session_t)
    (hcur : b.sessions_current = pre ++ A :: post)
    (hnet : ∀ h h' sd buf, net h sd buf = net h' sd buf) :
    ∃ (X Y : List Event) (K1 K2 : List MQTT_Session_t) (evA : List Event),
      K1.Sublist pre ∧ K2.Sublist post ∧ (∀ e ∈ evA, OnSocket A.sd e) ∧
      (process_sessions net cfg { b with sessions_current := pre ++ post } queue).1.wire
        = b.wire ++ X ++ Y ∧
      (process_sessions net cfg { b with sessions_current := pre ++ post }
        queue).1.sessions_current = K1 ++ K2 ∧
      ((∃ buf, Event.send A.sd buf false ∈ evA) →
        (process_sessions net cfg b queue).1.sessions_current = K1 ++ K2 ∧
        (process_sessions net cfg b queue).1.wire
          = b.wire ++ X ++ evA ++ [Event.close A.sd] ++ Y) ∧
      ((¬ ∃ buf, Event.send A.sd buf false ∈ evA) →
        (process_sessions net cfg b queue).1.sessions_current = K1 ++ A :: K2 ∧
        (process_sessions net cfg b queue).1.wire = b.wire ++ X ++ evA ++ Y) := by
  obtain ⟨X, K1, hK1, v1, v2, c1, c2, e, g1, g2⟩ := process_sessions_loop_rel net hnet cfg pre
    b { b with sessions_current := pre ++ post } queue queue [] [] (A :: post) post
    (A :: post) post (by simp [hcur]) (by simp) (SameEntry_refl queue)
  simp only [List.length_nil, Nat.zero_add, List.nil_append] at v1 v2 c1 c2 e g1 g2
  obtain ⟨evA, wA, oA, tA, fA⟩ := process_subscriptions_events net A.sd A.subscriptions
    (process_sessions_loop net cfg pre 0 b queue).1
    (process_sessions_loop net cfg pre 0 b queue).2
  have hfA := process_subscriptions_frame net A.sd A.subscriptions
    (process_sessions_loop net cfg pre 0 b queue).1
    (process_sessions_loop net cfg pre 0 b queue).2
  have hqA : SameEntry (process_subscriptions net A.sd A.subscriptions
      (process_sessions_loop net cfg pre 0 b queue).1
      (process_sessions_loop net cfg pre 0 b queue).2).2.2
      (process_sessions_loop net cfg pre 0 { b with sessions_current := pre ++ post } queue).2 :=
    SameEntry_trans (SameEntry_symm hfA.2) e
  have hw : process_sessions net cfg b queue =
      process_sessions_loop net cfg (A :: post) K1.length
        (process_sessions_loop net cfg pre 0 b queue).1
        (process_sessions_loop net cfg pre 0 b queue).2 := by
    unfold process_sessions
    rw [hcur, g1]
  have ho : process_sessions net cfg { b with sessions_current := pre ++ post } queue =
      process_sessions_loop net cfg post K1.length
        (process_sessions_loop net cfg pre 0 { b with sessions_current := pre ++ post } queue).1
        (process_sessions_loop net cfg pre 0 { b with sessions_current := pre ++ post } queue).2 := by
    unfold process_sessions
    exact g2
  cases hres : (process_subscriptions net A.sd A.subscriptions
      (process_sessions_loop net cfg pre 0 b queue).1
      (process_sessions_loop net cfg pre 0 b queue).2).1
  · have hd := drop_mid_current cfg (process_subscriptions net A.sd A.subscriptions
        (process_sessions_loop net cfg pre 0 b queue).1
        (process_sessions_loop net cfg pre 0 b queue).2).2.1 K1 A post
      (by rw [hfA.1.1, c1])
    obtain ⟨Y, K2, hK2, y1, y2, d1, d2, _, _, _⟩ := process_sessions_loop_rel net hnet cfg post
      (MQTT_session_drop cfg (process_subscriptions net A.sd A.subscriptions
        (process_sessions_loop net cfg pre 0 b queue).1
        (process_sessions_loop net cfg pre 0 b queue).2).2.1 K1.length)
      (process_sessions_loop net cfg pre 0 { b with sessions_current := pre ++ post } queue).1
      (process_subscriptions net A.sd A.subscriptions
        (process_sessions_loop net cfg pre 0 b queue).1
        (process_sessions_loop net cfg pre 0 b queue).2).2.2
      (process_sessions_loop net cfg pre 0 { b with sessions_current := pre ++ post } queue).2
      K1 K1 [] [] [] [] (by rw [hd.1]; simp) (by rw [c2]; simp) hqA
    simp only [List.append_nil] at d1 d2
    refine ⟨X, Y, K1, K2, evA, hK1, hK2, oA, ?_, ?_, ?_, ?_⟩
    · rw [ho, y2, v2]
    · rw [ho, d2]
    · intro _
      rw [hw]
      simp only [process_sessions_loop, hres, Bool.false_eq_true, if_false]
      refine ⟨d1, ?_⟩
      rw [y1, hd.2, wA, v1]
    · intro hno
      exact absurd (fA hres) hno
  · obtain ⟨Y, K2, hK2, y1, y2, d1, d2, _, _, _⟩ := process_sessions_loop_rel net hnet cfg post
      (process_subscriptions net A.sd A.subscriptions
        (process_sessions_loop net cfg pre 0 b queue).1
        (process_sessions_loop net cfg pre 0 b queue).2).2.1
      (process_sessions_loop net cfg pre 0 { b with sessions_current := pre ++ post } queue).1
      (process_subscriptions net A.sd A.subscriptions
        (process_sessions_loop net cfg pre 0 b queue).1
        (process_sessions_loop net cfg pre 0 b queue).2).2.2
      (process_sessions_loop net cfg pre 0 { b with sessions_current := pre ++ post } queue).2
      (K1 ++ [A]) K1 [] [] [] [] (by rw [hfA.1.1, c1]; simp) (by rw [c2]; simp) hqA
    simp only [List.append_nil, List.length_append, List.length_singleton] at y1 d1 d2
    refine ⟨X, Y, K1, K2, evA, hK1, hK2, oA, ?_, ?_, ?_, ?_⟩
    · rw [ho, y2, v2]
    · rw [ho, d2]
    · intro hyes
      exact absurd hyes (tA hres)
    · intro _
      rw [hw]
      simp only [process_sessions_loop, hres, if_true]
      refine ⟨by rw [d1]; simp, ?_⟩
      rw [y1, wA, v1]

/-- Claim C35: in the fan-out of one entry over the current list `pre ++ A :: post`,
(1) when every send to the sessions other than `A` succeeds: the events on the
socket of `A` stand between the fan-out to the sessions before `A` and the fan-out
to the sessions after `A`, each of which receives one PUBLISH for each of its
matching subscriptions, once; when a send to `A` failed, `A` is dropped (it leaves
the current list and its socket is closed) and the other sessions stay, in order;
what the other sessions receive is what the fan-out sends when the current list is
`pre ++ post`, without `A`. (2) On any network whose answer to a send does not
depend on what happened before, the fan-out with `A` and the fan-out without `A`
send the same events `X` before and `Y` after the events of `A` and keep the same
sessions `K1` of `pre` and `K2` of `post`; `A` is dropped exactly when a send to it
failed. -/
theorem send_error_isolated (net : Net) (cfg : Config) (b : Broker) (queue : MQTT_Queue_t)
    (pre : List MQTT_Session_t) (A : MQTT_Session_t) (post : List MQTT_Session_t)
    (hcur : b.sessions_current = pre ++ A :: post) :
    (queue.p_qos ≤ 2 → queue.message.flags.retain = 0 →
      (∀ s ∈ pre ++ post, ∀ h buf, net h s.sd buf = true) →
      (∃ evA : List Event, (∀ e ∈ evA, OnSocket A.sd e) ∧
        ((∃ buf, Event.send A.sd buf false ∈ evA) →
          (process_sessions net cfg b queue).1.sessions_current = pre ++ post ∧
          (process_sessions net cfg b queue).1.wire =
            b.wire ++ fanout_entry queue queue.message.id pre ++ evA ++ [Event.close A.sd]
              ++ fanout_entry queue queue.message.id post) ∧
        ((¬ ∃ buf, Event.send A.sd buf false ∈ evA) →
          (process_sessions net cfg b queue).1.sessions_current = pre ++ A :: post ∧
          (process_sessions net cfg b queue).1.wire =
            b.wire ++ fanout_entry queue queue.message.id pre ++ evA
              ++ fanout_entry queue queue.message.id post)) ∧
      (process_sessions net cfg { b with sessions_current := pre ++ post } queue).1.wire =
        b.wire ++ fanout_entry queue queue.message.id pre
          ++ fanout_entry queue queue.message.id post ∧
      (process_sessions net cfg { b with sessions_current := pre ++ post }
        queue).1.sessions_current = pre ++ post) ∧
    ((∀ h h' sd buf, net h sd buf = net h' sd buf) →
      ∃ (X Y : List Event) (K1 K2 : List MQTT_Session_t) (evA : List Event),
        K1.Sublist pre ∧ K2.Sublist post ∧ (∀ e ∈ evA, OnSocket A.sd e) ∧
        (process_sessions net cfg { b with sessions_current := pre ++ post } queue).1.wire
          = b.wire ++ X ++ Y ∧
        (process_sessions net cfg { b with sessions_current := pre ++ post }
          queue).1.sessions_current = K1 ++ K2 ∧
        ((∃ buf, Event.send A.sd buf false ∈ evA) →
          (process_sessions net cfg b queue).1.sessions_current = K1 ++ K2 ∧
          (process_sessions net cfg b queue).1.wire
            = b.wire ++ X ++ evA ++ [Event.close A.sd] ++ Y) ∧
        ((¬ ∃ buf, Event.send A.sd buf false ∈ evA) →
          (process_sessions net cfg b queue).1.sessions_current = K1 ++ A :: K2 ∧
          (process_sessions net cfg b queue).1.wire = b.wire ++ X ++ evA ++ Y)) :=
  ⟨fun hq hr hup => fanout_around_failure net cfg b queue pre A post hcur hq hr hup,
    fun hnet => fanout_with_and_without net cfg b queue pre A post hcur hnet⟩

theorem send_error_isolated_witness :
    brokerThree.sessions_current
      = [sampleSession 3 [("x", 0)] [0, 0]] ++ sampleSession 4 [("x", 1)] [0, 0]
          :: [sampleSession 5 [("x", 2)] [0, 0]] ∧
    (process_sessions (netFailing 4) cfgSample brokerThree
        (asPending (sampleEntry "x" [1] 1 0) 7)).1.sessions_current
      = [sampleSession 3 [("x", 0)] [0, 0], sampleSession 5 [("x", 2)] [0, 0]] ∧
    (process_sessions (netFailing 4) cfgSample brokerThree
        (asPending (sampleEntry "x" [1] 1 0) 7)).1.wire
      = [Event.send 3 [0x30, 4, 0, 1, 120, 1] true,
         Event.send 4 [0x32, 6, 0, 1, 120, 0, 7, 1] false,
         Event.close 4,
         Event.send 5 [0x32, 6, 0, 1, 120, 0, 7, 1] true] ∧
    (process_sessions (netFailing 4) cfgSample
        { brokerThree with
          sessions_current :=
            [sampleSession 3 [("x", 0)] [0, 0]] ++ [sampleSession 5 [("x", 2)] [0, 0]] }
        (asPending (sampleEntry "x" [1] 1 0) 7)).1.wire
      = brokerThree.wire
        ++ fanout_entry (asPending (sampleEntry "x" [1] 1 0) 7)
            (asPending (sampleEntry "x" [1] 1 0) 7).message.id [sampleSession 3 [("x", 0)] [0, 0]]
        ++ fanout_entry (asPending (sampleEntry "x" [1] 1 0) 7)
            (asPending (sampleEntry "x" [1] 1 0) 7).message.id
            [sampleSession 5 [("x", 2)] [0, 0]] :=
  ⟨rfl, by decide, by decide,
    ((send_error_isolated (netFailing 4) cfgSample brokerThree
      (asPending (sampleEntry "x" [1] 1 0) 7) [sampleSession 3 [("x", 0)] [0, 0]]
      (sampleSession 4 [("x", 1)] [0, 0]) [sampleSession 5 [("x", 2)] [0, 0]] rfl).1 (by decide)
      rfl (by
        intro s hs h buf
        simp only [List.singleton_append, List.mem_cons, List.mem_singleton,
          List.not_mem_nil, or_false] at hs
        rcases hs with rfl | rfl <;> simp [netFailing, sampleSession])).2.1⟩

end MqttBroker
